import Mathlib

/-!
# Path reconstruction and packed path storage of Augustus

A shallow embedding of `src/map/routing_path.c`, `src/figure/route.c` and the
direction table of `src/map/grid.c`.

Conventions of the embedding:

* C `int` values are `Int`; `uint8_t` values are `Nat` reduced `% 256` at every
  write; `size_t` and `unsigned int` counters are `Nat` (they count bytes of a
  buffer that exists in memory, so they stay far below their C bounds).
* The C operators `%` and `/` on `int` are `Int.tmod` and `Int.tdiv`.
* A heap buffer is a `List Nat`; a C pointer that can be `NULL` is an `Option`.
* `malloc`/`realloc` are an oracle `alloc : Nat → Bool` saying whether a request
  of the given size succeeds.
* The distance field (`map_routing_distance`), the highway flag
  (`map_terrain_is(_, TERRAIN_HIGHWAY)`), `map_data.start_offset`, the value of
  `random_byte()` and `map_random_get` live outside these files and are taken as
  parameters.
* The `while (distance > 1)` loops are driven by a fuel counter; `none` means
  the fuel ran out before the loop left.
-/

namespace Augustus

/-! ## Constants (`routing_path.h`, `routing_path.c`, `grid.h`) -/

def ROUTING_PATH_DIRECTION_BIT_OFFSET : Nat := 5

/-- The mask `((uint8_t) (1u << ROUTING_PATH_DIRECTION_BIT_OFFSET) - 1)`. -/
def ROUTING_PATH_DIRECTION_COUNT_BIT_MASK : Nat :=
  (1 <<< ROUTING_PATH_DIRECTION_BIT_OFFSET) % 256 - 1

def PATH_SIZE_STEP : Nat := 500

def GRID_SIZE : Int := 162

/-! ## Data model -/

/-- The file-static scratch accumulator `directions` of `routing_path.c`. -/
structure Directions where
  path : List Nat
  total : Nat
  size : Nat
  current : Int
  same_direction_count : Nat
  deriving DecidableEq, Repr

/-- The record `figure_path_data` of `routing_path.h`. -/
structure figure_path_data where
  id : Nat
  figure_id : Nat
  total_directions : Nat
  directions : Option (List Nat)
  current_step : Nat
  same_direction_count : Nat
  deriving DecidableEq, Repr

/-! ## Direction codec: the encoder (`routing_path.c`) -/

def reset_directions (s : Directions) : Directions :=
  { s with total := 0, current := -1, same_direction_count := 0 }

/-- Grow the scratch buffer by `PATH_SIZE_STEP` bytes when it is full; the new
bytes are unspecified in C and zero here (they are written before being read). -/
def increase_direction_path_size (alloc : Nat → Bool) (s : Directions) : Bool × Directions :=
  if s.total ≥ s.size then
    let new_size := s.size + PATH_SIZE_STEP
    if !alloc new_size then
      (false, s)
    else
      (true, { s with path := s.path ++ List.replicate (new_size - s.path.length) 0,
                      size := new_size })
  else
    (true, s)

def add_direction_to_path (alloc : Nat → Bool) (s : Directions) (direction : Int) :
    Bool × Directions :=
  if direction = s.current ∧ s.same_direction_count < ROUTING_PATH_DIRECTION_COUNT_BIT_MASK then
    (true, { s with
      path := s.path.set (s.total - 1) ((s.path.getD (s.total - 1) 0 + 1) % 256),
      same_direction_count := (s.same_direction_count + 1) % 256 })
  else
    match increase_direction_path_size alloc s with
    | (false, s1) => (false, s1)
    | (true, s1) =>
      let total := s1.total + 1
      (true, { s1 with
        total := total,
        path := s1.path.set (total - 1)
          ((direction * 2 ^ ROUTING_PATH_DIRECTION_BIT_OFFSET) % 256).toNat,
        current := direction,
        same_direction_count := 0 })

/-- The copy loop of `fill_path_with_directions`: entry `i` of the result is
`directions.path[directions.total - i - 1]`. -/
def fill_path_with_directions (alloc : Nat → Bool) (s : Directions) (p : figure_path_data) :
    Bool × figure_path_data :=
  if !alloc s.total then
    (false, { p with directions := none })
  else
    (true, { p with
      directions := some ((List.range s.total).map (fun i => s.path.getD (s.total - i - 1) 0)),
      total_directions := s.total })

/-- Append a whole sequence of directions, one `add_direction_to_path` call each. -/
def add_directions (alloc : Nat → Bool) (s : Directions) (ds : List Int) : Directions :=
  ds.foldl (fun st d => (add_direction_to_path alloc st d).2) s

/-! ## Direction codec: the decoder (`route.c`) -/

/-- The body of `figure_route_get_next_direction` on the record it looked up.
`none` is a read outside the record's buffer (undefined in C). -/
def next_direction_of_record (p : figure_path_data) : Option (Int × figure_path_data) :=
  if p.current_step ≥ p.total_directions then
    some (8, p)
  else
    match p.directions with
    | none => none
    | some buf =>
      match buf.get? p.current_step with
      | none => none
      | some b =>
        let direction : Int := ((b >>> ROUTING_PATH_DIRECTION_BIT_OFFSET : Nat) : Int)
        let tiles_in_direction : Nat := (b &&& ROUTING_PATH_DIRECTION_COUNT_BIT_MASK) + 1
        let same := (p.same_direction_count + 1) % 256
        if same ≥ tiles_in_direction then
          some (direction, { p with current_step := p.current_step + 1,
                                    same_direction_count := 0 })
        else
          some (direction, { p with same_direction_count := same })

/-- The pool `paths` is a list of records and `array_item(paths, path_id)` is
its entry `path_id`; `none` is an access outside the pool or the buffer. -/
def figure_route_get_next_direction (paths : List figure_path_data) (path_id : Nat) :
    Option (Int × List figure_path_data) :=
  match paths.get? path_id with
  | none => none
  | some p =>
    match next_direction_of_record p with
    | none => none
    | some (d, p1) => some (d, paths.set path_id p1)

/-- The values returned by `n` successive calls of
`figure_route_get_next_direction` on slot `path_id`, with the pool afterwards. -/
def next_directions (paths : List figure_path_data) (path_id : Nat) :
    Nat → Option (List Int × List figure_path_data)
  | 0 => some ([], paths)
  | n + 1 =>
    match figure_route_get_next_direction paths path_id with
    | none => none
    | some (d, paths1) =>
      match next_directions paths1 path_id n with
      | none => none
      | some (ds, paths2) => some (d :: ds, paths2)

/-- A record with the fresh cursor `(current_step, same_direction_count) = (0, 0)`. -/
def fresh_cursor (p : figure_path_data) : figure_path_data :=
  { p with current_step := 0, same_direction_count := 0 }

/-- The `n` successive calls of the decoder seen on one record. -/
def next_directions_of_record (p : figure_path_data) :
    Nat → Option (List Int × figure_path_data)
  | 0 => some ([], p)
  | n + 1 =>
    match next_direction_of_record p with
    | none => none
    | some (d, p1) =>
      match next_directions_of_record p1 n with
      | none => none
      | some (ds, p2) => some (d :: ds, p2)

/-! ## Reading a packed buffer -/

/-- Direction field of a packed entry: its upper three bits. -/
def entry_direction (b : Nat) : Int := ((b >>> ROUTING_PATH_DIRECTION_BIT_OFFSET : Nat) : Int)

/-- Count field of a packed entry: its lower five bits. -/
def entry_count (b : Nat) : Nat := b &&& ROUTING_PATH_DIRECTION_COUNT_BIT_MASK

/-- Number of unit steps a packed entry stands for. -/
def entry_tiles (b : Nat) : Nat := entry_count b + 1

/-- The unit steps a packed buffer stands for, entry after entry. -/
def unit_steps : List Nat → List Int
  | [] => []
  | b :: bs => List.replicate (entry_tiles b) (entry_direction b) ++ unit_steps bs

/-- Number of unit steps stored in a packed buffer: the sum of `count field + 1`. -/
def stored_steps (buf : List Nat) : Nat := (buf.map entry_tiles).sum

/-! ## Grid addressing (`grid.c`) -/

/-- The values the path reconstructor reads from the rest of the game. -/
structure Map where
  /-- The field `map_data.start_offset`. -/
  start_offset : Int
  /-- The query `map_routing_distance(grid_offset)`. -/
  map_routing_distance : Int → Int
  /-- The query `map_terrain_is(grid_offset, TERRAIN_HIGHWAY)`. -/
  map_terrain_is_highway : Int → Bool
  /-- The query `map_random_get(grid_offset)`. -/
  map_random_get : Int → Nat

/-- The C macro `OFFSET(x,y)`, that is `(x + GRID_SIZE * y)`. -/
def OFFSET (x y : Int) : Int := x + GRID_SIZE * y

def DIRECTION_DELTA : List Int :=
  [-OFFSET 0 1, OFFSET 1 (-1), 1, OFFSET 1 1, OFFSET 0 1, OFFSET (-1) 1, -1, -OFFSET 1 1]

def map_grid_offset (m : Map) (x y : Int) : Int :=
  m.start_offset + x + y * GRID_SIZE

def map_grid_direction_delta (direction : Int) : Int :=
  if direction ≥ 0 ∧ direction < 8 then DIRECTION_DELTA.getD direction.toNat 0 else 0

def map_grid_offset_to_x (m : Map) (grid_offset : Int) : Int :=
  Int.tmod (grid_offset - m.start_offset) GRID_SIZE

def map_grid_offset_to_y (m : Map) (grid_offset : Int) : Int :=
  Int.tdiv (grid_offset - m.start_offset) GRID_SIZE

/-! ## Path reconstructor (`routing_path.c`) -/

/-- The `switch` of `adjust_tile_in_direction` on `(x, y)`, then the update of
`grid_offset`; the result is the new `(x, y, grid_offset)`. -/
def adjust_tile_in_direction (direction x y grid_offset : Int) : Int × Int × Int :=
  let xy : Int × Int :=
    if direction = 0 then (x, y - 1)
    else if direction = 1 then (x + 1, y - 1)
    else if direction = 2 then (x + 1, y)
    else if direction = 3 then (x + 1, y + 1)
    else if direction = 4 then (x, y + 1)
    else if direction = 5 then (x - 1, y + 1)
    else if direction = 6 then (x - 1, y)
    else if direction = 7 then (x - 1, y - 1)
    else (x, y)
  (xy.1, xy.2, grid_offset + map_grid_direction_delta direction)

def is_equal_distance_but_better_direction (distance next_distance direction next_direction : Int) :
    Bool :=
  if next_distance ≠ distance then false
  else if direction = -1 then true
  else if Int.tmod direction 2 = 1 ∧ Int.tmod next_direction 2 = 0 then true
  else false

def next_is_better (base_distance distance next_distance direction next_direction : Int)
    (is_highway next_is_highway : Bool) : Bool :=
  if !is_highway && next_is_highway && decide (next_distance < base_distance) then true
  else if is_highway && !next_is_highway then false
  else if next_distance < distance then true
  else if is_equal_distance_but_better_direction distance next_distance direction next_direction
  then true
  else false

/-- The variables `distance`, `direction`, `is_highway` the inner `for` loop
keeps about the best candidate so far. -/
structure Best where
  distance : Int
  direction : Int
  is_highway : Bool
  deriving DecidableEq, Repr

/-- The values `0, step, 2 * step, ...` below 8 that the loop
`for (d = 0; d < 8; d += step)` runs through. -/
def loop_directions (step : Nat) : List Int :=
  (List.range (7 / step + 1)).map (fun i => ((i * step : Nat) : Int))

/-- Body of the inner `for` loop of `map_routing_get_path`. -/
def land_consider (m : Map) (base_distance grid_offset last_direction : Int) (b : Best)
    (next_direction : Int) : Best :=
  if next_direction ≠ last_direction then
    let next_offset := grid_offset + map_grid_direction_delta next_direction
    let next_distance := m.map_routing_distance next_offset
    let next_is_highway := m.map_terrain_is_highway next_offset
    if next_distance ≠ 0 ∧ next_is_better base_distance b.distance next_distance
        b.direction next_direction b.is_highway next_is_highway then
      { distance := next_distance, direction := next_direction, is_highway := next_is_highway }
    else b
  else b

/-- One iteration of the `while` loop of `map_routing_get_path` up to the end of
its `for` loop: the best candidate around `grid_offset`. -/
def land_select (m : Map) (step : Nat) (grid_offset last_direction : Int) : Best :=
  let base_distance := m.map_routing_distance grid_offset
  (loop_directions step).foldl (land_consider m base_distance grid_offset last_direction)
    { distance := base_distance, direction := -1, is_highway := false }

/-- Body of the inner `for` loop of `map_routing_get_path_on_water`. -/
def water_consider (m : Map) (rand current_rand : Nat) (grid_offset last_direction : Int)
    (b : Best) (d : Int) : Best :=
  if d ≠ last_direction then
    let next_offset := grid_offset + map_grid_direction_delta d
    let next_distance := m.map_routing_distance next_offset
    if next_distance ≠ 0 then
      if next_distance < b.distance then
        { b with distance := next_distance, direction := d }
      else if next_distance = b.distance ∧ rand = current_rand then
        { b with distance := next_distance, direction := d }
      else b
    else b
  else b

/-- One iteration of the `while` loop of `map_routing_get_path_on_water` up to
the end of its `for` loop; `rand` is `random_byte() & 3`. -/
def water_select (m : Map) (rand : Nat) (is_flotsam : Bool) (grid_offset last_direction : Int) :
    Best :=
  let current_rand := if is_flotsam then m.map_random_get grid_offset &&& 3 else rand
  (loop_directions 1).foldl (water_consider m rand current_rand grid_offset last_direction)
    { distance := m.map_routing_distance grid_offset, direction := -1, is_highway := false }

/-- The local variables of the `while` loop of both reconstructors. -/
structure Pos where
  distance : Int
  last_direction : Int
  x : Int
  y : Int
  grid_offset : Int
  num_tiles : Int
  deriving DecidableEq, Repr

/-- Which `return` statement a call left through. -/
inductive Exit where
  /-- The early `return 0` on `distance <= 0`. -/
  | unreachable
  /-- The `return 0` on `direction == -1`. -/
  | exhausted
  /-- A `return 0` after a failed `add_direction_to_path` or `fill_path_with_directions`. -/
  | allocation
  /-- The final `return num_tiles`. -/
  | done
  deriving DecidableEq, Repr

/-- What a call leaves behind: its return value, the caller's record, the
scratch accumulator, and the `return` statement taken. -/
structure Outcome where
  result : Int
  path : Option figure_path_data
  scratch : Directions
  exit : Exit
  deriving DecidableEq, Repr

/-- The part of one `while` iteration after the `for` loop that does not touch
the accumulator: `none` when `direction == -1`, else the variables after the
move (`last_direction` then holds `forward_direction`). -/
def advance (select : Int → Int → Best) (w : Pos) : Option Pos :=
  let best := select w.grid_offset w.last_direction
  if best.direction = -1 then none
  else
    let t := adjust_tile_in_direction best.direction w.x w.y w.grid_offset
    let forward_direction := Int.tmod (best.direction + 4) 8
    some { distance := best.distance, last_direction := forward_direction,
           x := t.1, y := t.2.1, grid_offset := t.2.2, num_tiles := w.num_tiles + 1 }

/-- The code after the `while` loop: store the path when a record was given. -/
def finish (alloc : Nat → Bool) (path : Option figure_path_data) (w : Pos) (s : Directions) :
    Outcome :=
  match path with
  | none => { result := w.num_tiles, path := none, scratch := s, exit := Exit.done }
  | some p =>
    match fill_path_with_directions alloc s p with
    | (false, p1) => { result := 0, path := some p1, scratch := s, exit := Exit.allocation }
    | (true, p1) => { result := w.num_tiles, path := some p1, scratch := s, exit := Exit.done }

/-- The `while (distance > 1)` loop, which both reconstructors share word for
word apart from their inner `for` loop `select`, and the code after it. -/
def reconstruct (alloc : Nat → Bool) (select : Int → Int → Best)
    (path : Option figure_path_data) : Nat → Pos → Directions → Option Outcome
  | 0, w, s => if w.distance > 1 then none else some (finish alloc path w s)
  | fuel + 1, w, s =>
    if w.distance > 1 then
      match advance select w with
      | none => some { result := 0, path := path, scratch := s, exit := Exit.exhausted }
      | some w1 =>
        if path.isSome then
          match add_direction_to_path alloc s w1.last_direction with
          | (false, s1) =>
            some { result := 0, path := path, scratch := s1, exit := Exit.allocation }
          | (true, s1) => reconstruct alloc select path fuel w1 s1
        else reconstruct alloc select path fuel w1 s
    else some (finish alloc path w s)

/-- The value `num_directions == 8 ? 1 : 2` of the variable `step`. -/
def direction_step (num_directions : Int) : Nat := if num_directions = 8 then 1 else 2

def map_routing_get_path (alloc : Nat → Bool) (m : Map) (s : Directions)
    (path : Option figure_path_data) (dst_x dst_y num_directions : Int) (fuel : Nat) :
    Option Outcome :=
  let dst_grid_offset := map_grid_offset m dst_x dst_y
  let distance := m.map_routing_distance dst_grid_offset
  if distance ≤ 0 then
    some { result := 0, path := path, scratch := s, exit := Exit.unreachable }
  else
    let step := direction_step num_directions
    reconstruct alloc (land_select m step) path fuel
      { distance := distance, last_direction := -1, x := dst_x, y := dst_y,
        grid_offset := dst_grid_offset, num_tiles := 0 }
      (reset_directions s)

/-- The parameter `random_byte` is the value `random_byte()` returns in this call. -/
def map_routing_get_path_on_water (alloc : Nat → Bool) (m : Map) (random_byte : Nat)
    (s : Directions) (path : Option figure_path_data) (dst_x dst_y : Int) (is_flotsam : Bool)
    (fuel : Nat) : Option Outcome :=
  let rand := random_byte &&& 3
  let dst_grid_offset := map_grid_offset m dst_x dst_y
  let distance := m.map_routing_distance dst_grid_offset
  if distance ≤ 0 then
    some { result := 0, path := path, scratch := s, exit := Exit.unreachable }
  else
    reconstruct alloc (water_select m rand is_flotsam) path fuel
      { distance := distance, last_direction := -1, x := dst_x, y := dst_y,
        grid_offset := dst_grid_offset, num_tiles := 0 }
      (reset_directions s)

/-- The variables at the head of each `while` iteration the walk goes through,
the first being the start and the last the one the loop leaves from. -/
def walk_trace (select : Int → Int → Best) : Nat → Pos → List Pos
  | 0, w => [w]
  | fuel + 1, w =>
    if w.distance > 1 then
      match advance select w with
      | none => [w]
      | some w1 => w :: walk_trace select fuel w1
    else [w]

/-- The variables with which the walk leaves the loop (or runs out of fuel). -/
def walk_end (select : Int → Int → Best) : Nat → Pos → Pos
  | 0, w => w
  | fuel + 1, w =>
    if w.distance > 1 then
      match advance select w with
      | none => w
      | some w1 => walk_end select fuel w1
    else w

/-- The values of `forward_direction` along the walk, in the order the walk
appends them to the accumulator. -/
def walk_directions (select : Int → Int → Best) (fuel : Nat) (w : Pos) : List Int :=
  (walk_trace select fuel w).tail.map (fun w1 => w1.last_direction)

/-- The start of the land walk of `map_routing_get_path`. -/
def land_start (m : Map) (dst_x dst_y : Int) : Pos :=
  { distance := m.map_routing_distance (map_grid_offset m dst_x dst_y), last_direction := -1,
    x := dst_x, y := dst_y, grid_offset := map_grid_offset m dst_x dst_y, num_tiles := 0 }

/-- The tiles reached from `start` by moving along `ds`, `start` included. -/
def follow : Int → List Int → List Int
  | o, [] => [o]
  | o, d :: ds => o :: follow (o + map_grid_direction_delta d) ds

/-- What the `for` loop of `map_routing_get_path` keeps true of its best
candidate: before any candidate is taken the variables hold their initial
values; afterwards they describe an eligible neighbour with a non-zero distance
that does not exceed `base_distance`. -/
def LandInv (m : Map) (base_distance grid_offset last_direction : Int) (b : Best) : Prop :=
  (b.direction = -1 → b.distance = base_distance ∧ b.is_highway = false) ∧
  (b.direction ≠ -1 →
    b.direction ≠ last_direction ∧
    b.distance = m.map_routing_distance (grid_offset + map_grid_direction_delta b.direction) ∧
    b.is_highway =
      m.map_terrain_is_highway (grid_offset + map_grid_direction_delta b.direction) ∧
    b.distance ≠ 0 ∧ b.distance ≤ base_distance)

/-! ## Concrete maps -/

/-- A map on which tile 1000 (distance 3) has one neighbour with a non-zero
distance, tile 838 above it, also of distance 3; the tiles 676 and 514 further
up have distances 2 and 1. No tile is a highway. -/
def plateau_map : Map where
  start_offset := 0
  map_routing_distance := fun o =>
    if o = 1000 then 3 else if o = 838 then 3 else if o = 676 then 2 else if o = 514 then 1 else 0
  map_terrain_is_highway := fun _ => false
  map_random_get := fun _ => 0

/-- A map on which tile 1000 (distance 3) has two neighbours of distance 2: tile
838 straight above it, not a highway, and tile 839 diagonally above it, a
highway; tile 677 above 839 has distance 1. -/
def highway_diagonal_map : Map where
  start_offset := 0
  map_routing_distance := fun o =>
    if o = 1000 then 3 else if o = 838 then 2 else if o = 839 then 2 else if o = 677 then 1 else 0
  map_terrain_is_highway := fun o => decide (o = 839)
  map_random_get := fun _ => 0

/-- A map whose distance field is the Manhattan gradient `1 + |dx| + |dy|` from
the origin `(ox, oy)` on every tile of the grid, all 162 columns included. -/
def full_grid_gradient_map (ox oy : Int) : Map where
  start_offset := 0
  map_routing_distance := fun o =>
    1 + (Int.tmod o GRID_SIZE - ox).natAbs + (Int.tdiv o GRID_SIZE - oy).natAbs
  map_terrain_is_highway := fun _ => false
  map_random_get := fun _ => 0

/-- A map of `width` columns and `height` rows at the start of the grid whose
distance field is the Manhattan gradient from `(ox, oy)` on the map and 0 on
every other tile. -/
def gradient_map (width height ox oy : Int) : Map where
  start_offset := 0
  map_routing_distance := fun o =>
    if 0 ≤ o % GRID_SIZE ∧ o % GRID_SIZE < width ∧ 0 ≤ o / GRID_SIZE ∧ o / GRID_SIZE < height then
      1 + (o % GRID_SIZE - ox).natAbs + (o / GRID_SIZE - oy).natAbs
    else 0
  map_terrain_is_highway := fun _ => false
  map_random_get := fun _ => 0

/-- The distance field of `m` is the Manhattan gradient from the origin
`(ox, oy)` on the map tiles `0 ≤ x < width`, `0 ≤ y < height`, the tiles around
the map have distance 0, and no tile is a highway. -/
structure GradientField (m : Map) (width height ox oy : Int) : Prop where
  origin_x : 0 ≤ ox ∧ ox < width
  origin_y : 0 ≤ oy ∧ oy < height
  inside : ∀ x y : Int, 0 ≤ x → x < width → 0 ≤ y → y < height →
    m.map_routing_distance (map_grid_offset m x y) = 1 + (x - ox).natAbs + (y - oy).natAbs
  border : ∀ x y : Int, -1 ≤ x → x ≤ width → -1 ≤ y → y ≤ height →
    (x = -1 ∨ x = width ∨ y = -1 ∨ y = height) →
    m.map_routing_distance (map_grid_offset m x y) = 0
  no_highway : ∀ o : Int, m.map_terrain_is_highway o = false

/-- What the walk on a gradient field keeps true of its variables: they name a
map tile, `distance` is its distance, and `last_direction` does not lead to a
tile that is nearer. -/
structure OnGradient (m : Map) (width height : Int) (w : Pos) : Prop where
  x_range : 0 ≤ w.x ∧ w.x < width
  y_range : 0 ≤ w.y ∧ w.y < height
  offset_eq : w.grid_offset = map_grid_offset m w.x w.y
  distance_eq : w.distance = m.map_routing_distance w.grid_offset
  back : m.map_routing_distance (w.grid_offset + map_grid_direction_delta w.last_direction) = 0 ∨
    m.map_routing_distance w.grid_offset ≤
      m.map_routing_distance (w.grid_offset + map_grid_direction_delta w.last_direction)

/-- The number of steps C7 expects on a gradient: the Chebyshev distance in the
8-direction mode, the Manhattan distance otherwise. -/
def gradient_steps (num_directions dx dy : Int) : Nat :=
  if num_directions = 8 then max dx.natAbs dy.natAbs else dx.natAbs + dy.natAbs

/-- An accumulator with a buffer of three bytes. -/
def small_scratch : Directions := ⟨[0, 0, 0], 0, 3, -1, 0⟩

/-- An empty record in slot 1. -/
def empty_record : figure_path_data := ⟨1, 0, 0, none, 0, 0⟩

/-- What the 8-direction call for `(28, 6)` on `highway_diagonal_map` leaves. -/
def diagonal_outcome : Outcome :=
  ⟨2, some ⟨1, 0, 2, some [128, 160], 0, 0⟩, ⟨[160, 128, 0], 2, 3, 4, 0⟩, Exit.done⟩

/-- What the 4-direction call for `(28, 6)` on `highway_diagonal_map` leaves. -/
def straight_outcome : Outcome :=
  ⟨3, some ⟨1, 0, 3, some [128, 192, 128], 0, 0⟩, ⟨[128, 192, 128], 3, 3, 4, 0⟩, Exit.done⟩

/-! ## Run-length view of the encoder -/

/-- The byte of a run `(direction, count field)`. -/
def pack (r : Nat × Nat) : Nat := r.1 * 2 ^ ROUTING_PATH_DIRECTION_BIT_OFFSET + r.2

/-- What `add_direction_to_path` does to the list of runs (newest run first). -/
def push_run (d : Nat) : List (Nat × Nat) → List (Nat × Nat)
  | [] => [(d, 0)]
  | r :: t =>
    if d = r.1 ∧ r.2 < ROUTING_PATH_DIRECTION_COUNT_BIT_MASK then (r.1, r.2 + 1) :: t
    else (d, 0) :: r :: t

/-- The runs after appending `ds` to the runs `R` (newest run first). -/
def push_runs (R : List (Nat × Nat)) (ds : List Nat) : List (Nat × Nat) :=
  ds.foldl (fun acc d => push_run d acc) R

/-- The unit steps of a list of runs, in list order. -/
def run_steps : List (Nat × Nat) → List Nat
  | [] => []
  | r :: t => List.replicate (r.2 + 1) r.1 ++ run_steps t

/-- The scratch accumulator `s` holds the runs `R` (newest first) in its first
`total` bytes, and its cursor fields describe the newest run. -/
structure Holds (s : Directions) (R : List (Nat × Nat)) : Prop where
  size_eq : s.size = s.path.length
  total_eq : s.total = R.length
  entries : ∃ rest, s.path = R.reverse.map pack ++ rest
  fields : ∀ r ∈ R, r.1 < 8 ∧ r.2 ≤ 31
  cur : s.current = match R with
    | [] => -1
    | r :: _ => (r.1 : Int)
  cnt : s.same_direction_count = match R with
    | [] => 0
    | r :: _ => r.2

/-- The packed entries of the accumulator, in the order they were built. -/
def packed_entries (s : Directions) : List Nat := s.path.take s.total

/-- Direction field and count field of a packed entry. -/
def entry_fields (b : Nat) : Int × Nat := (entry_direction b, entry_count b)

/-- Allocator that never fails. -/
def alloc_ok : Nat → Bool := fun _ => true

/-! ## The water loop in words -/

/-- The acceptance rule of the water loop as claim C11 words it: a candidate
replaces the best one when its distance is strictly less, or when it is equal,
the agent is flotsam and the hash of the current tile equals the wander class. -/
def water_consider_claimed (m : Map) (rand : Nat) (is_flotsam : Bool)
    (grid_offset last_direction : Int) (b : Best) (d : Int) : Best :=
  if d ≠ last_direction ∧
      m.map_routing_distance (grid_offset + map_grid_direction_delta d) ≠ 0 ∧
      (m.map_routing_distance (grid_offset + map_grid_direction_delta d) < b.distance ∨
        (m.map_routing_distance (grid_offset + map_grid_direction_delta d) = b.distance ∧
          is_flotsam = true ∧ m.map_random_get grid_offset &&& 3 = rand)) then
    { b with distance := m.map_routing_distance (grid_offset + map_grid_direction_delta d),
             direction := d }
  else b

/-- The acceptance rule of the water loop as amended: an equal distance is
accepted for every agent that is not flotsam, and for flotsam when the hash of
the current tile equals the wander class. -/
def water_consider_amended (m : Map) (rand : Nat) (is_flotsam : Bool)
    (grid_offset last_direction : Int) (b : Best) (d : Int) : Best :=
  if d ≠ last_direction ∧
      m.map_routing_distance (grid_offset + map_grid_direction_delta d) ≠ 0 ∧
      (m.map_routing_distance (grid_offset + map_grid_direction_delta d) < b.distance ∨
        (m.map_routing_distance (grid_offset + map_grid_direction_delta d) = b.distance ∧
          (is_flotsam = true → m.map_random_get grid_offset &&& 3 = rand))) then
    { b with distance := m.map_routing_distance (grid_offset + map_grid_direction_delta d),
             direction := d }
  else b

/-! ## Figures and the pool of paths (`route.c`) -/

def ARRAY_SIZE_STEP : Nat := 600

def MAX_ORIGINAL_PATH_LENGTH : Nat := 500

/-- Modelled from the spec: the terrain-usage tags of `figure/figure.h` that the
`switch` of `figure_route_add` names; `ANY` stands for every tag that takes the
`default` branch. -/
inductive TerrainUsage where
  | ANY
  | ROADS
  | ENEMY
  | PREFER_ROADS
  | WALLS
  | ANIMAL
  | PREFER_ROADS_HIGHWAY
  | ROADS_HIGHWAY
  deriving DecidableEq, Repr

/-- Modelled from the spec: the value of the state "alive" of a figure. -/
def FIGURE_STATE_ALIVE : Nat := 1

/-- Modelled from the spec: the record `figure` of `figure/figure.h`, with the
fields that `route.c` reads and writes. -/
structure figure where
  id : Nat
  state : Nat
  x : Int
  y : Int
  destination_x : Int
  destination_y : Int
  destination_building_id : Int
  terrain_usage : TerrainUsage
  disallow_diagonal : Bool
  is_boat : Nat
  routing_path_id : Nat
  routing_path_current_tile : Int
  routing_path_length : Int
  deriving DecidableEq, Repr

/-- Modelled from the spec: the growable array `paths` of `core/array.h`. The
slots that exist in memory are `items`; the first `size` of them make up the
pool; `blocks` is 0 until the array is initialised. -/
structure Pool where
  items : List figure_path_data
  size : Nat
  blocks : Nat
  deriving DecidableEq, Repr

/-- The slots of a pool exist in memory, and a pool that is not initialised is
empty. -/
def Pool.wf (a : Pool) : Prop := a.size ≤ a.items.length ∧ (a.blocks = 0 → a.size = 0)

def create_new_path (path : figure_path_data) (position : Nat) : figure_path_data :=
  { path with id := position }

def path_is_used (path : figure_path_data) : Bool := path.figure_id != 0

/-- A record of zero bytes. -/
def zero_path : figure_path_data := ⟨0, 0, 0, none, 0, 0⟩

/-- Modelled from the spec: `array_init` of `core/array.h`, which leaves an empty
initialised pool unless memory runs out. -/
def array_init (alloc : Nat → Bool) : Option Pool :=
  if alloc ARRAY_SIZE_STEP then some ⟨[], 0, 1⟩ else none

/-- Modelled from the spec: the growth of the pool by one slot ("else pool
growth"): the new slot takes the position `size`, is zeroed and gets its id from
the constructor `create_new_path`; `none` when memory runs out. -/
def array_advance (alloc : Nat → Bool) (a : Pool) : Option (Nat × Pool) :=
  if alloc (a.size + 1) then
    some (a.size, { a with
      items := a.items.take a.size ++ [create_new_path zero_path a.size] ++
        a.items.drop (a.size + 1),
      size := a.size + 1 })
  else none

/-- Modelled from the spec: the pool grows until it has `index` slots, so that
the slots before `index` are never handed out. -/
def array_pad (alloc : Nat → Bool) (index : Nat) : Nat → Pool → Option Pool
  | 0, a => some a
  | n + 1, a =>
    if a.size < index then
      match array_advance alloc a with
      | none => none
      | some (_, a1) => array_pad alloc index n a1
    else some a

/-- Modelled from the spec: the first slot at position `i` or later, below
`size`, that is not in use ("first free slot"); `rest` are the slots from
position `i` on. -/
def find_free_from : Nat → Nat → List figure_path_data → Option Nat
  | _, _, [] => none
  | i, size, p :: rest =>
    if i < size then
      if path_is_used p then find_free_from (i + 1) size rest else some i
    else none

/-- Modelled from the spec: `array_new_item_after_index(a, index, ptr)` of
`core/array.h`: "allocates or reuses a slot (first free slot, else pool
growth)". The slot handed out is a new item: zeroed, with its id set by the
constructor `create_new_path`. The result is the position of the slot, or `none`
when memory runs out (`ptr == 0`), and the pool afterwards. -/
def array_new_item_after_index (alloc : Nat → Bool) (a : Pool) (index : Nat) :
    Option Nat × Pool :=
  match array_pad alloc index index a with
  | none => (none, a)
  | some a1 =>
    match find_free_from index a1.size (a1.items.drop index) with
    | some i => (some i, { a1 with items := a1.items.set i (create_new_path zero_path i) })
    | none =>
      match array_advance alloc a1 with
      | none => (none, a1)
      | some (i, a2) => (some i, a2)

/-- Modelled from the spec: the new logical size after `array_trim`, which
"compacts the pool's logical size" by leaving out the slots at the end that are
not in use. -/
def trim_size (items : List figure_path_data) : Nat → Nat
  | 0 => 0
  | n + 1 =>
    match items.get? n with
    | some p => if path_is_used p then n + 1 else trim_size items n
    | none => trim_size items n

/-- Modelled from the spec: `array_trim` of `core/array.h`. -/
def array_trim (a : Pool) : Pool := { a with size := trim_size a.items a.size }

/-- Modelled from the spec: `array_foreach` of `core/array.h`, for a body that
changes only the slot it visits: `body array_index path` is applied to every slot
below `size`; `i` is the position of the first slot of the list. -/
def foreach_slot (body : Nat → figure_path_data → figure_path_data) (size : Nat) :
    Nat → List figure_path_data → List figure_path_data
  | _, [] => []
  | i, p :: rest => (if i < size then body i p else p) :: foreach_slot body size (i + 1) rest

/-- The five assignments (and the `free`) with which `route.c` releases a slot. -/
def free_path (path : figure_path_data) : figure_path_data :=
  { path with figure_id := 0, directions := none, total_directions := 0, current_step := 0,
              same_direction_count := 0 }

/-- Body of the loop of `figure_route_clean`; the figure table is the list
`figures`, `figure_count()` its length and `figure_get(id)` its entry `id`
(modelled from the spec: `figure/figure.h` is not among the sources). -/
def clean_slot (figures : List figure) (array_index : Nat) (path : figure_path_data) :
    figure_path_data :=
  let figure_id := path.figure_id
  if figure_id > 0 ∧ figure_id < figures.length then
    match figures.get? figure_id with
    | some f =>
      if f.state ≠ FIGURE_STATE_ALIVE ∨ f.routing_path_id ≠ array_index then free_path path
      else path
    | none => path
  else path

def figure_route_clean (figures : List figure) (paths : Pool) : Pool :=
  array_trim { paths with items := foreach_slot (clean_slot figures) paths.size 0 paths.items }

/-- The pool and the figure afterwards; `none` when `array_item` reads a slot
that does not exist in memory. -/
def figure_route_remove (paths : Pool) (f : figure) : Option (Pool × figure) :=
  if f.routing_path_id > 0 then
    match paths.items.get? f.routing_path_id with
    | none => none
    | some path =>
      let items :=
        if path.figure_id = f.id then paths.items.set f.routing_path_id (free_path path)
        else paths.items
      some (array_trim { paths with items := items }, { f with routing_path_id := 0 })
  else some (array_trim paths, f)

/-- The queries of `map/routing.h` that `figure_route_add` calls, which are not
among the sources. Each works on the map it is given and leaves a distance field
behind; the feasibility queries also say whether the destination can be
reached. The arguments are those of the C functions, in their order. -/
structure Routing where
  map_routing_calculate_distances_water_flotsam : Map → Int → Int → Map
  map_routing_calculate_distances_water_boat : Map → Int → Int → Map
  map_routing_noncitizen_can_travel_over_land :
    Map → Int → Int → Int → Int → Int → Int → Int → Bool × Map
  map_routing_noncitizen_can_travel_through_everything :
    Map → Int → Int → Int → Int → Int → Bool × Map
  map_routing_can_travel_over_walls : Map → Int → Int → Int → Int → Int → Bool × Map
  map_routing_citizen_can_travel_over_road_garden : Map → Int → Int → Int → Int → Int → Bool × Map
  map_routing_citizen_can_travel_over_road_garden_highway :
    Map → Int → Int → Int → Int → Int → Bool × Map
  map_routing_citizen_can_travel_over_land : Map → Int → Int → Int → Int → Int → Bool × Map

/-- The `switch` of `figure_route_add` that computes `can_travel`, with the map
the last query left. -/
def route_can_travel (r : Routing) (m : Map) (f : figure) (direction_limit : Int) : Bool × Map :=
  match f.terrain_usage with
  | TerrainUsage.ENEMY =>
    let c1 := r.map_routing_noncitizen_can_travel_over_land m f.x f.y
      f.destination_x f.destination_y direction_limit f.destination_building_id 5000
    if !c1.1 then
      let c2 := r.map_routing_noncitizen_can_travel_over_land c1.2 f.x f.y
        f.destination_x f.destination_y direction_limit 0 25000
      if !c2.1 then
        r.map_routing_noncitizen_can_travel_through_everything c2.2 f.x f.y
          f.destination_x f.destination_y direction_limit
      else c2
    else c1
  | TerrainUsage.WALLS =>
    r.map_routing_can_travel_over_walls m f.x f.y f.destination_x f.destination_y 4
  | TerrainUsage.ANIMAL =>
    r.map_routing_noncitizen_can_travel_over_land m f.x f.y
      f.destination_x f.destination_y direction_limit (-1) 5000
  | TerrainUsage.PREFER_ROADS =>
    let c1 := r.map_routing_citizen_can_travel_over_road_garden m f.x f.y
      f.destination_x f.destination_y direction_limit
    if !c1.1 then
      r.map_routing_citizen_can_travel_over_land c1.2 f.x f.y
        f.destination_x f.destination_y direction_limit
    else c1
  | TerrainUsage.ROADS =>
    r.map_routing_citizen_can_travel_over_road_garden m f.x f.y
      f.destination_x f.destination_y direction_limit
  | TerrainUsage.PREFER_ROADS_HIGHWAY =>
    let c1 := r.map_routing_citizen_can_travel_over_road_garden_highway m f.x f.y
      f.destination_x f.destination_y direction_limit
    if !c1.1 then
      r.map_routing_citizen_can_travel_over_land c1.2 f.x f.y
        f.destination_x f.destination_y direction_limit
    else c1
  | TerrainUsage.ROADS_HIGHWAY =>
    r.map_routing_citizen_can_travel_over_road_garden_highway m f.x f.y
      f.destination_x f.destination_y direction_limit
  | TerrainUsage.ANY =>
    r.map_routing_citizen_can_travel_over_land m f.x f.y
      f.destination_x f.destination_y direction_limit

/-- The value of `path_length` with the map, the accumulator and the record
`*path` at the point where `figure_route_add` has computed it. -/
structure Computed where
  path_length : Int
  map : Map
  scratch : Directions
  path : figure_path_data

/-- What a call of a reconstructor on the record `p` leaves. -/
def computed_of (m : Map) (p : figure_path_data) (o : Outcome) : Computed :=
  { path_length := o.result, map := m, scratch := o.scratch, path := o.path.getD p }

/-- The `if (f->is_boat) ... else ...` of `figure_route_add` that computes
`path_length`; `none` when a reconstructor runs out of fuel. -/
def route_path_length (alloc : Nat → Bool) (r : Routing) (random_byte : Nat) (fuel : Nat)
    (m : Map) (s : Directions) (p : figure_path_data) (f : figure) (direction_limit : Int) :
    Option Computed :=
  if f.is_boat ≠ 0 then
    if f.is_boat = 2 then
      let m1 := r.map_routing_calculate_distances_water_flotsam m f.x f.y
      (map_routing_get_path_on_water alloc m1 random_byte s (some p)
        f.destination_x f.destination_y true fuel).map (computed_of m1 p)
    else
      let m1 := r.map_routing_calculate_distances_water_boat m f.x f.y
      (map_routing_get_path_on_water alloc m1 random_byte s (some p)
        f.destination_x f.destination_y false fuel).map (computed_of m1 p)
  else
    let c := route_can_travel r m f direction_limit
    if c.1 then
      if f.terrain_usage = TerrainUsage.WALLS then
        match map_routing_get_path alloc c.2 s (some p) f.destination_x f.destination_y 4
            fuel with
        | none => none
        | some o1 =>
          if o1.result ≤ 0 then
            (map_routing_get_path alloc c.2 o1.scratch (some (o1.path.getD p))
              f.destination_x f.destination_y direction_limit fuel).map
              (computed_of c.2 (o1.path.getD p))
          else some (computed_of c.2 p o1)
      else
        (map_routing_get_path alloc c.2 s (some p) f.destination_x f.destination_y
          direction_limit fuel).map (computed_of c.2 p)
    else some { path_length := 0, map := c.2, scratch := s, path := p }

/-- The state `figure_route_add` works on: the map with its distance field, the
accumulator of `routing_path.c` and the pool `paths`. -/
structure RouteState where
  map : Map
  scratch : Directions
  paths : Pool

/-- What `figure_route_add` leaves: the state, the figure, and the value of
`path_length` at the end (0 when the function returned before computing it). -/
structure Added where
  state : RouteState
  f : figure
  path_length : Int

def figure_route_add (alloc : Nat → Bool) (r : Routing) (random_byte : Nat) (fuel : Nat)
    (st : RouteState) (f : figure) : Option Added :=
  let f0 := { f with routing_path_id := 0, routing_path_current_tile := 0,
                     routing_path_length := 0 }
  let direction_limit : Int := if f.disallow_diagonal then 4 else 8
  match (if st.paths.blocks = 0 then array_init alloc else some st.paths) with
  | none => some { state := st, f := f0, path_length := 0 }
  | some a0 =>
    match array_new_item_after_index alloc a0 1 with
    | (none, a1) => some { state := { st with paths := a1 }, f := f0, path_length := 0 }
    | (some i, a1) =>
      match a1.items.get? i with
      | none => none
      | some p =>
        match route_path_length alloc r random_byte fuel st.map st.scratch p f0
            direction_limit with
        | none => none
        | some c =>
          if c.path_length ≠ 0 then
            some {
              state := { map := c.map, scratch := c.scratch,
                         paths := { a1 with
                           items := a1.items.set i { c.path with figure_id := f.id } } },
              f := { f0 with routing_path_id := c.path.id, routing_path_length := c.path_length },
              path_length := c.path_length }
          else
            some {
              state := { map := c.map, scratch := c.scratch,
                         paths := { a1 with items := a1.items.set i c.path } },
              f := f0,
              path_length := c.path_length }

/-- The feasibility strategies of a terrain-usage tag in the order C16 lists
them; each is a query on a map. -/
def strategies (r : Routing) (f : figure) (direction_limit : Int) :
    List (Map → Bool × Map) :=
  match f.terrain_usage with
  | TerrainUsage.ENEMY =>
    [fun m => r.map_routing_noncitizen_can_travel_over_land m f.x f.y
        f.destination_x f.destination_y direction_limit f.destination_building_id 5000,
     fun m => r.map_routing_noncitizen_can_travel_over_land m f.x f.y
        f.destination_x f.destination_y direction_limit 0 25000,
     fun m => r.map_routing_noncitizen_can_travel_through_everything m f.x f.y
        f.destination_x f.destination_y direction_limit]
  | TerrainUsage.WALLS =>
    [fun m => r.map_routing_can_travel_over_walls m f.x f.y
        f.destination_x f.destination_y 4]
  | TerrainUsage.ANIMAL =>
    [fun m => r.map_routing_noncitizen_can_travel_over_land m f.x f.y
        f.destination_x f.destination_y direction_limit (-1) 5000]
  | TerrainUsage.PREFER_ROADS =>
    [fun m => r.map_routing_citizen_can_travel_over_road_garden m f.x f.y
        f.destination_x f.destination_y direction_limit,
     fun m => r.map_routing_citizen_can_travel_over_land m f.x f.y
        f.destination_x f.destination_y direction_limit]
  | TerrainUsage.ROADS =>
    [fun m => r.map_routing_citizen_can_travel_over_road_garden m f.x f.y
        f.destination_x f.destination_y direction_limit]
  | TerrainUsage.PREFER_ROADS_HIGHWAY =>
    [fun m => r.map_routing_citizen_can_travel_over_road_garden_highway m f.x f.y
        f.destination_x f.destination_y direction_limit,
     fun m => r.map_routing_citizen_can_travel_over_land m f.x f.y
        f.destination_x f.destination_y direction_limit]
  | TerrainUsage.ROADS_HIGHWAY =>
    [fun m => r.map_routing_citizen_can_travel_over_road_garden_highway m f.x f.y
        f.destination_x f.destination_y direction_limit]
  | TerrainUsage.ANY =>
    [fun m => r.map_routing_citizen_can_travel_over_land m f.x f.y
        f.destination_x f.destination_y direction_limit]

/-- Try the strategies in order; the first feasible one wins. -/
def first_feasible : List (Map → Bool × Map) → Map → Bool × Map
  | [], m => (false, m)
  | q :: rest, m => if (q m).1 then q m else first_feasible rest (q m).2

/-- A routing oracle for which every destination can be reached and no query
changes the map. -/
def open_routing : Routing where
  map_routing_calculate_distances_water_flotsam := fun m _ _ => m
  map_routing_calculate_distances_water_boat := fun m _ _ => m
  map_routing_noncitizen_can_travel_over_land := fun m _ _ _ _ _ _ _ => (true, m)
  map_routing_noncitizen_can_travel_through_everything := fun m _ _ _ _ _ => (true, m)
  map_routing_can_travel_over_walls := fun m _ _ _ _ _ => (true, m)
  map_routing_citizen_can_travel_over_road_garden := fun m _ _ _ _ _ => (true, m)
  map_routing_citizen_can_travel_over_road_garden_highway := fun m _ _ _ _ _ => (true, m)
  map_routing_citizen_can_travel_over_land := fun m _ _ _ _ _ => (true, m)

/-- A routing oracle for which no destination can be reached. -/
def closed_routing : Routing where
  map_routing_calculate_distances_water_flotsam := fun m _ _ => m
  map_routing_calculate_distances_water_boat := fun m _ _ => m
  map_routing_noncitizen_can_travel_over_land := fun m _ _ _ _ _ _ _ => (false, m)
  map_routing_noncitizen_can_travel_through_everything := fun m _ _ _ _ _ => (false, m)
  map_routing_can_travel_over_walls := fun m _ _ _ _ _ => (false, m)
  map_routing_citizen_can_travel_over_road_garden := fun m _ _ _ _ _ => (false, m)
  map_routing_citizen_can_travel_over_road_garden_highway := fun m _ _ _ _ _ => (false, m)
  map_routing_citizen_can_travel_over_land := fun m _ _ _ _ _ => (false, m)

/-- A citizen with id 7 who wants to go to tile `(28, 6)`. -/
def walker : figure :=
  { id := 7, state := FIGURE_STATE_ALIVE, x := 28, y := 3, destination_x := 28,
    destination_y := 6, destination_building_id := 0, terrain_usage := TerrainUsage.ANY,
    disallow_diagonal := false, is_boat := 0, routing_path_id := 0,
    routing_path_current_tile := 0, routing_path_length := 0 }

/-- An enemy with id 5 who holds the path in slot 1 and wants to go to `(28, 6)`. -/
def raider : figure :=
  { id := 5, state := FIGURE_STATE_ALIVE, x := 28, y := 3, destination_x := 28,
    destination_y := 6, destination_building_id := 3, terrain_usage := TerrainUsage.ENEMY,
    disallow_diagonal := false, is_boat := 0, routing_path_id := 1,
    routing_path_current_tile := 1, routing_path_length := 2 }

/-- The state before the first request: `highway_diagonal_map` with its distance
field, and a pool that is not initialised. -/
def first_state : RouteState :=
  { map := highway_diagonal_map, scratch := small_scratch, paths := ⟨[], 0, 0⟩ }

/-- A pool of three slots: slot 0 is never handed out, slot 1 belongs to figure 5
and slot 2 to figure 9. -/
def busy_pool : Pool :=
  ⟨[⟨0, 0, 0, none, 0, 0⟩, ⟨1, 5, 1, some [65], 0, 0⟩, ⟨2, 9, 1, some [33], 0, 0⟩], 3, 1⟩

/-- The state with `busy_pool`. -/
def busy_state : RouteState :=
  { map := highway_diagonal_map, scratch := small_scratch, paths := busy_pool }

/-- A routing oracle for which an enemy reaches its destination over land with
the budget 25000 and in no other way; the queries over land leave the distance
field of `highway_diagonal_map`. -/
def detour_routing : Routing where
  map_routing_calculate_distances_water_flotsam := fun m _ _ => m
  map_routing_calculate_distances_water_boat := fun m _ _ => m
  map_routing_noncitizen_can_travel_over_land :=
    fun _ _ _ _ _ _ _ budget => (decide (budget = 25000), highway_diagonal_map)
  map_routing_noncitizen_can_travel_through_everything := fun m _ _ _ _ _ => (false, m)
  map_routing_can_travel_over_walls := fun m _ _ _ _ _ => (false, m)
  map_routing_citizen_can_travel_over_road_garden := fun m _ _ _ _ _ => (false, m)
  map_routing_citizen_can_travel_over_road_garden_highway := fun m _ _ _ _ _ => (false, m)
  map_routing_citizen_can_travel_over_land := fun m _ _ _ _ _ => (false, m)

/-- The state before the first request when the map holds the distance field of
`plateau_map`. -/
def plateau_state : RouteState :=
  { map := plateau_map, scratch := small_scratch, paths := ⟨[], 0, 0⟩ }

/-! ## Conversion of the paths of old saved games (`route.c`) -/

/-- The local variables of `convert_old_directions_to_new_format`. -/
structure Conversion where
  new_directions : List Nat
  current_direction : Int
  total_direction_changes : Nat
  current_count : Nat
  deriving DecidableEq, Repr

/-- One iteration of the `for` loop of `convert_old_directions_to_new_format`
for the byte `direction = directions[index]`. -/
def convert_step (c : Conversion) (direction : Nat) : Conversion :=
  if (direction : Int) ≠ c.current_direction ∨
      c.current_count = ROUTING_PATH_DIRECTION_COUNT_BIT_MASK then
    { new_directions := c.new_directions.set c.total_direction_changes
        ((direction * 2 ^ ROUTING_PATH_DIRECTION_BIT_OFFSET) % 256),
      current_direction := direction,
      total_direction_changes := c.total_direction_changes + 1,
      current_count := 0 }
  else
    { c with
      new_directions := c.new_directions.set (c.total_direction_changes - 1)
        ((c.new_directions.getD (c.total_direction_changes - 1) 0 + 1) % 256),
      current_count := (c.current_count + 1) % 256 }

/-- The figure table is the list `figures` (`figure_get(id)` is its entry `id`,
null when there is none). The result is the return value and the record; `none`
is a read or a write outside the 500-byte blocks (undefined in C), which takes a
`routing_path_length` that is negative or above the length of a block. -/
def convert_old_directions_to_new_format (alloc : Nat → Bool) (figures : List figure)
    (path : figure_path_data) (directions : List Nat) : Option (Int × figure_path_data) :=
  match figures.get? path.figure_id with
  | none => some (1, path)
  | some f =>
    if f.id = 0 ∨ f.routing_path_length = 0 then some (1, path)
    else if 0 ≤ f.routing_path_length ∧ f.routing_path_length.toNat ≤ directions.length ∧
        f.routing_path_length.toNat ≤ MAX_ORIGINAL_PATH_LENGTH then
      let c := (directions.take f.routing_path_length.toNat).foldl convert_step
        { new_directions := List.replicate MAX_ORIGINAL_PATH_LENGTH 0, current_direction := -1,
          total_direction_changes := 0, current_count := 0 }
      let path1 := { path with total_directions := c.total_direction_changes }
      if !alloc c.total_direction_changes then some (0, { path1 with directions := none })
      else some (1, { path1 with
        directions := some (c.new_directions.take c.total_direction_changes) })
    else none

/-- The local variables of the conversion seen as an accumulator of
`routing_path.c`. -/
def as_scratch (c : Conversion) : Directions :=
  { path := c.new_directions, total := c.total_direction_changes,
    size := c.new_directions.length, current := c.current_direction,
    same_direction_count := c.current_count }

/-- No direction occurs more than 32 times in a row in `ds`. -/
def no_long_run (ds : List Nat) : Prop := ∀ d, ¬ (List.replicate 33 d <:+: ds)

/-- A legacy block: the directions `ds` followed by zero bytes up to 500. -/
def legacy_block (ds : List Nat) : List Nat :=
  ds ++ List.replicate (MAX_ORIGINAL_PATH_LENGTH - ds.length) 0

/-- The record a fresh reconstruction stores for the origin-to-destination
directions `ds`: the backward walk feeds them to `add_direction_to_path` from the
last one to the first, then `fill_path_with_directions` copies the entries. -/
def fresh_record (s : Directions) (p : figure_path_data) (ds : List Nat) : figure_path_data :=
  (fill_path_with_directions alloc_ok
    (add_directions alloc_ok (reset_directions s) (ds.reverse.map Int.ofNat)) p).2

/-- A figure table with the null figure and a figure 1 on a path of `n` tiles. -/
def legacy_figures (n : Int) : List figure :=
  [{ walker with id := 0 }, { walker with id := 1, routing_path_id := 1, routing_path_length := n }]

/-! ## The cursor after a load (`route.c`) -/

/-- The `for` loop of `update_current_tile` from entry `i` on, with `fuel` entries
left below `total_directions` and the current value of `index`: the cursor
`(current_step, same_direction_count)` the function ends with. `index - 1` is
computed in `unsigned int` and stored in a `uint8_t`. `none` is a read outside
the buffer (undefined in C). -/
def update_current_tile_loop (directions : List Nat) (total_directions : Nat) :
    Nat → Nat → Nat → Option (Nat × Nat)
  | 0, _, _ => some (total_directions, 0)
  | fuel + 1, i, index =>
    match directions.get? i with
    | none => none
    | some b =>
      let tiles_in_direction := (b &&& ROUTING_PATH_DIRECTION_COUNT_BIT_MASK) + 1
      if tiles_in_direction ≥ index then
        some (i, (index + 4294967295) % 4294967296 % 256)
      else
        update_current_tile_loop directions total_directions fuel (i + 1)
          (index - tiles_in_direction)

/-- The figure table is the list `figures`; `index` is
`f->routing_path_current_tile + 1` converted to `unsigned int`. `none` is a read
outside the buffer of the record. -/
def update_current_tile (figures : List figure) (path : figure_path_data) :
    Option figure_path_data :=
  match figures.get? path.figure_id with
  | none => some path
  | some f =>
    if f.id = 0 ∨ f.routing_path_length = 0 then some path
    else
      let index := ((f.routing_path_current_tile + 1) % 4294967296).toNat
      match update_current_tile_loop (path.directions.getD []) path.total_directions
          path.total_directions 0 index with
      | none => none
      | some c => some { path with current_step := c.1, same_direction_count := c.2 }

/-- The cursor invariant of a record: `current_step` is at most
`total_directions`; below it the entry at `current_step` exists and
`same_direction_count` is less than its count field + 1; at `total_directions`
the count is 0. -/
def CursorInv (p : figure_path_data) : Prop :=
  p.current_step ≤ p.total_directions ∧
  (p.current_step < p.total_directions →
    ∃ b, (p.directions.getD []).get? p.current_step = some b ∧
      p.same_direction_count < entry_count b + 1) ∧
  (p.current_step = p.total_directions → p.same_direction_count = 0)

/-- A figure table with the null figure and a figure 1 whose `routing_path_length`
is `n` and whose `routing_path_current_tile` is `k`. -/
def loaded_figures (n k : Int) : List figure :=
  [{ walker with id := 0 },
   { walker with id := 1, routing_path_id := 1, routing_path_length := n,
                 routing_path_current_tile := k }]

/-! ## The candidate of claim C28 -/

/-- The candidate C28 names among the directions `l` around `grid_offset`, for
the variables `b` of the loop. Either no eligible neighbour (not the excluded
direction, distance not 0) has a distance of at most `base_distance`, and `b`
holds the initial values; or `b` describes an eligible neighbour of minimum
distance, at most `base_distance`, which among the eligible neighbours of that
distance is the first orthogonal one (even direction) if there is one, and the
first one otherwise. -/
def MinimumCandidate (m : Map) (base_distance grid_offset last_direction : Int)
    (l : List Int) (b : Best) : Prop :=
  (b.direction = -1 ∧ b.distance = base_distance ∧
    ∀ d ∈ l, d ≠ last_direction →
      m.map_routing_distance (grid_offset + map_grid_direction_delta d) ≠ 0 →
      base_distance < m.map_routing_distance (grid_offset + map_grid_direction_delta d)) ∨
  (b.direction ∈ l ∧ b.direction ≠ last_direction ∧
    b.distance = m.map_routing_distance (grid_offset + map_grid_direction_delta b.direction) ∧
    b.distance ≠ 0 ∧ b.distance ≤ base_distance ∧
    ∀ d ∈ l, d ≠ last_direction →
      m.map_routing_distance (grid_offset + map_grid_direction_delta d) ≠ 0 →
      b.distance ≤ m.map_routing_distance (grid_offset + map_grid_direction_delta d) ∧
      (m.map_routing_distance (grid_offset + map_grid_direction_delta d) = b.distance →
        (Int.tmod d 2 = 0 → Int.tmod b.direction 2 = 0) ∧
        (Int.tmod d 2 = Int.tmod b.direction 2 → b.direction ≤ d)))

/-! ## Saving and loading the pool (`route.c`) -/

/-- Modelled from the spec: the byte buffers of `core/buffer.h`, which is not
among the sources. A buffer that is written is the list of the bytes written so
far; a `u8` is one byte. -/
def buffer_write_u8 (buf : List Nat) (value : Nat) : List Nat := buf ++ [value % 256]

/-- Modelled from the spec: a `u32` takes four bytes, low byte first. -/
def buffer_write_u32 (buf : List Nat) (value : Nat) : List Nat :=
  buf ++ [value % 256, value / 256 % 256, value / 65536 % 256, value / 16777216 % 256]

/-- Modelled from the spec: an `i32` is written as the `u32` with the same bits. -/
def buffer_write_i32 (buf : List Nat) (value : Int) : List Nat :=
  buffer_write_u32 buf (value % 4294967296).toNat

/-- Modelled from the spec: `size` raw bytes of `data`; bytes that `data` does
not have (a read outside the source, unspecified in C) are written as 0. -/
def buffer_write_raw (buf : List Nat) (data : List Nat) (size : Nat) : List Nat :=
  buf ++ (data ++ List.replicate (size - data.length) 0).take size

/-- Modelled from the spec: a buffer that is read is the list of its bytes from
the read position on; a read past the end yields 0. The result is the value and
the buffer after the read. -/
def buffer_read_u8 (buf : List Nat) : Nat × List Nat := (buf.headD 0, buf.drop 1)

/-- Modelled from the spec: the `u32` of the next four bytes, low byte first. -/
def buffer_read_u32 (buf : List Nat) : Nat × List Nat :=
  (buf.getD 0 0 + 256 * buf.getD 1 0 + 65536 * buf.getD 2 0 + 16777216 * buf.getD 3 0,
   buf.drop 4)

/-- Modelled from the spec: the `i32` of the next four bytes. -/
def buffer_read_i32 (buf : List Nat) : Int × List Nat :=
  let v := (buffer_read_u32 buf).1
  ((if v < 2147483648 then (v : Int) else (v : Int) - 4294967296), buf.drop 4)

/-- Modelled from the spec: the `i16` of the next two bytes, low byte first. -/
def buffer_read_i16 (buf : List Nat) : Int × List Nat :=
  let v := buf.getD 0 0 + 256 * buf.getD 1 0
  ((if v < 32768 then (v : Int) else (v : Int) - 65536), buf.drop 2)

/-- Modelled from the spec: the next `size` raw bytes; bytes the buffer does not
have leave the destination as it was, which is unspecified for fresh memory and
0 here. -/
def buffer_read_raw (buf : List Nat) (size : Nat) : List Nat × List Nat :=
  ((buf ++ List.replicate (size - buf.length) 0).take size, buf.drop size)

/-- Modelled from the spec: the read position moves on by `size` bytes. -/
def buffer_skip (buf : List Nat) (size : Nat) : List Nat := buf.drop size

/-- Modelled from the spec: `array_next` of `core/array.h`: the slot at position
`size` becomes a new item (zeroed, id set by `create_new_path`) and the pool
grows by one; memory for it was reserved before. -/
def array_next (a : Pool) : Nat × Pool :=
  (a.size, { a with
    items := a.items.take a.size ++ [create_new_path zero_path a.size] ++
      a.items.drop (a.size + 1),
    size := a.size + 1 })

/-- Modelled from the spec: `array_expand` of `core/array.h` reserves memory for
`size` items and fails when memory runs out. -/
def array_expand (alloc : Nat → Bool) (a : Pool) (size : Nat) : Option Pool :=
  if alloc size then some a else none

/-- Body of the loop of `figure_route_clear_all`, which leaves `figure_id` as it
is. -/
def clear_path (path : figure_path_data) : figure_path_data :=
  { path with directions := none, total_directions := 0, current_step := 0,
              same_direction_count := 0 }

def figure_route_clear_all (paths : Pool) : Pool :=
  { paths with
    items := foreach_slot (fun _ path => clear_path path) paths.size 0 paths.items,
    size := 0 }

/-- The second `array_foreach` of `figure_route_save_state` on the slots `l`:
the bytes it adds to the buffer `figures` and to the buffer `buf_paths`. `none`
is a `buffer_write_raw` that reads outside the buffer of a record. -/
def save_slots : List figure_path_data → List Nat → List Nat → Option (List Nat × List Nat)
  | [], figures, buf_paths => some (figures, buf_paths)
  | path :: rest, figures, buf_paths =>
    if path.total_directions ≤ (path.directions.getD []).length then
      save_slots rest (buffer_write_u32 figures path.figure_id)
        (buffer_write_raw (buffer_write_u32 buf_paths path.total_directions)
          (path.directions.getD []) path.total_directions)
    else none

/-- The two buffers `figures` and `buf_paths` that `figure_route_save_state`
fills; they are created with exactly the sizes the writes fill. -/
def figure_route_save_state (paths : Pool) : Option (List Nat × List Nat) :=
  save_slots (paths.items.take paths.size) [] (buffer_write_u32 [] paths.size)

/-- The variables of the loop of `figure_route_load_state`: the pool and what is
left to read of the two buffers. -/
structure Loading where
  paths : Pool
  figures : List Nat
  buf_paths : List Nat
  deriving DecidableEq, Repr

/-- The record `*path` and the buffers after the version-dependent part of one
iteration of the loop of `figure_route_load_state`; the flag is false when the
iteration left the function through a `return`. `none` is undefined behaviour in
`convert_old_directions_to_new_format`. -/
def load_record (alloc : Nat → Bool) (figure_table : List figure) (legacy : Bool)
    (path : figure_path_data) (figures buf_paths : List Nat) :
    Option (Bool × figure_path_data × List Nat × List Nat) :=
  if legacy then
    let r := buffer_read_i16 figures
    let path1 := { path with figure_id := (r.1 % 4294967296).toNat }
    if path1.figure_id ≠ 0 then
      let d := buffer_read_raw buf_paths MAX_ORIGINAL_PATH_LENGTH
      match convert_old_directions_to_new_format alloc figure_table path1 d.1 with
      | none => none
      | some (ok, path2) => some (decide (ok ≠ 0), path2, r.2, d.2)
    else some (true, path1, r.2, buffer_skip buf_paths MAX_ORIGINAL_PATH_LENGTH)
  else
    let r := buffer_read_u32 figures
    let t := buffer_read_u32 buf_paths
    let path1 := { path with figure_id := r.1, total_directions := t.1 }
    if path1.figure_id ≠ 0 then
      if !alloc path1.total_directions then
        some (false, { path1 with directions := none }, r.2, t.2)
      else
        let d := buffer_read_raw t.2 path1.total_directions
        some (true, { path1 with directions := some d.1 }, r.2, d.2)
    else some (true, path1, r.2, buffer_skip t.2 path1.total_directions)

/-- One iteration of the loop of `figure_route_load_state`. -/
def load_element (alloc : Nat → Bool) (figure_table : List figure) (legacy : Bool)
    (st : Loading) : Option (Bool × Loading) :=
  let n := array_next st.paths
  match n.2.items.get? n.1 with
  | none => none
  | some path =>
    match load_record alloc figure_table legacy path st.figures st.buf_paths with
    | none => none
    | some (false, path1, figures, buf_paths) =>
      some (false, { paths := { n.2 with items := n.2.items.set n.1 path1 },
                     figures := figures, buf_paths := buf_paths })
    | some (true, path1, figures, buf_paths) =>
      if path1.figure_id ≠ 0 then
        match update_current_tile figure_table path1 with
        | none => none
        | some path2 =>
          some (true, { paths := { n.2 with items := n.2.items.set n.1 path2 },
                        figures := figures, buf_paths := buf_paths })
      else
        some (true, { paths := { n.2 with items := n.2.items.set n.1 path1 },
                      figures := figures, buf_paths := buf_paths })

/-- The loop `for (i = 0; i < elements_to_load; i++)` with `fuel` iterations
left. -/
def load_elements (alloc : Nat → Bool) (figure_table : List figure) (legacy : Bool) :
    Nat → Loading → Option (Bool × Loading)
  | 0, st => some (true, st)
  | fuel + 1, st =>
    match load_element alloc figure_table legacy st with
    | none => none
    | some (false, st1) => some (false, st1)
    | some (true, st1) => load_elements alloc figure_table legacy fuel st1

/-- The pool after `figure_route_load_state`; `paths` is the pool before, which
stays when the array cannot be created. The constant
`SAVE_GAME_LAST_STATIC_PATHS_AND_ROUTES` of `game/save_version.h` and the figure
table are parameters. `none` is undefined behaviour. -/
def figure_route_load_state (alloc : Nat → Bool) (figure_table : List figure)
    (SAVE_GAME_LAST_STATIC_PATHS_AND_ROUTES : Int) (paths : Pool)
    (figures buf_paths : List Nat) (version : Int) : Option Pool :=
  let legacy := decide (version ≤ SAVE_GAME_LAST_STATIC_PATHS_AND_ROUTES)
  let elements_to_load :=
    if legacy then buf_paths.length / MAX_ORIGINAL_PATH_LENGTH else (buffer_read_u32 buf_paths).1
  let buf_paths1 := if legacy then buf_paths else (buffer_read_u32 buf_paths).2
  match (array_init alloc).bind (fun a => array_expand alloc a elements_to_load) with
  | none => some paths
  | some a =>
    match load_elements alloc figure_table legacy elements_to_load
        { paths := a, figures := figures, buf_paths := buf_paths1 } with
    | none => none
    | some (false, st) => some st.paths
    | some (true, st) => some (array_trim st.paths)
/-- The four bytes of a `u32`, low byte first. -/
def u32_bytes (value : Nat) : List Nat :=
  [value % 256, value / 256 % 256, value / 65536 % 256, value / 16777216 % 256]

/-- The bytes the slots `l` take in the buffer `figures`: one `u32` each, the
`figure_id`. -/
def owner_bytes (l : List figure_path_data) : List Nat :=
  l.flatMap (fun path => u32_bytes path.figure_id)

/-- The bytes the slots `l` take in the buffer `buf_paths`: per slot a `u32`, the
entry count `total_directions`, and that many packed bytes. -/
def path_bytes (l : List figure_path_data) : List Nat :=
  l.flatMap (fun path => u32_bytes path.total_directions ++
    (path.directions.getD []).take path.total_directions)
/-- The slot `q` holds what was saved for the slot `p`: the same `figure_id` and
`total_directions`, and for a slot with an owner the same packed bytes. -/
def SameSaved (p q : figure_path_data) : Prop :=
  q.figure_id = p.figure_id ∧ q.total_directions = p.total_directions ∧
  (p.figure_id ≠ 0 → q.directions = some ((p.directions.getD []).take p.total_directions)) ∧
  (p.figure_id = 0 → q.directions = none)

/-! ## The ownership invariant -/

/-- The record has a direction buffer whose length is `total_directions`. -/
def OwnsBuffer (p : figure_path_data) : Prop :=
  ∃ buf, p.directions = some buf ∧ buf.length = p.total_directions

/-- The ownership invariant of a slot as C24 states it. -/
def Owned (p : figure_path_data) : Prop := p.figure_id ≠ 0 → OwnsBuffer p

/-- The ownership invariant of a slot with the exception a legacy load brings:
an owner with no buffer at all and `total_directions` 0. -/
def OwnedOrEmpty (p : figure_path_data) : Prop :=
  p.figure_id ≠ 0 → OwnsBuffer p ∨ (p.directions = none ∧ p.total_directions = 0)

/-- Every slot of the pool (the slots below `size`, which exist in memory) has the
property `P`. -/
def PoolSlots (P : figure_path_data → Prop) (a : Pool) : Prop :=
  a.size ≤ a.items.length ∧ ∀ i p, i < a.size → a.items.get? i = some p → P p

/-- What the proofs use of a property of slots: free slots have it, it depends
on `figure_id`, `directions` and `total_directions` only, and a record with a
buffer of `total_directions` entries has it. -/
structure SlotProperty (P : figure_path_data → Prop) : Prop where
  free : ∀ p, p.figure_id = 0 → P p
  same : ∀ p q, q.figure_id = p.figure_id → q.directions = p.directions →
    q.total_directions = p.total_directions → P p → P q
  full : ∀ p buf, p.directions = some buf → buf.length = p.total_directions → P p

/-- The pools that can be reached from the empty pool through the operations of
`route.c`, each with any arguments; loads run without allocation failure, and
loads in the legacy format are among the steps when `legacy_loads` is true. -/
inductive Reachable (legacy_loads : Bool) : Pool → Prop where
  | empty : Reachable legacy_loads ⟨[], 0, 0⟩
  | add (alloc : Nat → Bool) (r : Routing) (random_byte fuel : Nat) (m : Map) (s : Directions)
      (paths : Pool) (f : figure) (out : Added) :
      Reachable legacy_loads paths →
      figure_route_add alloc r random_byte fuel ⟨m, s, paths⟩ f = some out →
      Reachable legacy_loads out.state.paths
  | remove (paths : Pool) (f : figure) (out : Pool × figure) :
      Reachable legacy_loads paths → figure_route_remove paths f = some out →
      Reachable legacy_loads out.1
  | clean (figures : List figure) (paths : Pool) :
      Reachable legacy_loads paths → Reachable legacy_loads (figure_route_clean figures paths)
  | clear_all (paths : Pool) :
      Reachable legacy_loads paths → Reachable legacy_loads (figure_route_clear_all paths)
  | next (paths : Pool) (path_id : Nat) (d : Int) (items : List figure_path_data) :
      Reachable legacy_loads paths →
      figure_route_get_next_direction paths.items path_id = some (d, items) →
      Reachable legacy_loads { paths with items := items }
  | load (figure_table : List figure) (SAVE_GAME_LAST_STATIC_PATHS_AND_ROUTES version : Int)
      (paths loaded : Pool) (figures buf_paths : List Nat) :
      Reachable legacy_loads paths →
      (legacy_loads = true ∨ SAVE_GAME_LAST_STATIC_PATHS_AND_ROUTES < version) →
      figure_route_load_state alloc_ok figure_table SAVE_GAME_LAST_STATIC_PATHS_AND_ROUTES
        paths figures buf_paths version = some loaded →
      Reachable legacy_loads loaded

/-! ## Grid slices (`grid.c`) -/

def MAX_SLICE_SIZE : Nat := 162 * 162

def map_grid_is_valid_offset (grid_offset : Int) : Bool :=
  decide (grid_offset ≥ 0) && decide (grid_offset < GRID_SIZE * GRID_SIZE)

def map_grid_chess_distance (m : Map) (offset1 offset2 : Int) : Int :=
  let x1 := map_grid_offset_to_x m offset1
  let y1 := map_grid_offset_to_y m offset1
  let x2 := map_grid_offset_to_x m offset2
  let y2 := map_grid_offset_to_y m offset2
  let dx : Int := (x2 - x1).natAbs
  let dy : Int := (y2 - y1).natAbs
  if dx > dy then dx else dy

/-- The slice that `grid_slice_pool_commit` stores: the first `size` entries of
`grid_offsets`, at most `MAX_SLICE_SIZE` of them. -/
def allocate_grid_slice_memory_from_offsets (offsets : List Int) : List Int :=
  offsets.take MAX_SLICE_SIZE

/-- The values `-outer_radius, ..., outer_radius` of `dy` and of `dx`. -/
def ring_range (outer_radius : Int) : List Int :=
  (List.range (2 * outer_radius + 1).toNat).map (fun i => (i : Int) - outer_radius)

/-- The pairs `(dy, dx)` in the order the two nested `for` loops of
`map_grid_get_grid_slice_ring` run through them. -/
def ring_cells (outer_radius : Int) : List (Int × Int) :=
  (ring_range outer_radius).flatMap (fun dy => (ring_range outer_radius).map (fun dx => (dy, dx)))

/-- Body of the inner loop of `map_grid_get_grid_slice_ring` on the array `tmp`
(its first `count` entries); the flag says that the function has returned. -/
def ring_body (m : Map) (center_x center_y inner_radius outer_radius : Int)
    (st : List Int × Bool) (c : Int × Int) : List Int × Bool :=
  if st.2 then st
  else if st.1.length ≥ MAX_SLICE_SIZE then (st.1, true)
  else
    let dy := c.1
    let dx := c.2
    let distance : Int := if dx.natAbs > dy.natAbs then dx.natAbs else dy.natAbs
    if distance > inner_radius ∧ distance ≤ outer_radius then
      let x := center_x + dx
      let y := center_y + dy
      if x < 0 ∨ y < 0 then st
      else if x > GRID_SIZE ∨ y > GRID_SIZE then st
      else
        let offset := map_grid_offset m x y
        if map_grid_is_valid_offset offset then (st.1 ++ [offset], false) else st
    else st

/-- The grid offsets of the slice returned. -/
def map_grid_get_grid_slice_ring (m : Map) (center_grid_offset inner_radius outer_radius : Int) :
    List Int :=
  let center_x := map_grid_offset_to_x m center_grid_offset
  let center_y := map_grid_offset_to_y m center_grid_offset
  allocate_grid_slice_memory_from_offsets
    ((ring_cells outer_radius).foldl (ring_body m center_x center_y inner_radius outer_radius)
      ([], false)).1

def map_grid_get_grid_slice_from_center (m : Map) (center_grid_offset radius : Int) : List Int :=
  map_grid_get_grid_slice_ring m center_grid_offset 0 radius

/-- A map of 160 by 160 tiles in the grid: `start_offset` is 163. -/
def large_map : Map :=
  { start_offset := 163, map_routing_distance := fun _ => 0,
    map_terrain_is_highway := fun _ => false, map_random_get := fun _ => 0 }

/-! ## Saving and loading the formulas (`controller.c`) -/

/-- The record `scenario_formula_t` of `scenario/event/formula.h`, which is not
among the sources, with the fields that `controller.c` saves and loads. -/
structure scenario_formula_t where
  id : Nat
  formatted_calculation : List Nat
  evaluation : Int
  is_static : Nat
  is_error : Nat
  min_evaluation : Int
  max_evaluation : Int
  deriving DecidableEq, Repr

/-- A formula of zero bytes; its text has `MAX_FORMULA_LENGTH` bytes. -/
def zero_formula (MAX_FORMULA_LENGTH : Nat) : scenario_formula_t :=
  ⟨0, List.replicate MAX_FORMULA_LENGTH 0, 0, 0, 0, 0, 0⟩

/-- Modelled from the spec: `buffer_init_dynamic_array` of `core/buffer.h` starts
the buffer with two `u32`, the number of records and the size of a record. -/
def buffer_init_dynamic_array (array_size struct_size : Nat) : List Nat :=
  buffer_write_u32 (buffer_write_u32 [] array_size) struct_size

/-- Modelled from the spec: `buffer_load_dynamic_array` of `core/buffer.h` reads
the two `u32` at the start and returns the number of records. -/
def buffer_load_dynamic_array (buf : List Nat) : Nat × List Nat :=
  ((buffer_read_u32 buf).1, (buffer_read_u32 (buffer_read_u32 buf).2).2)

/-- Body of the loop of `formulas_save_state` for the formula `f` with index
`id`. -/
def save_formula (MAX_FORMULA_LENGTH : Nat) (buf : List Nat) (id : Nat)
    (f : scenario_formula_t) : List Nat :=
  buffer_write_i32
    (buffer_write_i32
      (buffer_write_u8
        (buffer_write_u8
          (buffer_write_i32
            (buffer_write_raw (buffer_write_u32 buf id) f.formatted_calculation
              MAX_FORMULA_LENGTH)
            f.evaluation)
          f.is_static)
        f.is_error)
      f.min_evaluation)
    f.max_evaluation

/-- The constant `MAX_FORMULA_LENGTH` of `formula.h` is a parameter; the table
`scenario_formulas` is a list and `scenario_formulas[id]` its entry `id`. -/
def formulas_save_state (MAX_FORMULA_LENGTH : Nat) (scenario_formulas : List scenario_formula_t)
    (scenario_formulas_size : Nat) : List Nat :=
  ((List.range scenario_formulas_size).map (fun i => i + 1)).foldl
    (fun buf id => save_formula MAX_FORMULA_LENGTH buf id
      (scenario_formulas.getD id (zero_formula MAX_FORMULA_LENGTH)))
    (buffer_init_dynamic_array scenario_formulas_size
      (4 + MAX_FORMULA_LENGTH + 4 + 2 + 4 * 2))

/-- The variables of the loop of `formulas_load_state`. A write to
`scenario_formulas[id]` with `id` outside the table is undefined in C; it leaves
the table as it is and is recorded in `stray_writes`. -/
structure FormulaLoading where
  buf : List Nat
  scenario_formulas : List scenario_formula_t
  max_id : Nat
  stray_writes : List Nat
  deriving DecidableEq, Repr

/-- Body of the loop of `formulas_load_state`. -/
def load_formula (MAX_FORMULAS MAX_FORMULA_LENGTH : Nat) (st : FormulaLoading) :
    FormulaLoading :=
  let r := buffer_read_u32 st.buf
  let id := r.1
  let old := st.scenario_formulas.getD id (zero_formula MAX_FORMULA_LENGTH)
  if id ≥ MAX_FORMULAS then
    { st with buf := buffer_skip r.2 (MAX_FORMULA_LENGTH + 4),
              stray_writes := st.stray_writes ++ [id] }
  else
    let text := buffer_read_raw r.2 MAX_FORMULA_LENGTH
    let evaluation := buffer_read_i32 text.2
    let is_static := buffer_read_u8 evaluation.2
    let is_error := buffer_read_u8 is_static.2
    let min_evaluation := buffer_read_i32 is_error.2
    let max_evaluation := buffer_read_i32 min_evaluation.2
    { buf := max_evaluation.2,
      scenario_formulas := st.scenario_formulas.set id
        { old with id := id,
                   formatted_calculation := text.1.set (MAX_FORMULA_LENGTH - 1) 0,
                   evaluation := evaluation.1, is_static := is_static.1,
                   is_error := is_error.1, min_evaluation := min_evaluation.1,
                   max_evaluation := max_evaluation.1 },
      max_id := if id > st.max_id then id else st.max_id,
      stray_writes := st.stray_writes }

/-- The loop `for (i = 0; i < array_size; ++i)`. -/
def load_formulas (MAX_FORMULAS MAX_FORMULA_LENGTH : Nat) : Nat → FormulaLoading → FormulaLoading
  | 0, st => st
  | fuel + 1, st =>
    load_formulas MAX_FORMULAS MAX_FORMULA_LENGTH fuel
      (load_formula MAX_FORMULAS MAX_FORMULA_LENGTH st)

/-- The constants `MAX_FORMULAS` and `MAX_FORMULA_LENGTH` of `formula.h` are
parameters. The result holds the table `scenario_formulas`, the value of
`scenario_formulas_size` (as `max_id`) and the writes outside the table. -/
def formulas_load_state (MAX_FORMULAS MAX_FORMULA_LENGTH : Nat) (buf : List Nat) :
    FormulaLoading :=
  let r := buffer_load_dynamic_array buf
  load_formulas MAX_FORMULAS MAX_FORMULA_LENGTH r.1
    { buf := r.2,
      scenario_formulas := List.replicate MAX_FORMULAS (zero_formula MAX_FORMULA_LENGTH),
      max_id := 0, stray_writes := [] }

/-- A formulas buffer of two records: a record with the id `MAX_FORMULAS` and a
payload of zero bytes, as `formulas_save_state` writes it for an empty formula,
and the record of the formula `good` with id 1. -/
def malformed_formulas (MAX_FORMULAS MAX_FORMULA_LENGTH : Nat) (good : scenario_formula_t) :
    List Nat :=
  save_formula MAX_FORMULA_LENGTH
    (save_formula MAX_FORMULA_LENGTH
      (buffer_init_dynamic_array 2 (4 + MAX_FORMULA_LENGTH + 4 + 2 + 4 * 2))
      MAX_FORMULAS (zero_formula MAX_FORMULA_LENGTH))
    1 good

/-! ## Grid deltas (`grid.c`) -/

def map_grid_delta (x y : Int) : Int := y * GRID_SIZE + x
/-! ## The indices of the conversion of old paths -/

/-- The index of `new_directions` that one iteration of the loop of
`convert_old_directions_to_new_format` reads and writes:
`total_direction_changes` when it opens an entry, and
`total_direction_changes - 1`, in `unsigned int` arithmetic, when it extends
the last one. -/
def convert_step_index (c : Conversion) (direction : Nat) : Nat :=
  if (direction : Int) ≠ c.current_direction ∨
      c.current_count = ROUTING_PATH_DIRECTION_COUNT_BIT_MASK then
    c.total_direction_changes
  else (c.total_direction_changes + 4294967295) % 4294967296

/-- The local variables of `convert_old_directions_to_new_format` before its
loop. -/
def conversion_start : Conversion :=
  { new_directions := List.replicate MAX_ORIGINAL_PATH_LENGTH 0, current_direction := -1,
    total_direction_changes := 0, current_count := 0 }

/-- What the loop of the conversion keeps true after `index` iterations. -/
def ConversionInv (c : Conversion) (index : Nat) : Prop :=
  c.total_direction_changes ≤ index ∧
  c.new_directions.length = MAX_ORIGINAL_PATH_LENGTH ∧
  (index = 0 → c.current_direction = -1) ∧
  (0 < index → 1 ≤ c.total_direction_changes ∧ 0 ≤ c.current_direction)
/-! ## The table of formulas (`controller.c`) -/

/-- The array `scenario_formulas`, which has `MAX_FORMULAS` entries, and the
variable `scenario_formulas_size`. -/
structure FormulaTable where
  scenario_formulas : List scenario_formula_t
  scenario_formulas_size : Nat
  deriving DecidableEq, Repr

/-- The two statements under "Clear formulas" of `scenario_events_clear`. -/
def clear_formulas (MAX_FORMULAS MAX_FORMULA_LENGTH : Nat) : FormulaTable :=
  { scenario_formulas := List.replicate MAX_FORMULAS (zero_formula MAX_FORMULA_LENGTH),
    scenario_formulas_size := 0 }

/-- The function `strncpy` of the C library on lists of bytes: the bytes of
`src` before its first 0, at most `n` of them, then zeros up to `n` bytes; the
bytes of `dest` from position `n` on stay. -/
def strncpy (dest src : List Nat) (n : Nat) : List Nat :=
  let text := (src.takeWhile (fun b => b != 0)).take n
  text ++ List.replicate (n - text.length) 0 ++ dest.drop n

/-- The constants `MAX_FORMULAS` and `MAX_FORMULA_LENGTH` and the function
`scenario_event_formula_check` of `formula.h` are parameters, and so is the
value `calculation` that the local variable of that name holds before it is
assigned (indeterminate in C). The variable `scenario_formulas_size` is an
`unsigned int`. The result is the return value and the table afterwards. -/
def scenario_formula_add (MAX_FORMULAS MAX_FORMULA_LENGTH : Nat)
    (scenario_event_formula_check : scenario_formula_t → Int × scenario_formula_t)
    (calculation : scenario_formula_t) (st : FormulaTable) (formatted_calculation : List Nat)
    (min_limit max_limit : Int) : Nat × FormulaTable :=
  let size := (st.scenario_formulas_size + 1) % 4294967296
  if size ≥ MAX_FORMULAS then
    (0, { st with scenario_formulas_size := size })
  else
    let calculation1 : scenario_formula_t :=
      { calculation with
        min_evaluation := min_limit, max_evaluation := max_limit, id := size, evaluation := 0,
        formatted_calculation := strncpy calculation.formatted_calculation
          formatted_calculation (MAX_FORMULA_LENGTH - 1) }
    (calculation1.id,
      { scenario_formulas :=
          st.scenario_formulas.set size (scenario_event_formula_check calculation1).2,
        scenario_formulas_size := size })

/-- The index of the entry of `scenario_formulas` that the pointer returned
refers to; `none` is the null pointer. -/
def scenario_formula_get (st : FormulaTable) (id : Nat) : Option Nat :=
  if id = 0 ∨ id > st.scenario_formulas_size then none else some id

/-- The arguments of one call of `scenario_formula_add`: the text and the two
limits. -/
structure FormulaCall where
  formatted_calculation : List Nat
  min_limit : Int
  max_limit : Int
  deriving DecidableEq, Repr

/-- The table after a sequence of calls of `scenario_formula_add`. -/
def scenario_formula_adds (MAX_FORMULAS MAX_FORMULA_LENGTH : Nat)
    (scenario_event_formula_check : scenario_formula_t → Int × scenario_formula_t)
    (calculation : scenario_formula_t) (st : FormulaTable) (calls : List FormulaCall) :
    FormulaTable :=
  calls.foldl (fun t c => (scenario_formula_add MAX_FORMULAS MAX_FORMULA_LENGTH
    scenario_event_formula_check calculation t c.formatted_calculation c.min_limit
    c.max_limit).2) st
/-! ## Well-formed distance fields -/

/-- The fields of claim C35: no tile is a highway, and every tile with a
distance above 1 has, among the directions of the mode, a neighbour with a
non-zero distance that is strictly less. -/
def WellFormedField (m : Map) (num_directions : Int) : Prop :=
  (∀ o, m.map_terrain_is_highway o = false) ∧
  ∀ g, m.map_routing_distance g > 1 →
    ∃ e ∈ loop_directions (direction_step num_directions),
      m.map_routing_distance (g + map_grid_direction_delta e) ≠ 0 ∧
      m.map_routing_distance (g + map_grid_direction_delta e) < m.map_routing_distance g

/-- What the land walk keeps true of its variables on a well-formed field:
`distance` is the distance of the current tile, and the tile the walk came
from, which `last_direction` leads back to, has a greater distance. -/
def Descending (m : Map) (w : Pos) : Prop :=
  w.distance = m.map_routing_distance w.grid_offset ∧
  (w.last_direction = -1 ∨
    (0 ≤ w.last_direction ∧ w.last_direction ≤ 7 ∧
      w.distance <
        m.map_routing_distance (w.grid_offset + map_grid_direction_delta w.last_direction)))

/-- A field on one row: the distance of the tile with offset `o` is `o - 162`
for the offsets 163 to 172, and 0 elsewhere. -/
def row_map : Map where
  start_offset := 163
  map_routing_distance := fun o => if 163 ≤ o ∧ o ≤ 172 then o - 162 else 0
  map_terrain_is_highway := fun _ => false
  map_random_get := fun _ => 0

/-! # Properties -/

/-! ## Lemmas on the decoder -/

theorem mask_eq : ROUTING_PATH_DIRECTION_COUNT_BIT_MASK = 31 := by decide

theorem entry_count_le (b : Nat) : entry_count b ≤ 31 := by
  unfold entry_count
  rw [mask_eq]
  exact Nat.and_le_right

theorem entry_tiles_le (b : Nat) : entry_tiles b ≤ 32 := by
  have := entry_count_le b
  unfold entry_tiles
  omega

theorem entry_tiles_pos (b : Nat) : 0 < entry_tiles b := by
  unfold entry_tiles
  omega

theorem unit_steps_length (buf : List Nat) : (unit_steps buf).length = stored_steps buf := by
  induction buf with
  | nil => rfl
  | cons b bs ih => simp [unit_steps, stored_steps, ih] at *

theorem unit_steps_append (a b : List Nat) : unit_steps (a ++ b) = unit_steps a ++ unit_steps b := by
  induction a with
  | nil => rfl
  | cons x xs ih => simp [unit_steps, ih]

/-- One call of the decoder inside an entry that is not yet used up. -/
theorem next_direction_of_record_inside (p : figure_path_data) (buf : List Nat) (b : Nat)
    (hbuf : p.directions = some buf) (hb : buf.get? p.current_step = some b)
    (hlt : p.current_step < p.total_directions)
    (hc : p.same_direction_count + 1 < entry_tiles b) :
    next_direction_of_record p =
      some (entry_direction b, { p with same_direction_count := p.same_direction_count + 1 }) := by
  have h32 := entry_tiles_le b
  have hmod : (p.same_direction_count + 1) % 256 = p.same_direction_count + 1 := by omega
  unfold next_direction_of_record
  rw [if_neg (by omega), hbuf]
  simp only [hb, hmod]
  rw [if_neg (by unfold entry_tiles entry_count at hc; omega)]
  rfl

/-- The call of the decoder that uses up an entry moves to the next entry. -/
theorem next_direction_of_record_last (p : figure_path_data) (buf : List Nat) (b : Nat)
    (hbuf : p.directions = some buf) (hb : buf.get? p.current_step = some b)
    (hlt : p.current_step < p.total_directions)
    (hc : p.same_direction_count + 1 = entry_tiles b) :
    next_direction_of_record p =
      some (entry_direction b,
        { p with current_step := p.current_step + 1, same_direction_count := 0 }) := by
  have h32 := entry_tiles_le b
  have hmod : (p.same_direction_count + 1) % 256 = p.same_direction_count + 1 := by omega
  unfold next_direction_of_record
  rw [if_neg (by omega), hbuf]
  simp only [hb, hmod]
  rw [if_pos (by unfold entry_tiles entry_count at hc; omega)]
  rfl

/-- The decoder past the last entry returns the sentinel and changes nothing. -/
theorem next_direction_of_record_exhausted (p : figure_path_data)
    (h : p.total_directions ≤ p.current_step) :
    next_direction_of_record p = some (8, p) := by
  unfold next_direction_of_record
  rw [if_pos h]

/-- Using up the rest of the current entry: `m` calls return its direction `m` times. -/
theorem next_directions_of_record_run (m : Nat) :
    ∀ (p : figure_path_data) (buf : List Nat) (b : Nat),
      p.directions = some buf → buf.get? p.current_step = some b →
      p.current_step < p.total_directions →
      p.same_direction_count + (m + 1) = entry_tiles b →
      next_directions_of_record p (m + 1) =
        some (List.replicate (m + 1) (entry_direction b),
          { p with current_step := p.current_step + 1, same_direction_count := 0 }) := by
  induction m with
  | zero =>
    intro p buf b hbuf hb hlt hc
    simp only [next_directions_of_record,
      next_direction_of_record_last p buf b hbuf hb hlt (by omega)]
    rfl
  | succ m ih =>
    intro p buf b hbuf hb hlt hc
    have h1 := next_direction_of_record_inside p buf b hbuf hb hlt (by omega)
    have h2 := ih { p with same_direction_count := p.same_direction_count + 1 } buf b
      hbuf hb hlt (by simp only; omega)
    rw [next_directions_of_record, h1]
    simp only [h2]
    rfl

theorem next_directions_of_record_append (n m : Nat) :
    ∀ (p p1 p2 : figure_path_data) (xs ys : List Int),
      next_directions_of_record p n = some (xs, p1) →
      next_directions_of_record p1 m = some (ys, p2) →
      next_directions_of_record p (n + m) = some (xs ++ ys, p2) := by
  induction n with
  | zero =>
    intro p p1 p2 xs ys h1 h2
    simp only [next_directions_of_record, Option.some.injEq, Prod.mk.injEq] at h1
    obtain ⟨rfl, rfl⟩ := h1
    simpa using h2
  | succ n ih =>
    intro p p1 p2 xs ys h1 h2
    rw [next_directions_of_record] at h1
    rw [show n + 1 + m = (n + m) + 1 by omega, next_directions_of_record]
    cases hq : next_direction_of_record p with
    | none => simp [hq] at h1
    | some r =>
      obtain ⟨d, q⟩ := r
      simp only [hq] at h1 ⊢
      cases hr : next_directions_of_record q n with
      | none => simp [hr] at h1
      | some r2 =>
        obtain ⟨zs, q2⟩ := r2
        simp only [hr, Option.some.injEq, Prod.mk.injEq] at h1
        obtain ⟨rfl, rfl⟩ := h1
        rw [ih q q2 p2 zs ys hr h2]
        rfl

/-- Decoding from the start of an entry to the end of the buffer. -/
theorem next_directions_of_record_suffix (suf : List Nat) :
    ∀ (pre : List Nat) (p : figure_path_data),
      p.directions = some (pre ++ suf) → p.total_directions = (pre ++ suf).length →
      p.current_step = pre.length → p.same_direction_count = 0 →
      next_directions_of_record p (stored_steps suf) =
        some (unit_steps suf,
          { p with current_step := p.total_directions, same_direction_count := 0 }) := by
  induction suf with
  | nil =>
    intro pre p _ ht hc hs
    have : p = { p with current_step := p.total_directions, same_direction_count := 0 } := by
      cases p
      simp only [List.append_nil] at ht hc hs ⊢
      subst hc hs ht
      rfl
    simp only [stored_steps, List.map_nil, List.sum_nil, next_directions_of_record, unit_steps]
    rw [← this]
  | cons b bs ih =>
    intro pre p hd ht hc hs
    have hb : (pre ++ b :: bs).get? p.current_step = some b := by
      rw [hc, List.get?_eq_getElem?, List.getElem?_append_right (le_refl _)]
      simp
    have hlt : p.current_step < p.total_directions := by
      rw [hc, ht]
      simp
    have hrun := next_directions_of_record_run (entry_count b) p (pre ++ b :: bs) b hd hb hlt
      (by rw [hs]; unfold entry_tiles; omega)
    have hrest := ih (pre ++ [b])
      { p with current_step := p.current_step + 1, same_direction_count := 0 }
      (by simpa using hd) (by simpa using ht) (by simp [hc]) rfl
    have happ := next_directions_of_record_append _ _ _ _ _ _ _ hrun hrest
    have hsum : stored_steps (b :: bs) = entry_count b + 1 + stored_steps bs := by
      simp [stored_steps, entry_tiles]
    rw [hsum, happ]
    rfl

/-- Decoding a whole record from the fresh cursor yields its unit steps. -/
theorem next_directions_of_record_fresh (p : figure_path_data) (buf : List Nat)
    (hd : p.directions = some buf) (ht : p.total_directions = buf.length) :
    next_directions_of_record (fresh_cursor p) (stored_steps buf) =
      some (unit_steps buf,
        { p with current_step := p.total_directions, same_direction_count := 0 }) :=
  next_directions_of_record_suffix buf [] (fresh_cursor p) (by simpa [fresh_cursor] using hd)
    (by simpa [fresh_cursor] using ht) rfl rfl

theorem set_of_getElem? {α : Type} (l : List α) (i : Nat) (a : α) (h : l[i]? = some a) :
    l.set i a = l := by
  induction l generalizing i with
  | nil => rfl
  | cons x xs ih =>
    cases i with
    | zero =>
      simp at h
      simp [h]
    | succ i =>
      simp at h
      simp [ih i h]

/-- Calls on a slot of the pool are calls on its record. -/
theorem next_directions_of_pool (n : Nat) :
    ∀ (paths : List figure_path_data) (path_id : Nat) (p q : figure_path_data) (ds : List Int),
      paths.get? path_id = some p → next_directions_of_record p n = some (ds, q) →
      next_directions paths path_id n = some (ds, paths.set path_id q) := by
  induction n with
  | zero =>
    intro paths path_id p q ds hp h
    simp only [next_directions_of_record, Option.some.injEq, Prod.mk.injEq] at h
    obtain ⟨rfl, rfl⟩ := h
    have hset : paths.set path_id p = paths := by
      rw [List.get?_eq_getElem?] at hp
      exact set_of_getElem? _ _ _ hp
    simp [next_directions, hset]
  | succ n ih =>
    intro paths path_id p q ds hp h
    rw [next_directions_of_record] at h
    cases h1 : next_direction_of_record p with
    | none => simp [h1] at h
    | some r =>
      obtain ⟨d, p1⟩ := r
      simp only [h1] at h
      cases h2 : next_directions_of_record p1 n with
      | none => simp [h2] at h
      | some r2 =>
        obtain ⟨es, p2⟩ := r2
        simp only [h2, Option.some.injEq, Prod.mk.injEq] at h
        obtain ⟨rfl, rfl⟩ := h
        have hlen : path_id < paths.length := by
          rw [List.get?_eq_getElem?] at hp
          exact (List.getElem?_eq_some_iff.mp hp).1
        have hp1 : (paths.set path_id p1).get? path_id = some p1 := by
          rw [List.get?_eq_getElem?, List.getElem?_set_self (by simpa using hlen)]
        have := ih (paths.set path_id p1) path_id p1 p2 es hp1 h2
        rw [next_directions]
        simp only [figure_route_get_next_direction, hp, h1, this, List.set_set]

/-! ## Lemmas on the encoder -/

theorem pack_direction (r : Nat × Nat) (h : r.2 ≤ 31) : entry_direction (pack r) = (r.1 : Int) := by
  unfold entry_direction pack ROUTING_PATH_DIRECTION_BIT_OFFSET
  rw [Nat.shiftRight_eq_div_pow]
  congr 1
  omega

theorem pack_count (r : Nat × Nat) (h : r.2 ≤ 31) : entry_count (pack r) = r.2 := by
  unfold entry_count pack ROUTING_PATH_DIRECTION_BIT_OFFSET
  rw [mask_eq]
  have := Nat.and_pow_two_sub_one_eq_mod (r.1 * 2 ^ 5 + r.2) 5
  simp only [Nat.reducePow, Nat.add_one_sub_one] at this ⊢
  rw [this]
  omega

theorem range_map_getD_reverse (L rest : List Nat) :
    (List.range L.length).map (fun i => (L ++ rest).getD (L.length - i - 1) 0) = L.reverse := by
  apply List.ext_getElem
  · simp
  · intro i h1 h2
    simp only [List.length_map, List.length_range] at h1
    simp only [List.getElem_map, List.getElem_range, List.getElem_reverse]
    rw [List.getD_eq_getElem?_getD, List.getElem?_append_left (by omega),
      List.getElem?_eq_getElem (by omega), Option.getD_some]
    congr 1
    omega

theorem set_length_append (A rest : List Nat) (x y : Nat) :
    (A ++ x :: rest).set A.length y = A ++ y :: rest := by
  rw [List.set_append_right _ _ (le_refl _)]
  simp

theorem holds_reset (s : Directions) (h : s.size = s.path.length) :
    Holds (reset_directions s) [] where
  size_eq := h
  total_eq := rfl
  entries := ⟨s.path, rfl⟩
  fields := by simp
  cur := rfl
  cnt := rfl

/-- After the growth check there is room for one more byte behind the runs. -/
theorem increase_direction_path_size_room (s : Directions) (R : List (Nat × Nat))
    (h : Holds s R) :
    ∃ x rest, increase_direction_path_size alloc_ok s =
      (true, { s with path := R.reverse.map pack ++ x :: rest,
                      size := (R.reverse.map pack ++ x :: rest).length }) := by
  obtain ⟨rest, hrest⟩ := h.entries
  have hsz := h.size_eq
  have htot := h.total_eq
  have hlen : s.path.length = R.length + rest.length := by
    rw [hrest]
    simp
  unfold increase_direction_path_size
  by_cases hfull : s.total ≥ s.size
  · have hnil : rest = [] := by
      apply List.length_eq_zero.mp
      omega
    subst hnil
    obtain ⟨k, hk⟩ : ∃ k, PATH_SIZE_STEP = k + 1 := ⟨499, rfl⟩
    refine ⟨0, List.replicate k 0, ?_⟩
    rw [if_pos hfull]
    simp only [alloc_ok, Bool.not_true, Bool.false_eq_true, if_false]
    simp only [List.length_nil, Nat.add_zero] at hlen
    have h1 : s.size + PATH_SIZE_STEP - s.path.length = k + 1 := by omega
    have h2 : (List.map pack R.reverse ++ 0 :: List.replicate k 0).length =
        s.size + PATH_SIZE_STEP := by
      simp only [List.length_append, List.length_map, List.length_reverse, List.length_cons,
        List.length_replicate]
      omega
    rw [h1, List.replicate_succ, hrest, h2, List.append_nil]
  · rw [if_neg hfull]
    cases rest with
    | nil =>
      exfalso
      simp at hlen
      omega
    | cons x rest =>
      refine ⟨x, rest, ?_⟩
      cases s
      simp only at hrest hsz
      simp only [Prod.mk.injEq, Directions.mk.injEq, true_and, and_true]
      exact ⟨hrest, by rw [hsz, hrest]⟩

/-- Opening a new entry for direction `d` puts the run `(d, 0)` in front. -/
theorem holds_new_entry (s : Directions) (R : List (Nat × Nat)) (d : Nat) (h : Holds s R)
    (hd : d < 8)
    (hcond : ¬ ((d : Int) = s.current ∧
      s.same_direction_count < ROUTING_PATH_DIRECTION_COUNT_BIT_MASK)) :
    (add_direction_to_path alloc_ok s d).1 = true ∧
      Holds (add_direction_to_path alloc_ok s d).2 ((d, 0) :: R) := by
  obtain ⟨x, rest, hroom⟩ := increase_direction_path_size_room s R h
  have hbyte : (((d : Int) * 2 ^ ROUTING_PATH_DIRECTION_BIT_OFFSET) % 256).toNat = pack (d, 0) := by
    unfold pack ROUTING_PATH_DIRECTION_BIT_OFFSET
    omega
  have hset : (R.reverse.map pack ++ x :: rest).set (s.total + 1 - 1) (pack (d, 0)) =
      R.reverse.map pack ++ pack (d, 0) :: rest := by
    have : s.total + 1 - 1 = (R.reverse.map pack).length := by
      have := h.total_eq
      simp
      omega
    rw [this, set_length_append]
  have hres : add_direction_to_path alloc_ok s d = (true, { s with
      total := s.total + 1, path := R.reverse.map pack ++ pack (d, 0) :: rest,
      size := (R.reverse.map pack ++ x :: rest).length, current := d,
      same_direction_count := 0 }) := by
    unfold add_direction_to_path
    rw [if_neg hcond, hroom]
    simp only [hbyte, hset]
  rw [hres]
  refine ⟨rfl, ?_⟩
  exact {
    size_eq := by simp
    total_eq := by
      simp only [List.length_cons]
      rw [h.total_eq]
    entries := ⟨rest, by simp⟩
    fields := by
      intro r hr
      rcases List.mem_cons.mp hr with rfl | hr
      · exact ⟨hd, by simp⟩
      · exact h.fields r hr
    cur := rfl
    cnt := rfl }

/-- Extending the newest run increments its count field in place. -/
theorem holds_same_entry (s : Directions) (r : Nat × Nat) (t : List (Nat × Nat))
    (h : Holds s (r :: t)) (hc : r.2 < ROUTING_PATH_DIRECTION_COUNT_BIT_MASK) :
    (add_direction_to_path alloc_ok s r.1).1 = true ∧
      Holds (add_direction_to_path alloc_ok s r.1).2 ((r.1, r.2 + 1) :: t) := by
  have hcur := h.cur
  have hcnt := h.cnt
  simp only at hcur hcnt
  have hr := h.fields r (List.mem_cons_self _ _)
  have hc31 : r.2 < 31 := by
    rw [mask_eq] at hc
    exact hc
  obtain ⟨rest, hrest⟩ := h.entries
  have hpath : s.path = t.reverse.map pack ++ pack r :: rest := by
    rw [hrest]
    simp
  have hidx : s.total - 1 = (t.reverse.map pack).length := by
    have := h.total_eq
    simp at this ⊢
    omega
  have hget : s.path.getD (s.total - 1) 0 = pack r := by
    rw [hidx, hpath, List.getD_append_right _ _ _ _ (le_refl _)]
    simp
  have hinc : (pack r + 1) % 256 = pack (r.1, r.2 + 1) := by
    unfold pack ROUTING_PATH_DIRECTION_BIT_OFFSET
    simp only
    omega
  have hset : s.path.set (s.total - 1) (pack (r.1, r.2 + 1)) =
      t.reverse.map pack ++ pack (r.1, r.2 + 1) :: rest := by
    rw [hidx, hpath, set_length_append]
  have hmod : (s.same_direction_count + 1) % 256 = r.2 + 1 := by
    rw [hcnt]
    omega
  have hres : add_direction_to_path alloc_ok s r.1 = (true, { s with
      path := t.reverse.map pack ++ pack (r.1, r.2 + 1) :: rest,
      same_direction_count := r.2 + 1 }) := by
    unfold add_direction_to_path
    rw [if_pos ⟨hcur.symm, by rw [hcnt]; exact hc⟩]
    simp only [hget, hinc, hset, hmod]
  rw [hres]
  refine ⟨rfl, ?_⟩
  exact {
    size_eq := by
      simp only
      rw [h.size_eq, hpath]
      simp
    total_eq := by
      simp only
      rw [h.total_eq]
      rfl
    entries := ⟨rest, by simp⟩
    fields := by
      intro q hq
      rcases List.mem_cons.mp hq with rfl | hq
      · exact ⟨hr.1, by simp only; omega⟩
      · exact h.fields q (List.mem_cons_of_mem _ hq)
    cur := hcur
    cnt := rfl }

/-- One call of `add_direction_to_path` follows `push_run` and does not fail. -/
theorem holds_add (s : Directions) (R : List (Nat × Nat)) (d : Nat) (h : Holds s R)
    (hd : d < 8) :
    (add_direction_to_path alloc_ok s d).1 = true ∧
      Holds (add_direction_to_path alloc_ok s d).2 (push_run d R) := by
  cases R with
  | nil =>
    apply holds_new_entry s [] d h hd
    have := h.cur
    simp only at this
    rw [this]
    omega
  | cons r t =>
    have hcur := h.cur
    have hcnt := h.cnt
    simp only at hcur hcnt
    by_cases hc : d = r.1 ∧ r.2 < ROUTING_PATH_DIRECTION_COUNT_BIT_MASK
    · simp only [push_run, if_pos hc]
      obtain ⟨rfl, hc2⟩ := hc
      exact holds_same_entry s r t h hc2
    · simp only [push_run, if_neg hc]
      apply holds_new_entry s (r :: t) d h hd
      rw [hcur, hcnt]
      intro hx
      apply hc
      exact ⟨by exact_mod_cast hx.1, hx.2⟩

/-- Appending a sequence of directions follows `push_runs`. -/
theorem holds_add_directions (ds : List Nat) :
    ∀ (s : Directions) (R : List (Nat × Nat)), Holds s R → (∀ d ∈ ds, d < 8) →
      Holds (add_directions alloc_ok s (ds.map Int.ofNat)) (push_runs R ds) := by
  induction ds with
  | nil =>
    intro s R h _
    exact h
  | cons d ds ih =>
    intro s R h hds
    have h1 := (holds_add s R d h (hds d (List.mem_cons_self _ _))).2
    exact ih _ _ h1 (fun e he => hds e (List.mem_cons_of_mem _ he))

/-- What `fill_path_with_directions` stores: the runs, newest first. -/
theorem fill_path_with_directions_holds (s : Directions) (R : List (Nat × Nat))
    (p : figure_path_data) (h : Holds s R) :
    fill_path_with_directions alloc_ok s p =
      (true, { p with directions := some (R.map pack), total_directions := R.length }) := by
  obtain ⟨rest, hrest⟩ := h.entries
  unfold fill_path_with_directions
  simp only [alloc_ok, Bool.not_true, Bool.false_eq_true, if_false]
  have hlen : s.total = (R.reverse.map pack).length := by
    rw [h.total_eq]
    simp
  have := range_map_getD_reverse (R.reverse.map pack) rest
  rw [← hrest, ← hlen] at this
  rw [this, h.total_eq]
  simp

theorem holds_take (s : Directions) (R : List (Nat × Nat)) (h : Holds s R) :
    s.path.take s.total = R.reverse.map pack := by
  obtain ⟨rest, hrest⟩ := h.entries
  rw [hrest, h.total_eq]
  exact List.take_left' (by simp)

/-- A successful growth check does what it does when allocation cannot fail. -/
theorem increase_direction_path_size_of_ok (alloc : Nat → Bool) (s s1 : Directions)
    (h : increase_direction_path_size alloc s = (true, s1)) :
    increase_direction_path_size alloc_ok s = (true, s1) := by
  unfold increase_direction_path_size at h ⊢
  by_cases hfull : s.total ≥ s.size
  · rw [if_pos hfull] at h ⊢
    cases ha : alloc (s.size + PATH_SIZE_STEP) with
    | false => simp [ha] at h
    | true =>
      simp only [ha, Bool.not_true, Bool.false_eq_true, if_false] at h
      simpa [alloc_ok] using h
  · rw [if_neg hfull] at h ⊢
    exact h

/-- A successful `add_direction_to_path` does what it does when allocation cannot fail. -/
theorem add_direction_to_path_of_ok (alloc : Nat → Bool) (s s1 : Directions) (d : Int)
    (h : add_direction_to_path alloc s d = (true, s1)) :
    add_direction_to_path alloc_ok s d = (true, s1) := by
  unfold add_direction_to_path at h ⊢
  by_cases hc : d = s.current ∧ s.same_direction_count < ROUTING_PATH_DIRECTION_COUNT_BIT_MASK
  · rw [if_pos hc] at h ⊢
    exact h
  · rw [if_neg hc] at h ⊢
    cases hi : increase_direction_path_size alloc s with
    | mk ok s2 =>
      cases ok with
      | false => simp [hi] at h
      | true =>
        rw [hi] at h
        rw [increase_direction_path_size_of_ok alloc s s2 hi]
        exact h

/-- A successful `fill_path_with_directions` does what it does when allocation cannot fail. -/
theorem fill_path_with_directions_of_ok (alloc : Nat → Bool) (s : Directions)
    (p p1 : figure_path_data) (h : fill_path_with_directions alloc s p = (true, p1)) :
    fill_path_with_directions alloc_ok s p = (true, p1) := by
  unfold fill_path_with_directions at h ⊢
  cases ha : alloc s.total with
  | false => simp [ha] at h
  | true =>
    simp only [ha, Bool.not_true, Bool.false_eq_true, if_false] at h
    simpa [alloc_ok] using h

/-! ## Lemmas on runs -/

theorem run_steps_push_run (d : Nat) (R : List (Nat × Nat)) :
    run_steps (push_run d R) = d :: run_steps R := by
  cases R with
  | nil => rfl
  | cons r t =>
    by_cases hc : d = r.1 ∧ r.2 < ROUTING_PATH_DIRECTION_COUNT_BIT_MASK
    · obtain ⟨rfl, h2⟩ := hc
      simp only [push_run, h2, and_self, if_true, run_steps, List.replicate_succ,
        List.cons_append]
    · simp only [push_run, if_neg hc, run_steps]
      rfl

theorem run_steps_push_runs (ds : List Nat) :
    ∀ R : List (Nat × Nat), run_steps (push_runs R ds) = ds.reverse ++ run_steps R := by
  induction ds with
  | nil =>
    intro R
    rfl
  | cons d ds ih =>
    intro R
    have := ih (push_run d R)
    rw [run_steps_push_run] at this
    simpa [push_runs] using this

theorem push_run_fields (d : Nat) (R : List (Nat × Nat)) (hd : d < 8)
    (h : ∀ r ∈ R, r.1 < 8 ∧ r.2 ≤ 31) : ∀ r ∈ push_run d R, r.1 < 8 ∧ r.2 ≤ 31 := by
  cases R with
  | nil =>
    intro r hr
    simp only [push_run, List.mem_singleton] at hr
    subst hr
    exact ⟨hd, by simp⟩
  | cons q t =>
    have hq := h q (List.mem_cons_self _ _)
    by_cases hc : d = q.1 ∧ q.2 < ROUTING_PATH_DIRECTION_COUNT_BIT_MASK
    · simp only [push_run, if_pos hc]
      intro r hr
      rcases List.mem_cons.mp hr with rfl | hr
      · have := hc.2
        rw [mask_eq] at this
        exact ⟨hq.1, by simp only; omega⟩
      · exact h r (List.mem_cons_of_mem _ hr)
    · simp only [push_run, if_neg hc]
      intro r hr
      rcases List.mem_cons.mp hr with rfl | hr
      · exact ⟨hd, by simp⟩
      · exact h r hr

theorem unit_steps_pack (R : List (Nat × Nat)) (h : ∀ r ∈ R, r.1 < 8 ∧ r.2 ≤ 31) :
    unit_steps (R.map pack) = (run_steps R).map Int.ofNat := by
  induction R with
  | nil => rfl
  | cons r t ih =>
    have hr := (h r (List.mem_cons_self _ _)).2
    have ht := ih (fun q hq => h q (List.mem_cons_of_mem _ hq))
    simp only [List.map_cons, unit_steps, run_steps, entry_tiles, pack_count r hr,
      pack_direction r hr, ht, List.map_append, List.map_replicate]
    rfl

theorem stored_steps_pack (R : List (Nat × Nat)) (h : ∀ r ∈ R, r.1 < 8 ∧ r.2 ≤ 31) :
    stored_steps (R.map pack) = (run_steps R).length := by
  rw [← unit_steps_length, unit_steps_pack R h, List.length_map]

/-- The runs of `n + 1` equal directions: full entries and one holding the rest. -/
theorem push_runs_replicate (d n : Nat) :
    push_runs [] (List.replicate (n + 1) d) =
      (d, n % 32) :: List.replicate (n / 32) (d, 31) := by
  induction n with
  | zero => rfl
  | succ n ih =>
    rw [List.replicate_succ', push_runs, List.foldl_append]
    change push_run d (push_runs [] (List.replicate (n + 1) d)) = _
    rw [ih]
    by_cases hc : n % 32 < 31
    · have h1 : (n + 1) % 32 = n % 32 + 1 := by omega
      have h2 : (n + 1) / 32 = n / 32 := by omega
      simp only [push_run, mask_eq, hc, and_self, if_true, h1, h2]
    · have h1 : (n + 1) % 32 = 0 := by omega
      have h2 : (n + 1) / 32 = n / 32 + 1 := by omega
      have h3 : n % 32 = 31 := by omega
      simp [push_run, mask_eq, h1, h2, h3, List.replicate_succ]

/-- A list of C `int` directions in `0..7` is a list of naturals below 8. -/
theorem directions_as_nat (ds : List Int) (h : ∀ d ∈ ds, 0 ≤ d ∧ d ≤ 7) :
    (ds.map Int.toNat).map Int.ofNat = ds ∧ ∀ n ∈ ds.map Int.toNat, n < 8 := by
  constructor
  · rw [List.map_map]
    conv_rhs => rw [← List.map_id ds]
    apply List.map_congr_left
    intro d hd
    have := h d hd
    simp only [Function.comp_apply, Int.ofNat_eq_coe, id_eq]
    omega
  · intro n hn
    obtain ⟨d, hd, rfl⟩ := List.mem_map.mp hn
    have := h d hd
    omega

/-! ## The direction codec -/

/-- Encoding from a reset accumulator and storing: the stored record holds the
runs of the sequence, newest first. -/
theorem encode_store (s : Directions) (p : figure_path_data) (ns : List Nat)
    (hwf : s.size = s.path.length) (hns : ∀ n ∈ ns, n < 8) :
    fill_path_with_directions alloc_ok
        (add_directions alloc_ok (reset_directions s) (ns.map Int.ofNat)) p =
      (true, { p with directions := some ((push_runs [] ns).map pack),
                      total_directions := (push_runs [] ns).length }) :=
  fill_path_with_directions_holds _ _ p
    (holds_add_directions ns _ [] (holds_reset s hwf) hns)

theorem push_runs_fields (ns : List Nat) (hns : ∀ n ∈ ns, n < 8) :
    ∀ R : List (Nat × Nat), (∀ r ∈ R, r.1 < 8 ∧ r.2 ≤ 31) →
      ∀ r ∈ push_runs R ns, r.1 < 8 ∧ r.2 ≤ 31 := by
  induction ns with
  | nil =>
    intro R h
    exact h
  | cons n ns ih =>
    intro R h
    exact ih (fun m hm => hns m (List.mem_cons_of_mem _ hm)) _
      (push_run_fields n R (hns n (List.mem_cons_self _ _)) h)

/-- C1. Round trip of the direction codec: resetting the accumulator, appending
the directions `ds` (each in `0..7`) in order and storing the result gives a
record from which `ds.length` successive calls of
`figure_route_get_next_direction`, started at the fresh cursor, return `ds` in
reverse order, step for step. -/
theorem direction_codec_round_trip (s : Directions) (p : figure_path_data)
    (paths : List figure_path_data) (path_id : Nat) (ds : List Int)
    (hwf : s.size = s.path.length) (hds : ∀ d ∈ ds, 0 ≤ d ∧ d ≤ 7)
    (hslot : paths.get? path_id = some (fresh_cursor
      (fill_path_with_directions alloc_ok
        (add_directions alloc_ok (reset_directions s) ds) p).2)) :
    (fill_path_with_directions alloc_ok
        (add_directions alloc_ok (reset_directions s) ds) p).1 = true ∧
    (next_directions paths path_id ds.length).map Prod.fst = some ds.reverse := by
  obtain ⟨hcast, hlt⟩ := directions_as_nat ds hds
  have hstore := encode_store s p (ds.map Int.toNat) hwf hlt
  rw [hcast] at hstore
  rw [hstore] at hslot ⊢
  refine ⟨rfl, ?_⟩
  have hfields := push_runs_fields (ds.map Int.toNat) hlt [] (by simp)
  have hdec := next_directions_of_record_fresh
    { p with directions := some ((push_runs [] (ds.map Int.toNat)).map pack),
             total_directions := (push_runs [] (ds.map Int.toNat)).length }
    ((push_runs [] (ds.map Int.toNat)).map pack) rfl (by simp)
  rw [stored_steps_pack _ hfields, unit_steps_pack _ hfields, run_steps_push_runs] at hdec
  simp only [run_steps, List.append_nil, List.length_reverse, List.length_map,
    List.map_reverse, hcast] at hdec
  rw [next_directions_of_pool _ _ _ _ _ _ hslot hdec]
  rfl

/-- Witness of C1 on the sequence `2, 2, 3` encoded from the empty accumulator. -/
theorem direction_codec_round_trip_witness :
    (fill_path_with_directions alloc_ok
        (add_directions alloc_ok (reset_directions ⟨[], 0, 0, -1, 0⟩) [2, 2, 3])
        ⟨1, 0, 0, none, 0, 0⟩).1 = true ∧
    (next_directions
      [⟨0, 0, 0, none, 0, 0⟩, fresh_cursor (fill_path_with_directions alloc_ok
        (add_directions alloc_ok (reset_directions ⟨[], 0, 0, -1, 0⟩) [2, 2, 3])
        ⟨1, 0, 0, none, 0, 0⟩).2] 1 3).map Prod.fst = some [3, 2, 2] :=
  direction_codec_round_trip ⟨[], 0, 0, -1, 0⟩ ⟨1, 0, 0, none, 0, 0⟩ _ 1 [2, 2, 3] rfl
    (by decide) rfl

/-- C4. Run cap: appending `n` equal directions `d` to a reset accumulator builds
`ceil(n / 32)` entries of direction `d`; all but the last have count field 31
and the last holds the rest, `(n - 1) % 32`. For `n = 40` these are two
entries, with count fields 31 (32 steps) and 7 (8 steps). -/
theorem run_cap (s : Directions) (d : Int) (n : Nat)
    (hwf : s.size = s.path.length) (hd : 0 ≤ d ∧ d ≤ 7) :
    (add_directions alloc_ok (reset_directions s) (List.replicate n d)).total = (n + 31) / 32 ∧
    (0 < n →
      (packed_entries
        (add_directions alloc_ok (reset_directions s) (List.replicate n d))).map entry_fields =
        List.replicate ((n - 1) / 32) (d, 31) ++ [(d, (n - 1) % 32)]) ∧
    (packed_entries
        (add_directions alloc_ok (reset_directions s) (List.replicate 40 d))).map entry_fields =
      [(d, 31), (d, 7)] := by
  obtain ⟨k, rfl⟩ : ∃ k : Nat, d = (k : Int) := ⟨d.toNat, by omega⟩
  have hk : k < 8 := by omega
  have hrep : ∀ m, List.replicate m (k : Int) = (List.replicate m k).map Int.ofNat := by
    intro m
    simp
  have hholds : ∀ m, Holds (add_directions alloc_ok (reset_directions s)
      (List.replicate m (k : Int))) (push_runs [] (List.replicate m k)) := by
    intro m
    rw [hrep]
    exact holds_add_directions _ _ [] (holds_reset s hwf)
      (fun e he => by rw [List.eq_of_mem_replicate he]; exact hk)
  have hentries : ∀ m, (packed_entries (add_directions alloc_ok (reset_directions s)
      (List.replicate (m + 1) (k : Int)))).map entry_fields =
      List.replicate (m / 32) ((k : Int), 31) ++ [((k : Int), m % 32)] := by
    intro m
    have hm : m % 32 ≤ 31 := by omega
    rw [packed_entries, holds_take _ _ (hholds (m + 1)), push_runs_replicate]
    simp only [List.reverse_cons, List.reverse_replicate, List.map_append, List.map_replicate,
      List.map_cons, List.map_nil, entry_fields, pack_direction (k, 31) (le_refl _),
      pack_count (k, 31) (le_refl _), pack_direction (k, m % 32) hm, pack_count (k, m % 32) hm]
  refine ⟨?_, ?_, hentries 39⟩
  · rw [(hholds n).total_eq]
    cases n with
    | zero => rfl
    | succ m =>
      rw [push_runs_replicate]
      simp only [List.length_cons, List.length_replicate]
      omega
  · intro hn
    obtain ⟨m, rfl⟩ : ∃ m, n = m + 1 := ⟨n - 1, by omega⟩
    exact hentries m

/-- Witness of C4: 33 steps in direction 2 from the empty accumulator. -/
theorem run_cap_witness :
    (add_directions alloc_ok (reset_directions ⟨[], 0, 0, -1, 0⟩)
      (List.replicate 33 2)).total = 2 ∧
    (packed_entries (add_directions alloc_ok (reset_directions ⟨[], 0, 0, -1, 0⟩)
      (List.replicate 33 2))).map entry_fields = [(2, 31), (2, 0)] :=
  ⟨(run_cap ⟨[], 0, 0, -1, 0⟩ 2 33 rfl (by decide)).1,
   (run_cap ⟨[], 0, 0, -1, 0⟩ 2 33 rfl (by decide)).2.1 (by decide)⟩

/-! ## Grid directions -/

theorem loop_directions_one : loop_directions 1 = [0, 1, 2, 3, 4, 5, 6, 7] := by decide

theorem loop_directions_two : loop_directions 2 = [0, 2, 4, 6] := by decide

theorem loop_directions_range (step : Nat) (hstep : step = 1 ∨ step = 2) (d : Int)
    (h : d ∈ loop_directions step) : 0 ≤ d ∧ d ≤ 7 := by
  rcases hstep with rfl | rfl
  · rw [loop_directions_one] at h
    simp only [List.mem_cons, List.mem_singleton, List.not_mem_nil, or_false] at h
    omega
  · rw [loop_directions_two] at h
    simp only [List.mem_cons, List.mem_singleton, List.not_mem_nil, or_false] at h
    omega

/-- Opposite directions have opposite deltas. -/
theorem direction_delta_opposite (d : Int) (h0 : 0 ≤ d) (h7 : d ≤ 7) :
    map_grid_direction_delta d + map_grid_direction_delta (Int.tmod (d + 4) 8) = 0 := by
  have : d = 0 ∨ d = 1 ∨ d = 2 ∨ d = 3 ∨ d = 4 ∨ d = 5 ∨ d = 6 ∨ d = 7 := by omega
  rcases this with rfl | rfl | rfl | rfl | rfl | rfl | rfl | rfl <;> decide

theorem forward_direction_range (d : Int) (h0 : 0 ≤ d) (h7 : d ≤ 7) :
    0 ≤ Int.tmod (d + 4) 8 ∧ Int.tmod (d + 4) 8 ≤ 7 := by
  rw [Int.tmod_eq_emod (by omega) (by omega)]
  omega

/-! ## The candidate loop of the land walk -/

theorem next_is_better_iff (base dist nd dir d : Int) (ih nih : Bool) :
    next_is_better base dist nd dir d ih nih = true ↔
      (ih = false ∧ nih = true ∧ nd < base) ∨
      (¬ (ih = true ∧ nih = false) ∧
        (nd < dist ∨ (nd = dist ∧ (dir = -1 ∨ (Int.tmod dir 2 = 1 ∧ Int.tmod d 2 = 0))))) := by
  unfold next_is_better is_equal_distance_but_better_direction
  cases ih <;> cases nih <;> simp

/-- The loop body either keeps the best candidate or replaces it by the neighbour
in direction `d`. -/
theorem land_consider_cases (m : Map) (base g last : Int) (b : Best) (d : Int) :
    (land_consider m base g last b d = b ∧
      ¬ (d ≠ last ∧ m.map_routing_distance (g + map_grid_direction_delta d) ≠ 0 ∧
        next_is_better base b.distance (m.map_routing_distance (g + map_grid_direction_delta d))
          b.direction d b.is_highway
          (m.map_terrain_is_highway (g + map_grid_direction_delta d)) = true)) ∨
    (land_consider m base g last b d =
        { distance := m.map_routing_distance (g + map_grid_direction_delta d), direction := d,
          is_highway := m.map_terrain_is_highway (g + map_grid_direction_delta d) } ∧
      d ≠ last ∧ m.map_routing_distance (g + map_grid_direction_delta d) ≠ 0 ∧
      next_is_better base b.distance (m.map_routing_distance (g + map_grid_direction_delta d))
        b.direction d b.is_highway
        (m.map_terrain_is_highway (g + map_grid_direction_delta d)) = true) := by
  unfold land_consider
  by_cases h1 : d ≠ last
  · rw [if_pos h1]
    simp only
    split_ifs with h2
    · exact Or.inr ⟨rfl, h1, h2.1, h2.2⟩
    · exact Or.inl ⟨rfl, fun h => h2 ⟨h.2.1, h.2.2⟩⟩
  · rw [if_neg h1]
    exact Or.inl ⟨rfl, fun h => h1 h.1⟩

theorem land_consider_inv (m : Map) (base g last : Int) (b : Best) (d : Int)
    (hb : LandInv m base g last b) (hd : d ≠ -1) :
    LandInv m base g last (land_consider m base g last b d) := by
  rcases land_consider_cases m base g last b d with ⟨h, _⟩ | ⟨h, h1, h2, h3⟩
  · rw [h]
    exact hb
  · rw [h]
    have hle : b.distance ≤ base := by
      by_cases hdir : b.direction = -1
      · rw [(hb.1 hdir).1]
      · exact (hb.2 hdir).2.2.2.2
    rw [next_is_better_iff] at h3
    refine ⟨fun hneg => absurd hneg hd, fun _ => ⟨h1, rfl, rfl, h2, ?_⟩⟩
    simp only
    omega

theorem land_fold_inv (m : Map) (base g last : Int) (l : List Int) (hl : ∀ d ∈ l, d ≠ -1) :
    ∀ b : Best, LandInv m base g last b →
      LandInv m base g last (l.foldl (land_consider m base g last) b) := by
  induction l with
  | nil =>
    intro b hb
    exact hb
  | cons d l ih =>
    intro b hb
    exact ih (fun e he => hl e (List.mem_cons_of_mem _ he)) _
      (land_consider_inv m base g last b d hb (hl d (List.mem_cons_self _ _)))

/-- The direction the loop ends with is the one it started with or a candidate. -/
theorem land_fold_direction (m : Map) (base g last : Int) (l : List Int) :
    ∀ b : Best, (l.foldl (land_consider m base g last) b).direction = b.direction ∨
      (l.foldl (land_consider m base g last) b).direction ∈ l := by
  induction l with
  | nil =>
    intro b
    exact Or.inl rfl
  | cons d l ih =>
    intro b
    rw [List.foldl_cons]
    rcases ih (land_consider m base g last b d) with h | h
    · rcases land_consider_cases m base g last b d with ⟨h1, _⟩ | ⟨h1, _⟩
      · rw [h1] at h ⊢
        exact Or.inl h
      · rw [h1] at h ⊢
        rw [h]
        exact Or.inr (List.mem_cons_self _ _)
    · exact Or.inr (List.mem_cons_of_mem _ h)

/-- Once a candidate is taken the loop never goes back to `direction == -1`. -/
theorem land_fold_taken (m : Map) (base g last : Int) (l : List Int) (hl : ∀ d ∈ l, d ≠ -1) :
    ∀ b : Best, b.direction ≠ -1 →
      (l.foldl (land_consider m base g last) b).direction ≠ -1 := by
  intro b hb
  rcases land_fold_direction m base g last l b with h | h
  · rw [h]
    exact hb
  · exact hl _ h

theorem land_inv_init (m : Map) (base g last : Int) :
    LandInv m base g last { distance := base, direction := -1, is_highway := false } :=
  ⟨fun _ => ⟨rfl, rfl⟩, fun h => absurd rfl h⟩

/-- From the initial variables a candidate is taken exactly when it is eligible
and its distance is non-zero and at most `base_distance`. -/
theorem land_consider_init (m : Map) (base g last d : Int) :
    land_consider m base g last { distance := base, direction := -1, is_highway := false } d =
      { distance := base, direction := -1, is_highway := false } ∨
    (d ≠ last ∧ m.map_routing_distance (g + map_grid_direction_delta d) ≠ 0 ∧
      m.map_routing_distance (g + map_grid_direction_delta d) ≤ base ∧
      land_consider m base g last { distance := base, direction := -1, is_highway := false } d =
        { distance := m.map_routing_distance (g + map_grid_direction_delta d), direction := d,
          is_highway := m.map_terrain_is_highway (g + map_grid_direction_delta d) }) := by
  rcases land_consider_cases m base g last
    { distance := base, direction := -1, is_highway := false } d with ⟨h, _⟩ | ⟨h, h1, h2, h3⟩
  · exact Or.inl h
  · rw [next_is_better_iff] at h3
    refine Or.inr ⟨h1, h2, ?_, h⟩
    simp only at h3
    omega

theorem land_consider_init_rejected (m : Map) (base g last d : Int)
    (h : d ≠ last → m.map_routing_distance (g + map_grid_direction_delta d) = 0 ∨
      base < m.map_routing_distance (g + map_grid_direction_delta d)) :
    land_consider m base g last { distance := base, direction := -1, is_highway := false } d =
      { distance := base, direction := -1, is_highway := false } := by
  rcases land_consider_init m base g last d with h1 | ⟨h1, h2, h3, _⟩
  · exact h1
  · rcases h h1 with h4 | h4
    · exact absurd h4 h2
    · omega

theorem land_consider_init_taken (m : Map) (base g last d : Int) (h1 : d ≠ last)
    (h2 : m.map_routing_distance (g + map_grid_direction_delta d) ≠ 0)
    (h3 : m.map_routing_distance (g + map_grid_direction_delta d) ≤ base) :
    land_consider m base g last { distance := base, direction := -1, is_highway := false } d =
      { distance := m.map_routing_distance (g + map_grid_direction_delta d), direction := d,
        is_highway := m.map_terrain_is_highway (g + map_grid_direction_delta d) } := by
  rcases land_consider_cases m base g last
    { distance := base, direction := -1, is_highway := false } d with ⟨_, h⟩ | ⟨h, _⟩
  · exfalso
    apply h
    refine ⟨h1, h2, ?_⟩
    rw [next_is_better_iff]
    simp only
    right
    refine ⟨by simp, ?_⟩
    rcases lt_or_eq_of_le h3 with h4 | h4
    · exact Or.inl h4
    · exact Or.inr ⟨h4, by simp⟩
  · exact h

/-- The loop ends with `direction == -1` exactly when every eligible neighbour
has distance zero or a distance above `base_distance`. -/
theorem land_fold_none_iff (m : Map) (base g last : Int) (l : List Int) (hl : ∀ d ∈ l, d ≠ -1) :
    (l.foldl (land_consider m base g last)
        { distance := base, direction := -1, is_highway := false }).direction = -1 ↔
      ∀ d ∈ l, d ≠ last → m.map_routing_distance (g + map_grid_direction_delta d) = 0 ∨
        base < m.map_routing_distance (g + map_grid_direction_delta d) := by
  induction l with
  | nil => simp
  | cons d l ih =>
    have hl1 : ∀ e ∈ l, e ≠ -1 := fun e he => hl e (List.mem_cons_of_mem _ he)
    rw [List.foldl_cons]
    constructor
    · intro h e he
      rcases land_consider_init m base g last d with h1 | ⟨_, _, _, h1⟩
      · rw [h1] at h
        rcases List.mem_cons.mp he with rfl | he
        · intro hne
          by_contra hcon
          have := land_consider_init_taken m base g last e hne (by omega) (by omega)
          rw [this] at h1
          have hdir := congrArg Best.direction h1
          exact hl e (List.mem_cons_self _ _) hdir
        · exact (ih hl1).mp h e he
      · rw [h1] at h
        exact absurd h (land_fold_taken m base g last l hl1 _ (hl d (List.mem_cons_self _ _)))
    · intro h
      rw [land_consider_init_rejected m base g last d (h d (List.mem_cons_self _ _))]
      exact (ih hl1).mpr (fun e he => h e (List.mem_cons_of_mem _ he))

/-! ## Highways in the candidate loop -/

/-- Once the best candidate is a highway tile it stays one. -/
theorem land_consider_highway (m : Map) (base g last : Int) (b : Best) (d : Int)
    (hb : b.is_highway = true) : (land_consider m base g last b d).is_highway = true := by
  rcases land_consider_cases m base g last b d with ⟨h, _⟩ | ⟨h, _, _, h3⟩
  · rw [h]
    exact hb
  · rw [h]
    rw [next_is_better_iff, hb] at h3
    simp only [Bool.true_eq_false, false_and, true_and, false_or] at h3
    simpa using h3.1

theorem land_fold_highway (m : Map) (base g last : Int) (l : List Int) :
    ∀ b : Best, b.is_highway = true →
      (l.foldl (land_consider m base g last) b).is_highway = true := by
  induction l with
  | nil =>
    intro b hb
    exact hb
  | cons d l ih =>
    intro b hb
    exact ih _ (land_consider_highway m base g last b d hb)

/-- After an eligible highway neighbour nearer than the current tile has been
looked at, the best candidate is a highway tile. -/
theorem land_consider_highway_taken (m : Map) (base g last : Int) (b : Best) (d : Int)
    (h1 : d ≠ last) (h2 : m.map_routing_distance (g + map_grid_direction_delta d) ≠ 0)
    (h3 : m.map_routing_distance (g + map_grid_direction_delta d) < base)
    (h4 : m.map_terrain_is_highway (g + map_grid_direction_delta d) = true) :
    (land_consider m base g last b d).is_highway = true := by
  cases hb : b.is_highway with
  | true => exact land_consider_highway m base g last b d hb
  | false =>
    rcases land_consider_cases m base g last b d with ⟨_, h⟩ | ⟨h, _⟩
    · exfalso
      apply h
      refine ⟨h1, h2, ?_⟩
      rw [next_is_better_iff]
      exact Or.inl ⟨hb, h4, h3⟩
    · rw [h]
      exact h4

theorem land_fold_highway_taken (m : Map) (base g last : Int) (l : List Int) (d : Int)
    (hd : d ∈ l) (h1 : d ≠ last)
    (h2 : m.map_routing_distance (g + map_grid_direction_delta d) ≠ 0)
    (h3 : m.map_routing_distance (g + map_grid_direction_delta d) < base)
    (h4 : m.map_terrain_is_highway (g + map_grid_direction_delta d) = true) :
    ∀ b : Best, (l.foldl (land_consider m base g last) b).is_highway = true := by
  induction l with
  | nil => exact absurd hd (List.not_mem_nil _)
  | cons e l ih =>
    intro b
    rw [List.foldl_cons]
    rcases List.mem_cons.mp hd with rfl | hd
    · exact land_fold_highway m base g last l _
        (land_consider_highway_taken m base g last b d h1 h2 h3 h4)
    · exact ih hd _

/-! ## The tie-break between a straight and a diagonal candidate -/

/-- Once the straight candidate `o` has been looked at, the diagonal candidate
`dg` of the same distance `v` is no better than the best candidate. -/
theorem diagonal_not_better_after_straight (m : Map) (base g last : Int) (b : Best)
    (o dg : Int) (ho : Int.tmod o 2 = 0) (ho1 : o ≠ -1) (hdg : Int.tmod dg 2 = 1)
    (hol : o ≠ last)
    (hv : m.map_routing_distance (g + map_grid_direction_delta o) =
      m.map_routing_distance (g + map_grid_direction_delta dg))
    (hv0 : m.map_routing_distance (g + map_grid_direction_delta dg) ≠ 0)
    (hhw : m.map_terrain_is_highway (g + map_grid_direction_delta dg) = true →
      m.map_terrain_is_highway (g + map_grid_direction_delta o) = true) :
    next_is_better base (land_consider m base g last b o).distance
      (m.map_routing_distance (g + map_grid_direction_delta dg))
      (land_consider m base g last b o).direction dg
      (land_consider m base g last b o).is_highway
      (m.map_terrain_is_highway (g + map_grid_direction_delta dg)) = false := by
  rw [Bool.eq_false_iff]
  intro hcon
  rw [next_is_better_iff] at hcon
  rcases land_consider_cases m base g last b o with ⟨h, hrej⟩ | ⟨h, _⟩
  · rw [h] at hcon
    apply hrej
    refine ⟨hol, by rw [hv]; exact hv0, ?_⟩
    rw [next_is_better_iff, hv]
    rcases hcon with ⟨c1, c2, c3⟩ | ⟨c1, c2⟩
    · exact Or.inl ⟨c1, hhw c2, c3⟩
    · right
      refine ⟨fun hx => c1 ⟨hx.1, ?_⟩, ?_⟩
      · cases hd : m.map_terrain_is_highway (g + map_grid_direction_delta dg) with
        | false => rfl
        | true =>
          rw [hhw hd] at hx
          exact absurd hx.2 (by simp)
      · rcases c2 with c2 | ⟨c2, c3 | c3⟩
        · exact Or.inl c2
        · exact Or.inr ⟨c2, Or.inl c3⟩
        · omega
  · rw [h] at hcon
    simp only at hcon
    rcases hcon with ⟨c1, c2, _⟩ | ⟨_, c2⟩
    · rw [hhw c2] at c1
      exact absurd c1 (by simp)
    · rcases c2 with c2 | ⟨_, c3 | c3⟩
      · omega
      · exact ho1 c3
      · omega

/-- A candidate that is no better than the best one stays so when the best
candidate is replaced in the loop. -/
theorem diagonal_not_better_step (m : Map) (base g last : Int) (b : Best) (e dg v : Int)
    (hwd : Bool) (he : e ≠ -1) (hdg : Int.tmod dg 2 = 1)
    (hq : next_is_better base b.distance v b.direction dg b.is_highway hwd = false) :
    next_is_better base (land_consider m base g last b e).distance v
      (land_consider m base g last b e).direction dg
      (land_consider m base g last b e).is_highway hwd = false := by
  rcases land_consider_cases m base g last b e with ⟨h, _⟩ | ⟨h, _, _, h3⟩
  · rw [h]
    exact hq
  · rw [h]
    rw [Bool.eq_false_iff] at hq ⊢
    intro hcon
    apply hq
    rw [next_is_better_iff] at hcon h3 ⊢
    simp only at hcon
    cases hb : b.is_highway <;> cases hn : m.map_terrain_is_highway
      (g + map_grid_direction_delta e) <;> cases hwd <;>
      simp only [hb, hn, Bool.true_eq_false, Bool.false_eq_true, false_and, and_false, true_and,
        and_true, not_false_eq_true, not_true_eq_false, false_or, or_false, and_self]
        at hcon h3 ⊢ <;> omega

/-- When both candidates are eligible with the same distance and the diagonal one
is a highway tile only if the straight one is, the loop does not end on the
diagonal one. -/
theorem land_fold_not_diagonal (m : Map) (base g last : Int) (l : List Int)
    (hl : ∀ d ∈ l, d ≠ -1) (o dg : Int) (hol : o ∈ l) (ho : Int.tmod o 2 = 0)
    (hdg : Int.tmod dg 2 = 1) (hdg1 : dg ≠ -1) (holast : o ≠ last)
    (hv : m.map_routing_distance (g + map_grid_direction_delta o) =
      m.map_routing_distance (g + map_grid_direction_delta dg))
    (hhw : m.map_terrain_is_highway (g + map_grid_direction_delta dg) = true →
      m.map_terrain_is_highway (g + map_grid_direction_delta o) = true) :
    (l.foldl (land_consider m base g last)
      { distance := base, direction := -1, is_highway := false }).direction ≠ dg := by
  have hfinal := land_fold_inv m base g last l hl _ (land_inv_init m base g last)
  by_cases hv0 : m.map_routing_distance (g + map_grid_direction_delta dg) = 0
  · intro hcon
    have := (hfinal.2 (by rw [hcon]; exact hdg1)).2
    rw [hcon] at this
    exact this.2.2.1 (by rw [this.1]; exact hv0)
  · obtain ⟨pre, post, rfl⟩ := List.append_of_mem hol
    have hodg : o ≠ dg := by
      intro h
      rw [h] at ho
      omega
    have hpre : ∀ d ∈ pre, d ≠ -1 := fun d hd => hl d (List.mem_append_left _ hd)
    have hpost : ∀ d ∈ post, d ≠ -1 :=
      fun d hd => hl d (List.mem_append_right _ (List.mem_cons_of_mem _ hd))
    have ho1 : o ≠ -1 := hl o hol
    have hb1 := land_fold_inv m base g last pre hpre _ (land_inv_init m base g last)
    rw [List.foldl_append, List.foldl_cons]
    generalize pre.foldl (land_consider m base g last)
      { distance := base, direction := -1, is_highway := false } = b1 at hb1
    have hq2 := diagonal_not_better_after_straight m base g last b1 o dg ho ho1 hdg holast hv
      hv0 hhw
    have hd2 : (land_consider m base g last b1 o).direction ≠ dg := by
      rcases land_consider_cases m base g last b1 o with ⟨h, hrej⟩ | ⟨h, _⟩
      · rw [h]
        intro hcon
        apply hrej
        have hinv := hb1.2 (by rw [hcon]; exact hdg1)
        rw [hcon] at hinv
        refine ⟨holast, by rw [hv]; exact hv0, ?_⟩
        rw [next_is_better_iff, hcon, hinv.2.1, hinv.2.2.1, hv]
        right
        refine ⟨fun hx => ?_, Or.inr ⟨rfl, Or.inr ⟨hdg, ho⟩⟩⟩
        rw [hhw hx.1] at hx
        exact absurd hx.2 (by simp)
      · rw [h]
        exact hodg
    generalize land_consider m base g last b1 o = b2 at hq2 hd2
    clear hb1 hfinal hol hl
    induction post generalizing b2 with
    | nil => exact hd2
    | cons e post ih =>
      rw [List.foldl_cons]
      have he : e ≠ -1 := hpost e (List.mem_cons_self _ _)
      apply ih (fun d hd => hpost d (List.mem_cons_of_mem _ hd))
      · exact diagonal_not_better_step m base g last b2 e dg _ _ he hdg hq2
      · rcases land_consider_cases m base g last b2 e with ⟨h, _⟩ | ⟨h, _, _, h3⟩
        · rw [h]
          exact hd2
        · rw [h]
          intro hcon
          simp only at hcon
          rw [hcon, hq2] at h3
          exact absurd h3 (by simp)

/-! ## One iteration of the walk -/

theorem advance_none_iff (select : Int → Int → Best) (w : Pos) :
    advance select w = none ↔ (select w.grid_offset w.last_direction).direction = -1 := by
  unfold advance
  simp only
  split_ifs with h
  · simp [h]
  · simp [h]

theorem advance_some (select : Int → Int → Best) (w w1 : Pos) (h : advance select w = some w1) :
    (select w.grid_offset w.last_direction).direction ≠ -1 ∧
    w1.distance = (select w.grid_offset w.last_direction).distance ∧
    w1.last_direction = Int.tmod ((select w.grid_offset w.last_direction).direction + 4) 8 ∧
    w1.grid_offset = w.grid_offset +
      map_grid_direction_delta (select w.grid_offset w.last_direction).direction ∧
    w1.num_tiles = w.num_tiles + 1 := by
  unfold advance at h
  simp only at h
  split_ifs at h with h1
  simp only [Option.some.injEq] at h
  subst h
  exact ⟨h1, rfl, rfl, rfl, rfl⟩

theorem direction_step_cases (num_directions : Int) :
    direction_step num_directions = 1 ∨ direction_step num_directions = 2 := by
  unfold direction_step
  split_ifs
  · exact Or.inl rfl
  · exact Or.inr rfl

theorem loop_directions_ne (num_directions : Int) :
    ∀ d ∈ loop_directions (direction_step num_directions), d ≠ -1 := by
  intro d hd
  have := loop_directions_range _ (direction_step_cases num_directions) d hd
  omega

/-- The candidate the land loop ends with: none, or an eligible neighbour. -/
theorem land_select_inv (m : Map) (num_directions g last : Int) :
    LandInv m (m.map_routing_distance g) g last
      (land_select m (direction_step num_directions) g last) :=
  land_fold_inv m _ g last _ (loop_directions_ne num_directions) _ (land_inv_init m _ g last)

theorem land_select_direction (m : Map) (num_directions g last : Int) :
    (land_select m (direction_step num_directions) g last).direction = -1 ∨
      (land_select m (direction_step num_directions) g last).direction ∈
        loop_directions (direction_step num_directions) :=
  land_fold_direction m _ g last _ _

/-! ## Claims on one iteration of the land walk -/

/-- C6 (as stated, refuted). On `plateau_map` the call for destination `(28, 6)`
returns 3 although its first move goes from tile 1000 to tile 838, both of
distance 3: no neighbour improved on `base_distance`, yet the call did not
fail, and the tile moved to is not strictly nearer. -/
theorem land_walk_plateau_counterexample :
    (walk_trace (land_select plateau_map (direction_step 8)) 3
        (land_start plateau_map 28 6)).map
      (fun w => (w.grid_offset, plateau_map.map_routing_distance w.grid_offset)) =
      [(1000, 3), (838, 3), (676, 2), (514, 1)] ∧
    (map_routing_get_path alloc_ok plateau_map ⟨[], 0, 0, -1, 0⟩ none 28 6 8 3).map
      (fun o => (o.result, o.exit)) = some (3, Exit.done) := by
  decide

/-- C6 (amended). At every iteration of the land walk the tile moved to has a
non-zero distance that is at most the distance of the current tile; and when
every eligible neighbour has distance zero or a distance above that of the
current tile, the call leaves through `return 0` with the record untouched. -/
theorem land_step_not_uphill (alloc : Nat → Bool) (m : Map) (num_directions : Int)
    (path : Option figure_path_data) (fuel : Nat) (w : Pos) (s : Directions) :
    (∀ w1, advance (land_select m (direction_step num_directions)) w = some w1 →
      w1.distance = m.map_routing_distance w1.grid_offset ∧ w1.distance ≠ 0 ∧
      w1.distance ≤ m.map_routing_distance w.grid_offset) ∧
    (w.distance > 1 →
      (∀ d ∈ loop_directions (direction_step num_directions), d ≠ w.last_direction →
        m.map_routing_distance (w.grid_offset + map_grid_direction_delta d) = 0 ∨
        m.map_routing_distance w.grid_offset <
          m.map_routing_distance (w.grid_offset + map_grid_direction_delta d)) →
      reconstruct alloc (land_select m (direction_step num_directions)) path (fuel + 1) w s =
        some { result := 0, path := path, scratch := s, exit := Exit.exhausted }) := by
  constructor
  · intro w1 h
    obtain ⟨h1, h2, _, h4, _⟩ := advance_some _ w w1 h
    have hinv := (land_select_inv m num_directions w.grid_offset w.last_direction).2 h1
    rw [h2, h4]
    exact ⟨hinv.2.1, hinv.2.2.2.1, hinv.2.2.2.2⟩
  · intro hw hall
    have hnone : advance (land_select m (direction_step num_directions)) w = none := by
      rw [advance_none_iff]
      exact (land_fold_none_iff m _ w.grid_offset w.last_direction _
        (loop_directions_ne num_directions)).mpr hall
    rw [reconstruct, if_pos hw, hnone]

/-- Witness of C6 (amended): on `plateau_map` the walk at tile 1000 that may not
go up (direction 0 excluded) has no candidate and the call returns 0. -/
theorem land_step_not_uphill_witness :
    reconstruct alloc_ok (land_select plateau_map (direction_step 8)) none 1
        ⟨3, 0, 28, 6, 1000, 0⟩ ⟨[], 0, 0, -1, 0⟩ =
      some { result := 0, path := none, scratch := ⟨[], 0, 0, -1, 0⟩, exit := Exit.exhausted } :=
  (land_step_not_uphill alloc_ok plateau_map 8 none 0 ⟨3, 0, 28, 6, 1000, 0⟩
    ⟨[], 0, 0, -1, 0⟩).2 (by decide) (by decide)

/-- C8. Highway preference: when some eligible neighbour `d` is a highway tile
with a non-zero distance below the distance of the current tile, the iteration
moves to a highway tile. -/
theorem highway_preference (m : Map) (num_directions : Int) (w : Pos) (d : Int)
    (hd : d ∈ loop_directions (direction_step num_directions)) (hlast : d ≠ w.last_direction)
    (hhw : m.map_terrain_is_highway (w.grid_offset + map_grid_direction_delta d) = true)
    (h0 : m.map_routing_distance (w.grid_offset + map_grid_direction_delta d) ≠ 0)
    (hlt : m.map_routing_distance (w.grid_offset + map_grid_direction_delta d) <
      m.map_routing_distance w.grid_offset) :
    (advance (land_select m (direction_step num_directions)) w).map
      (fun w1 => m.map_terrain_is_highway w1.grid_offset) = some true := by
  have hsel : (land_select m (direction_step num_directions) w.grid_offset
      w.last_direction).is_highway = true :=
    land_fold_highway_taken m _ w.grid_offset w.last_direction _ d hd hlast h0 hlt hhw _
  have hinv := land_select_inv m num_directions w.grid_offset w.last_direction
  have hdir : (land_select m (direction_step num_directions) w.grid_offset
      w.last_direction).direction ≠ -1 := by
    intro hneg
    rw [(hinv.1 hneg).2] at hsel
    exact absurd hsel (by simp)
  cases hadv : advance (land_select m (direction_step num_directions)) w with
  | none => exact absurd ((advance_none_iff _ w).mp hadv) hdir
  | some w1 =>
    obtain ⟨_, _, _, h4, _⟩ := advance_some _ w w1 hadv
    simp only [Option.map_some', Option.some.injEq]
    rw [h4, ← (hinv.2 hdir).2.2.1]
    exact hsel

/-- Witness of C8: on `highway_diagonal_map` the walk at tile 1000 moves to the
highway tile 839. -/
theorem highway_preference_witness :
    (advance (land_select highway_diagonal_map (direction_step 8)) ⟨3, -1, 28, 6, 1000, 0⟩).map
      (fun w1 => highway_diagonal_map.map_terrain_is_highway w1.grid_offset) = some true :=
  highway_preference highway_diagonal_map 8 ⟨3, -1, 28, 6, 1000, 0⟩ 1 (by decide) (by decide)
    (by decide) (by decide) (by decide)

/-- C9 (as stated, refuted). On `highway_diagonal_map` in 8-direction mode the
straight candidate 0 and the diagonal candidate 1 of tile 1000 are both eligible
with distance 2, and the walk takes the diagonal one, a highway tile: the walk
goes through the tiles 1000, 839, 677. -/
theorem straight_line_tie_break_counterexample :
    (0 : Int) ∈ loop_directions (direction_step 8) ∧
    (1 : Int) ∈ loop_directions (direction_step 8) ∧
    highway_diagonal_map.map_routing_distance (1000 + map_grid_direction_delta 0) = 2 ∧
    highway_diagonal_map.map_routing_distance (1000 + map_grid_direction_delta 1) = 2 ∧
    (land_select highway_diagonal_map (direction_step 8) 1000 (-1)).direction = 1 ∧
    (walk_trace (land_select highway_diagonal_map (direction_step 8)) 2
      (land_start highway_diagonal_map 28 6)).map (fun w => w.grid_offset) = [1000, 839, 677] := by
  decide

/-- C9 (amended). Straight-line tie-break: in 8-direction mode, when a straight
candidate `o` (0, 2, 4 or 6) and a diagonal candidate `dg` (1, 3, 5 or 7) are
both eligible and have equal distance, the diagonal one is not the direction
chosen, unless it is a highway tile and the straight one is not. -/
theorem straight_line_tie_break (m : Map) (grid_offset last_direction o dg : Int)
    (ho : o ∈ loop_directions (direction_step 8)) (hdg : dg ∈ loop_directions (direction_step 8))
    (hoe : o % 2 = 0) (hdo : dg % 2 = 1)
    (hol : o ≠ last_direction) (_hdl : dg ≠ last_direction)
    (hv : m.map_routing_distance (grid_offset + map_grid_direction_delta o) =
      m.map_routing_distance (grid_offset + map_grid_direction_delta dg))
    (hhw : m.map_terrain_is_highway (grid_offset + map_grid_direction_delta dg) = true →
      m.map_terrain_is_highway (grid_offset + map_grid_direction_delta o) = true) :
    (land_select m (direction_step 8) grid_offset last_direction).direction ≠ dg := by
  have hor := loop_directions_range _ (direction_step_cases 8) o ho
  have hdr := loop_directions_range _ (direction_step_cases 8) dg hdg
  exact land_fold_not_diagonal m _ grid_offset last_direction _ (loop_directions_ne 8) o dg ho
    (by rw [Int.tmod_eq_emod hor.1 (by omega)]; exact hoe)
    (by rw [Int.tmod_eq_emod hdr.1 (by omega)]; exact hdo)
    (by omega) hol hv hhw

/-- Witness of C9 (amended): without the highway flag of tile 839 the walk at
tile 1000 does not take the diagonal candidate 1. -/
theorem straight_line_tie_break_witness :
    (land_select { highway_diagonal_map with map_terrain_is_highway := fun _ => false }
      (direction_step 8) 1000 (-1)).direction ≠ 1 :=
  straight_line_tie_break { highway_diagonal_map with map_terrain_is_highway := fun _ => false }
    1000 (-1) 0 1 (by decide) (by decide) (by decide) (by decide) (by decide) (by decide)
    (by decide) (by decide)

/-! ## The walk as a whole -/

theorem walk_trace_cons (select : Int → Int → Best) (fuel : Nat) (w : Pos) :
    walk_trace select fuel w = w :: (walk_trace select fuel w).tail := by
  cases fuel with
  | zero => rfl
  | succ fuel =>
    rw [walk_trace]
    split_ifs
    · cases advance select w <;> rfl
    · rfl

theorem walk_trace_step (select : Int → Int → Best) (fuel : Nat) (w w1 : Pos)
    (hw : w.distance > 1) (h : advance select w = some w1) :
    walk_trace select (fuel + 1) w = w :: walk_trace select fuel w1 := by
  rw [walk_trace, if_pos hw, h]

theorem walk_directions_step (select : Int → Int → Best) (fuel : Nat) (w w1 : Pos)
    (hw : w.distance > 1) (h : advance select w = some w1) :
    walk_directions select (fuel + 1) w = w1.last_direction :: walk_directions select fuel w1 := by
  unfold walk_directions
  rw [walk_trace_step select fuel w w1 hw h, List.tail_cons]
  conv_lhs => rw [walk_trace_cons select fuel w1]
  rfl

theorem walk_directions_stop (select : Int → Int → Best) (fuel : Nat) (w : Pos)
    (hw : ¬ w.distance > 1) : walk_directions select fuel w = [] := by
  unfold walk_directions
  cases fuel with
  | zero => rfl
  | succ fuel =>
    rw [walk_trace, if_neg hw]
    rfl

theorem walk_end_step (select : Int → Int → Best) (fuel : Nat) (w w1 : Pos)
    (hw : w.distance > 1) (h : advance select w = some w1) :
    walk_end select (fuel + 1) w = walk_end select fuel w1 := by
  rw [walk_end, if_pos hw, h]

/-- The loop leaves through `return 0` on `direction == -1` with the result 0 and
the caller's record as it was, and never through the early `return 0`. -/
theorem reconstruct_exhausted (alloc : Nat → Bool) (select : Int → Int → Best)
    (path : Option figure_path_data) (fuel : Nat) :
    ∀ (w : Pos) (s : Directions) (out : Outcome),
      reconstruct alloc select path fuel w s = some out →
      out.exit ≠ Exit.unreachable ∧
      (out.exit = Exit.exhausted → out.result = 0 ∧ out.path = path) := by
  have hfin : ∀ (w : Pos) (s : Directions), (finish alloc path w s).exit ≠ Exit.unreachable ∧
      (finish alloc path w s).exit ≠ Exit.exhausted := by
    intro w s
    unfold finish
    cases path with
    | none => exact ⟨by simp, by simp⟩
    | some p =>
      simp only
      cases hf : fill_path_with_directions alloc s p with
      | mk ok p1 => cases ok <;> exact ⟨by simp, by simp⟩
  induction fuel with
  | zero =>
    intro w s out h
    rw [reconstruct] at h
    split_ifs at h
    simp only [Option.some.injEq] at h
    subst h
    exact ⟨(hfin w s).1, fun hx => absurd hx (hfin w s).2⟩
  | succ fuel ih =>
    intro w s out h
    rw [reconstruct] at h
    by_cases hw : w.distance > 1
    · rw [if_pos hw] at h
      cases hadv : advance select w with
      | none =>
        simp only [hadv, Option.some.injEq] at h
        subst h
        exact ⟨by simp, fun _ => ⟨rfl, rfl⟩⟩
      | some w1 =>
        simp only [hadv] at h
        by_cases hp : path.isSome = true
        · rw [if_pos hp] at h
          cases hadd : add_direction_to_path alloc s w1.last_direction with
          | mk ok s1 =>
            cases ok with
            | false =>
              simp only [hadd, Option.some.injEq] at h
              subst h
              exact ⟨by simp, fun hx => absurd hx (by simp)⟩
            | true =>
              simp only [hadd] at h
              exact ih w1 s1 out h
        · rw [if_neg hp] at h
          exact ih w1 s out h
    · rw [if_neg hw] at h
      simp only [Option.some.injEq] at h
      subst h
      exact ⟨(hfin w s).1, fun hx => absurd hx (hfin w s).2⟩

/-- A call that did not leave through an allocation failure ran as it runs when
allocation cannot fail. -/
theorem reconstruct_of_ok (alloc : Nat → Bool) (select : Int → Int → Best)
    (path : Option figure_path_data) (fuel : Nat) :
    ∀ (w : Pos) (s : Directions) (out : Outcome),
      reconstruct alloc select path fuel w s = some out → out.exit ≠ Exit.allocation →
      reconstruct alloc_ok select path fuel w s = some out := by
  have hfin : ∀ (w : Pos) (s : Directions), (finish alloc path w s).exit ≠ Exit.allocation →
      finish alloc_ok path w s = finish alloc path w s := by
    intro w s hne
    unfold finish at hne ⊢
    cases path with
    | none => rfl
    | some p =>
      simp only at hne ⊢
      cases hf : fill_path_with_directions alloc s p with
      | mk ok p1 =>
        cases ok with
        | false =>
          rw [hf] at hne
          exact absurd rfl hne
        | true => rw [fill_path_with_directions_of_ok alloc s p p1 hf]
  induction fuel with
  | zero =>
    intro w s out h hne
    rw [reconstruct] at h ⊢
    split_ifs at h ⊢
    simp only [Option.some.injEq] at h
    subst h
    rw [hfin w s hne]
  | succ fuel ih =>
    intro w s out h hne
    rw [reconstruct] at h ⊢
    by_cases hw : w.distance > 1
    · rw [if_pos hw] at h ⊢
      cases hadv : advance select w with
      | none =>
        simp only [hadv] at h ⊢
        exact h
      | some w1 =>
        simp only [hadv] at h ⊢
        by_cases hp : path.isSome = true
        · rw [if_pos hp] at h ⊢
          cases hadd : add_direction_to_path alloc s w1.last_direction with
          | mk ok s1 =>
            cases ok with
            | false =>
              simp only [hadd, Option.some.injEq] at h
              subst h
              exact absurd rfl hne
            | true =>
              simp only [hadd] at h
              rw [add_direction_to_path_of_ok alloc s s1 _ hadd]
              exact ih w1 s1 out h hne
        · rw [if_neg hp] at h ⊢
          exact ih w1 s out h hne
    · rw [if_neg hw] at h ⊢
      simp only [Option.some.injEq] at h
      subst h
      rw [hfin w s hne]

/-- After a move, `last_direction` is a direction in `0..7` that leads back to
the tile the move came from. -/
theorem advance_forward (select : Int → Int → Best)
    (hsel : ∀ g l, (select g l).direction = -1 ∨
      (0 ≤ (select g l).direction ∧ (select g l).direction ≤ 7))
    (w w1 : Pos) (h : advance select w = some w1) :
    0 ≤ w1.last_direction ∧ w1.last_direction ≤ 7 ∧
      w1.grid_offset + map_grid_direction_delta w1.last_direction = w.grid_offset := by
  obtain ⟨h1, _, h3, h4, _⟩ := advance_some select w w1 h
  rcases hsel w.grid_offset w.last_direction with hneg | ⟨h0, h7⟩
  · exact absurd hneg h1
  · have hr := forward_direction_range _ h0 h7
    have hd := direction_delta_opposite _ h0 h7
    rw [h3, h4]
    exact ⟨hr.1, hr.2, by omega⟩

theorem walk_directions_range (select : Int → Int → Best)
    (hsel : ∀ g l, (select g l).direction = -1 ∨
      (0 ≤ (select g l).direction ∧ (select g l).direction ≤ 7)) (fuel : Nat) :
    ∀ (w : Pos), ∀ f ∈ walk_directions select fuel w, 0 ≤ f ∧ f ≤ 7 := by
  induction fuel with
  | zero =>
    intro w f hf
    simp [walk_directions, walk_trace] at hf
  | succ fuel ih =>
    intro w f hf
    by_cases hw : w.distance > 1
    · cases hadv : advance select w with
      | none =>
        simp [walk_directions, walk_trace, hw, hadv] at hf
      | some w1 =>
        rw [walk_directions_step select fuel w w1 hw hadv] at hf
        rcases List.mem_cons.mp hf with rfl | hf
        · have := advance_forward select hsel w w1 hadv
          exact ⟨this.1, this.2.1⟩
        · exact ih w1 f hf
    · rw [walk_directions_stop select _ w hw] at hf
      exact absurd hf (List.not_mem_nil _)

/-- Every stored direction is the reverse of a direction some iteration chose. -/
theorem walk_directions_mem (select : Int → Int → Best) (fuel : Nat) :
    ∀ (w : Pos), ∀ f ∈ walk_directions select fuel w,
      ∃ g l, (select g l).direction ≠ -1 ∧ f = Int.tmod ((select g l).direction + 4) 8 := by
  induction fuel with
  | zero =>
    intro w f hf
    simp [walk_directions, walk_trace] at hf
  | succ fuel ih =>
    intro w f hf
    by_cases hw : w.distance > 1
    · cases hadv : advance select w with
      | none =>
        simp [walk_directions, walk_trace, hw, hadv] at hf
      | some w1 =>
        rw [walk_directions_step select fuel w w1 hw hadv] at hf
        rcases List.mem_cons.mp hf with rfl | hf
        · obtain ⟨h1, _, h3, _, _⟩ := advance_some select w w1 hadv
          exact ⟨_, _, h1, h3⟩
        · exact ih w1 f hf
    · rw [walk_directions_stop select _ w hw] at hf
      exact absurd hf (List.not_mem_nil _)

/-- What a call that ran to its final `return` stored and returned, when
allocation cannot fail: the runs of the directions of the walk, and their number. -/
theorem reconstruct_stores (select : Int → Int → Best)
    (hsel : ∀ g l, (select g l).direction = -1 ∨
      (0 ≤ (select g l).direction ∧ (select g l).direction ≤ 7))
    (p : figure_path_data) (fuel : Nat) :
    ∀ (w : Pos) (s : Directions) (R : List (Nat × Nat)) (out : Outcome), Holds s R →
      reconstruct alloc_ok select (some p) fuel w s = some out → out.exit = Exit.done →
      out.path = some { p with
        directions := some ((push_runs R ((walk_directions select fuel w).map Int.toNat)).map pack),
        total_directions := (push_runs R ((walk_directions select fuel w).map Int.toNat)).length } ∧
      out.result = w.num_tiles + (walk_directions select fuel w).length ∧
      (walk_end select fuel w).distance ≤ 1 := by
  have hfin : ∀ (w : Pos) (s : Directions) (R : List (Nat × Nat)), Holds s R →
      finish alloc_ok (some p) w s = Outcome.mk w.num_tiles
        (some { p with directions := some (R.map pack), total_directions := R.length })
        s Exit.done := by
    intro w s R hR
    unfold finish
    simp only [fill_path_with_directions_holds s R p hR]
  induction fuel with
  | zero =>
    intro w s R out hR h _
    rw [reconstruct] at h
    by_cases hw : w.distance > 1
    · rw [if_pos hw] at h
      exact absurd h (by simp)
    · rw [if_neg hw, hfin w s R hR] at h
      simp only [Option.some.injEq] at h
      subst h
      rw [walk_directions_stop select _ w hw]
      exact ⟨rfl, by simp, by simp only [walk_end]; omega⟩
  | succ fuel ih =>
    intro w s R out hR h hdone
    rw [reconstruct] at h
    by_cases hw : w.distance > 1
    · rw [if_pos hw] at h
      cases hadv : advance select w with
      | none =>
        simp only [hadv, Option.some.injEq] at h
        subst h
        exact absurd hdone (by simp)
      | some w1 =>
        simp only [hadv, Option.isSome_some, if_true] at h
        obtain ⟨h0, h7, _⟩ := advance_forward select hsel w w1 hadv
        have hcast : ((w1.last_direction.toNat : Nat) : Int) = w1.last_direction := by omega
        have hadd := holds_add s R w1.last_direction.toNat hR (by omega)
        rw [hcast] at hadd
        cases hres : add_direction_to_path alloc_ok s w1.last_direction with
        | mk ok s1 =>
          rw [hres] at hadd
          simp only at hadd
          obtain ⟨rfl, hs1⟩ := hadd
          simp only [hres] at h
          have := ih w1 s1 _ out hs1 h hdone
          rw [walk_directions_step select fuel w w1 hw hadv, walk_end_step select fuel w w1 hw hadv]
          obtain ⟨e1, e2, e3⟩ := this
          refine ⟨e1, ?_, e3⟩
          rw [e2, (advance_some select w w1 hadv).2.2.2.2]
          simp only [List.length_cons, Nat.cast_add, Nat.cast_one]
          omega
    · rw [if_neg hw, hfin w s R hR] at h
      simp only [Option.some.injEq] at h
      subst h
      rw [walk_directions_stop select _ w hw]
      refine ⟨rfl, by simp, ?_⟩
      rw [walk_end, if_neg hw]
      omega

/-! ## Following stored directions -/

theorem follow_ne_nil (o : Int) (ds : List Int) : follow o ds ≠ [] := by
  cases ds <;> simp [follow]

theorem follow_snoc (ds : List Int) :
    ∀ (o x d : Int), (follow o ds).getLast? = some x →
      follow o (ds ++ [d]) = follow o ds ++ [x + map_grid_direction_delta d] := by
  induction ds with
  | nil =>
    intro o x d h
    simp only [follow, List.getLast?_singleton, Option.some.injEq] at h
    subst h
    rfl
  | cons e ds ih =>
    intro o x d h
    simp only [follow, List.cons_append, List.cons.injEq, true_and]
    apply ih
    obtain ⟨y, ys, hy⟩ := List.exists_cons_of_ne_nil
      (follow_ne_nil (o + map_grid_direction_delta e) ds)
    rw [follow, hy, List.getLast?_cons_cons] at h
    rw [hy]
    exact h

/-- Moving from the tile the walk ended on along the stored directions, last
appended first, visits the tiles of the walk in reverse order. -/
theorem follow_walk (select : Int → Int → Best)
    (hsel : ∀ g l, (select g l).direction = -1 ∨
      (0 ≤ (select g l).direction ∧ (select g l).direction ≤ 7)) (fuel : Nat) :
    ∀ (w : Pos), follow (walk_end select fuel w).grid_offset
        (walk_directions select fuel w).reverse =
      ((walk_trace select fuel w).map (fun w1 => w1.grid_offset)).reverse := by
  induction fuel with
  | zero =>
    intro w
    rfl
  | succ fuel ih =>
    intro w
    by_cases hw : w.distance > 1
    · cases hadv : advance select w with
      | none =>
        simp [walk_end, walk_directions, walk_trace, hw, hadv, follow]
      | some w1 =>
        rw [walk_end_step select fuel w w1 hw hadv, walk_directions_step select fuel w w1 hw hadv,
          walk_trace_step select fuel w w1 hw hadv, List.reverse_cons]
        have hlast : (follow (walk_end select fuel w1).grid_offset
            (walk_directions select fuel w1).reverse).getLast? = some w1.grid_offset := by
          rw [ih w1, List.getLast?_reverse, walk_trace_cons select fuel w1]
          rfl
        rw [follow_snoc _ _ _ _ hlast, ih w1, (advance_forward select hsel w w1 hadv).2.2]
        simp
    · simp [walk_end, walk_directions, walk_trace, hw, follow]

/-- The land loop ends on no candidate or on a direction in `0..7`. -/
theorem land_select_range (m : Map) (num_directions : Int) :
    ∀ g l, (land_select m (direction_step num_directions) g l).direction = -1 ∨
      (0 ≤ (land_select m (direction_step num_directions) g l).direction ∧
        (land_select m (direction_step num_directions) g l).direction ≤ 7) := by
  intro g l
  rcases land_select_direction m num_directions g l with h | h
  · exact Or.inl h
  · exact Or.inr (loop_directions_range _ (direction_step_cases num_directions) _ h)

/-- What a call of `map_routing_get_path` that reached its final `return` stored
in the record and returned. -/
theorem map_routing_get_path_done (alloc : Nat → Bool) (m : Map) (s : Directions)
    (p : figure_path_data) (dst_x dst_y num_directions : Int) (fuel : Nat) (out : Outcome)
    (hwf : s.size = s.path.length)
    (hcall : map_routing_get_path alloc m s (some p) dst_x dst_y num_directions fuel = some out)
    (hdone : out.exit = Exit.done) :
    out.path = some { p with
      directions := some ((push_runs [] ((walk_directions
        (land_select m (direction_step num_directions)) fuel
        (land_start m dst_x dst_y)).map Int.toNat)).map pack),
      total_directions := (push_runs [] ((walk_directions
        (land_select m (direction_step num_directions)) fuel
        (land_start m dst_x dst_y)).map Int.toNat)).length } ∧
    out.result = (walk_directions (land_select m (direction_step num_directions)) fuel
      (land_start m dst_x dst_y)).length ∧
    (walk_end (land_select m (direction_step num_directions)) fuel
      (land_start m dst_x dst_y)).distance ≤ 1 := by
  unfold map_routing_get_path at hcall
  simp only at hcall
  by_cases hd : m.map_routing_distance (map_grid_offset m dst_x dst_y) ≤ 0
  · rw [if_pos hd] at hcall
    simp only [Option.some.injEq] at hcall
    subst hcall
    exact absurd hdone (by simp)
  · rw [if_neg hd] at hcall
    have hok := reconstruct_of_ok alloc _ _ fuel _ _ out hcall (by rw [hdone]; simp)
    have := reconstruct_stores _ (land_select_range m num_directions) p fuel _ _ [] out
      (holds_reset s hwf) hok hdone
    simpa [land_start] using this

/-- One call past the last entry returns the sentinel and changes nothing. -/
theorem next_directions_of_record_sentinel (q : figure_path_data)
    (h : q.total_directions ≤ q.current_step) :
    next_directions_of_record q 1 = some ([8], q) := by
  simp only [next_directions_of_record, next_direction_of_record_exhausted q h]

/-- Decoding a record that stores the runs of `ns`: from the fresh cursor the
calls return `ns` in reverse and then the sentinel 8. -/
theorem decode_stored (p : figure_path_data) (ns : List Nat) (hns : ∀ n ∈ ns, n < 8)
    (paths : List figure_path_data) (path_id : Nat)
    (hslot : paths.get? path_id = some (fresh_cursor { p with
      directions := some ((push_runs [] ns).map pack),
      total_directions := (push_runs [] ns).length })) :
    stored_steps ((push_runs [] ns).map pack) = ns.length ∧
    unit_steps ((push_runs [] ns).map pack) = (ns.map Int.ofNat).reverse ∧
    (next_directions paths path_id ns.length).map Prod.fst = some (ns.map Int.ofNat).reverse ∧
    (next_directions paths path_id (ns.length + 1)).map Prod.fst =
      some ((ns.map Int.ofNat).reverse ++ [8]) := by
  have hfields := push_runs_fields ns hns [] (by simp)
  have hsteps : stored_steps ((push_runs [] ns).map pack) = ns.length := by
    rw [stored_steps_pack _ hfields, run_steps_push_runs]
    simp [run_steps]
  have hunit : unit_steps ((push_runs [] ns).map pack) = (ns.map Int.ofNat).reverse := by
    rw [unit_steps_pack _ hfields, run_steps_push_runs]
    simp [run_steps]
  have hdec := next_directions_of_record_fresh
    { p with directions := some ((push_runs [] ns).map pack),
             total_directions := (push_runs [] ns).length }
    ((push_runs [] ns).map pack) rfl (by simp)
  rw [hsteps, hunit] at hdec
  have hall := next_directions_of_record_append _ _ _ _ _ _ _ hdec
    (next_directions_of_record_sentinel _ (le_refl _))
  refine ⟨hsteps, hunit, ?_, ?_⟩
  · rw [next_directions_of_pool _ _ _ _ _ _ hslot hdec]
    rfl
  · rw [next_directions_of_pool _ _ _ _ _ _ hslot hall]
    rfl

/-- The direction of every run comes from the runs before or from the appended
directions. -/
theorem push_runs_directions (ns : List Nat) :
    ∀ R : List (Nat × Nat), ∀ r ∈ push_runs R ns, (∃ q ∈ R, q.1 = r.1) ∨ r.1 ∈ ns := by
  induction ns with
  | nil =>
    intro R r hr
    exact Or.inl ⟨r, hr, rfl⟩
  | cons n ns ih =>
    intro R r hr
    rcases ih (push_run n R) r hr with ⟨q, hq, hqr⟩ | h
    · cases R with
      | nil =>
        simp only [push_run, List.mem_singleton] at hq
        subst hq
        exact Or.inr (by rw [← hqr]; exact List.mem_cons_self _ _)
      | cons t R =>
        by_cases hc : n = t.1 ∧ t.2 < ROUTING_PATH_DIRECTION_COUNT_BIT_MASK
        · simp only [push_run, if_pos hc] at hq
          rcases List.mem_cons.mp hq with rfl | hq
          · exact Or.inl ⟨t, List.mem_cons_self _ _, hqr⟩
          · exact Or.inl ⟨q, List.mem_cons_of_mem _ hq, hqr⟩
        · simp only [push_run, if_neg hc] at hq
          rcases List.mem_cons.mp hq with rfl | hq
          · exact Or.inr (by rw [← hqr]; exact List.mem_cons_self _ _)
          · exact Or.inl ⟨q, hq, hqr⟩
    · exact Or.inr (List.mem_cons_of_mem _ h)

/-! ## Claims on whole calls -/

/-- C2. A call of `map_routing_get_path` with a record that reaches its final
`return` returns the number of unit steps stored in the record, the sum of
`count field + 1` over its entries; from the fresh cursor that many calls of
`figure_route_get_next_direction` return directions other than 8 and the next
call returns 8. -/
theorem tile_count_is_stored_steps (alloc : Nat → Bool) (m : Map) (s : Directions)
    (p : figure_path_data) (dst_x dst_y num_directions : Int) (fuel : Nat) (out : Outcome)
    (paths : List figure_path_data) (path_id : Nat)
    (hwf : s.size = s.path.length)
    (hcall : map_routing_get_path alloc m s (some p) dst_x dst_y num_directions fuel = some out)
    (hdone : out.exit = Exit.done)
    (hslot : paths.get? path_id = out.path.map fresh_cursor) :
    ∃ buf, out.path.bind (fun q => q.directions) = some buf ∧
      out.result = stored_steps buf ∧
      (next_directions paths path_id (stored_steps buf + 1)).map Prod.fst =
        some (unit_steps buf ++ [8]) ∧
      (unit_steps buf).length = stored_steps buf ∧ ∀ d ∈ unit_steps buf, d ≠ 8 := by
  obtain ⟨hpath, hres, _⟩ :=
    map_routing_get_path_done alloc m s p dst_x dst_y num_directions fuel out hwf hcall hdone
  have hrange := walk_directions_range _ (land_select_range m num_directions) fuel
    (land_start m dst_x dst_y)
  obtain ⟨hcast, hlt⟩ := directions_as_nat _ hrange
  rw [hpath] at hslot
  obtain ⟨h1, h2, _, h4⟩ := decode_stored p _ hlt paths path_id hslot
  refine ⟨_, by rw [hpath]; rfl, ?_, ?_, unit_steps_length _, ?_⟩
  · rw [hres, h1, List.length_map]
  · rw [h1, h2, h4]
  · intro d hd
    rw [h2, hcast] at hd
    have := hrange d (List.mem_reverse.mp hd)
    omega

/-- Witness of C2: the 8-direction call for `(28, 6)` on `highway_diagonal_map`. -/
theorem tile_count_is_stored_steps_witness :
    ∃ buf, diagonal_outcome.path.bind (fun q => q.directions) = some buf ∧
      diagonal_outcome.result = stored_steps buf ∧
      (next_directions [empty_record, ⟨1, 0, 2, some [128, 160], 0, 0⟩] 1
        (stored_steps buf + 1)).map Prod.fst = some (unit_steps buf ++ [8]) ∧
      (unit_steps buf).length = stored_steps buf ∧ ∀ d ∈ unit_steps buf, d ≠ 8 :=
  tile_count_is_stored_steps alloc_ok highway_diagonal_map small_scratch empty_record 28 6 8 2
    diagonal_outcome [empty_record, ⟨1, 0, 2, some [128, 160], 0, 0⟩] 1 (by decide) (by decide)
    (by decide) (by decide)

/-- C3. After a call of `map_routing_get_path` with a record that reaches its
final `return`, the calls of `figure_route_get_next_direction` from the fresh
cursor return the directions of the walk in reverse; moving along them from the
tile on which the walk ended visits the tiles of the walk in reverse order and
ends on the destination offset. -/
theorem stored_path_retraces_walk (alloc : Nat → Bool) (m : Map) (s : Directions)
    (p : figure_path_data) (dst_x dst_y num_directions : Int) (fuel : Nat) (out : Outcome)
    (paths : List figure_path_data) (path_id : Nat)
    (hwf : s.size = s.path.length)
    (hcall : map_routing_get_path alloc m s (some p) dst_x dst_y num_directions fuel = some out)
    (hdone : out.exit = Exit.done)
    (hslot : paths.get? path_id = out.path.map fresh_cursor) :
    (next_directions paths path_id out.result.toNat).map Prod.fst =
      some (walk_directions (land_select m (direction_step num_directions)) fuel
        (land_start m dst_x dst_y)).reverse ∧
    follow (walk_end (land_select m (direction_step num_directions)) fuel
        (land_start m dst_x dst_y)).grid_offset
      (walk_directions (land_select m (direction_step num_directions)) fuel
        (land_start m dst_x dst_y)).reverse =
      ((walk_trace (land_select m (direction_step num_directions)) fuel
        (land_start m dst_x dst_y)).map (fun w => w.grid_offset)).reverse ∧
    (follow (walk_end (land_select m (direction_step num_directions)) fuel
        (land_start m dst_x dst_y)).grid_offset
      (walk_directions (land_select m (direction_step num_directions)) fuel
        (land_start m dst_x dst_y)).reverse).getLast? = some (map_grid_offset m dst_x dst_y) := by
  obtain ⟨hpath, hres, _⟩ :=
    map_routing_get_path_done alloc m s p dst_x dst_y num_directions fuel out hwf hcall hdone
  have hrange := walk_directions_range _ (land_select_range m num_directions) fuel
    (land_start m dst_x dst_y)
  obtain ⟨hcast, hlt⟩ := directions_as_nat _ hrange
  rw [hpath] at hslot
  obtain ⟨_, _, h3, _⟩ := decode_stored p _ hlt paths path_id hslot
  have hfollow := follow_walk _ (land_select_range m num_directions) fuel
    (land_start m dst_x dst_y)
  refine ⟨?_, hfollow, ?_⟩
  · rw [hres]
    rw [hcast, List.length_map] at h3
    simpa using h3
  · rw [hfollow, List.getLast?_reverse, walk_trace_cons]
    rfl

/-- Witness of C3: the 8-direction call for `(28, 6)` on `highway_diagonal_map`;
the stored directions 4, 5 lead from tile 677 over 839 to the destination 1000. -/
theorem stored_path_retraces_walk_witness :
    (next_directions [empty_record, ⟨1, 0, 2, some [128, 160], 0, 0⟩] 1
      diagonal_outcome.result.toNat).map Prod.fst =
      some (walk_directions (land_select highway_diagonal_map (direction_step 8)) 2
        (land_start highway_diagonal_map 28 6)).reverse ∧
    follow (walk_end (land_select highway_diagonal_map (direction_step 8)) 2
        (land_start highway_diagonal_map 28 6)).grid_offset
      (walk_directions (land_select highway_diagonal_map (direction_step 8)) 2
        (land_start highway_diagonal_map 28 6)).reverse =
      ((walk_trace (land_select highway_diagonal_map (direction_step 8)) 2
        (land_start highway_diagonal_map 28 6)).map (fun w => w.grid_offset)).reverse ∧
    (follow (walk_end (land_select highway_diagonal_map (direction_step 8)) 2
        (land_start highway_diagonal_map 28 6)).grid_offset
      (walk_directions (land_select highway_diagonal_map (direction_step 8)) 2
        (land_start highway_diagonal_map 28 6)).reverse).getLast? =
      some (map_grid_offset highway_diagonal_map 28 6) :=
  stored_path_retraces_walk alloc_ok highway_diagonal_map small_scratch empty_record 28 6 8 2
    diagonal_outcome [empty_record, ⟨1, 0, 2, some [128, 160], 0, 0⟩] 1 (by decide) (by decide)
    (by decide) (by decide)

/-- C5. When the distance of the destination is 0 both reconstructors return 0;
and whenever either leaves through the `return 0` for an unreachable destination
or for exhausted candidates, the result is 0 and the caller's record is the one
passed in, every field unchanged. -/
theorem unreachable_leaves_record (alloc : Nat → Bool) (m : Map) (random_byte : Nat)
    (s : Directions) (path : Option figure_path_data) (dst_x dst_y num_directions : Int)
    (is_flotsam : Bool) (fuel : Nat) :
    (m.map_routing_distance (map_grid_offset m dst_x dst_y) = 0 →
      map_routing_get_path alloc m s path dst_x dst_y num_directions fuel =
        some (Outcome.mk 0 path s Exit.unreachable) ∧
      map_routing_get_path_on_water alloc m random_byte s path dst_x dst_y is_flotsam fuel =
        some (Outcome.mk 0 path s Exit.unreachable)) ∧
    (∀ out, map_routing_get_path alloc m s path dst_x dst_y num_directions fuel = some out →
      out.exit = Exit.unreachable ∨ out.exit = Exit.exhausted →
      out.result = 0 ∧ out.path = path) ∧
    (∀ out, map_routing_get_path_on_water alloc m random_byte s path dst_x dst_y is_flotsam
        fuel = some out →
      out.exit = Exit.unreachable ∨ out.exit = Exit.exhausted →
      out.result = 0 ∧ out.path = path) := by
  refine ⟨?_, ?_, ?_⟩
  · intro h0
    unfold map_routing_get_path map_routing_get_path_on_water
    simp only [h0, le_refl, if_true, and_self]
  · intro out h hexit
    unfold map_routing_get_path at h
    simp only at h
    split_ifs at h with hd
    · simp only [Option.some.injEq] at h
      subst h
      exact ⟨rfl, rfl⟩
    · have := reconstruct_exhausted alloc _ path fuel _ _ out h
      rcases hexit with hexit | hexit
      · exact absurd hexit this.1
      · exact this.2 hexit
  · intro out h hexit
    unfold map_routing_get_path_on_water at h
    simp only at h
    split_ifs at h with hd
    · simp only [Option.some.injEq] at h
      subst h
      exact ⟨rfl, rfl⟩
    · have := reconstruct_exhausted alloc _ path fuel _ _ out h
      rcases hexit with hexit | hexit
      · exact absurd hexit this.1
      · exact this.2 hexit

/-- Witness of C5: on `plateau_map` the destination `(0, 0)` has distance 0. -/
theorem unreachable_leaves_record_witness :
    map_routing_get_path alloc_ok plateau_map ⟨[], 0, 0, -1, 0⟩ (some ⟨1, 7, 1, some [64], 0, 0⟩)
        0 0 8 5 =
      some (Outcome.mk 0 (some ⟨1, 7, 1, some [64], 0, 0⟩) ⟨[], 0, 0, -1, 0⟩ Exit.unreachable) ∧
    map_routing_get_path_on_water alloc_ok plateau_map 2 ⟨[], 0, 0, -1, 0⟩
        (some ⟨1, 7, 1, some [64], 0, 0⟩) 0 0 true 5 =
      some (Outcome.mk 0 (some ⟨1, 7, 1, some [64], 0, 0⟩) ⟨[], 0, 0, -1, 0⟩ Exit.unreachable) :=
  (unreachable_leaves_record alloc_ok plateau_map 2 ⟨[], 0, 0, -1, 0⟩
    (some ⟨1, 7, 1, some [64], 0, 0⟩) 0 0 8 true 5).1 (by decide)

/-- C10. In the 4-direction mode (`num_directions != 8`) every entry stored in the
record by a call that reaches its final `return` has one of the straight
directions 0, 2, 4, 6; in the 8-direction mode the candidate loop runs through
all of 0..7. -/
theorem four_directions_stored_straight (alloc : Nat → Bool) (m : Map) (s : Directions)
    (p : figure_path_data) (dst_x dst_y num_directions : Int) (fuel : Nat) (out : Outcome)
    (hwf : s.size = s.path.length)
    (hcall : map_routing_get_path alloc m s (some p) dst_x dst_y num_directions fuel = some out)
    (hdone : out.exit = Exit.done) (h4 : num_directions ≠ 8) :
    (∃ buf, out.path.bind (fun q => q.directions) = some buf ∧
      ∀ b ∈ buf, entry_direction b = 0 ∨ entry_direction b = 2 ∨ entry_direction b = 4 ∨
        entry_direction b = 6) ∧
    loop_directions (direction_step 8) = [0, 1, 2, 3, 4, 5, 6, 7] := by
  refine ⟨?_, by decide⟩
  obtain ⟨hpath, _, _⟩ :=
    map_routing_get_path_done alloc m s p dst_x dst_y num_directions fuel out hwf hcall hdone
  have hrange := walk_directions_range _ (land_select_range m num_directions) fuel
    (land_start m dst_x dst_y)
  obtain ⟨hcast, hlt⟩ := directions_as_nat _ hrange
  have hfields := push_runs_fields _ hlt [] (by simp)
  have hstep : direction_step num_directions = 2 := by
    unfold direction_step
    rw [if_neg h4]
  refine ⟨_, by rw [hpath]; rfl, ?_⟩
  intro b hb
  obtain ⟨r, hr, rfl⟩ := List.mem_map.mp hb
  rw [pack_direction r (hfields r hr).2]
  rcases push_runs_directions _ [] r hr with ⟨q, hq, _⟩ | hmem
  · exact absurd hq (List.not_mem_nil _)
  · obtain ⟨f, hf, hfr⟩ := List.mem_map.mp hmem
    obtain ⟨g, l, hne, hfd⟩ := walk_directions_mem _ fuel _ f hf
    have hf07 := hrange f hf
    have hdir : (land_select m (direction_step num_directions) g l).direction ∈
        loop_directions 2 := by
      rcases land_select_direction m num_directions g l with h | h
      · exact absurd h hne
      · have h2 : loop_directions (direction_step num_directions) = loop_directions 2 := by
          rw [hstep]
        rw [h2] at h
        exact h
    rw [loop_directions_two] at hdir
    simp only [List.mem_cons, List.mem_singleton, List.not_mem_nil, or_false] at hdir
    have hr1 : (r.1 : Int) = f := by
      rw [← hfr]
      omega
    rw [hr1, hfd]
    rcases hdir with h | h | h | h <;> rw [h] <;> decide

/-- Witness of C10: the 4-direction call for `(28, 6)` on `highway_diagonal_map`
stores the directions 4, 6, 4. -/
theorem four_directions_stored_straight_witness :
    (∃ buf, straight_outcome.path.bind (fun q => q.directions) = some buf ∧
      ∀ b ∈ buf, entry_direction b = 0 ∨ entry_direction b = 2 ∨ entry_direction b = 4 ∨
        entry_direction b = 6) ∧
    loop_directions (direction_step 8) = [0, 1, 2, 3, 4, 5, 6, 7] :=
  four_directions_stored_straight alloc_ok highway_diagonal_map small_scratch empty_record 28 6 4
    3 straight_outcome (by decide) (by decide) (by decide) (by decide)

/-! ## The walk on a Manhattan gradient -/

/-- Why `GradientField` asks for tiles of distance 0 around the map. On a field
that is a gradient on all 162 columns of the grid, which no map of the game
holds (a map has at most 160 columns and lies inside the grid), the rows touch:
tile `(161, 1)` is the left neighbour of tile `(0, 2)` in the linear grid, and
the call for the destination `(0, 2)` with the origin `(161, 1)` returns 1 in
both modes. -/
theorem full_grid_gradient_wraps :
    (full_grid_gradient_map 161 1).map_routing_distance
      (map_grid_offset (full_grid_gradient_map 161 1) 0 2) = 1 + 161 + 1 ∧
    (map_routing_get_path alloc_ok (full_grid_gradient_map 161 1) small_scratch none 0 2 8
      200).map (fun o => (o.result, o.exit)) = some (1, Exit.done) ∧
    gradient_steps 8 (0 - 161) (2 - 1) = 161 ∧
    (map_routing_get_path alloc_ok (full_grid_gradient_map 161 1) small_scratch none 0 2 4
      200).map (fun o => (o.result, o.exit)) = some (1, Exit.done) ∧
    gradient_steps 4 (0 - 161) (2 - 1) = 162 := by
  decide

/-- The field of `full_grid_gradient_map` is the gradient on every grid tile. -/
theorem full_grid_gradient_map_distance (ox oy x y : Int) (hx : 0 ≤ x ∧ x < GRID_SIZE)
    (hy : 0 ≤ y) :
    (full_grid_gradient_map ox oy).map_routing_distance
      (map_grid_offset (full_grid_gradient_map ox oy) x y) =
      1 + (x - ox).natAbs + (y - oy).natAbs := by
  unfold GRID_SIZE at hx
  have h0 : 0 ≤ x + y * 162 := by omega
  simp only [full_grid_gradient_map, map_grid_offset, GRID_SIZE, zero_add]
  rw [Int.tmod_eq_emod h0 (by omega), Int.tdiv_eq_ediv h0 (by omega)]
  have h1 : (x + y * 162) % 162 = x := by omega
  have h2 : (x + y * 162) / 162 = y := by omega
  rw [h1, h2]

/-- Without highways the loop body never raises the best distance and leaves it
at most the distance of an eligible neighbour with non-zero distance. -/
theorem land_consider_no_highway (m : Map) (base g last : Int) (b : Best) (d : Int)
    (hhw : ∀ o, m.map_terrain_is_highway o = false) (hb : b.is_highway = false) :
    (land_consider m base g last b d).is_highway = false ∧
    (land_consider m base g last b d).distance ≤ b.distance ∧
    (d ≠ last → m.map_routing_distance (g + map_grid_direction_delta d) ≠ 0 →
      (land_consider m base g last b d).distance ≤
        m.map_routing_distance (g + map_grid_direction_delta d)) := by
  rcases land_consider_cases m base g last b d with ⟨h, hrej⟩ | ⟨h, _, _, h3⟩
  · rw [h]
    refine ⟨hb, le_refl _, fun h1 h2 => ?_⟩
    by_contra hcon
    apply hrej
    refine ⟨h1, h2, ?_⟩
    rw [next_is_better_iff, hb]
    right
    exact ⟨by simp, Or.inl (by omega)⟩
  · rw [h]
    rw [next_is_better_iff, hb, hhw] at h3
    simp only [Bool.false_eq_true, and_false, false_and, and_self, false_or, not_false_eq_true,
      true_and] at h3
    refine ⟨hhw _, ?_, fun _ _ => le_refl _⟩
    simp only
    omega

theorem land_fold_no_highway (m : Map) (base g last : Int) (l : List Int)
    (hhw : ∀ o, m.map_terrain_is_highway o = false) :
    ∀ b : Best, b.is_highway = false →
      (l.foldl (land_consider m base g last) b).distance ≤ b.distance ∧
      ∀ e ∈ l, e ≠ last → m.map_routing_distance (g + map_grid_direction_delta e) ≠ 0 →
        (l.foldl (land_consider m base g last) b).distance ≤
          m.map_routing_distance (g + map_grid_direction_delta e) := by
  induction l with
  | nil =>
    intro b _
    exact ⟨le_refl _, fun e he => absurd he (List.not_mem_nil _)⟩
  | cons d l ih =>
    intro b hb
    obtain ⟨h1, h2, h3⟩ := land_consider_no_highway m base g last b d hhw hb
    obtain ⟨i1, i2⟩ := ih _ h1
    rw [List.foldl_cons]
    refine ⟨le_trans i1 h2, fun e he hel he0 => ?_⟩
    rcases List.mem_cons.mp he with rfl | he
    · exact le_trans i1 (h3 hel he0)
    · exact i2 e he hel he0

/-- Without highways the iteration moves to an eligible neighbour whose distance
is the least among the eligible neighbours with non-zero distance, whenever one
of them is at most as far as the current tile. -/
theorem land_select_min (m : Map) (num_directions g last e : Int)
    (hhw : ∀ o, m.map_terrain_is_highway o = false)
    (he : e ∈ loop_directions (direction_step num_directions)) (hel : e ≠ last)
    (he0 : m.map_routing_distance (g + map_grid_direction_delta e) ≠ 0)
    (hle : m.map_routing_distance (g + map_grid_direction_delta e) ≤ m.map_routing_distance g) :
    (land_select m (direction_step num_directions) g last).direction ≠ -1 ∧
    (land_select m (direction_step num_directions) g last).distance ≤
      m.map_routing_distance (g + map_grid_direction_delta e) := by
  constructor
  · intro hneg
    have := (land_fold_none_iff m _ g last _ (loop_directions_ne num_directions)).mp hneg e he hel
    omega
  · exact (land_fold_no_highway m _ g last _ hhw _ rfl).2 e he hel he0

/-- Each direction in `0..7` moves `(x, y)` by a unit vector whose grid delta is
the direction's delta. -/
theorem adjust_tile_vector (d x y g : Int) (h0 : 0 ≤ d) (h7 : d ≤ 7) :
    ∃ ux uy : Int, -1 ≤ ux ∧ ux ≤ 1 ∧ -1 ≤ uy ∧ uy ≤ 1 ∧ (ux ≠ 0 ∨ uy ≠ 0) ∧
      (d % 2 = 0 → ux = 0 ∨ uy = 0) ∧
      adjust_tile_in_direction d x y g = (x + ux, y + uy, g + map_grid_direction_delta d) ∧
      map_grid_direction_delta d = ux + GRID_SIZE * uy := by
  have : d = 0 ∨ d = 1 ∨ d = 2 ∨ d = 3 ∨ d = 4 ∨ d = 5 ∨ d = 6 ∨ d = 7 := by omega
  rcases this with rfl | rfl | rfl | rfl | rfl | rfl | rfl | rfl
  · exact ⟨0, -1, by omega, by omega, by omega, by omega, by omega, by omega,
      by simp [adjust_tile_in_direction, sub_eq_add_neg], by decide⟩
  · exact ⟨1, -1, by omega, by omega, by omega, by omega, by omega, by omega,
      by simp [adjust_tile_in_direction, sub_eq_add_neg], by decide⟩
  · exact ⟨1, 0, by omega, by omega, by omega, by omega, by omega, by omega,
      by simp [adjust_tile_in_direction, sub_eq_add_neg], by decide⟩
  · exact ⟨1, 1, by omega, by omega, by omega, by omega, by omega, by omega,
      by simp [adjust_tile_in_direction, sub_eq_add_neg], by decide⟩
  · exact ⟨0, 1, by omega, by omega, by omega, by omega, by omega, by omega,
      by simp [adjust_tile_in_direction, sub_eq_add_neg], by decide⟩
  · exact ⟨-1, 1, by omega, by omega, by omega, by omega, by omega, by omega,
      by simp [adjust_tile_in_direction, sub_eq_add_neg], by decide⟩
  · exact ⟨-1, 0, by omega, by omega, by omega, by omega, by omega, by omega,
      by simp [adjust_tile_in_direction, sub_eq_add_neg], by decide⟩
  · exact ⟨-1, -1, by omega, by omega, by omega, by omega, by omega, by omega,
      by simp [adjust_tile_in_direction, sub_eq_add_neg], by decide⟩

/-- Each unit vector is the move of a direction, a straight one when the vector
is axis-parallel. -/
theorem direction_of_vector (ux uy : Int) (hx : -1 ≤ ux ∧ ux ≤ 1) (hy : -1 ≤ uy ∧ uy ≤ 1)
    (hne : ux ≠ 0 ∨ uy ≠ 0) :
    ∃ d : Int, d ∈ loop_directions 1 ∧ ((ux = 0 ∨ uy = 0) → d ∈ loop_directions 2) ∧
      map_grid_direction_delta d = ux + GRID_SIZE * uy := by
  have h1 : ux = -1 ∨ ux = 0 ∨ ux = 1 := by omega
  have h2 : uy = -1 ∨ uy = 0 ∨ uy = 1 := by omega
  rcases h1 with rfl | rfl | rfl <;> rcases h2 with rfl | rfl | rfl
  · exact ⟨7, by decide, by decide, by decide⟩
  · exact ⟨6, by decide, by decide, by decide⟩
  · exact ⟨5, by decide, by decide, by decide⟩
  · exact ⟨0, by decide, by decide, by decide⟩
  · exact absurd hne (by decide)
  · exact ⟨4, by decide, by decide, by decide⟩
  · exact ⟨1, by decide, by decide, by decide⟩
  · exact ⟨2, by decide, by decide, by decide⟩
  · exact ⟨3, by decide, by decide, by decide⟩

theorem advance_xy (select : Int → Int → Best) (w w1 : Pos) (h : advance select w = some w1) :
    w1.x = (adjust_tile_in_direction (select w.grid_offset w.last_direction).direction
      w.x w.y w.grid_offset).1 ∧
    w1.y = (adjust_tile_in_direction (select w.grid_offset w.last_direction).direction
      w.x w.y w.grid_offset).2.1 := by
  unfold advance at h
  simp only at h
  split_ifs at h with h1
  simp only [Option.some.injEq] at h
  subst h
  exact ⟨rfl, rfl⟩

theorem map_grid_offset_add (m : Map) (x y ux uy : Int) :
    map_grid_offset m x y + (ux + GRID_SIZE * uy) = map_grid_offset m (x + ux) (y + uy) := by
  unfold map_grid_offset GRID_SIZE
  omega

/-- Around a map tile of a gradient field, a neighbour with non-zero distance is a
map tile and carries the gradient value. -/
theorem gradient_neighbour (m : Map) (width height ox oy : Int)
    (hG : GradientField m width height ox oy) (x y ux uy : Int)
    (hx : 0 ≤ x ∧ x < width) (hy : 0 ≤ y ∧ y < height)
    (hux : -1 ≤ ux ∧ ux ≤ 1) (huy : -1 ≤ uy ∧ uy ≤ 1)
    (h0 : m.map_routing_distance (map_grid_offset m (x + ux) (y + uy)) ≠ 0) :
    (0 ≤ x + ux ∧ x + ux < width) ∧ (0 ≤ y + uy ∧ y + uy < height) ∧
    m.map_routing_distance (map_grid_offset m (x + ux) (y + uy)) =
      1 + (x + ux - ox).natAbs + (y + uy - oy).natAbs := by
  by_cases hin : (0 ≤ x + ux ∧ x + ux < width) ∧ (0 ≤ y + uy ∧ y + uy < height)
  · exact ⟨hin.1, hin.2, hG.inside _ _ hin.1.1 hin.1.2 hin.2.1 hin.2.2⟩
  · exfalso
    apply h0
    apply hG.border _ _ (by omega) (by omega) (by omega) (by omega)
    omega

/-- One iteration of the land walk on a gradient field, given an eligible
neighbour `e` with a non-zero distance at most that of the current tile: the
walk moves by a unit vector to a map tile at most as far as `e`. -/
theorem gradient_advance (m : Map) (width height ox oy num_directions : Int)
    (hG : GradientField m width height ox oy) (w : Pos) (hw : OnGradient m width height w)
    (e : Int) (he : e ∈ loop_directions (direction_step num_directions))
    (hel : e ≠ w.last_direction)
    (he0 : m.map_routing_distance (w.grid_offset + map_grid_direction_delta e) ≠ 0)
    (hle : m.map_routing_distance (w.grid_offset + map_grid_direction_delta e) ≤
      m.map_routing_distance w.grid_offset) :
    ∃ (w1 : Pos) (ux uy : Int),
      advance (land_select m (direction_step num_directions)) w = some w1 ∧
      OnGradient m width height w1 ∧
      w1.x = w.x + ux ∧ w1.y = w.y + uy ∧ -1 ≤ ux ∧ ux ≤ 1 ∧ -1 ≤ uy ∧ uy ≤ 1 ∧
      (direction_step num_directions = 2 → ux = 0 ∨ uy = 0) ∧ (ux ≠ 0 ∨ uy ≠ 0) ∧
      m.map_routing_distance w1.grid_offset =
        1 + (w1.x - ox).natAbs + (w1.y - oy).natAbs ∧
      m.map_routing_distance w1.grid_offset ≤
        m.map_routing_distance (w.grid_offset + map_grid_direction_delta e) ∧
      w1.num_tiles = w.num_tiles + 1 := by
  obtain ⟨hdir, hmin⟩ := land_select_min m num_directions w.grid_offset w.last_direction e
    hG.no_highway he hel he0 hle
  have hinv := (land_select_inv m num_directions w.grid_offset w.last_direction).2 hdir
  have hmem : (land_select m (direction_step num_directions) w.grid_offset
      w.last_direction).direction ∈ loop_directions (direction_step num_directions) := by
    rcases land_select_direction m num_directions w.grid_offset w.last_direction with h | h
    · exact absurd h hdir
    · exact h
  have hrange := loop_directions_range _ (direction_step_cases num_directions) _ hmem
  cases hadv : advance (land_select m (direction_step num_directions)) w with
  | none => exact absurd ((advance_none_iff _ w).mp hadv) hdir
  | some w1 =>
    obtain ⟨_, a2, a3, a4, a5⟩ := advance_some _ w w1 hadv
    obtain ⟨b1, b2⟩ := advance_xy _ w w1 hadv
    obtain ⟨ux, uy, v1, v2, v3, v4, v5, v6, v7, v8⟩ := adjust_tile_vector
      (land_select m (direction_step num_directions) w.grid_offset w.last_direction).direction
      w.x w.y w.grid_offset hrange.1 hrange.2
    rw [v7] at b1 b2
    simp only at b1 b2
    have hoff : w1.grid_offset = map_grid_offset m (w.x + ux) (w.y + uy) := by
      rw [a4, v8, hw.offset_eq, map_grid_offset_add]
    have hd1 : w1.distance = m.map_routing_distance w1.grid_offset := by
      rw [a2, a4]
      exact hinv.2.1
    have hnz : m.map_routing_distance (map_grid_offset m (w.x + ux) (w.y + uy)) ≠ 0 := by
      rw [← hoff, ← hd1, a2]
      exact hinv.2.2.2.1
    obtain ⟨n1, n2, n3⟩ := gradient_neighbour m width height ox oy hG w.x w.y ux uy
      hw.x_range hw.y_range ⟨v1, v2⟩ ⟨v3, v4⟩ hnz
    have hback := (advance_forward _ (land_select_range m num_directions) w w1 hadv).2.2
    refine ⟨w1, ux, uy, rfl, ?_, b1, b2, v1, v2, v3, v4, ?_, v5, ?_, ?_, a5⟩
    · exact {
        x_range := by rw [b1]; exact n1
        y_range := by rw [b2]; exact n2
        offset_eq := by rw [b1, b2]; exact hoff
        distance_eq := hd1
        back := by
          right
          rw [hback, ← hd1, a2]
          exact hinv.2.2.2.2 }
    · intro h2
      apply v6
      have : (land_select m (direction_step num_directions) w.grid_offset
          w.last_direction).direction ∈ loop_directions 2 := by
        have h3 : loop_directions (direction_step num_directions) = loop_directions 2 := by
          rw [h2]
        rw [← h3]
        exact hmem
      rw [loop_directions_two] at this
      simp only [List.mem_cons, List.mem_singleton, List.not_mem_nil, or_false] at this
      omega
    · rw [hoff, b1, b2]
      exact n3
    · rw [← hd1, a2]
      exact hmin

/-- The unit step from `x` towards `ox` stays between them. -/
theorem towards_origin (x ox width : Int) (hx : 0 ≤ x ∧ x < width) (ho : 0 ≤ ox ∧ ox < width) :
    ∃ sx : Int, ((x - ox < 0 ∧ sx = 1) ∨ (x - ox = 0 ∧ sx = 0) ∨ (0 < x - ox ∧ sx = -1)) ∧
      (-1 ≤ sx ∧ sx ≤ 1) ∧ (0 ≤ x + sx ∧ x + sx < width) := by
  by_cases h1 : x < ox
  · exact ⟨1, by omega, by omega, by omega⟩
  · by_cases h2 : x = ox
    · exact ⟨0, by omega, by omega, by omega⟩
    · exact ⟨-1, by omega, by omega, by omega⟩

theorem gradient_not_origin (dx dy : Int) (h : (1 : Int) + dx.natAbs + dy.natAbs > 1) :
    dx ≠ 0 ∨ dy ≠ 0 := by
  omega

/-- Arithmetic of one 8-direction step on the gradient. -/
theorem chebyshev_step (dx dy ux uy sx sy : Int)
    (hsx : (dx < 0 ∧ sx = 1) ∨ (dx = 0 ∧ sx = 0) ∨ (0 < dx ∧ sx = -1))
    (hsy : (dy < 0 ∧ sy = 1) ∨ (dy = 0 ∧ sy = 0) ∨ (0 < dy ∧ sy = -1))
    (hne : dx ≠ 0 ∨ dy ≠ 0) (hux : -1 ≤ ux ∧ ux ≤ 1) (huy : -1 ≤ uy ∧ uy ≤ 1)
    (hle : (1 : Int) + (dx + ux).natAbs + (dy + uy).natAbs ≤
      1 + (dx + sx).natAbs + (dy + sy).natAbs) :
    max (dx + ux).natAbs (dy + uy).natAbs + 1 = max dx.natAbs dy.natAbs := by
  rcases hsx with ⟨h1, rfl⟩ | ⟨h1, rfl⟩ | ⟨h1, rfl⟩ <;>
    rcases hsy with ⟨h2, rfl⟩ | ⟨h2, rfl⟩ | ⟨h2, rfl⟩ <;> omega

theorem towards_is_nearer (dx dy sx sy : Int)
    (hsx : (dx < 0 ∧ sx = 1) ∨ (dx = 0 ∧ sx = 0) ∨ (0 < dx ∧ sx = -1))
    (hsy : (dy < 0 ∧ sy = 1) ∨ (dy = 0 ∧ sy = 0) ∨ (0 < dy ∧ sy = -1))
    (hne : dx ≠ 0 ∨ dy ≠ 0) :
    (1 : Int) + (dx + sx).natAbs + (dy + sy).natAbs < 1 + dx.natAbs + dy.natAbs := by
  rcases hsx with ⟨h1, rfl⟩ | ⟨h1, rfl⟩ | ⟨h1, rfl⟩ <;>
    rcases hsy with ⟨h2, rfl⟩ | ⟨h2, rfl⟩ | ⟨h2, rfl⟩ <;> omega

theorem towards_ne_zero (dx dy sx sy : Int)
    (hsx : (dx < 0 ∧ sx = 1) ∨ (dx = 0 ∧ sx = 0) ∨ (0 < dx ∧ sx = -1))
    (hsy : (dy < 0 ∧ sy = 1) ∨ (dy = 0 ∧ sy = 0) ∨ (0 < dy ∧ sy = -1))
    (hne : dx ≠ 0 ∨ dy ≠ 0) : sx ≠ 0 ∨ sy ≠ 0 := by
  omega

theorem gradient_value_ne_zero (a b : Int) : (1 : Int) + a.natAbs + b.natAbs ≠ 0 := by
  omega

/-- A direction towards a nearer tile of non-zero distance is not the excluded one. -/
theorem nearer_is_eligible (m : Map) (width height : Int) (w : Pos)
    (hw : OnGradient m width height w) (e : Int)
    (h0 : m.map_routing_distance (w.grid_offset + map_grid_direction_delta e) ≠ 0)
    (hlt : m.map_routing_distance (w.grid_offset + map_grid_direction_delta e) <
      m.map_routing_distance w.grid_offset) : e ≠ w.last_direction := by
  intro h
  rw [h] at h0 hlt
  rcases hw.back with hb | hb
  · exact h0 hb
  · exact absurd hlt (not_lt.mpr hb)

theorem gradient_base (m : Map) (width height ox oy : Int)
    (hG : GradientField m width height ox oy) (w : Pos) (hw : OnGradient m width height w) :
    m.map_routing_distance w.grid_offset = 1 + (w.x - ox).natAbs + (w.y - oy).natAbs := by
  rw [hw.offset_eq]
  exact hG.inside _ _ hw.x_range.1 hw.x_range.2 hw.y_range.1 hw.y_range.2

/-- The distance of the neighbour of a map tile in direction `e` with unit
vector `(sx, sy)`, when that neighbour is a map tile. -/
theorem gradient_towards (m : Map) (width height ox oy : Int)
    (hG : GradientField m width height ox oy) (w : Pos) (hw : OnGradient m width height w)
    (e sx sy : Int) (he : map_grid_direction_delta e = sx + GRID_SIZE * sy)
    (hx : 0 ≤ w.x + sx ∧ w.x + sx < width) (hy : 0 ≤ w.y + sy ∧ w.y + sy < height) :
    m.map_routing_distance (w.grid_offset + map_grid_direction_delta e) =
      1 + (w.x - ox + sx).natAbs + (w.y - oy + sy).natAbs := by
  rw [he, hw.offset_eq, map_grid_offset_add, hG.inside _ _ hx.1 hx.2 hy.1 hy.2,
    show w.x + sx - ox = w.x - ox + sx by ring, show w.y + sy - oy = w.y - oy + sy by ring]

/-- One iteration of the 8-direction walk on a gradient field lowers the distance
and lowers the Chebyshev distance to the origin by one. -/
theorem gradient_step_eight (m : Map) (width height ox oy : Int)
    (hG : GradientField m width height ox oy) (w : Pos) (hw : OnGradient m width height w)
    (hd : w.distance > 1) :
    ∃ w1, advance (land_select m (direction_step 8)) w = some w1 ∧
      OnGradient m width height w1 ∧
      m.map_routing_distance w1.grid_offset < m.map_routing_distance w.grid_offset ∧
      max (w1.x - ox).natAbs (w1.y - oy).natAbs + 1 = max (w.x - ox).natAbs (w.y - oy).natAbs ∧
      w1.num_tiles = w.num_tiles + 1 := by
  have hbase := gradient_base m width height ox oy hG w hw
  have hne : w.x - ox ≠ 0 ∨ w.y - oy ≠ 0 :=
    gradient_not_origin _ _ (by rw [← hbase, ← hw.distance_eq]; exact hd)
  obtain ⟨sx, hsx, sxr, sxin⟩ := towards_origin w.x ox width hw.x_range hG.origin_x
  obtain ⟨sy, hsy, syr, syin⟩ := towards_origin w.y oy height hw.y_range hG.origin_y
  obtain ⟨e, e1, _, e3⟩ := direction_of_vector sx sy sxr syr
    (towards_ne_zero _ _ _ _ hsx hsy hne)
  have hnd := gradient_towards m width height ox oy hG w hw e sx sy e3 sxin syin
  have hlt : m.map_routing_distance (w.grid_offset + map_grid_direction_delta e) <
      m.map_routing_distance w.grid_offset := by
    rw [hnd, hbase]
    exact towards_is_nearer _ _ _ _ hsx hsy hne
  have hnz : m.map_routing_distance (w.grid_offset + map_grid_direction_delta e) ≠ 0 := by
    rw [hnd]
    exact gradient_value_ne_zero _ _
  obtain ⟨w1, ux, uy, g1, g2, g3, g4, g5, g6, g7, g8, _, _, g11, g12, g13⟩ :=
    gradient_advance m width height ox oy 8 hG w hw e e1
      (nearer_is_eligible m width height w hw e hnz hlt) hnz (le_of_lt hlt)
  refine ⟨w1, g1, g2, lt_of_le_of_lt g12 hlt, ?_, g13⟩
  rw [g11, hnd, g3, g4, show w.x + ux - ox = w.x - ox + ux by ring,
    show w.y + uy - oy = w.y - oy + uy by ring] at g12
  rw [g3, g4, show w.x + ux - ox = w.x - ox + ux by ring,
    show w.y + uy - oy = w.y - oy + uy by ring]
  exact chebyshev_step _ _ ux uy sx sy hsx hsy hne ⟨g5, g6⟩ ⟨g7, g8⟩ g12

/-- A straight unit step that brings `(dx, dy)` nearer to `(0, 0)` by one. -/
theorem straight_towards_origin (x y ox oy width height : Int)
    (hx : 0 ≤ x ∧ x < width) (hy : 0 ≤ y ∧ y < height)
    (hox : 0 ≤ ox ∧ ox < width) (hoy : 0 ≤ oy ∧ oy < height)
    (hne : x - ox ≠ 0 ∨ y - oy ≠ 0) :
    ∃ tx ty : Int, (-1 ≤ tx ∧ tx ≤ 1) ∧ (-1 ≤ ty ∧ ty ≤ 1) ∧ (tx = 0 ∨ ty = 0) ∧
      (tx ≠ 0 ∨ ty ≠ 0) ∧ (0 ≤ x + tx ∧ x + tx < width) ∧ (0 ≤ y + ty ∧ y + ty < height) ∧
      (1 : Int) + (x - ox + tx).natAbs + (y - oy + ty).natAbs + 1 =
        1 + (x - ox).natAbs + (y - oy).natAbs := by
  by_cases h1 : x < ox
  · exact ⟨1, 0, by omega, by omega, by omega, by omega, by omega, by omega, by omega⟩
  · by_cases h2 : ox < x
    · exact ⟨-1, 0, by omega, by omega, by omega, by omega, by omega, by omega, by omega⟩
    · by_cases h3 : y < oy
      · exact ⟨0, 1, by omega, by omega, by omega, by omega, by omega, by omega, by omega⟩
      · exact ⟨0, -1, by omega, by omega, by omega, by omega, by omega, by omega, by omega⟩

/-- Arithmetic of one 4-direction step on the gradient. -/
theorem manhattan_step (dx dy ux uy : Int) (hux : -1 ≤ ux ∧ ux ≤ 1) (huy : -1 ≤ uy ∧ uy ≤ 1)
    (hstraight : ux = 0 ∨ uy = 0) (hmove : ux ≠ 0 ∨ uy ≠ 0)
    (hle : (1 : Int) + (dx + ux).natAbs + (dy + uy).natAbs + 1 ≤ 1 + dx.natAbs + dy.natAbs) :
    (dx + ux).natAbs + (dy + uy).natAbs + 1 = dx.natAbs + dy.natAbs := by
  omega

/-- One iteration of the 4-direction walk on a gradient field lowers the distance
and lowers the Manhattan distance to the origin by one. -/
theorem gradient_step_four (m : Map) (width height ox oy num_directions : Int)
    (h4 : num_directions ≠ 8)
    (hG : GradientField m width height ox oy) (w : Pos) (hw : OnGradient m width height w)
    (hd : w.distance > 1) :
    ∃ w1, advance (land_select m (direction_step num_directions)) w = some w1 ∧
      OnGradient m width height w1 ∧
      m.map_routing_distance w1.grid_offset < m.map_routing_distance w.grid_offset ∧
      (w1.x - ox).natAbs + (w1.y - oy).natAbs + 1 = (w.x - ox).natAbs + (w.y - oy).natAbs ∧
      w1.num_tiles = w.num_tiles + 1 := by
  have hstep : direction_step num_directions = 2 := by
    unfold direction_step
    rw [if_neg h4]
  have hbase := gradient_base m width height ox oy hG w hw
  have hne : w.x - ox ≠ 0 ∨ w.y - oy ≠ 0 :=
    gradient_not_origin _ _ (by rw [← hbase, ← hw.distance_eq]; exact hd)
  obtain ⟨tx, ty, txr, tyr, t1, t2, txin, tyin, t3⟩ := straight_towards_origin w.x w.y ox oy
    width height hw.x_range hw.y_range hG.origin_x hG.origin_y hne
  obtain ⟨e, _, e2, e3⟩ := direction_of_vector tx ty txr tyr t2
  have he : e ∈ loop_directions (direction_step num_directions) := by
    rw [hstep]
    exact e2 t1
  have hnd := gradient_towards m width height ox oy hG w hw e tx ty e3 txin tyin
  have hlt : m.map_routing_distance (w.grid_offset + map_grid_direction_delta e) <
      m.map_routing_distance w.grid_offset := by
    rw [hnd, hbase, ← t3]
    exact Int.lt_succ _
  have hnz : m.map_routing_distance (w.grid_offset + map_grid_direction_delta e) ≠ 0 := by
    rw [hnd]
    exact gradient_value_ne_zero _ _
  obtain ⟨w1, ux, uy, g1, g2, g3, g4, g5, g6, g7, g8, g9, g10, g11, g12, g13⟩ :=
    gradient_advance m width height ox oy num_directions hG w hw e he
      (nearer_is_eligible m width height w hw e hnz hlt) hnz (le_of_lt hlt)
  refine ⟨w1, g1, g2, lt_of_le_of_lt g12 hlt, ?_, g13⟩
  rw [g11, hnd, g3, g4, show w.x + ux - ox = w.x - ox + ux by ring,
    show w.y + uy - oy = w.y - oy + uy by ring] at g12
  rw [g3, g4, show w.x + ux - ox = w.x - ox + ux by ring,
    show w.y + uy - oy = w.y - oy + uy by ring]
  apply manhattan_step _ _ ux uy ⟨g5, g6⟩ ⟨g7, g8⟩ (g9 hstep) g10
  rw [← t3]
  exact Int.add_le_add_right g12 1

theorem walk_trace_stop (select : Int → Int → Best) (fuel : Nat) (w : Pos)
    (hw : ¬ w.distance > 1) : walk_trace select fuel w = [w] := by
  cases fuel with
  | zero => rfl
  | succ fuel => rw [walk_trace, if_neg hw]

theorem walk_end_stop (select : Int → Int → Best) (fuel : Nat) (w : Pos)
    (hw : ¬ w.distance > 1) : walk_end select fuel w = w := by
  cases fuel with
  | zero => rfl
  | succ fuel => rw [walk_end, if_neg hw]

/-- A walk whose every iteration lowers a measure `mu` by one, and which leaves
the loop when the measure is 0, ends after `mu` iterations, along tiles of
strictly decreasing value. -/
theorem walk_descends (select : Int → Int → Best) (Inv : Pos → Prop) (val : Pos → Int)
    (mu : Pos → Nat)
    (hstep : ∀ w, Inv w → w.distance > 1 → ∃ w1, advance select w = some w1 ∧ Inv w1 ∧
      val w1 < val w ∧ mu w1 + 1 = mu w)
    (hzero : ∀ w, Inv w → mu w = 0 → w.distance ≤ 1)
    (hpos : ∀ w, Inv w → mu w ≠ 0 → w.distance > 1) (n : Nat) :
    ∀ (fuel : Nat) (w : Pos), Inv w → mu w = n → n ≤ fuel →
      (walk_end select fuel w).distance ≤ 1 ∧
      (walk_directions select fuel w).length = n ∧
      List.Chain' (fun a b => b < a) ((walk_trace select fuel w).map val) := by
  induction n with
  | zero =>
    intro fuel w hw hmu _
    have hd : ¬ w.distance > 1 := not_lt.mpr (hzero w hw hmu)
    rw [walk_end_stop select fuel w hd, walk_directions_stop select fuel w hd,
      walk_trace_stop select fuel w hd]
    exact ⟨hzero w hw hmu, rfl, by simp⟩
  | succ n ih =>
    intro fuel w hw hmu hfuel
    obtain ⟨f, rfl⟩ : ∃ f, fuel = f + 1 := ⟨fuel - 1, by omega⟩
    have hd := hpos w hw (by omega)
    obtain ⟨w1, h1, h2, h3, h4⟩ := hstep w hw hd
    obtain ⟨i1, i2, i3⟩ := ih f w1 h2 (by omega) (by omega)
    rw [walk_end_step select f w w1 hd h1, walk_directions_step select f w w1 hd h1,
      walk_trace_step select f w w1 hd h1]
    refine ⟨i1, by simp [i2], ?_⟩
    rw [walk_trace_cons select f w1] at i3 ⊢
    simp only [List.map_cons] at i3 ⊢
    exact List.Chain'.cons h3 i3

/-- What the code after the loop returns when allocation cannot fail. -/
theorem finish_ok (path : Option figure_path_data) (w : Pos) (s : Directions)
    (R : List (Nat × Nat)) (hR : Holds s R) :
    (finish alloc_ok path w s).exit = Exit.done ∧
      (finish alloc_ok path w s).result = w.num_tiles := by
  unfold finish
  cases path with
  | none => exact ⟨rfl, rfl⟩
  | some p =>
    simp only [fill_path_with_directions_holds s R p hR]
    exact ⟨trivial, trivial⟩

/-- When the walk ends on a tile of distance at most 1 within the fuel and
allocation cannot fail, the call returns the number of steps of the walk. -/
theorem reconstruct_completes (select : Int → Int → Best)
    (hsel : ∀ g l, (select g l).direction = -1 ∨
      (0 ≤ (select g l).direction ∧ (select g l).direction ≤ 7))
    (path : Option figure_path_data) (fuel : Nat) :
    ∀ (w : Pos) (s : Directions) (R : List (Nat × Nat)), Holds s R →
      (walk_end select fuel w).distance ≤ 1 →
      ∃ out, reconstruct alloc_ok select path fuel w s = some out ∧ out.exit = Exit.done ∧
        out.result = w.num_tiles + (walk_directions select fuel w).length := by
  induction fuel with
  | zero =>
    intro w s R hR hend
    have hd : ¬ w.distance > 1 := not_lt.mpr hend
    rw [reconstruct, if_neg hd, walk_directions_stop select _ w hd]
    obtain ⟨f1, f2⟩ := finish_ok path w s R hR
    exact ⟨_, rfl, f1, by rw [f2]; simp⟩
  | succ fuel ih =>
    intro w s R hR hend
    by_cases hd : w.distance > 1
    · rw [reconstruct, if_pos hd]
      cases hadv : advance select w with
      | none =>
        rw [walk_end, if_pos hd, hadv] at hend
        simp only at hend
        omega
      | some w1 =>
        rw [walk_end_step select fuel w w1 hd hadv] at hend
        rw [walk_directions_step select fuel w w1 hd hadv]
        have hnum := (advance_some select w w1 hadv).2.2.2.2
        simp only
        by_cases hp : path.isSome = true
        · rw [if_pos hp]
          obtain ⟨h0, h7, _⟩ := advance_forward select hsel w w1 hadv
          have hcast : ((w1.last_direction.toNat : Nat) : Int) = w1.last_direction := by omega
          have hadd := holds_add s R w1.last_direction.toNat hR (by omega)
          rw [hcast] at hadd
          cases hres : add_direction_to_path alloc_ok s w1.last_direction with
          | mk ok s1 =>
            rw [hres] at hadd
            simp only at hadd
            obtain ⟨rfl, hs1⟩ := hadd
            simp only
            obtain ⟨out, o1, o2, o3⟩ := ih w1 s1 _ hs1 hend
            refine ⟨out, o1, o2, ?_⟩
            rw [o3, hnum]
            simp only [List.length_cons, Nat.cast_add, Nat.cast_one]
            omega
        · rw [if_neg hp]
          obtain ⟨out, o1, o2, o3⟩ := ih w1 s R hR hend
          refine ⟨out, o1, o2, ?_⟩
          rw [o3, hnum]
          simp only [List.length_cons, Nat.cast_add, Nat.cast_one]
          omega
    · rw [reconstruct, if_neg hd, walk_directions_stop select _ w hd]
      obtain ⟨f1, f2⟩ := finish_ok path w s R hR
      exact ⟨_, rfl, f1, by rw [f2]; simp⟩

/-- The start of the land walk on a map tile of a gradient field. -/
theorem land_start_on_gradient (m : Map) (width height dst_x dst_y : Int)
    (hx : 0 ≤ dst_x ∧ dst_x < width) (hy : 0 ≤ dst_y ∧ dst_y < height) :
    OnGradient m width height (land_start m dst_x dst_y) where
  x_range := hx
  y_range := hy
  offset_eq := rfl
  distance_eq := rfl
  back := by
    right
    have : map_grid_direction_delta (-1) = 0 := by decide
    simp only [land_start, this, add_zero, le_refl]

/-- The field of `gradient_map` is a gradient field when the map is narrower than
a grid row. -/
theorem gradient_map_field (width height ox oy : Int) (hwidth : width < GRID_SIZE)
    (hox : 0 ≤ ox ∧ ox < width) (hoy : 0 ≤ oy ∧ oy < height) :
    GradientField (gradient_map width height ox oy) width height ox oy where
  origin_x := hox
  origin_y := hoy
  inside := by
    intro x y hx0 hx1 hy0 hy1
    unfold GRID_SIZE at hwidth
    have h1 : (x + y * 162) % 162 = x := by omega
    have h2 : (x + y * 162) / 162 = y := by omega
    simp only [gradient_map, map_grid_offset, GRID_SIZE, zero_add, h1, h2]
    rw [if_pos ⟨hx0, hx1, hy0, hy1⟩]
  border := by
    intro x y hx0 hx1 hy0 hy1 hring
    unfold GRID_SIZE at hwidth
    simp only [gradient_map, map_grid_offset, GRID_SIZE, zero_add]
    rw [if_neg]
    intro hc
    omega
  no_highway := fun _ => rfl

/-- C7. Monotonic descent: on a map whose distance field is the Manhattan
gradient `1 + |dx| + |dy|` from the origin on the map tiles, with no highway
tile and, as on every map of the game, tiles of distance 0 around the map,
`map_routing_get_path` for a destination on the map returns, given enough fuel,
the Chebyshev distance `max(|dx|, |dy|)` in the 8-direction mode and the
Manhattan distance `|dx| + |dy|` otherwise, and the distances of the tiles the
walk visits are strictly decreasing. -/
theorem gradient_descent (m : Map) (width height ox oy : Int)
    (hG : GradientField m width height ox oy) (s : Directions)
    (path : Option figure_path_data) (dst_x dst_y num_directions : Int) (fuel : Nat)
    (hwf : s.size = s.path.length)
    (hx : 0 ≤ dst_x ∧ dst_x < width) (hy : 0 ≤ dst_y ∧ dst_y < height)
    (hfuel : gradient_steps num_directions (dst_x - ox) (dst_y - oy) ≤ fuel) :
    (map_routing_get_path alloc_ok m s path dst_x dst_y num_directions fuel).map
        (fun o => (o.result, o.exit)) =
      some (((gradient_steps num_directions (dst_x - ox) (dst_y - oy) : Nat) : Int),
        Exit.done) ∧
    List.Chain' (fun a b => b < a)
      ((walk_trace (land_select m (direction_step num_directions)) fuel
        (land_start m dst_x dst_y)).map (fun w => m.map_routing_distance w.grid_offset)) := by
  have hstart := land_start_on_gradient m width height dst_x dst_y hx hy
  have hwalk : (walk_end (land_select m (direction_step num_directions)) fuel
        (land_start m dst_x dst_y)).distance ≤ 1 ∧
      (walk_directions (land_select m (direction_step num_directions)) fuel
        (land_start m dst_x dst_y)).length =
        gradient_steps num_directions (dst_x - ox) (dst_y - oy) ∧
      List.Chain' (fun a b => b < a)
        ((walk_trace (land_select m (direction_step num_directions)) fuel
          (land_start m dst_x dst_y)).map (fun w => m.map_routing_distance w.grid_offset)) := by
    by_cases h8 : num_directions = 8
    · subst h8
      refine walk_descends _ (OnGradient m width height)
        (fun w => m.map_routing_distance w.grid_offset)
        (fun w => max (w.x - ox).natAbs (w.y - oy).natAbs) ?_ ?_ ?_ _ fuel _ hstart ?_ hfuel
      · intro w hw hd
        obtain ⟨w1, h1, h2, h3, h4, _⟩ := gradient_step_eight m width height ox oy hG w hw hd
        exact ⟨w1, h1, h2, h3, h4⟩
      · intro w hw hmu
        have hb := gradient_base m width height ox oy hG w hw
        rw [hw.distance_eq, hb]
        simp only at hmu
        omega
      · intro w hw hmu
        have hb := gradient_base m width height ox oy hG w hw
        rw [hw.distance_eq, hb]
        simp only at hmu
        omega
      · simp [gradient_steps, land_start]
    · refine walk_descends _ (OnGradient m width height)
        (fun w => m.map_routing_distance w.grid_offset)
        (fun w => (w.x - ox).natAbs + (w.y - oy).natAbs) ?_ ?_ ?_ _ fuel _ hstart ?_ hfuel
      · intro w hw hd
        obtain ⟨w1, h1, h2, h3, h4, _⟩ :=
          gradient_step_four m width height ox oy num_directions h8 hG w hw hd
        exact ⟨w1, h1, h2, h3, h4⟩
      · intro w hw hmu
        have hb := gradient_base m width height ox oy hG w hw
        rw [hw.distance_eq, hb]
        simp only at hmu
        omega
      · intro w hw hmu
        have hb := gradient_base m width height ox oy hG w hw
        rw [hw.distance_eq, hb]
        simp only at hmu
        omega
      · simp [gradient_steps, land_start, h8]
  refine ⟨?_, hwalk.2.2⟩
  have hdist : ¬ m.map_routing_distance (map_grid_offset m dst_x dst_y) ≤ 0 := by
    rw [hG.inside _ _ hx.1 hx.2 hy.1 hy.2]
    omega
  obtain ⟨out, o1, o2, o3⟩ := reconstruct_completes _ (land_select_range m num_directions) path
    fuel (land_start m dst_x dst_y) _ [] (holds_reset s hwf) hwalk.1
  unfold map_routing_get_path
  simp only
  rw [if_neg hdist]
  change (reconstruct alloc_ok (land_select m (direction_step num_directions)) path fuel
    (land_start m dst_x dst_y) (reset_directions s)).map (fun o => (o.result, o.exit)) = _
  rw [o1, Option.map_some', o2, o3, hwalk.2.1]
  simp [land_start]

/-- Witness of C7: on the 5 by 5 gradient map with origin `(1, 1)` the
8-direction call for `(3, 4)` returns 3. -/
theorem gradient_descent_witness :
    (map_routing_get_path alloc_ok (gradient_map 5 5 1 1) small_scratch none 3 4 8 3).map
        (fun o => (o.result, o.exit)) =
      some (((gradient_steps 8 (3 - 1) (4 - 1) : Nat) : Int), Exit.done) ∧
    List.Chain' (fun a b => b < a)
      ((walk_trace (land_select (gradient_map 5 5 1 1) (direction_step 8)) 3
        (land_start (gradient_map 5 5 1 1) 3 4)).map
          (fun w => (gradient_map 5 5 1 1).map_routing_distance w.grid_offset)) :=
  gradient_descent (gradient_map 5 5 1 1) 5 5 1 1
    (gradient_map_field 5 5 1 1 (by decide) (by decide) (by decide)) small_scratch none 3 4 8 3
    (by decide) (by decide) (by decide) (by decide)

/-! ## Claims on the water loop -/

/-- C11 (as stated, refuted). On `highway_diagonal_map` a boat that is not
flotsam at tile 1000 first takes candidate 0 (tile 838, distance 2) and then
replaces it by candidate 1 (tile 839, distance 2 as well): the loop ends on
direction 1, where the rule of the claim ends on direction 0, and the whole call
goes over tile 839. -/
theorem water_equal_distance_counterexample :
    highway_diagonal_map.map_routing_distance (1000 + map_grid_direction_delta 0) = 2 ∧
    highway_diagonal_map.map_routing_distance (1000 + map_grid_direction_delta 1) = 2 ∧
    (water_select highway_diagonal_map (1 &&& 3) false 1000 (-1)).direction = 1 ∧
    ((loop_directions 1).foldl
      (water_consider_claimed highway_diagonal_map (1 &&& 3) false 1000 (-1))
      ⟨3, -1, false⟩).direction = 0 ∧
    (walk_trace (water_select highway_diagonal_map (1 &&& 3) false) 2
      (land_start highway_diagonal_map 28 6)).map (fun w => w.grid_offset) =
      [1000, 839, 677] := by
  decide

/-- The loop body of the water walk is the amended rule. -/
theorem water_consider_eq_amended (m : Map) (rand : Nat) (is_flotsam : Bool)
    (grid_offset last_direction : Int) (b : Best) (d : Int) :
    water_consider m rand (if is_flotsam then m.map_random_get grid_offset &&& 3 else rand)
      grid_offset last_direction b d =
    water_consider_amended m rand is_flotsam grid_offset last_direction b d := by
  unfold water_consider water_consider_amended
  cases is_flotsam
  · by_cases h1 : d ≠ last_direction
    · by_cases h2 : m.map_routing_distance (grid_offset + map_grid_direction_delta d) ≠ 0
      · by_cases h3 : m.map_routing_distance (grid_offset + map_grid_direction_delta d) <
            b.distance
        · simp [h1, h2, h3]
        · by_cases h4 : m.map_routing_distance (grid_offset + map_grid_direction_delta d) =
              b.distance
          · simp [h1, h2, h4]
          · simp [h1, h2, h3, h4]
      · simp [h1, h2]
    · simp [h1]
  · by_cases h1 : d ≠ last_direction
    · by_cases h2 : m.map_routing_distance (grid_offset + map_grid_direction_delta d) ≠ 0
      · by_cases h3 : m.map_routing_distance (grid_offset + map_grid_direction_delta d) <
            b.distance
        · simp [h1, h2, h3]
        · by_cases h4 : m.map_routing_distance (grid_offset + map_grid_direction_delta d) =
              b.distance
          · by_cases h5 : rand = m.map_random_get grid_offset &&& 3
            · simp [h1, h2, h4, h5]
            · have h6 : ¬ m.map_random_get grid_offset &&& 3 = rand := fun h => h5 h.symm
              simp [h1, h2, h4, h5, h6]
          · simp [h1, h2, h3, h4]
      · simp [h1, h2]
    · simp [h1]

/-- C11 (amended). In `map_routing_get_path_on_water` a candidate replaces the
best one exactly when it is not the excluded direction, its distance is not 0,
and its distance is strictly less than the best or equal to it with the agent not
flotsam or the hash `map_random_get(grid_offset) & 3` of the current tile equal
to the wander class `random_byte() & 3`: the loop of the code is the loop with
that rule. -/
theorem water_select_rule (m : Map) (random_byte : Nat) (is_flotsam : Bool)
    (grid_offset last_direction : Int) :
    water_select m (random_byte &&& 3) is_flotsam grid_offset last_direction =
      (loop_directions 1).foldl
        (water_consider_amended m (random_byte &&& 3) is_flotsam grid_offset last_direction)
        { distance := m.map_routing_distance grid_offset, direction := -1,
          is_highway := false } := by
  unfold water_select
  simp only
  congr 1
  funext b d
  exact water_consider_eq_amended m (random_byte &&& 3) is_flotsam grid_offset last_direction b d

/-! ## Dry run -/

theorem add_direction_to_path_ok_fst (s : Directions) (d : Int) :
    (add_direction_to_path alloc_ok s d).1 = true := by
  unfold add_direction_to_path
  split_ifs
  · rfl
  · have h : (increase_direction_path_size alloc_ok s).1 = true := by
      unfold increase_direction_path_size
      split_ifs <;> simp_all [alloc_ok]
    cases hi : increase_direction_path_size alloc_ok s with
    | mk ok s1 =>
      rw [hi] at h
      simp only at h
      subst h
      rfl

theorem finish_result_ok (path : Option figure_path_data) (w : Pos) (s : Directions) :
    (finish alloc_ok path w s).result = w.num_tiles ∧
      (finish alloc_ok path w s).exit = Exit.done := by
  unfold finish
  cases path with
  | none => exact ⟨rfl, rfl⟩
  | some p =>
    simp only [fill_path_with_directions, alloc_ok, Bool.not_true, Bool.false_eq_true, if_false]
    exact ⟨trivial, trivial⟩

/-- The loop without a record never touches a record, whatever the allocator. -/
theorem reconstruct_dry_path (alloc : Nat → Bool) (select : Int → Int → Best) (fuel : Nat) :
    ∀ (w : Pos) (s : Directions) (out : Outcome),
      reconstruct alloc select none fuel w s = some out → out.path = none ∧ out.scratch = s := by
  induction fuel with
  | zero =>
    intro w s out h
    rw [reconstruct] at h
    by_cases hw : w.distance > 1
    · rw [if_pos hw] at h
      exact absurd h (by simp)
    · rw [if_neg hw] at h
      simp only [finish, Option.some.injEq] at h
      subst h
      exact ⟨rfl, rfl⟩
  | succ fuel ih =>
    intro w s out h
    rw [reconstruct] at h
    by_cases hw : w.distance > 1
    · rw [if_pos hw] at h
      cases hadv : advance select w with
      | none =>
        simp only [hadv, Option.some.injEq] at h
        subst h
        exact ⟨rfl, rfl⟩
      | some w1 =>
        simp only [hadv, Option.isSome_none, Bool.false_eq_true, if_false] at h
        exact ih w1 s out h
    · rw [if_neg hw] at h
      simp only [finish, Option.some.injEq] at h
      subst h
      exact ⟨rfl, rfl⟩

/-- The loop returns the same value and leaves through the same `return` with and
without a record, when allocation cannot fail. -/
theorem reconstruct_dry_result (alloc : Nat → Bool) (select : Int → Int → Best)
    (p : figure_path_data) (fuel : Nat) :
    ∀ (w : Pos) (s s1 : Directions),
      (reconstruct alloc select none fuel w s).map (fun o => (o.result, o.exit)) =
      (reconstruct alloc_ok select (some p) fuel w s1).map (fun o => (o.result, o.exit)) := by
  have hfin : ∀ (w : Pos) (s s1 : Directions),
      ((finish alloc none w s).result, (finish alloc none w s).exit) =
      ((finish alloc_ok (some p) w s1).result, (finish alloc_ok (some p) w s1).exit) := by
    intro w s s1
    have h := finish_result_ok (some p) w s1
    rw [h.1, h.2]
    rfl
  induction fuel with
  | zero =>
    intro w s s1
    rw [reconstruct, reconstruct]
    by_cases hw : w.distance > 1
    · rw [if_pos hw, if_pos hw]
    · rw [if_neg hw, if_neg hw]
      simp only [Option.map_some', hfin w s s1]
  | succ fuel ih =>
    intro w s s1
    rw [reconstruct, reconstruct]
    by_cases hw : w.distance > 1
    · rw [if_pos hw, if_pos hw]
      cases hadv : advance select w with
      | none => rfl
      | some w1 =>
        simp only [Option.isSome_none, Bool.false_eq_true, if_false, Option.isSome_some, if_true]
        have hadd := add_direction_to_path_ok_fst s1 w1.last_direction
        cases hres : add_direction_to_path alloc_ok s1 w1.last_direction with
        | mk ok s2 =>
          rw [hres] at hadd
          simp only at hadd
          subst hadd
          simp only
          exact ih w1 s s2
    · rw [if_neg hw, if_neg hw]
      simp only [Option.map_some', hfin w s s1]

/-- C12. Dry run equals real run: for every map, destination, mode and fuel the
call of `map_routing_get_path` without a record returns the same tile count
(leaving through the same `return`) as the call with a record when allocation
does not fail, and the dry run hands back no record. -/
theorem dry_run_equals_real_run (alloc : Nat → Bool) (m : Map) (s : Directions)
    (p : figure_path_data) (dst_x dst_y num_directions : Int) (fuel : Nat) :
    (map_routing_get_path alloc m s none dst_x dst_y num_directions fuel).map
        (fun o => (o.result, o.exit)) =
      (map_routing_get_path alloc_ok m s (some p) dst_x dst_y num_directions fuel).map
        (fun o => (o.result, o.exit)) ∧
    (∀ out, map_routing_get_path alloc m s none dst_x dst_y num_directions fuel = some out →
      out.path = none) ∧
    (∀ out, map_routing_get_path alloc m s (some p) dst_x dst_y num_directions fuel = some out →
      out.exit ≠ Exit.allocation →
      (map_routing_get_path alloc m s none dst_x dst_y num_directions fuel).map
        (fun o => o.result) = some out.result) := by
  have hfirst : (map_routing_get_path alloc m s none dst_x dst_y num_directions fuel).map
        (fun o => (o.result, o.exit)) =
      (map_routing_get_path alloc_ok m s (some p) dst_x dst_y num_directions fuel).map
        (fun o => (o.result, o.exit)) := by
    unfold map_routing_get_path
    simp only
    split_ifs
    · rfl
    · exact reconstruct_dry_result alloc _ p fuel _ _ _
  refine ⟨hfirst, ?_, ?_⟩
  · intro out h
    unfold map_routing_get_path at h
    simp only at h
    split_ifs at h
    · simp only [Option.some.injEq] at h
      subst h
      rfl
    · exact (reconstruct_dry_path alloc _ fuel _ _ out h).1
  · intro out h hne
    have hok : map_routing_get_path alloc_ok m s (some p) dst_x dst_y num_directions fuel =
        some out := by
      unfold map_routing_get_path at h ⊢
      simp only at h ⊢
      split_ifs at h ⊢
      · exact h
      · exact reconstruct_of_ok alloc _ _ fuel _ _ out h hne
    rw [hok] at hfirst
    cases hdry : map_routing_get_path alloc m s none dst_x dst_y num_directions fuel with
    | none => simp [hdry] at hfirst
    | some o =>
      rw [hdry] at hfirst
      simp only [Option.map_some', Option.some.injEq, Prod.mk.injEq] at hfirst ⊢
      exact hfirst.1

/-- Witness of C12: the 8-direction call for `(28, 6)` on `highway_diagonal_map`
returns 2 with the record and without it. -/
theorem dry_run_equals_real_run_witness :
    (map_routing_get_path alloc_ok highway_diagonal_map small_scratch none 28 6 8 2).map
      (fun o => o.result) = some diagonal_outcome.result :=
  (dry_run_equals_real_run alloc_ok highway_diagonal_map small_scratch empty_record 28 6 8
    2).2.2 diagonal_outcome (by decide) (by decide)

/-! ## The cursor at the end of a record -/

/-- C13 (as stated, refuted). The record in slot 1 holds the single entry 65
(direction 2, count field 1), so `total_directions` is 1; after one call from
the fresh cursor the next call returns the direction 2 again, not the
sentinel 8, which only the third call returns. -/
theorem cursor_exhaustion_counterexample :
    (next_directions [empty_record, ⟨1, 7, 1, some [65], 0, 0⟩] 1 (1 + 1)).map Prod.fst =
      some [2, 2] ∧
    (next_directions [empty_record, ⟨1, 7, 1, some [65], 0, 0⟩] 1 3).map Prod.fst =
      some [2, 2, 8] := by
  decide

/-- C13 (amended). Cursor exhaustion: for every path record with a fresh cursor,
after consuming exactly the unit steps stored in the record, the sum of
`count field + 1` over its `total_directions` entries, the next call of
`figure_route_get_next_direction` returns the sentinel 8. -/
theorem cursor_exhaustion (paths : List figure_path_data) (path_id : Nat)
    (p : figure_path_data) (buf : List Nat)
    (hd : p.directions = some buf) (ht : p.total_directions = buf.length)
    (hslot : paths.get? path_id = some (fresh_cursor p)) :
    (next_directions paths path_id (stored_steps buf + 1)).map Prod.fst =
      some (unit_steps buf ++ [8]) ∧
    (unit_steps buf).length = stored_steps buf := by
  have hdec := next_directions_of_record_fresh p buf hd ht
  have hall := next_directions_of_record_append _ _ _ _ _ _ _ hdec
    (next_directions_of_record_sentinel _ (le_refl _))
  refine ⟨?_, unit_steps_length buf⟩
  rw [next_directions_of_pool _ _ _ _ _ _ hslot hall]
  rfl

/-- Witness of C13 (amended): the record with the single entry 65 stores two
unit steps; the third call returns 8. -/
theorem cursor_exhaustion_witness :
    (next_directions [empty_record, ⟨1, 7, 1, some [65], 0, 0⟩] 1
      (stored_steps [65] + 1)).map Prod.fst = some (unit_steps [65] ++ [8]) ∧
    (unit_steps [65]).length = stored_steps [65] :=
  cursor_exhaustion [empty_record, ⟨1, 7, 1, some [65], 0, 0⟩] 1 ⟨1, 7, 1, some [65], 0, 0⟩
    [65] rfl rfl rfl

/-- One call on a slot whose cursor is exhausted returns 8 and leaves the pool
as it is. -/
theorem figure_route_get_next_direction_exhausted (paths : List figure_path_data)
    (path_id : Nat) (p : figure_path_data) (hslot : paths.get? path_id = some p)
    (hex : p.total_directions ≤ p.current_step) :
    figure_route_get_next_direction paths path_id = some (8, paths) := by
  unfold figure_route_get_next_direction
  rw [hslot]
  simp only [next_direction_of_record_exhausted p hex]
  rw [List.get?_eq_getElem?] at hslot
  rw [set_of_getElem? _ _ _ hslot]

/-- C14. Sentinel is absorbing: on a slot whose cursor is exhausted
(`current_step >= total_directions`) `figure_route_get_next_direction` returns 8
and leaves the record and the whole pool unchanged, and so does every number of
repeated calls. -/
theorem sentinel_is_absorbing (paths : List figure_path_data) (path_id : Nat)
    (p : figure_path_data) (hslot : paths.get? path_id = some p)
    (hex : p.total_directions ≤ p.current_step) (n : Nat) :
    figure_route_get_next_direction paths path_id = some (8, paths) ∧
    next_directions paths path_id n = some (List.replicate n 8, paths) := by
  have hone := figure_route_get_next_direction_exhausted paths path_id p hslot hex
  refine ⟨hone, ?_⟩
  induction n with
  | zero => rfl
  | succ n ih =>
    rw [next_directions, hone]
    simp only [ih, List.replicate_succ]

/-- Witness of C14: a record with one entry and the cursor behind it. -/
theorem sentinel_is_absorbing_witness :
    figure_route_get_next_direction [empty_record, ⟨1, 7, 1, some [65], 1, 0⟩] 1 =
      some (8, [empty_record, ⟨1, 7, 1, some [65], 1, 0⟩]) ∧
    next_directions [empty_record, ⟨1, 7, 1, some [65], 1, 0⟩] 1 5 =
      some (List.replicate 5 8, [empty_record, ⟨1, 7, 1, some [65], 1, 0⟩]) :=
  sentinel_is_absorbing [empty_record, ⟨1, 7, 1, some [65], 1, 0⟩] 1
    ⟨1, 7, 1, some [65], 1, 0⟩ rfl (by decide) 5

/-! ## The pool of paths -/

theorem foreach_slot_get (body : Nat → figure_path_data → figure_path_data) (size : Nat) :
    ∀ (l : List figure_path_data) (k j : Nat),
      (foreach_slot body size k l).get? j =
        (l.get? j).map (fun p => if k + j < size then body (k + j) p else p) := by
  intro l
  induction l with
  | nil => intro k j; simp [foreach_slot]
  | cons p rest ih =>
    intro k j
    cases j with
    | zero => simp [foreach_slot]
    | succ j =>
      simp only [foreach_slot, List.get?_cons_succ, ih]
      have : k + 1 + j = k + (j + 1) := by omega
      rw [this]

theorem trim_size_le (items : List figure_path_data) : ∀ n, trim_size items n ≤ n := by
  intro n
  induction n with
  | zero => simp [trim_size]
  | succ n ih =>
    rw [trim_size]
    split
    · split
      · exact le_refl _
      · omega
    · omega

theorem trim_size_unused (items : List figure_path_data) :
    ∀ n j, trim_size items n ≤ j → j < n → ∀ p, items.get? j = some p →
      path_is_used p = false := by
  intro n
  induction n with
  | zero => intro j _ h2; omega
  | succ n ih =>
    intro j h1 h2 p hp
    rw [trim_size] at h1
    split at h1
    · rename_i q hq
      split at h1
      · omega
      · rename_i hu
        by_cases hj : j = n
        · subst hj
          rw [hq] at hp
          cases hp
          simpa using hu
        · exact ih j h1 (by omega) p hp
    · rename_i hq
      by_cases hj : j = n
      · subst hj
        rw [hq] at hp
        cases hp
      · exact ih j h1 (by omega) p hp

theorem array_trim_items (a : Pool) : (array_trim a).items = a.items := rfl

theorem array_trim_size_le (a : Pool) : (array_trim a).size ≤ a.size := trim_size_le _ _

theorem array_advance_some (alloc : Nat → Bool) (a : Pool) (i : Nat) (a1 : Pool)
    (hwf : a.size ≤ a.items.length) (h : array_advance alloc a = some (i, a1)) :
    i = a.size ∧ a1.size = a.size + 1 ∧ a1.blocks = a.blocks ∧
    a1.size ≤ a1.items.length ∧
    a1.items.get? a.size = some (create_new_path zero_path a.size) ∧
    ∀ j, j < a.size → a1.items.get? j = a.items.get? j := by
  unfold array_advance at h
  split at h
  · simp only [Option.some.injEq, Prod.mk.injEq] at h
    obtain ⟨hi, ha⟩ := h
    subst ha
    have hlen : (a.items.take a.size).length = a.size := by
      rw [List.length_take]; omega
    refine ⟨hi.symm, rfl, rfl, ?_, ?_, ?_⟩
    · simp only [List.length_append, hlen, List.length_singleton]
      omega
    · simp only [List.get?_eq_getElem?, List.append_assoc]
      rw [List.getElem?_append_right (by omega)]
      simp [hlen]
    · intro j hj
      simp only [List.get?_eq_getElem?, List.append_assoc]
      rw [List.getElem?_append_left (by omega)]
      rw [List.getElem?_take_of_lt hj]
  · cases h

theorem find_free_from_some :
    ∀ (l : List figure_path_data) (k size i : Nat), find_free_from k size l = some i →
      k ≤ i ∧ i < size ∧ (l.get? (i - k)).map path_is_used = some false ∧
      ∀ j, k ≤ j → j < i → (l.get? (j - k)).map path_is_used = some true := by
  intro l
  induction l with
  | nil => intro k size i h; simp [find_free_from] at h
  | cons p rest ih =>
    intro k size i h
    rw [find_free_from] at h
    split at h
    · rename_i hk
      split at h
      · rename_i hu
        obtain ⟨h1, h2, h3, h4⟩ := ih _ _ _ h
        have e : i - k = (i - (k + 1)) + 1 := by omega
        refine ⟨by omega, h2, ?_, ?_⟩
        · rw [e, List.get?_cons_succ]; exact h3
        · intro j hj1 hj2
          by_cases hjk : j = k
          · subst hjk; simp [hu]
          · have e2 : j - k = (j - (k + 1)) + 1 := by omega
            rw [e2, List.get?_cons_succ]
            exact h4 j (by omega) hj2
      · rename_i hu
        simp only [Option.some.injEq] at h
        subst h
        refine ⟨le_refl _, hk, ?_, ?_⟩
        · simpa using hu
        · intro j h1 h2; omega
    · cases h

theorem find_free_from_none :
    ∀ (l : List figure_path_data) (k size : Nat), find_free_from k size l = none →
      ∀ j, k ≤ j → j < size → j < k + l.length →
        (l.get? (j - k)).map path_is_used = some true := by
  intro l
  induction l with
  | nil => intro k size _ j h1 _ h3; simp at h3; omega
  | cons p rest ih =>
    intro k size h j h1 h2 h3
    rw [find_free_from] at h
    split at h
    · split at h
      · rename_i hu
        by_cases hjk : j = k
        · subst hjk; simp [hu]
        · have e2 : j - k = (j - (k + 1)) + 1 := by omega
          rw [e2, List.get?_cons_succ]
          refine ih _ _ h j (by omega) h2 ?_
          simp only [List.length_cons] at h3
          omega
      · cases h
    · omega
theorem array_pad_one (alloc : Nat → Bool) (a a1 : Pool) (hwf : a.size ≤ a.items.length)
    (h : array_pad alloc 1 1 a = some a1) :
    a1.size = max a.size 1 ∧ a1.size ≤ a1.items.length ∧ a1.blocks = a.blocks ∧
    (∀ j, j < a.size → a1.items.get? j = a.items.get? j) := by
  rw [array_pad] at h
  split at h
  · rename_i hs
    cases hadv : array_advance alloc a with
    | none => rw [hadv] at h; cases h
    | some r =>
      obtain ⟨i, a2⟩ := r
      rw [hadv] at h
      simp only [array_pad, Option.some.injEq] at h
      subst h
      obtain ⟨_, h2, h3, h4, _, h6⟩ := array_advance_some alloc a i a2 hwf hadv
      refine ⟨by omega, h4, h3, h6⟩
  · rename_i hs
    simp only [Option.some.injEq] at h
    subst h
    exact ⟨by omega, hwf, rfl, fun _ _ => rfl⟩

theorem drop_one_get (l : List figure_path_data) (j : Nat) (hj : 1 ≤ j) :
    (l.drop 1).get? (j - 1) = l.get? j := by
  simp only [List.get?_eq_getElem?, List.getElem?_drop]
  congr 1
  omega

theorem array_new_item_some (alloc : Nat → Bool) (a a1 : Pool) (i : Nat)
    (hwf : a.size ≤ a.items.length)
    (h : array_new_item_after_index alloc a 1 = (some i, a1)) :
    1 ≤ i ∧ i < a1.size ∧ a1.size ≤ a1.items.length ∧ a1.blocks = a.blocks ∧
    a1.items.get? i = some (create_new_path zero_path i) ∧
    (∀ j, j < a.size → j ≠ i → a1.items.get? j = a.items.get? j) ∧
    (∀ j, 1 ≤ j → j < i → j < a.size → (a.items.get? j).map path_is_used = some true) ∧
    ((i < a.size ∧ (a.items.get? i).map path_is_used = some false ∧ a1.size = a.size) ∨
     (i = max a.size 1 ∧ a1.size = i + 1)) := by
  unfold array_new_item_after_index at h
  cases hpad : array_pad alloc 1 1 a with
  | none => rw [hpad] at h; cases h
  | some a0 =>
    rw [hpad] at h
    obtain ⟨p1, p2, p3, p4⟩ := array_pad_one alloc a a0 hwf hpad
    simp only at h
    cases hfind : find_free_from 1 a0.size (a0.items.drop 1) with
    | some k =>
      rw [hfind] at h
      simp only [Prod.mk.injEq, Option.some.injEq] at h
      obtain ⟨hk, ha1⟩ := h
      subst hk
      subst ha1
      obtain ⟨f1, f2, f3, f4⟩ := find_free_from_some _ _ _ _ hfind
      rw [drop_one_get _ _ f1] at f3
      have hka : k < a.size := by
        by_contra hc
        have : a0.size = 1 := by omega
        omega
      have hsz : a0.size = a.size := by omega
      refine ⟨f1, f2, ?_, p3, ?_, ?_, ?_, Or.inl ⟨hka, ?_, hsz⟩⟩
      · simpa using p2
      · simp only [List.get?_eq_getElem?]
        rw [List.getElem?_set_self (by omega)]
      · intro j hj hne
        simp only [List.get?_eq_getElem?]
        rw [List.getElem?_set_ne (Ne.symm hne)]
        simpa using p4 j hj
      · intro j hj1 hj2 hj3
        have := f4 j hj1 hj2
        rw [drop_one_get _ _ hj1] at this
        rw [← p4 j hj3]
        exact this
      · rw [← p4 k hka]
        exact f3
    | none =>
      rw [hfind] at h
      simp only at h
      cases hadv : array_advance alloc a0 with
      | none => rw [hadv] at h; cases h
      | some r =>
        obtain ⟨k, a2⟩ := r
        rw [hadv] at h
        simp only [Prod.mk.injEq, Option.some.injEq] at h
        obtain ⟨hk, ha1⟩ := h
        subst hk
        subst ha1
        obtain ⟨g1, g2, g3, g4, g5, g6⟩ := array_advance_some alloc a0 k a2 p2 hadv
        have hnone := find_free_from_none _ _ _ hfind
        refine ⟨by omega, by omega, g4, by rw [g3, p3], ?_, ?_, ?_, Or.inr ⟨by omega, by omega⟩⟩
        · rw [g1]; exact g5
        · intro j hj _
          rw [g6 j (by omega)]
          exact p4 j hj
        · intro j hj1 _ hj3
          have := hnone j hj1 (by omega) (by
            simp only [List.length_drop]
            omega)
          rw [drop_one_get _ _ hj1] at this
          rw [← p4 j hj3]
          exact this

theorem array_new_item_none (alloc : Nat → Bool) (a a1 : Pool)
    (hwf : a.size ≤ a.items.length)
    (h : array_new_item_after_index alloc a 1 = (none, a1)) :
    ∀ j, j < a.size → a1.items.get? j = a.items.get? j := by
  unfold array_new_item_after_index at h
  cases hpad : array_pad alloc 1 1 a with
  | none =>
    rw [hpad] at h
    simp only [Prod.mk.injEq, true_and] at h
    subst h
    intro _ _; rfl
  | some a0 =>
    rw [hpad] at h
    obtain ⟨_, _, _, p4⟩ := array_pad_one alloc a a0 hwf hpad
    simp only at h
    cases hfind : find_free_from 1 a0.size (a0.items.drop 1) with
    | some k => rw [hfind] at h; cases h
    | none =>
      rw [hfind] at h
      simp only at h
      cases hadv : array_advance alloc a0 with
      | none =>
        rw [hadv] at h
        simp only [Prod.mk.injEq, true_and] at h
        subst h
        exact p4
      | some r =>
        obtain ⟨k, a2⟩ := r
        rw [hadv] at h
        cases h
theorem fill_path_keeps (alloc : Nat → Bool) (s : Directions) (p : figure_path_data) :
    (fill_path_with_directions alloc s p).2.id = p.id ∧
    (fill_path_with_directions alloc s p).2.figure_id = p.figure_id := by
  unfold fill_path_with_directions
  split <;> exact ⟨rfl, rfl⟩

theorem finish_keeps (alloc : Nat → Bool) (p : figure_path_data) (w : Pos) (s : Directions) :
    ∃ q, (finish alloc (some p) w s).path = some q ∧ q.id = p.id ∧
      q.figure_id = p.figure_id := by
  have hk := fill_path_keeps alloc s p
  unfold finish
  simp only
  split
  · rename_i p1 he
    rw [he] at hk
    exact ⟨p1, rfl, hk⟩
  · rename_i p1 he
    rw [he] at hk
    exact ⟨p1, rfl, hk⟩

theorem reconstruct_keeps (alloc : Nat → Bool) (select : Int → Int → Best)
    (p : figure_path_data) :
    ∀ (fuel : Nat) (w : Pos) (s : Directions) (o : Outcome),
      reconstruct alloc select (some p) fuel w s = some o →
      ∃ q, o.path = some q ∧ q.id = p.id ∧ q.figure_id = p.figure_id := by
  intro fuel
  induction fuel with
  | zero =>
    intro w s o h
    rw [reconstruct] at h
    split at h
    · cases h
    · simp only [Option.some.injEq] at h
      subst h
      exact finish_keeps alloc p w s
  | succ fuel ih =>
    intro w s o h
    rw [reconstruct] at h
    split at h
    · split at h
      · simp only [Option.some.injEq] at h
        subst h
        exact ⟨p, rfl, rfl, rfl⟩
      · rename_i w1 _
        simp only [Option.isSome_some, if_true] at h
        split at h
        · simp only [Option.some.injEq] at h
          subst h
          exact ⟨p, rfl, rfl, rfl⟩
        · exact ih _ _ _ h
    · simp only [Option.some.injEq] at h
      subst h
      exact finish_keeps alloc p w s

theorem map_routing_get_path_keeps (alloc : Nat → Bool) (m : Map) (s : Directions)
    (p : figure_path_data) (dst_x dst_y num_directions : Int) (fuel : Nat) (o : Outcome)
    (h : map_routing_get_path alloc m s (some p) dst_x dst_y num_directions fuel = some o) :
    (o.path.getD p).id = p.id ∧ (o.path.getD p).figure_id = p.figure_id := by
  unfold map_routing_get_path at h
  simp only at h
  split at h
  · simp only [Option.some.injEq] at h
    subst h
    exact ⟨rfl, rfl⟩
  · obtain ⟨q, hq, h1, h2⟩ := reconstruct_keeps alloc _ p _ _ _ _ h
    rw [hq]
    exact ⟨h1, h2⟩

theorem map_routing_get_path_on_water_keeps (alloc : Nat → Bool) (m : Map) (random_byte : Nat)
    (s : Directions) (p : figure_path_data) (dst_x dst_y : Int) (is_flotsam : Bool) (fuel : Nat)
    (o : Outcome)
    (h : map_routing_get_path_on_water alloc m random_byte s (some p) dst_x dst_y is_flotsam
      fuel = some o) :
    (o.path.getD p).id = p.id ∧ (o.path.getD p).figure_id = p.figure_id := by
  unfold map_routing_get_path_on_water at h
  simp only at h
  split at h
  · simp only [Option.some.injEq] at h
    subst h
    exact ⟨rfl, rfl⟩
  · obtain ⟨q, hq, h1, h2⟩ := reconstruct_keeps alloc _ p _ _ _ _ h
    rw [hq]
    exact ⟨h1, h2⟩

theorem route_path_length_keeps (alloc : Nat → Bool) (r : Routing) (random_byte fuel : Nat)
    (m : Map) (s : Directions) (p : figure_path_data) (f : figure) (direction_limit : Int)
    (c : Computed)
    (h : route_path_length alloc r random_byte fuel m s p f direction_limit = some c) :
    c.path.id = p.id ∧ c.path.figure_id = p.figure_id := by
  unfold route_path_length at h
  split at h
  · split at h
    · simp only [Option.map_eq_some'] at h
      obtain ⟨o, ho, hc⟩ := h
      subst hc
      exact map_routing_get_path_on_water_keeps _ _ _ _ _ _ _ _ _ _ ho
    · simp only [Option.map_eq_some'] at h
      obtain ⟨o, ho, hc⟩ := h
      subst hc
      exact map_routing_get_path_on_water_keeps _ _ _ _ _ _ _ _ _ _ ho
  · simp only at h
    split at h
    · split at h
      · split at h
        · cases h
        · rename_i o1 ho1
          have k1 := map_routing_get_path_keeps _ _ _ _ _ _ _ _ _ ho1
          split at h
          · simp only [Option.map_eq_some'] at h
            obtain ⟨o, ho, hc⟩ := h
            subst hc
            have k2 := map_routing_get_path_keeps _ _ _ _ _ _ _ _ _ ho
            exact ⟨k2.1.trans k1.1, k2.2.trans k1.2⟩
          · simp only [Option.some.injEq] at h
            subst h
            exact k1
      · simp only [Option.map_eq_some'] at h
        obtain ⟨o, ho, hc⟩ := h
        subst hc
        exact map_routing_get_path_keeps _ _ _ _ _ _ _ _ _ ho
    · simp only [Option.some.injEq] at h
      subst h
      exact ⟨rfl, rfl⟩

theorem route_path_length_infeasible (alloc : Nat → Bool) (r : Routing) (random_byte fuel : Nat)
    (m : Map) (s : Directions) (p : figure_path_data) (f : figure) (direction_limit : Int)
    (hboat : f.is_boat = 0) (hno : (route_can_travel r m f direction_limit).1 = false) :
    route_path_length alloc r random_byte fuel m s p f direction_limit =
      some { path_length := 0, map := (route_can_travel r m f direction_limit).2, scratch := s,
             path := p } := by
  unfold route_path_length
  rw [if_neg (by simp [hboat])]
  simp only [hno]
  rfl

/-- The pool `figure_route_add` asks for a slot: the pool itself, or a new empty
pool when it was not initialised. -/
theorem route_pool_init (alloc : Nat → Bool) (a a0 : Pool) (hwf : a.wf)
    (h : (if a.blocks = 0 then array_init alloc else some a) = some a0) :
    a0.size = a.size ∧ a0.size ≤ a0.items.length ∧
    ∀ j, j < a.size → a0.items.get? j = a.items.get? j := by
  split at h
  · rename_i hb
    unfold array_init at h
    split at h
    · simp only [Option.some.injEq] at h
      subst h
      have := hwf.2 hb
      refine ⟨this.symm, by simp, ?_⟩
      intro j hj
      omega
    · cases h
  · simp only [Option.some.injEq] at h
    subst h
    exact ⟨rfl, hwf.1, fun _ _ => rfl⟩
theorem figure_route_add_success (alloc : Nat → Bool) (r : Routing) (random_byte fuel : Nat)
    (st : RouteState) (f : figure) (out : Added) (hwf : st.paths.wf)
    (hadd : figure_route_add alloc r random_byte fuel st f = some out)
    (hn : 0 < out.path_length) :
    ∃ a0 a1 i slot,
      (if st.paths.blocks = 0 then array_init alloc else some st.paths) = some a0 ∧
      array_new_item_after_index alloc a0 1 = (some i, a1) ∧
      slot.id = i ∧ slot.figure_id = f.id ∧
      out.state.paths = { a1 with items := a1.items.set i slot } ∧
      out.f.routing_path_id = i ∧ out.f.routing_path_length = out.path_length ∧
      out.f.routing_path_current_tile = 0 := by
  unfold figure_route_add at hadd
  simp only at hadd
  split at hadd
  · simp only [Option.some.injEq] at hadd
    subst hadd
    simp at hn
  · rename_i a0 hinit
    split at hadd
    · simp only [Option.some.injEq] at hadd
      subst hadd
      simp at hn
    · rename_i i a1 hnew
      obtain ⟨_, h0wf, _⟩ := route_pool_init alloc _ _ hwf hinit
      obtain ⟨_, _, _, _, hget, _⟩ := array_new_item_some alloc _ _ _ h0wf hnew
      split at hadd
      · cases hadd
      · rename_i p hp
        rw [hget] at hp
        simp only [Option.some.injEq] at hp
        subst hp
        split at hadd
        · cases hadd
        · rename_i c hc
          have hk := route_path_length_keeps _ _ _ _ _ _ _ _ _ _ hc
          split at hadd
          · simp only [Option.some.injEq] at hadd
            subst hadd
            exact ⟨a0, a1, i, { c.path with figure_id := f.id }, hinit, hnew, hk.1, rfl, rfl,
              hk.1, rfl, rfl⟩
          · rename_i hz
            simp only [Option.some.injEq] at hadd
            subst hadd
            simp only [ne_eq, not_not] at hz
            simp only at hn
            omega

/-! ## Acquiring a path -/

/-- The rest of `figure_route_add` once the slot `i` has been handed out and
`path_length` computed. -/
theorem figure_route_add_computed (alloc : Nat → Bool) (r : Routing) (random_byte fuel : Nat)
    (st : RouteState) (f : figure) (a0 a1 : Pool) (i : Nat) (c : Computed) (hwf : st.paths.wf)
    (hinit : (if st.paths.blocks = 0 then array_init alloc else some st.paths) = some a0)
    (hnew : array_new_item_after_index alloc a0 1 = (some i, a1))
    (hc : route_path_length alloc r random_byte fuel st.map st.scratch
      (create_new_path zero_path i)
      { f with routing_path_id := 0, routing_path_current_tile := 0, routing_path_length := 0 }
      (if f.disallow_diagonal then 4 else 8) = some c) :
    ∃ out, figure_route_add alloc r random_byte fuel st f = some out ∧
      out.path_length = c.path_length ∧ out.state.map = c.map ∧
      out.f.routing_path_current_tile = 0 ∧ out.f.routing_path_length = c.path_length ∧
      out.state.paths.size = a1.size ∧ c.path.id = i ∧
      (c.path_length ≠ 0 → out.f.routing_path_id = i ∧
        out.state.paths.items = a1.items.set i { c.path with figure_id := f.id }) ∧
      (c.path_length = 0 → out.f.routing_path_id = 0 ∧
        out.state.paths.items = a1.items.set i c.path) := by
  obtain ⟨_, h0wf, _⟩ := route_pool_init alloc _ _ hwf hinit
  obtain ⟨_, _, _, _, hget, _⟩ := array_new_item_some alloc _ _ _ h0wf hnew
  have hk := route_path_length_keeps _ _ _ _ _ _ _ _ _ _ hc
  unfold figure_route_add
  simp only
  rw [hinit]
  simp only
  rw [hnew]
  simp only
  rw [hget]
  simp only
  rw [hc]
  simp only
  by_cases hz : c.path_length ≠ 0
  · rw [if_pos hz]
    exact ⟨_, rfl, rfl, rfl, rfl, rfl, rfl, hk.1, fun _ => ⟨hk.1, rfl⟩, fun h => absurd h hz⟩
  · rw [if_neg hz]
    have hz0 : c.path_length = 0 := not_not.mp hz
    exact ⟨_, rfl, rfl, rfl, rfl, hz0.symm, rfl, hk.1, fun h => absurd hz0 h, fun _ => ⟨rfl, rfl⟩⟩

/-- The value of `path_length` for a boat: the return value of the call of
`map_routing_get_path_on_water`. -/
theorem route_path_length_boat (alloc : Nat → Bool) (r : Routing) (random_byte fuel : Nat)
    (m : Map) (s : Directions) (p : figure_path_data) (f : figure) (direction_limit : Int)
    (o : Outcome)
    (hcall :
      (f.is_boat = 2 ∧
        map_routing_get_path_on_water alloc
          (r.map_routing_calculate_distances_water_flotsam m f.x f.y) random_byte s (some p)
          f.destination_x f.destination_y true fuel = some o) ∨
      (f.is_boat ≠ 0 ∧ f.is_boat ≠ 2 ∧
        map_routing_get_path_on_water alloc
          (r.map_routing_calculate_distances_water_boat m f.x f.y) random_byte s (some p)
          f.destination_x f.destination_y false fuel = some o)) :
    ∃ c, route_path_length alloc r random_byte fuel m s p f direction_limit = some c ∧
      c.path_length = o.result := by
  unfold route_path_length
  rcases hcall with ⟨h2, hc⟩ | ⟨h0, h2, hc⟩
  · rw [if_pos (by rw [h2]; decide), if_pos h2]
    simp only
    rw [hc]
    exact ⟨_, rfl, rfl⟩
  · rw [if_pos h0, if_neg h2]
    simp only
    rw [hc]
    exact ⟨_, rfl, rfl⟩

/-- The value of `path_length` for a land figure that can travel: the return
value of the last call of `map_routing_get_path`, on the map that the `switch`
left. -/
theorem route_path_length_land (alloc : Nat → Bool) (r : Routing) (random_byte fuel : Nat)
    (m : Map) (s : Directions) (p : figure_path_data) (f : figure) (direction_limit : Int)
    (o : Outcome) (hboat : f.is_boat = 0)
    (hcan : (route_can_travel r m f direction_limit).1 = true)
    (hcall :
      (f.terrain_usage ≠ TerrainUsage.WALLS ∧
        map_routing_get_path alloc (route_can_travel r m f direction_limit).2 s (some p)
          f.destination_x f.destination_y direction_limit fuel = some o) ∨
      (f.terrain_usage = TerrainUsage.WALLS ∧
        map_routing_get_path alloc (route_can_travel r m f direction_limit).2 s (some p)
          f.destination_x f.destination_y 4 fuel = some o ∧ 0 < o.result) ∨
      (f.terrain_usage = TerrainUsage.WALLS ∧
        ∃ o1, map_routing_get_path alloc (route_can_travel r m f direction_limit).2 s (some p)
            f.destination_x f.destination_y 4 fuel = some o1 ∧ o1.result ≤ 0 ∧
          map_routing_get_path alloc (route_can_travel r m f direction_limit).2 o1.scratch
            (some (o1.path.getD p)) f.destination_x f.destination_y direction_limit fuel =
            some o)) :
    ∃ c, route_path_length alloc r random_byte fuel m s p f direction_limit = some c ∧
      c.path_length = o.result ∧ c.map = (route_can_travel r m f direction_limit).2 := by
  unfold route_path_length
  rw [if_neg (by simp [hboat])]
  simp only
  rw [if_pos hcan]
  rcases hcall with ⟨hw, hc⟩ | ⟨hw, hc, hpos⟩ | ⟨hw, o1, hc1, hle, hc⟩
  · rw [if_neg hw, hc]
    exact ⟨_, rfl, rfl, rfl⟩
  · rw [if_pos hw, hc]
    simp only
    rw [if_neg (by omega)]
    exact ⟨_, rfl, rfl, rfl⟩
  · rw [if_pos hw, hc1]
    simp only
    rw [if_pos hle, hc]
    exact ⟨_, rfl, rfl, rfl⟩

/-- C15. Binding on success: `figure_route_add` for the figure `f` has been
handed the slot `i` of the pool, and the reconstructor it calls for `f` on the
record of that slot (`map_routing_get_path_on_water` for a boat, after the
distances for flotsam or for a boat; `map_routing_get_path` for a land figure
that can travel, for walls first with 4 directions and after a result `<= 0`
again with the direction limit) returns the outcome `o` with a tile count
`o.result > 0`. Then the call returns, `f->routing_path_id` is `i >= 1`, a slot
of the pool, that slot's `id` is its index `i` and its `figure_id` is `f->id`,
`f->routing_path_length` is the tile count `o.result`, and
`f->routing_path_current_tile` is 0. -/
theorem acquire_binds_slot (alloc : Nat → Bool) (r : Routing) (random_byte fuel : Nat)
    (st : RouteState) (f : figure) (a0 a1 : Pool) (i : Nat) (o : Outcome) (hwf : st.paths.wf)
    (hinit : (if st.paths.blocks = 0 then array_init alloc else some st.paths) = some a0)
    (hnew : array_new_item_after_index alloc a0 1 = (some i, a1))
    (hcall :
      (f.is_boat = 2 ∧
        map_routing_get_path_on_water alloc
          (r.map_routing_calculate_distances_water_flotsam st.map f.x f.y) random_byte
          st.scratch (some (create_new_path zero_path i)) f.destination_x f.destination_y true
          fuel = some o) ∨
      (f.is_boat ≠ 0 ∧ f.is_boat ≠ 2 ∧
        map_routing_get_path_on_water alloc
          (r.map_routing_calculate_distances_water_boat st.map f.x f.y) random_byte
          st.scratch (some (create_new_path zero_path i)) f.destination_x f.destination_y false
          fuel = some o) ∨
      (f.is_boat = 0 ∧
        (route_can_travel r st.map f (if f.disallow_diagonal then 4 else 8)).1 = true ∧
        ((f.terrain_usage ≠ TerrainUsage.WALLS ∧
          map_routing_get_path alloc
            (route_can_travel r st.map f (if f.disallow_diagonal then 4 else 8)).2 st.scratch
            (some (create_new_path zero_path i)) f.destination_x f.destination_y
            (if f.disallow_diagonal then 4 else 8) fuel = some o) ∨
        (f.terrain_usage = TerrainUsage.WALLS ∧
          map_routing_get_path alloc
            (route_can_travel r st.map f (if f.disallow_diagonal then 4 else 8)).2 st.scratch
            (some (create_new_path zero_path i)) f.destination_x f.destination_y 4 fuel =
            some o ∧ 0 < o.result) ∨
        (f.terrain_usage = TerrainUsage.WALLS ∧
          ∃ o1, map_routing_get_path alloc
              (route_can_travel r st.map f (if f.disallow_diagonal then 4 else 8)).2 st.scratch
              (some (create_new_path zero_path i)) f.destination_x f.destination_y 4 fuel =
              some o1 ∧ o1.result ≤ 0 ∧
            map_routing_get_path alloc
              (route_can_travel r st.map f (if f.disallow_diagonal then 4 else 8)).2
              o1.scratch (some (o1.path.getD (create_new_path zero_path i)))
              f.destination_x f.destination_y (if f.disallow_diagonal then 4 else 8) fuel =
              some o))))
    (hn : 0 < o.result) :
    ∃ out, figure_route_add alloc r random_byte fuel st f = some out ∧
      out.f.routing_path_id = i ∧ 1 ≤ i ∧ i < out.state.paths.size ∧
      (∃ slot, out.state.paths.items.get? i = some slot ∧ slot.id = i ∧
        slot.figure_id = f.id) ∧
      out.f.routing_path_length = o.result ∧ out.f.routing_path_current_tile = 0 := by
  obtain ⟨_, h0wf, _⟩ := route_pool_init alloc _ _ hwf hinit
  obtain ⟨h1, h2, h3, _, _, _⟩ := array_new_item_some alloc _ _ _ h0wf hnew
  have hlen : ∃ c, route_path_length alloc r random_byte fuel st.map st.scratch
      (create_new_path zero_path i)
      { f with routing_path_id := 0, routing_path_current_tile := 0, routing_path_length := 0 }
      (if f.disallow_diagonal then 4 else 8) = some c ∧ c.path_length = o.result := by
    rcases hcall with hb | hb | ⟨hboat, hcan, hland⟩
    · exact route_path_length_boat alloc r random_byte fuel st.map st.scratch _
        { f with routing_path_id := 0, routing_path_current_tile := 0,
                 routing_path_length := 0 } _ o (Or.inl hb)
    · exact route_path_length_boat alloc r random_byte fuel st.map st.scratch _
        { f with routing_path_id := 0, routing_path_current_tile := 0,
                 routing_path_length := 0 } _ o (Or.inr hb)
    · obtain ⟨c, hc, hr, _⟩ := route_path_length_land alloc r random_byte fuel st.map st.scratch
        _ { f with routing_path_id := 0, routing_path_current_tile := 0,
                   routing_path_length := 0 } _ o hboat hcan hland
      exact ⟨c, hc, hr⟩
  obtain ⟨c, hc, hr⟩ := hlen
  obtain ⟨out, hadd, _, _, htile, hlength, hsize, hcid, hbound, _⟩ :=
    figure_route_add_computed alloc r random_byte fuel st f a0 a1 i c hwf hinit hnew hc
  obtain ⟨hrid, hitems⟩ := hbound (by rw [hr]; omega)
  refine ⟨out, hadd, hrid, h1, by rw [hsize]; exact h2,
    ⟨{ c.path with figure_id := f.id }, ?_, hcid, rfl⟩, by rw [hlength, hr], htile⟩
  rw [hitems, List.get?_eq_getElem?, List.getElem?_set_self (by omega)]

/-- C15 for the first request, of `walker` on `highway_diagonal_map`: the pool
is initialised, slot 1 is handed out, and the 8-direction call of
`map_routing_get_path` returns `diagonal_outcome` with 2 tiles. -/
theorem acquire_binds_slot_witness :
    ∃ out, figure_route_add alloc_ok open_routing 0 3 first_state walker = some out ∧
      out.f.routing_path_id = 1 ∧ 1 ≤ 1 ∧ 1 < out.state.paths.size ∧
      (∃ slot, out.state.paths.items.get? 1 = some slot ∧ slot.id = 1 ∧
        slot.figure_id = walker.id) ∧
      out.f.routing_path_length = diagonal_outcome.result ∧
      out.f.routing_path_current_tile = 0 :=
  acquire_binds_slot alloc_ok open_routing 0 3 first_state walker ⟨[], 0, 1⟩
    ⟨[zero_path, ⟨1, 0, 0, none, 0, 0⟩], 2, 1⟩ 1 diagonal_outcome ⟨by decide, by decide⟩ rfl rfl
    (Or.inr (Or.inr ⟨rfl, rfl, Or.inl ⟨by decide, rfl⟩⟩)) (by decide)

theorem last_query (c : Bool × Map) : (if c.1 = true then c else (false, c.2)) = c := by
  obtain ⟨b, m⟩ := c
  cases b <;> rfl

theorem route_can_travel_first_feasible (r : Routing) (m : Map) (f : figure)
    (direction_limit : Int) :
    route_can_travel r m f direction_limit =
      first_feasible (strategies r f direction_limit) m := by
  unfold route_can_travel strategies
  cases f.terrain_usage <;> simp only [first_feasible, last_query] <;> (repeat' split) <;>
    simp_all

/-- C16. Strategy dispatch in `figure_route_add` for a land figure. The
strategies of a tag are tried in order on the map the previous one left, and the
first feasible one wins: the value of `can_travel` is that of
`first_feasible` on the list `strategies` of the tag, which for an enemy is
land with the budget 5000 and the destination building, land with the budget
25000 and building 0, through everything; for prefer-roads road/garden, then
land; for roads road/garden. When one is feasible and the slot `i` has been
handed out, the call runs `map_routing_get_path` on the distance field that the
first feasible strategy left (for walls first with 4 directions and after a
result `<= 0` again with the direction limit), that field is the one in place
afterwards, `routing_path_length` is the tile count `o.result` returned, and the
figure is bound to slot `i` when it is not 0. When every strategy of the tag is
infeasible the call returns with `routing_path_id` and `routing_path_length` 0
and the `figure_id` of every slot of the pool as it was. -/
theorem strategy_dispatch (alloc : Nat → Bool) (r : Routing) (random_byte fuel : Nat)
    (st : RouteState) (f : figure) (hwf : st.paths.wf) (hboat : f.is_boat = 0) :
    (∀ m, route_can_travel r m f (if f.disallow_diagonal then 4 else 8) =
      first_feasible (strategies r f (if f.disallow_diagonal then 4 else 8)) m) ∧
    (f.terrain_usage = TerrainUsage.ENEMY →
      strategies r f (if f.disallow_diagonal then 4 else 8) =
        [fun m => r.map_routing_noncitizen_can_travel_over_land m f.x f.y f.destination_x
            f.destination_y (if f.disallow_diagonal then 4 else 8)
            f.destination_building_id 5000,
         fun m => r.map_routing_noncitizen_can_travel_over_land m f.x f.y f.destination_x
            f.destination_y (if f.disallow_diagonal then 4 else 8) 0 25000,
         fun m => r.map_routing_noncitizen_can_travel_through_everything m f.x f.y
            f.destination_x f.destination_y (if f.disallow_diagonal then 4 else 8)]) ∧
    (f.terrain_usage = TerrainUsage.PREFER_ROADS →
      strategies r f (if f.disallow_diagonal then 4 else 8) =
        [fun m => r.map_routing_citizen_can_travel_over_road_garden m f.x f.y f.destination_x
            f.destination_y (if f.disallow_diagonal then 4 else 8),
         fun m => r.map_routing_citizen_can_travel_over_land m f.x f.y f.destination_x
            f.destination_y (if f.disallow_diagonal then 4 else 8)]) ∧
    (f.terrain_usage = TerrainUsage.ROADS →
      strategies r f (if f.disallow_diagonal then 4 else 8) =
        [fun m => r.map_routing_citizen_can_travel_over_road_garden m f.x f.y f.destination_x
            f.destination_y (if f.disallow_diagonal then 4 else 8)]) ∧
    (∀ (a0 a1 : Pool) (i : Nat) (o : Outcome),
      (if st.paths.blocks = 0 then array_init alloc else some st.paths) = some a0 →
      array_new_item_after_index alloc a0 1 = (some i, a1) →
      (first_feasible (strategies r f (if f.disallow_diagonal then 4 else 8)) st.map).1 = true →
      ((f.terrain_usage ≠ TerrainUsage.WALLS ∧
          map_routing_get_path alloc
            (first_feasible (strategies r f (if f.disallow_diagonal then 4 else 8)) st.map).2
            st.scratch (some (create_new_path zero_path i)) f.destination_x f.destination_y
            (if f.disallow_diagonal then 4 else 8) fuel = some o) ∨
        (f.terrain_usage = TerrainUsage.WALLS ∧
          map_routing_get_path alloc
            (first_feasible (strategies r f (if f.disallow_diagonal then 4 else 8)) st.map).2
            st.scratch (some (create_new_path zero_path i)) f.destination_x f.destination_y 4
            fuel = some o ∧ 0 < o.result) ∨
        (f.terrain_usage = TerrainUsage.WALLS ∧
          ∃ o1, map_routing_get_path alloc
              (first_feasible (strategies r f (if f.disallow_diagonal then 4 else 8))
                st.map).2
              st.scratch (some (create_new_path zero_path i)) f.destination_x f.destination_y 4
              fuel = some o1 ∧ o1.result ≤ 0 ∧
            map_routing_get_path alloc
              (first_feasible (strategies r f (if f.disallow_diagonal then 4 else 8))
                st.map).2
              o1.scratch (some (o1.path.getD (create_new_path zero_path i)))
              f.destination_x f.destination_y (if f.disallow_diagonal then 4 else 8) fuel =
              some o)) →
      ∃ out, figure_route_add alloc r random_byte fuel st f = some out ∧
        out.state.map =
          (first_feasible (strategies r f (if f.disallow_diagonal then 4 else 8)) st.map).2 ∧
        out.f.routing_path_length = o.result ∧
        (o.result ≠ 0 → out.f.routing_path_id = i ∧
          ∃ slot, out.state.paths.items.get? i = some slot ∧ slot.figure_id = f.id) ∧
        (o.result = 0 → out.f.routing_path_id = 0)) ∧
    ((first_feasible (strategies r f (if f.disallow_diagonal then 4 else 8)) st.map).1 = false →
      ∃ out, figure_route_add alloc r random_byte fuel st f = some out ∧
        out.f.routing_path_id = 0 ∧ out.f.routing_path_length = 0 ∧
        ∀ i slot, i < st.paths.size → st.paths.items.get? i = some slot →
          (out.state.paths.items.get? i).map (fun q => q.figure_id) = some slot.figure_id) := by
  refine ⟨fun m => route_can_travel_first_feasible r m f _, ?_, ?_, ?_, ?_, ?_⟩
  · intro h
    unfold strategies
    rw [h]
  · intro h
    unfold strategies
    rw [h]
  · intro h
    unfold strategies
    rw [h]
  · intro a0 a1 i o hinit hnew hcan hcall
    rw [← route_can_travel_first_feasible] at hcan hcall ⊢
    obtain ⟨_, h0wf, _⟩ := route_pool_init alloc _ _ hwf hinit
    obtain ⟨_, h2, h3, _, _, _⟩ := array_new_item_some alloc _ _ _ h0wf hnew
    obtain ⟨c, hc, hr, hm⟩ := route_path_length_land alloc r random_byte fuel st.map st.scratch
      (create_new_path zero_path i)
      { f with routing_path_id := 0, routing_path_current_tile := 0,
               routing_path_length := 0 } _ o hboat hcan hcall
    obtain ⟨out, hadd, _, hmap, _, hlength, _, _, hbound, hfree⟩ :=
      figure_route_add_computed alloc r random_byte fuel st f a0 a1 i c hwf hinit hnew hc
    refine ⟨out, hadd, by rw [hmap, hm]; rfl, by rw [hlength, hr], ?_, ?_⟩
    · intro hnz
      obtain ⟨hrid, hitems⟩ := hbound (by rw [hr]; exact hnz)
      refine ⟨hrid, { c.path with figure_id := f.id }, ?_, rfl⟩
      rw [hitems, List.get?_eq_getElem?, List.getElem?_set_self (by omega)]
    · intro hz
      exact (hfree (by rw [hr]; exact hz)).1
  · intro hno
    rw [← route_can_travel_first_feasible] at hno
    unfold figure_route_add
    simp only
    cases hinit : (if st.paths.blocks = 0 then array_init alloc else some st.paths) with
    | none =>
      refine ⟨_, rfl, rfl, rfl, ?_⟩
      intro i slot _ hs
      simp only [hs, Option.map_some']
    | some a0 =>
      obtain ⟨hsz, h0wf, hsame⟩ := route_pool_init alloc _ _ hwf hinit
      simp only
      cases hnew : array_new_item_after_index alloc a0 1 with
      | mk oi a1 =>
        cases oi with
        | none =>
          refine ⟨_, rfl, rfl, rfl, ?_⟩
          intro i slot hi hs
          have := array_new_item_none alloc _ _ h0wf hnew i (by omega)
          simp only [this, hsame i hi, hs, Option.map_some']
        | some i =>
          obtain ⟨_, n2, n3, _, hget, nsame, nused, ncase⟩ :=
            array_new_item_some alloc _ _ _ h0wf hnew
          simp only [hget]
          have hno0 : (route_can_travel r st.map
              { f with routing_path_id := 0, routing_path_current_tile := 0,
                       routing_path_length := 0 }
              (if f.disallow_diagonal then 4 else 8)).1 = false := hno
          rw [route_path_length_infeasible _ _ _ _ _ _ _ _ _ (by exact hboat) hno0]
          simp only [ne_eq, not_true_eq_false, if_false]
          refine ⟨_, rfl, rfl, rfl, ?_⟩
          intro j slot hj hs
          simp only
          by_cases hji : j = i
          · subst hji
            simp only [List.get?_eq_getElem?]
            rw [List.getElem?_set_self (by omega)]
            rcases ncase with ⟨_, hfree, _⟩ | ⟨hmax, _⟩
            · rw [hsame j hj, hs] at hfree
              simp only [Option.map_some', Option.some.injEq, path_is_used, bne_eq_false_iff_eq,
                beq_iff_eq] at hfree ⊢
              rw [hfree]
              rfl
            · omega
          · simp only [List.get?_eq_getElem?]
            rw [List.getElem?_set_ne (Ne.symm hji)]
            have := nsame j (by omega) hji
            simp only [List.get?_eq_getElem?] at this hsame hs
            rw [this, hsame j hj, hs]
            rfl

/-- C16 for the enemy `raider` with `detour_routing`: land with the budget 5000
is infeasible, land with the budget 25000 is feasible and leaves the field of
`highway_diagonal_map`, on which the call finds the path of 2 tiles. -/
theorem strategy_dispatch_witness :
    (∃ out, figure_route_add alloc_ok detour_routing 0 3 plateau_state raider = some out ∧
      out.state.map = (first_feasible (strategies detour_routing raider
        (if raider.disallow_diagonal then 4 else 8)) plateau_state.map).2 ∧
      out.f.routing_path_length = diagonal_outcome.result ∧
      (diagonal_outcome.result ≠ 0 → out.f.routing_path_id = 1 ∧
        ∃ slot, out.state.paths.items.get? 1 = some slot ∧ slot.figure_id = raider.id) ∧
      (diagonal_outcome.result = 0 → out.f.routing_path_id = 0)) ∧
    ∃ out, figure_route_add alloc_ok closed_routing 0 3 busy_state raider = some out ∧
      out.f.routing_path_id = 0 ∧ out.f.routing_path_length = 0 ∧
      ∀ i slot, i < busy_state.paths.size → busy_state.paths.items.get? i = some slot →
        (out.state.paths.items.get? i).map (fun q => q.figure_id) = some slot.figure_id :=
  ⟨(strategy_dispatch alloc_ok detour_routing 0 3 plateau_state raider ⟨by decide, by decide⟩
      rfl).2.2.2.2.1 ⟨[], 0, 1⟩ ⟨[zero_path, ⟨1, 0, 0, none, 0, 0⟩], 2, 1⟩ 1 diagonal_outcome
      rfl rfl rfl (Or.inl ⟨by decide, rfl⟩),
   (strategy_dispatch alloc_ok closed_routing 0 3 busy_state raider ⟨by decide, by decide⟩
      rfl).2.2.2.2.2 rfl⟩

/-! ## Releasing a path and reaping orphans -/

/-- C17. Release: for a figure with `routing_path_id == 0` the call of
`figure_route_remove` leaves every slot and the figure as they are; for a figure
with `routing_path_id > 0` whose slot is `slot`, the call sets `routing_path_id`
to 0, and the slots afterwards are those before with the referenced slot freed
(`figure_id` 0, no buffer, `total_directions`, `current_step` and
`same_direction_count` 0) when `slot.figure_id` is the figure's id, and exactly
those before when it is not. -/
theorem release_frees_owned_slot (paths : Pool) (f : figure) :
    (f.routing_path_id = 0 →
      ∃ out, figure_route_remove paths f = some out ∧ out.1.items = paths.items ∧ out.2 = f) ∧
    (∀ slot, 0 < f.routing_path_id → paths.items.get? f.routing_path_id = some slot →
      ∃ out, figure_route_remove paths f = some out ∧ out.2.routing_path_id = 0 ∧
        (slot.figure_id = f.id →
          out.1.items = paths.items.set f.routing_path_id ⟨slot.id, 0, 0, none, 0, 0⟩) ∧
        (slot.figure_id ≠ f.id → out.1.items = paths.items)) := by
  constructor
  · intro h0
    unfold figure_route_remove
    rw [if_neg (by omega)]
    exact ⟨_, rfl, rfl, rfl⟩
  · intro slot hpos hslot
    unfold figure_route_remove
    rw [if_pos hpos, hslot]
    refine ⟨_, rfl, rfl, ?_, ?_⟩
    · intro hown
      simp only [array_trim_items, if_pos hown]
      rfl
    · intro hother
      simp only [array_trim_items, if_neg hother]

theorem release_frees_owned_slot_witness :
    ∃ out, figure_route_remove busy_pool raider = some out ∧ out.2.routing_path_id = 0 ∧
      out.1.items = busy_pool.items.set raider.routing_path_id ⟨1, 0, 0, none, 0, 0⟩ :=
  match (release_frees_owned_slot busy_pool raider).2 ⟨1, 5, 1, some [65], 0, 0⟩
    (by decide) rfl with
  | ⟨out, h1, h2, h3, _⟩ => ⟨out, h1, h2, h3 rfl⟩

/-- C18 (as stated, refuted). Slot 2 of `busy_pool` belongs to figure 9; with a
figure table of three figures that owner does not exist (9 is not below the
figure count 3), yet `figure_route_clean` leaves the slot as it is. -/
theorem reap_orphans_counterexample :
    busy_pool.items.get? 2 = some ⟨2, 9, 1, some [33], 0, 0⟩ ∧
    ¬ (9 < [walker, walker, walker].length) ∧
    (figure_route_clean [walker, walker, walker] busy_pool).items.get? 2 =
      some ⟨2, 9, 1, some [33], 0, 0⟩ ∧
    (figure_route_clean [walker, walker, walker] busy_pool).size = 3 := by
  decide

/-- C18 (amended). Reaping: for a slot `i` of the pool whose `figure_id` is the
id of a figure of the table (at least 1 and below the figure count),
`figure_route_clean` frees the slot (`figure_id` 0, no buffer,
`total_directions`, `current_step` and `same_direction_count` 0) when that figure
is not alive or its `routing_path_id` is not `i`, and leaves it as it is
otherwise; a slot whose `figure_id` is not below the figure count is left as it
is. -/
theorem reap_orphans (figures : List figure) (paths : Pool) (i : Nat)
    (slot : figure_path_data) (hi : i < paths.size)
    (hslot : paths.items.get? i = some slot) :
    (∀ owner, 0 < slot.figure_id → figures.get? slot.figure_id = some owner →
      (owner.state ≠ FIGURE_STATE_ALIVE ∨ owner.routing_path_id ≠ i →
        (figure_route_clean figures paths).items.get? i = some ⟨slot.id, 0, 0, none, 0, 0⟩) ∧
      (owner.state = FIGURE_STATE_ALIVE ∧ owner.routing_path_id = i →
        (figure_route_clean figures paths).items.get? i = some slot)) ∧
    (figures.length ≤ slot.figure_id →
      (figure_route_clean figures paths).items.get? i = some slot) := by
  have hget : (figure_route_clean figures paths).items.get? i =
      some (clean_slot figures i slot) := by
    unfold figure_route_clean
    rw [array_trim_items]
    simp only [foreach_slot_get, hslot, Option.map_some', Nat.zero_add, if_pos hi]
  rw [hget]
  refine ⟨?_, ?_⟩
  · intro owner hpos hown
    have hlt : slot.figure_id < figures.length := by
      rw [List.get?_eq_getElem?] at hown
      exact (List.getElem?_eq_some_iff.mp hown).1
    constructor
    · intro horph
      unfold clean_slot
      simp only [gt_iff_lt, hpos, hlt, and_self, if_true, hown, if_pos horph]
      rfl
    · intro hlive
      unfold clean_slot
      have : ¬ (owner.state ≠ FIGURE_STATE_ALIVE ∨ owner.routing_path_id ≠ i) := by
        rintro (h | h)
        · exact h hlive.1
        · exact h hlive.2
      simp only [gt_iff_lt, hpos, hlt, and_self, if_true, hown, if_neg this]
  · intro hge
    unfold clean_slot
    have : ¬ (slot.figure_id > 0 ∧ slot.figure_id < figures.length) := by omega
    simp only [if_neg this]

theorem reap_orphans_witness :
    (figure_route_clean [walker, walker, walker, walker, walker, walker] busy_pool).items.get? 1 =
      some ⟨1, 0, 0, none, 0, 0⟩ :=
  ((reap_orphans [walker, walker, walker, walker, walker, walker] busy_pool 1
    ⟨1, 5, 1, some [65], 0, 0⟩ (by decide) rfl).1 walker (by decide) rfl).1
    (Or.inr (by decide))
/-! ## Reuse of slots -/

/-- C19. Pool slot reuse: the figure `f` owns slot `k >= 1` of the pool and
releases it with `figure_route_remove`; a following call of `figure_route_add`
that finds a path for `g` binds `g` to a slot `i` with `1 <= i <= k` that was free
after the release, every slot from 1 on before `i` being in use (so `i` is the
lowest free id from 1 on), and the pool is not larger than before the release; a
call that does enlarge the pool it is given found no free slot from 1 on in it. -/
theorem pool_slot_reuse (alloc : Nat → Bool) (r : Routing) (random_byte fuel : Nat)
    (st : RouteState) (f g : figure) (slot : figure_path_data) (paths1 : Pool) (f1 : figure)
    (out : Added) (hwf : st.paths.wf) (hk : 0 < f.routing_path_id)
    (hks : f.routing_path_id < st.paths.size)
    (hslot : st.paths.items.get? f.routing_path_id = some slot)
    (hown : slot.figure_id = f.id)
    (hrem : figure_route_remove st.paths f = some (paths1, f1))
    (hadd : figure_route_add alloc r random_byte fuel { st with paths := paths1 } g = some out)
    (hn : 0 < out.path_length) :
    1 ≤ out.f.routing_path_id ∧ out.f.routing_path_id ≤ f.routing_path_id ∧
    (paths1.items.get? out.f.routing_path_id).map path_is_used = some false ∧
    (∀ j, 1 ≤ j → j < out.f.routing_path_id →
      (paths1.items.get? j).map path_is_used = some true) ∧
    out.state.paths.size ≤ st.paths.size ∧
    (paths1.size < out.state.paths.size →
      ∀ j, 1 ≤ j → j < paths1.size → (paths1.items.get? j).map path_is_used = some true) := by
  unfold figure_route_remove at hrem
  rw [if_pos hk, hslot] at hrem
  simp only [if_pos hown, Option.some.injEq, Prod.mk.injEq] at hrem
  obtain ⟨hp1, _⟩ := hrem
  have hitems : paths1.items = st.paths.items.set f.routing_path_id (free_path slot) := by
    rw [← hp1]; rfl
  have hsize : paths1.size = trim_size paths1.items st.paths.size := by
    rw [← hp1]; rfl
  have hblocks : paths1.blocks = st.paths.blocks := by
    rw [← hp1]; rfl
  have hlen : paths1.items.length = st.paths.items.length := by
    rw [hitems, List.length_set]
  have hle : paths1.size ≤ st.paths.size := by
    rw [hsize]; exact trim_size_le _ _
  have hb : st.paths.blocks ≠ 0 := by
    intro h0
    have := hwf.2 h0
    omega
  have hwf1 : Pool.wf paths1 := by
    refine ⟨?_, ?_⟩
    · rw [hlen]; exact le_trans hle hwf.1
    · intro h0
      rw [hblocks] at h0
      exact absurd h0 hb
  have hfree : (paths1.items.get? f.routing_path_id).map path_is_used = some false := by
    rw [hitems]
    simp only [List.get?_eq_getElem?]
    rw [List.getElem?_set_self (by have := hwf.1; omega)]
    rfl
  obtain ⟨a0, a1, i, slot1, hinit, hnew, _, _, hpaths, hrid, _, _⟩ :=
    figure_route_add_success alloc r random_byte fuel _ g out hwf1 hadd hn
  simp only [hblocks, if_neg hb, Option.some.injEq] at hinit
  subst hinit
  obtain ⟨n1, n2, n3, _, _, _, nused, ncase⟩ := array_new_item_some alloc _ _ _ hwf1.1 hnew
  have hosize : out.state.paths.size = a1.size := by rw [hpaths]
  rw [hrid, hosize]
  have hcontra : ∀ j, (paths1.items.get? j).map path_is_used = some true →
      j ≠ f.routing_path_id := by
    intro j hj hjk
    rw [hjk, hfree] at hj
    cases hj
  rcases ncase with ⟨c1, c2, c3⟩ | ⟨c1, c2⟩
  · have hik : i ≤ f.routing_path_id := by
      by_contra hc
      exact hcontra _ (nused f.routing_path_id hk (by omega) (by omega)) rfl
    refine ⟨n1, hik, c2, ?_, by omega, ?_⟩
    · intro j hj1 hj2
      exact nused j hj1 hj2 (by omega)
    · intro hgrow
      omega
  · have hsk : paths1.size ≤ f.routing_path_id := by
      by_contra hc
      exact hcontra _ (nused f.routing_path_id hk (by omega) (by omega)) rfl
    have hik : i ≤ f.routing_path_id := by omega
    refine ⟨n1, hik, ?_, ?_, by omega, ?_⟩
    · have hil : i < paths1.items.length := by
        have := hwf.1
        omega
      have hsome : paths1.items.get? i = some (paths1.items.get ⟨i, hil⟩) := by
        rw [List.get?_eq_get]
      rw [hsome]
      have hu := trim_size_unused paths1.items st.paths.size i (by omega) (by omega) _ hsome
      simp only [Option.map_some', hu]
    · intro j hj1 hj2
      exact nused j hj1 hj2 (by omega)
    · intro _ j hj1 hj2
      exact nused j hj1 (by omega) hj2

theorem pool_slot_reuse_witness :
    1 ≤ 1 ∧ 1 ≤ raider.routing_path_id ∧
    (([zero_path, ⟨1, 0, 0, none, 0, 0⟩, ⟨2, 9, 1, some [33], 0, 0⟩] :
      List figure_path_data).get? 1).map path_is_used = some false ∧
    (∀ j, 1 ≤ j → j < 1 →
      (([zero_path, ⟨1, 0, 0, none, 0, 0⟩, ⟨2, 9, 1, some [33], 0, 0⟩] :
        List figure_path_data).get? j).map path_is_used = some true) ∧
    3 ≤ busy_state.paths.size ∧
    (3 < 3 → ∀ j, 1 ≤ j → j < 3 →
      (([zero_path, ⟨1, 0, 0, none, 0, 0⟩, ⟨2, 9, 1, some [33], 0, 0⟩] :
        List figure_path_data).get? j).map path_is_used = some true) :=
  pool_slot_reuse alloc_ok open_routing 0 3 busy_state raider walker ⟨1, 5, 1, some [65], 0, 0⟩
    ⟨[zero_path, ⟨1, 0, 0, none, 0, 0⟩, ⟨2, 9, 1, some [33], 0, 0⟩], 3, 1⟩
    { raider with routing_path_id := 0 }
    { state := { map := highway_diagonal_map, scratch := diagonal_outcome.scratch,
                 paths := ⟨[zero_path, ⟨1, 7, 2, some [128, 160], 0, 0⟩,
                            ⟨2, 9, 1, some [33], 0, 0⟩], 3, 1⟩ },
      f := { walker with routing_path_id := 1, routing_path_length := 2 },
      path_length := 2 }
    ⟨by decide, by decide⟩ (by decide) (by decide) rfl rfl rfl rfl (by decide)

/-! ## Conversion of old paths -/

theorem convert_step_eq_add (c : Conversion) (R : List (Nat × Nat)) (d : Nat)
    (h : Holds (as_scratch c) R) (hroom : R.length < c.new_directions.length) :
    as_scratch (convert_step c d) = (add_direction_to_path alloc_ok (as_scratch c) d).2 := by
  have htot : c.total_direction_changes = R.length := h.total_eq
  have hcnt : c.current_count ≤ 31 := by
    have := h.cnt
    cases R with
    | nil =>
      simp only [as_scratch] at this
      omega
    | cons r t =>
      simp only [as_scratch] at this
      have := (h.fields r (List.mem_cons_self _ _)).2
      omega
  unfold convert_step add_direction_to_path
  by_cases hc : (d : Int) = c.current_direction ∧
      c.current_count < ROUTING_PATH_DIRECTION_COUNT_BIT_MASK
  · have hn : ¬ ((d : Int) ≠ c.current_direction ∨
        c.current_count = ROUTING_PATH_DIRECTION_COUNT_BIT_MASK) := by
      rintro (h1 | h1)
      · exact h1 hc.1
      · have := hc.2
        rw [mask_eq] at this h1
        omega
    rw [if_neg hn]
    simp only [as_scratch, hc, and_self, if_true, List.length_set]
  · have hy : (d : Int) ≠ c.current_direction ∨
        c.current_count = ROUTING_PATH_DIRECTION_COUNT_BIT_MASK := by
      by_contra hcon
      apply hc
      constructor
      · by_contra h1
        exact hcon (Or.inl h1)
      · have : c.current_count ≠ ROUTING_PATH_DIRECTION_COUNT_BIT_MASK :=
          fun h1 => hcon (Or.inr h1)
        rw [mask_eq] at this ⊢
        omega
    rw [if_pos hy]
    have hc2 : ¬ ((d : Int) = (as_scratch c).current ∧
        (as_scratch c).same_direction_count < ROUTING_PATH_DIRECTION_COUNT_BIT_MASK) := hc
    rw [if_neg hc2]
    have hgrow : increase_direction_path_size alloc_ok (as_scratch c) = (true, as_scratch c) := by
      unfold increase_direction_path_size
      have : ¬ ((as_scratch c).total ≥ (as_scratch c).size) := by
        simp only [as_scratch]
        omega
      rw [if_neg this]
    rw [hgrow]
    have hbyte : (((d : Int) * 2 ^ ROUTING_PATH_DIRECTION_BIT_OFFSET) % 256).toNat =
        (d * 2 ^ ROUTING_PATH_DIRECTION_BIT_OFFSET) % 256 := by
      have h5 : ROUTING_PATH_DIRECTION_BIT_OFFSET = 5 := rfl
      rw [h5]
      omega
    simp only [as_scratch, hbyte, List.length_set, Nat.add_sub_cancel]
theorem push_run_length (d : Nat) (R : List (Nat × Nat)) :
    (push_run d R).length ≤ R.length + 1 := by
  cases R with
  | nil => simp [push_run]
  | cons r t =>
    by_cases hc : d = r.1 ∧ r.2 < ROUTING_PATH_DIRECTION_COUNT_BIT_MASK <;> simp [push_run, hc]

theorem convert_fold_holds (l : List Nat) :
    ∀ (c : Conversion) (R : List (Nat × Nat)), Holds (as_scratch c) R →
      R.length + l.length ≤ c.new_directions.length → (∀ d ∈ l, d < 8) →
      Holds (as_scratch (l.foldl convert_step c)) (push_runs R l) ∧
      (l.foldl convert_step c).new_directions.length = c.new_directions.length := by
  induction l with
  | nil =>
    intro c R h _ _
    exact ⟨h, rfl⟩
  | cons d l ih =>
    intro c R h hroom hds
    simp only [List.length_cons] at hroom
    have hstep := convert_step_eq_add c R d h (by omega)
    have hadd := (holds_add (as_scratch c) R d h (hds d (List.mem_cons_self _ _))).2
    rw [← hstep] at hadd
    have hlen : (convert_step c d).new_directions.length = c.new_directions.length := by
      unfold convert_step
      split <;> simp only [List.length_set]
    have hpl := push_run_length d R
    obtain ⟨i1, i2⟩ := ih (convert_step c d) (push_run d R) hadd (by omega)
      (fun e he => hds e (List.mem_cons_of_mem _ he))
    exact ⟨i1, i2.trans hlen⟩

theorem holds_initial :
    Holds (as_scratch ⟨List.replicate MAX_ORIGINAL_PATH_LENGTH 0, -1, 0, 0⟩) [] where
  size_eq := rfl
  total_eq := rfl
  entries := ⟨_, rfl⟩
  fields := by simp
  cur := rfl
  cnt := rfl

theorem holds_packed (s : Directions) (R : List (Nat × Nat)) (h : Holds s R) :
    s.path.take s.total = R.reverse.map pack := by
  obtain ⟨rest, hrest⟩ := h.entries
  rw [hrest, h.total_eq]
  have : R.length = (R.reverse.map pack).length := by simp
  rw [this, List.take_left']
  rfl

/-- What the conversion computes on a legacy block: the runs of the forward
scan, oldest first. -/
theorem convert_old_directions_runs (figures : List figure) (path : figure_path_data)
    (f : figure) (ds : List Nat) (hfig : figures.get? path.figure_id = some f)
    (hid : f.id ≠ 0) (hlen : f.routing_path_length = ds.length) (hpos : 1 ≤ ds.length)
    (hmax : ds.length ≤ MAX_ORIGINAL_PATH_LENGTH) (hds : ∀ d ∈ ds, d < 8) :
    convert_old_directions_to_new_format alloc_ok figures path (legacy_block ds) =
      some (1, { path with total_directions := (push_runs [] ds).length,
                           directions := some ((push_runs [] ds).reverse.map pack) }) := by
  unfold convert_old_directions_to_new_format
  rw [hfig]
  simp only
  have h1 : ¬ (f.id = 0 ∨ f.routing_path_length = 0) := by
    rw [hlen]
    omega
  rw [if_neg h1]
  have hblen : (legacy_block ds).length = MAX_ORIGINAL_PATH_LENGTH := by
    simp only [legacy_block, List.length_append, List.length_replicate]
    omega
  have h2 : 0 ≤ f.routing_path_length ∧
      f.routing_path_length.toNat ≤ (legacy_block ds).length ∧
      f.routing_path_length.toNat ≤ MAX_ORIGINAL_PATH_LENGTH := by
    rw [hlen, hblen]
    simp only [Int.toNat_ofNat]
    omega
  rw [if_pos h2]
  have htake : (legacy_block ds).take f.routing_path_length.toNat = ds := by
    rw [hlen]
    simp only [Int.toNat_ofNat, legacy_block]
    rw [List.take_left']
    rfl
  rw [htake]
  obtain ⟨hh, _⟩ := convert_fold_holds ds _ [] holds_initial (by
    simp only [List.length_nil, List.length_replicate]
    omega) hds
  have hp := holds_packed _ _ hh
  have ht := hh.total_eq
  simp only [as_scratch] at hp ht
  rw [ht] at hp
  simp only [alloc_ok, Bool.not_true, Bool.false_eq_true, if_false, hp, ht]
theorem run_steps_append (A B : List (Nat × Nat)) :
    run_steps (A ++ B) = run_steps A ++ run_steps B := by
  induction A with
  | nil => rfl
  | cons r t ih =>
    change List.replicate (r.2 + 1) r.1 ++ run_steps (t ++ B) = _
    rw [ih]
    simp only [run_steps, List.append_assoc]

theorem run_steps_reverse (R : List (Nat × Nat)) :
    run_steps R.reverse = (run_steps R).reverse := by
  induction R with
  | nil => rfl
  | cons r t ih =>
    simp only [List.reverse_cons, run_steps_append, run_steps, ih, List.append_nil,
      List.reverse_append, List.reverse_replicate]

theorem run_steps_head (r : Nat × Nat) (t : List (Nat × Nat)) :
    (run_steps (r :: t)).head? = some r.1 := by
  simp only [run_steps, List.replicate_succ, List.cons_append, List.head?_cons]

/-- Two blocks of equal bytes followed by lists that do not go on with that byte
are equal when the whole lists are. -/
theorem replicate_append_cancel (d : Nat) :
    ∀ (n m : Nat) (A B : List Nat),
      List.replicate n d ++ A = List.replicate m d ++ B →
      A.head? ≠ some d → B.head? ≠ some d → n = m ∧ A = B := by
  intro n
  induction n with
  | zero =>
    intro m A B h hA hB
    cases m with
    | zero => exact ⟨rfl, by simpa using h⟩
    | succ m =>
      simp only [List.replicate_zero, List.nil_append, List.replicate_succ,
        List.cons_append] at h
      rw [h] at hA
      simp at hA
  | succ n ih =>
    intro m A B h hA hB
    cases m with
    | zero =>
      simp only [List.replicate_zero, List.nil_append, List.replicate_succ,
        List.cons_append] at h
      rw [← h] at hB
      simp at hB
    | succ m =>
      simp only [List.replicate_succ, List.cons_append, List.cons.injEq, true_and] at h
      obtain ⟨h1, h2⟩ := ih m A B h hA hB
      exact ⟨by omega, h2⟩

theorem chain_head_ne (r : Nat × Nat) (t : List (Nat × Nat))
    (h : List.Chain' (fun a b : Nat × Nat => a.1 ≠ b.1) (r :: t)) :
    (run_steps t).head? ≠ some r.1 := by
  cases t with
  | nil => simp [run_steps]
  | cons q t =>
    rw [run_steps_head]
    have := (List.chain'_cons.mp h).1
    intro hq
    simp only [Option.some.injEq] at hq
    exact this hq.symm

/-- Lists of runs in which neighbours differ in direction are determined by
their unit steps. -/
theorem runs_unique :
    ∀ R1 R2 : List (Nat × Nat),
      List.Chain' (fun a b : Nat × Nat => a.1 ≠ b.1) R1 →
      List.Chain' (fun a b : Nat × Nat => a.1 ≠ b.1) R2 →
      run_steps R1 = run_steps R2 → R1 = R2 := by
  intro R1
  induction R1 with
  | nil =>
    intro R2 _ _ h
    cases R2 with
    | nil => rfl
    | cons q t =>
      have := run_steps_head q t
      rw [← h] at this
      simp [run_steps] at this
  | cons r t ih =>
    intro R2 c1 c2 h
    cases R2 with
    | nil =>
      have := run_steps_head r t
      rw [h] at this
      simp [run_steps] at this
    | cons q u =>
      have hd : r.1 = q.1 := by
        have a := run_steps_head r t
        have b := run_steps_head q u
        rw [h, b] at a
        simpa using a.symm
      have h2 : List.replicate (r.2 + 1) r.1 ++ run_steps t =
          List.replicate (q.2 + 1) r.1 ++ run_steps u := by
        have := h
        simp only [run_steps] at this
        rw [← hd] at this
        exact this
      have hu : (run_steps u).head? ≠ some r.1 := by
        rw [hd]
        exact chain_head_ne q u c2
      obtain ⟨e1, e2⟩ := replicate_append_cancel r.1 _ _ _ _ h2 (chain_head_ne r t c1) hu
      have et := ih u (List.Chain'.tail c1) (List.Chain'.tail c2) e2
      have er : r = q := Prod.ext hd (by omega)
      rw [er, et]

theorem suffix_snoc (x pre : List Nat) (d : Nat) (h : x <:+ pre) :
    x ++ [d] <:+ pre ++ [d] := by
  obtain ⟨u, hu⟩ := h
  exact ⟨u, by rw [← hu, List.append_assoc]⟩

/-- While no direction occurs 33 times in a row, neighbouring runs of the
encoder differ in direction. -/
theorem push_runs_apart (l : List Nat) :
    ∀ (pre : List Nat) (R : List (Nat × Nat)),
      List.Chain' (fun a b : Nat × Nat => a.1 ≠ b.1) R →
      (∀ r, R.head? = some r → List.replicate (r.2 + 1) r.1 <:+ pre) →
      no_long_run (pre ++ l) →
      List.Chain' (fun a b : Nat × Nat => a.1 ≠ b.1) (push_runs R l) := by
  induction l with
  | nil =>
    intro pre R h _ _
    exact h
  | cons d l ih =>
    intro pre R hch hsuf hno
    have hno1 : no_long_run ((pre ++ [d]) ++ l) := by
      rw [List.append_assoc]
      exact hno
    change List.Chain' _ (push_runs (push_run d R) l)
    apply ih (pre ++ [d]) (push_run d R) ?_ ?_ hno1
    · cases R with
      | nil => simp [push_run]
      | cons r t =>
        by_cases hc : d = r.1 ∧ r.2 < ROUTING_PATH_DIRECTION_COUNT_BIT_MASK
        · simp only [push_run, if_pos hc]
          cases t with
          | nil => simp
          | cons q t =>
            rw [List.chain'_cons] at hch ⊢
            exact hch
        · simp only [push_run, if_neg hc]
          rw [List.chain'_cons]
          refine ⟨?_, hch⟩
          intro hdr
          have hdr : d = r.1 := hdr
          have h31 : 31 ≤ r.2 := by
            have : ¬ r.2 < ROUTING_PATH_DIRECTION_COUNT_BIT_MASK := fun h => hc ⟨hdr, h⟩
            rw [mask_eq] at this
            omega
          have hs := hsuf r rfl
          have h32 : List.replicate 32 r.1 <:+ pre := by
            refine List.IsSuffix.trans ?_ hs
            refine ⟨List.replicate (r.2 + 1 - 32) r.1, ?_⟩
            rw [← List.replicate_add]
            congr 1
            omega
          have h33 : List.replicate 33 r.1 <:+ pre ++ [d] := by
            have := suffix_snoc _ _ d h32
            rw [hdr] at this ⊢
            rw [List.replicate_succ']
            exact this
          exact hno r.1 ((h33.isInfix).trans ⟨[], l, by simp⟩)
    · intro r hr
      cases R with
      | nil =>
        simp only [push_run, List.head?_cons, Option.some.injEq] at hr
        subst hr
        exact ⟨pre, rfl⟩
      | cons q t =>
        by_cases hc : d = q.1 ∧ q.2 < ROUTING_PATH_DIRECTION_COUNT_BIT_MASK
        · simp only [push_run, if_pos hc, List.head?_cons, Option.some.injEq] at hr
          subst hr
          have hs := hsuf q rfl
          have := suffix_snoc _ _ d hs
          rw [hc.1] at this ⊢
          simp only
          rw [List.replicate_succ']
          exact this
        · simp only [push_run, if_neg hc, List.head?_cons, Option.some.injEq] at hr
          subst hr
          exact ⟨pre, rfl⟩

theorem no_long_run_reverse (ds : List Nat) (h : no_long_run ds) : no_long_run ds.reverse := by
  intro d hd
  apply h d
  have := List.reverse_infix.mpr hd
  rw [List.reverse_replicate, List.reverse_reverse] at this
  exact this

/-- Without a run of more than 32 equal directions the forward scan and the
backward feed build the same runs. -/
theorem push_runs_reverse (ds : List Nat) (h : no_long_run ds) :
    (push_runs [] ds).reverse = push_runs [] ds.reverse := by
  apply runs_unique
  · rw [List.chain'_reverse]
    have := push_runs_apart ds [] [] List.chain'_nil (by simp) (by simpa using h)
    refine List.Chain'.imp ?_ this
    intro a b hab
    exact fun e => hab e.symm
  · exact push_runs_apart ds.reverse [] [] List.chain'_nil (by simp)
      (by simpa using no_long_run_reverse ds h)
  · rw [run_steps_reverse, run_steps_push_runs, run_steps_push_runs]
    simp [run_steps]
set_option maxRecDepth 100000 in
/-- C20 (as stated, refuted). For the legacy block of 40 directions 2 followed by
zeros and a figure with `routing_path_length` 40 the conversion stores the bytes
95, 71 (32 steps, then 8), while the fresh reconstruction of the same 40
directions stores 71, 95 (8 steps, then 32): the forward scan fills the first
entry, the backward walk the last. -/
theorem legacy_migration_counterexample :
    (legacy_block (List.replicate 40 2)).length = 500 ∧
    convert_old_directions_to_new_format alloc_ok (legacy_figures 40) ⟨1, 1, 0, none, 0, 0⟩
      (legacy_block (List.replicate 40 2)) = some (1, ⟨1, 1, 2, some [95, 71], 0, 0⟩) ∧
    fresh_record small_scratch ⟨1, 1, 0, none, 0, 0⟩ (List.replicate 40 2) =
      ⟨1, 1, 2, some [71, 95], 0, 0⟩ := by
  decide

/-- C20 (amended). Legacy migration: for every `1 <= N <= 500` and every legacy
block whose first `N` bytes are the directions `ds` in `0..7` and whose remainder
is zero, with the figure's `routing_path_length` equal to `N`,
`convert_old_directions_to_new_format` returns 1 with a packed buffer `buf` and
`total_directions` its length; the buffer decodes to the `N` directions, as the
one of a fresh reconstruction does, and when no direction occurs more than 32
times in a row in `ds` the buffer and `total_directions` are identical to those a
fresh reconstruction stores (`add_direction_to_path` fed during the backward
walk, then `fill_path_with_directions`). -/
theorem legacy_migration (figures : List figure) (path : figure_path_data) (f : figure)
    (ds : List Nat) (s : Directions) (p : figure_path_data)
    (hfig : figures.get? path.figure_id = some f) (hid : f.id ≠ 0)
    (hlen : f.routing_path_length = ds.length) (hpos : 1 ≤ ds.length)
    (hmax : ds.length ≤ MAX_ORIGINAL_PATH_LENGTH) (hds : ∀ d ∈ ds, d < 8)
    (hwf : s.size = s.path.length) :
    ∃ buf fresh,
      convert_old_directions_to_new_format alloc_ok figures path (legacy_block ds) =
        some (1, { path with total_directions := buf.length, directions := some buf }) ∧
      (fresh_record s p ds).directions = some fresh ∧
      (fresh_record s p ds).total_directions = fresh.length ∧
      unit_steps buf = ds.map Int.ofNat ∧ unit_steps fresh = ds.map Int.ofNat ∧
      (no_long_run ds → buf = fresh) := by
  have hconv := convert_old_directions_runs figures path f ds hfig hid hlen hpos hmax hds
  have hrev : ∀ d ∈ ds.reverse, d < 8 := fun d hd => hds d (List.mem_reverse.mp hd)
  have hstore := encode_store s p ds.reverse hwf hrev
  have hf1 := push_runs_fields ds hds [] (by simp)
  have hf2 := push_runs_fields ds.reverse hrev [] (by simp)
  have hf1r : ∀ r ∈ (push_runs [] ds).reverse, r.1 < 8 ∧ r.2 ≤ 31 :=
    fun r hr => hf1 r (List.mem_reverse.mp hr)
  refine ⟨(push_runs [] ds).reverse.map pack, (push_runs [] ds.reverse).map pack, ?_, ?_, ?_,
    ?_, ?_, ?_⟩
  · rw [hconv]
    simp only [List.length_map, List.length_reverse]
  · unfold fresh_record
    rw [hstore]
  · unfold fresh_record
    rw [hstore]
    simp only [List.length_map]
  · rw [unit_steps_pack _ hf1r, run_steps_reverse, run_steps_push_runs]
    simp [run_steps]
  · rw [unit_steps_pack _ hf2, run_steps_push_runs]
    simp [run_steps]
  · intro hrun
    rw [push_runs_reverse ds hrun]

theorem legacy_migration_witness :
    convert_old_directions_to_new_format alloc_ok (legacy_figures 3) ⟨1, 1, 0, none, 0, 0⟩
      (legacy_block [2, 2, 3]) =
      (some (1, fresh_record small_scratch ⟨1, 1, 0, none, 0, 0⟩ [2, 2, 3])) ∧
    (fresh_record small_scratch ⟨1, 1, 0, none, 0, 0⟩ [2, 2, 3]).directions = some [65, 96] :=
  match legacy_migration (legacy_figures 3) ⟨1, 1, 0, none, 0, 0⟩
      { walker with id := 1, routing_path_id := 1, routing_path_length := 3 } [2, 2, 3]
      small_scratch ⟨1, 1, 0, none, 0, 0⟩ rfl (by decide) rfl (by decide) (by decide)
      (by decide) rfl with
  | ⟨buf, fresh, h1, h2, _, _, _, h6⟩ => by
    have hno : no_long_run [2, 2, 3] := by
      intro d hd
      have := hd.length_le
      simp at this
    have hb := h6 hno
    subst hb
    have hd : (fresh_record small_scratch ⟨1, 1, 0, none, 0, 0⟩ [2, 2, 3]).directions =
        some [65, 96] := by decide
    rw [hd] at h2
    simp only [Option.some.injEq] at h2
    subst h2
    exact ⟨h1, hd⟩

/-! ## No immediate backtrack -/

/-- A loop whose body keeps the best candidate or replaces it by an eligible
direction ends on the direction it started with or on an eligible one. -/
theorem fold_direction_eligible (consider : Best → Int → Best) (last : Int)
    (hc : ∀ b d, (consider b d).direction = b.direction ∨
      ((consider b d).direction = d ∧ d ≠ last)) :
    ∀ (l : List Int) (b : Best), (l.foldl consider b).direction = b.direction ∨
      ((l.foldl consider b).direction ∈ l ∧ (l.foldl consider b).direction ≠ last) := by
  intro l
  induction l with
  | nil =>
    intro b
    exact Or.inl rfl
  | cons d l ih =>
    intro b
    rw [List.foldl_cons]
    rcases ih (consider b d) with h | ⟨h1, h2⟩
    · rcases hc b d with h3 | ⟨h3, h4⟩
      · exact Or.inl (h.trans h3)
      · refine Or.inr ⟨?_, ?_⟩
        · rw [h, h3]
          exact List.mem_cons_self _ _
        · rw [h, h3]
          exact h4
    · exact Or.inr ⟨List.mem_cons_of_mem _ h1, h2⟩

theorem land_consider_eligible (m : Map) (base g last : Int) (b : Best) (d : Int) :
    (land_consider m base g last b d).direction = b.direction ∨
      ((land_consider m base g last b d).direction = d ∧ d ≠ last) := by
  rcases land_consider_cases m base g last b d with ⟨h, _⟩ | ⟨h, h1, _⟩
  · rw [h]
    exact Or.inl rfl
  · rw [h]
    exact Or.inr ⟨rfl, h1⟩

theorem water_consider_eligible (m : Map) (rand current_rand : Nat) (g last : Int) (b : Best)
    (d : Int) :
    (water_consider m rand current_rand g last b d).direction = b.direction ∨
      ((water_consider m rand current_rand g last b d).direction = d ∧ d ≠ last) := by
  unfold water_consider
  by_cases h1 : d ≠ last
  · rw [if_pos h1]
    simp only
    split
    · split
      · exact Or.inr ⟨rfl, h1⟩
      · split
        · exact Or.inr ⟨rfl, h1⟩
        · exact Or.inl rfl
    · exact Or.inl rfl
  · rw [if_neg h1]
    exact Or.inl rfl

/-- The direction the land loop ends on is none or a direction in `0..7` other
than the excluded one. -/
theorem land_select_not_last (m : Map) (num_directions : Int) (g last : Int) :
    (land_select m (direction_step num_directions) g last).direction = -1 ∨
      (0 ≤ (land_select m (direction_step num_directions) g last).direction ∧
        (land_select m (direction_step num_directions) g last).direction ≤ 7 ∧
        (land_select m (direction_step num_directions) g last).direction ≠ last) := by
  rcases fold_direction_eligible _ last (land_consider_eligible m _ g last)
      (loop_directions (direction_step num_directions))
      { distance := m.map_routing_distance g, direction := -1, is_highway := false }
    with h | ⟨h1, h2⟩
  · exact Or.inl h
  · have := loop_directions_range _ (direction_step_cases num_directions) _ h1
    exact Or.inr ⟨this.1, this.2, h2⟩

/-- The direction the water loop ends on is none or a direction in `0..7` other
than the excluded one. -/
theorem water_select_not_last (m : Map) (rand : Nat) (is_flotsam : Bool) (g last : Int) :
    (water_select m rand is_flotsam g last).direction = -1 ∨
      (0 ≤ (water_select m rand is_flotsam g last).direction ∧
        (water_select m rand is_flotsam g last).direction ≤ 7 ∧
        (water_select m rand is_flotsam g last).direction ≠ last) := by
  rcases fold_direction_eligible _ last
      (water_consider_eligible m rand
        (if is_flotsam then m.map_random_get g &&& 3 else rand) g last)
      (loop_directions 1)
      { distance := m.map_routing_distance g, direction := -1, is_highway := false }
    with h | ⟨h1, h2⟩
  · exact Or.inl h
  · have := loop_directions_range 1 (Or.inl rfl) _ h1
    exact Or.inr ⟨this.1, this.2, h2⟩

/-- The eight directions have eight different deltas. -/
theorem direction_delta_injective (d e : Int) (hd0 : 0 ≤ d) (hd7 : d ≤ 7) (he0 : 0 ≤ e)
    (he7 : e ≤ 7) (h : map_grid_direction_delta d = map_grid_direction_delta e) : d = e := by
  have hd : d = 0 ∨ d = 1 ∨ d = 2 ∨ d = 3 ∨ d = 4 ∨ d = 5 ∨ d = 6 ∨ d = 7 := by omega
  have he : e = 0 ∨ e = 1 ∨ e = 2 ∨ e = 3 ∨ e = 4 ∨ e = 5 ∨ e = 6 ∨ e = 7 := by omega
  rcases hd with rfl | rfl | rfl | rfl | rfl | rfl | rfl | rfl <;>
    rcases he with rfl | rfl | rfl | rfl | rfl | rfl | rfl | rfl <;>
    first
      | rfl
      | (exfalso; revert h; decide)

/-- Two moves in a row of a walk whose loop never ends on the excluded
direction: the excluded direction leads back, and the second move does not. -/
theorem advance_no_backtrack (select : Int → Int → Best)
    (hsel : ∀ g l, (select g l).direction = -1 ∨
      (0 ≤ (select g l).direction ∧ (select g l).direction ≤ 7 ∧ (select g l).direction ≠ l))
    (w w1 : Pos) (h1 : advance select w = some w1) :
    w1.last_direction = Int.tmod ((select w.grid_offset w.last_direction).direction + 4) 8 ∧
    w1.grid_offset + map_grid_direction_delta w1.last_direction = w.grid_offset ∧
    ∀ w2, advance select w1 = some w2 → w2.grid_offset ≠ w.grid_offset := by
  have hsel1 : ∀ g l, (select g l).direction = -1 ∨
      (0 ≤ (select g l).direction ∧ (select g l).direction ≤ 7) := by
    intro g l
    rcases hsel g l with h | ⟨a, b, _⟩
    · exact Or.inl h
    · exact Or.inr ⟨a, b⟩
  obtain ⟨f0, f7, fback⟩ := advance_forward select hsel1 w w1 h1
  refine ⟨(advance_some select w w1 h1).2.2.1, fback, ?_⟩
  intro w2 h2 heq
  obtain ⟨n1, _, _, n4, _⟩ := advance_some select w1 w2 h2
  rcases hsel w1.grid_offset w1.last_direction with hneg | ⟨a, b, c⟩
  · exact n1 hneg
  · apply c
    apply direction_delta_injective _ _ a b f0 f7
    omega

/-- C29. No immediate backtrack: in both reconstructors, after a move from the
tile `w.grid_offset` the excluded direction `last_direction` is
`(direction + 4) % 8` for the direction just taken, it leads from the new tile
back to `w.grid_offset`, and the tile the next iteration moves to is not
`w.grid_offset`. -/
theorem no_immediate_backtrack (m : Map) (num_directions : Int) (random_byte : Nat)
    (is_flotsam : Bool) (w w1 : Pos) :
    (advance (land_select m (direction_step num_directions)) w = some w1 →
      w1.last_direction = Int.tmod ((land_select m (direction_step num_directions)
        w.grid_offset w.last_direction).direction + 4) 8 ∧
      w1.grid_offset + map_grid_direction_delta w1.last_direction = w.grid_offset ∧
      ∀ w2, advance (land_select m (direction_step num_directions)) w1 = some w2 →
        w2.grid_offset ≠ w.grid_offset) ∧
    (advance (water_select m (random_byte &&& 3) is_flotsam) w = some w1 →
      w1.last_direction = Int.tmod ((water_select m (random_byte &&& 3) is_flotsam
        w.grid_offset w.last_direction).direction + 4) 8 ∧
      w1.grid_offset + map_grid_direction_delta w1.last_direction = w.grid_offset ∧
      ∀ w2, advance (water_select m (random_byte &&& 3) is_flotsam) w1 = some w2 →
        w2.grid_offset ≠ w.grid_offset) :=
  ⟨advance_no_backtrack _ (land_select_not_last m num_directions) w w1,
   advance_no_backtrack _ (water_select_not_last m (random_byte &&& 3) is_flotsam) w w1⟩

/-- The first two moves of the 8-direction land walk for `(28, 6)` on
`highway_diagonal_map`: from tile 1000 to 839 and on to 677. -/
theorem no_immediate_backtrack_witness :
    (839 : Int) + map_grid_direction_delta 5 = 1000 ∧ (677 : Int) ≠ 1000 :=
  match (no_immediate_backtrack highway_diagonal_map 8 0 false
      (land_start highway_diagonal_map 28 6) ⟨2, 5, 29, 5, 839, 1⟩).1 (by decide) with
  | ⟨_, h2, h3⟩ => ⟨h2, h3 ⟨1, 4, 29, 4, 677, 2⟩ (by decide)⟩
/-! ## Neighbouring entries of a packed sequence -/

/-- What the conversion computes on any block of raw directions: the runs of the
forward scan over its first `routing_path_length` bytes, oldest first. -/
theorem convert_old_directions_block (figures : List figure) (path : figure_path_data)
    (f : figure) (block : List Nat) (n : Nat)
    (hfig : figures.get? path.figure_id = some f) (hid : f.id ≠ 0)
    (hlen : f.routing_path_length = n) (hpos : 1 ≤ n) (hblock : n ≤ block.length)
    (hmax : n ≤ MAX_ORIGINAL_PATH_LENGTH) (hds : ∀ d ∈ block.take n, d < 8) :
    convert_old_directions_to_new_format alloc_ok figures path block =
      some (1, { path with total_directions := (push_runs [] (block.take n)).length,
                           directions := some ((push_runs [] (block.take n)).reverse.map pack) }) := by
  unfold convert_old_directions_to_new_format
  rw [hfig]
  simp only
  have h1 : ¬ (f.id = 0 ∨ f.routing_path_length = 0) := by
    rw [hlen]
    omega
  rw [if_neg h1]
  have h2 : 0 ≤ f.routing_path_length ∧ f.routing_path_length.toNat ≤ block.length ∧
      f.routing_path_length.toNat ≤ MAX_ORIGINAL_PATH_LENGTH := by
    rw [hlen]
    simp only [Int.toNat_ofNat]
    omega
  rw [if_pos h2]
  have htake : f.routing_path_length.toNat = n := by
    rw [hlen]
    simp only [Int.toNat_ofNat]
  rw [htake]
  have hlen2 : (block.take n).length = n := by
    rw [List.length_take]
    omega
  obtain ⟨hh, _⟩ := convert_fold_holds (block.take n) _ [] holds_initial (by
    simp only [List.length_nil, List.length_replicate, hlen2]
    omega) hds
  have hp := holds_packed _ _ hh
  have ht := hh.total_eq
  simp only [as_scratch] at hp ht
  rw [ht] at hp
  simp only [alloc_ok, Bool.not_true, Bool.false_eq_true, if_false, hp, ht]

theorem push_run_saturated (d : Nat) (R : List (Nat × Nat))
    (hf : ∀ r ∈ R, r.1 < 8 ∧ r.2 ≤ 31)
    (h : List.Chain' (fun newer older : Nat × Nat => newer.1 = older.1 → older.2 = 31) R) :
    List.Chain' (fun newer older : Nat × Nat => newer.1 = older.1 → older.2 = 31)
      (push_run d R) := by
  cases R with
  | nil => simp [push_run]
  | cons r t =>
    by_cases hc : d = r.1 ∧ r.2 < ROUTING_PATH_DIRECTION_COUNT_BIT_MASK
    · simp only [push_run, if_pos hc]
      cases t with
      | nil => simp
      | cons q t =>
        rw [List.chain'_cons] at h ⊢
        exact h
    · simp only [push_run, if_neg hc]
      rw [List.chain'_cons]
      refine ⟨?_, h⟩
      intro hd
      have hd : d = r.1 := hd
      have h31 := (hf r (List.mem_cons_self _ _)).2
      have : ¬ r.2 < ROUTING_PATH_DIRECTION_COUNT_BIT_MASK := fun hlt => hc ⟨hd, hlt⟩
      rw [mask_eq] at this
      omega

theorem push_runs_saturated (ds : List Nat) (hds : ∀ d ∈ ds, d < 8) :
    ∀ R : List (Nat × Nat), (∀ r ∈ R, r.1 < 8 ∧ r.2 ≤ 31) →
      List.Chain' (fun newer older : Nat × Nat => newer.1 = older.1 → older.2 = 31) R →
      List.Chain' (fun newer older : Nat × Nat => newer.1 = older.1 → older.2 = 31)
        (push_runs R ds) := by
  induction ds with
  | nil =>
    intro R _ h
    exact h
  | cons d ds ih =>
    intro R hf h
    exact ih (fun e he => hds e (List.mem_cons_of_mem _ he)) _
      (push_run_fields d R (hds d (List.mem_cons_self _ _)) hf)
      (push_run_saturated d R hf h)

theorem chain_with_bound (rel : Nat × Nat → Nat × Nat → Prop) :
    ∀ l : List (Nat × Nat), List.Chain' rel l → (∀ r ∈ l, r.2 ≤ 31) →
      List.Chain' (fun a b => (a.2 ≤ 31 ∧ b.2 ≤ 31) ∧ rel a b) l := by
  intro l
  induction l with
  | nil => intro _ _; exact List.chain'_nil
  | cons a t ih =>
    intro h hb
    cases t with
    | nil => exact List.chain'_singleton _
    | cons b t =>
      rw [List.chain'_cons] at h ⊢
      refine ⟨⟨⟨hb a (List.mem_cons_self _ _), hb b (by simp)⟩, h.1⟩, ?_⟩
      exact ih h.2 (fun r hr => hb r (List.mem_cons_of_mem _ hr))

/-- The bytes of runs (newest first) read in construction order: two neighbours
with the same direction field have a first one whose count field is 31. -/
theorem runs_saturated_packed (R : List (Nat × Nat)) (hf : ∀ r ∈ R, r.1 < 8 ∧ r.2 ≤ 31)
    (h : List.Chain' (fun newer older : Nat × Nat => newer.1 = older.1 → older.2 = 31) R) :
    List.Chain' (fun a b => entry_direction a = entry_direction b → entry_count a = 31)
      (R.reverse.map pack) := by
  rw [List.chain'_map, List.chain'_reverse]
  refine List.Chain'.imp ?_ (chain_with_bound _ R h (fun r hr => (hf r hr).2))
  intro a b hab
  obtain ⟨⟨ha, hb⟩, hr⟩ := hab
  show entry_direction (pack b) = entry_direction (pack a) → entry_count (pack b) = 31
  rw [pack_direction b hb, pack_direction a ha, pack_count b hb]
  intro he
  exact hr (by exact_mod_cast he.symm)

/-- C30. Construction invariant of the packed sequence: in the entries that
`add_direction_to_path` builds after a reset from directions in `0..7`, read in
construction order, and in the buffer that
`convert_old_directions_to_new_format` builds from the first
`routing_path_length` bytes of a block (directions in `0..7`), two neighbouring
entries carry the same direction value only if the first of the two has count
field 31. -/
theorem construction_invariant (s : Directions) (ds : List Int) (figures : List figure)
    (path : figure_path_data) (f : figure) (block : List Nat) (n : Nat)
    (hwf : s.size = s.path.length) (hds : ∀ d ∈ ds, 0 ≤ d ∧ d ≤ 7)
    (hfig : figures.get? path.figure_id = some f) (hid : f.id ≠ 0)
    (hlen : f.routing_path_length = n) (hpos : 1 ≤ n) (hblock : n ≤ block.length)
    (hmax : n ≤ MAX_ORIGINAL_PATH_LENGTH) (hraw : ∀ d ∈ block.take n, d < 8) :
    List.Chain' (fun a b => entry_direction a = entry_direction b → entry_count a = 31)
      (packed_entries (add_directions alloc_ok (reset_directions s) ds)) ∧
    ∃ buf, convert_old_directions_to_new_format alloc_ok figures path block =
        some (1, { path with total_directions := buf.length, directions := some buf }) ∧
      List.Chain' (fun a b => entry_direction a = entry_direction b → entry_count a = 31)
        buf := by
  constructor
  · obtain ⟨hcast, hlt⟩ := directions_as_nat ds hds
    have hh := holds_add_directions (ds.map Int.toNat) _ [] (holds_reset s hwf) hlt
    rw [hcast] at hh
    unfold packed_entries
    rw [holds_take _ _ hh]
    exact runs_saturated_packed _ (push_runs_fields _ hlt [] (by simp))
      (push_runs_saturated _ hlt [] (by simp) List.chain'_nil)
  · refine ⟨(push_runs [] (block.take n)).reverse.map pack, ?_, ?_⟩
    · rw [convert_old_directions_block figures path f block n hfig hid hlen hpos hblock hmax
        hraw]
      simp only [List.length_map, List.length_reverse]
    · exact runs_saturated_packed _ (push_runs_fields _ hraw [] (by simp))
        (push_runs_saturated _ hraw [] (by simp) List.chain'_nil)

set_option maxRecDepth 100000 in
/-- Forty steps of direction 2 (the bytes 95, 71 in both sequences): the first
of the two entries of direction 2 has count field 31. -/
theorem construction_invariant_witness :
    List.Chain' (fun a b => entry_direction a = entry_direction b → entry_count a = 31)
      (packed_entries (add_directions alloc_ok (reset_directions small_scratch)
        (List.replicate 40 2))) ∧
    ∃ buf, convert_old_directions_to_new_format alloc_ok (legacy_figures 40)
        ⟨1, 1, 0, none, 0, 0⟩ (legacy_block (List.replicate 40 2)) =
        some (1, ⟨1, 1, buf.length, some buf, 0, 0⟩) ∧
      List.Chain' (fun a b => entry_direction a = entry_direction b → entry_count a = 31)
        buf :=
  construction_invariant small_scratch (List.replicate 40 2) (legacy_figures 40)
    ⟨1, 1, 0, none, 0, 0⟩ { walker with id := 1, routing_path_id := 1, routing_path_length := 40 }
    (legacy_block (List.replicate 40 2)) 40 rfl (by decide) rfl (by decide) rfl (by decide)
    (by decide) (by decide) (by decide)

/-! ## Decoding a converted record -/

/-- C22. Legacy decode is lossless: for `1 <= n <= 500` and a block whose first
`n` bytes are directions in `0..7`, with the figure's `routing_path_length`
equal to `n`, `convert_old_directions_to_new_format` returns 1 with a record
whose buffer has `total_directions` entries and stores exactly `n` unit steps
(the sum of count field + 1 over its entries), and `n` successive calls of
`figure_route_get_next_direction` from the fresh cursor return the `n` raw
directions in order. -/
theorem legacy_decode_lossless (figures : List figure) (path : figure_path_data)
    (f : figure) (block : List Nat) (n : Nat)
    (hfig : figures.get? path.figure_id = some f) (hid : f.id ≠ 0)
    (hlen : f.routing_path_length = n) (hpos : 1 ≤ n) (hblock : n ≤ block.length)
    (hmax : n ≤ MAX_ORIGINAL_PATH_LENGTH) (hraw : ∀ d ∈ block.take n, d < 8) :
    ∃ q buf, convert_old_directions_to_new_format alloc_ok figures path block = some (1, q) ∧
      q.directions = some buf ∧ q.total_directions = buf.length ∧ stored_steps buf = n ∧
      ∀ (paths : List figure_path_data) (path_id : Nat),
        paths.get? path_id = some (fresh_cursor q) →
        (next_directions paths path_id n).map Prod.fst =
          some ((block.take n).map Int.ofNat) := by
  have hconv := convert_old_directions_block figures path f block n hfig hid hlen hpos hblock
    hmax hraw
  have hf := push_runs_fields (block.take n) hraw [] (by simp)
  have hfr : ∀ r ∈ (push_runs [] (block.take n)).reverse, r.1 < 8 ∧ r.2 ≤ 31 :=
    fun r hr => hf r (List.mem_reverse.mp hr)
  have hlen2 : (block.take n).length = n := by
    rw [List.length_take]
    omega
  have hunit : unit_steps ((push_runs [] (block.take n)).reverse.map pack) =
      (block.take n).map Int.ofNat := by
    rw [unit_steps_pack _ hfr, run_steps_reverse, run_steps_push_runs]
    simp [run_steps]
  have hsteps : stored_steps ((push_runs [] (block.take n)).reverse.map pack) = n := by
    rw [← unit_steps_length, hunit, List.length_map, hlen2]
  refine ⟨_, (push_runs [] (block.take n)).reverse.map pack, hconv, rfl, ?_, hsteps, ?_⟩
  · simp only [List.length_map, List.length_reverse]
  · intro paths path_id hslot
    have hdec := next_directions_of_record_fresh
      { path with total_directions := (push_runs [] (block.take n)).length,
                  directions := some ((push_runs [] (block.take n)).reverse.map pack) }
      ((push_runs [] (block.take n)).reverse.map pack) rfl
      (by simp only [List.length_map, List.length_reverse])
    rw [hsteps] at hdec
    rw [next_directions_of_pool _ _ _ _ _ _ hslot hdec, hunit]
    rfl

set_option maxRecDepth 100000 in
/-- The block of the directions 2, 2, 3: the record holds the entries 65, 96 and
three calls return 2, 2, 3. -/
theorem legacy_decode_lossless_witness :
    ∃ q buf, convert_old_directions_to_new_format alloc_ok (legacy_figures 3)
        ⟨1, 1, 0, none, 0, 0⟩ (legacy_block [2, 2, 3]) = some (1, q) ∧
      q.directions = some buf ∧ q.total_directions = buf.length ∧ stored_steps buf = 3 ∧
      ∀ (paths : List figure_path_data) (path_id : Nat),
        paths.get? path_id = some (fresh_cursor q) →
        (next_directions paths path_id 3).map Prod.fst =
          some (((legacy_block [2, 2, 3]).take 3).map Int.ofNat) :=
  legacy_decode_lossless (legacy_figures 3) ⟨1, 1, 0, none, 0, 0⟩
    { walker with id := 1, routing_path_id := 1, routing_path_length := 3 }
    (legacy_block [2, 2, 3]) 3 rfl (by decide) rfl (by decide) (by decide) (by decide)
    (by decide)
/-! ## The cursor after a load -/

theorem next_directions_of_record_stay (n : Nat) (q : figure_path_data)
    (h : q.total_directions ≤ q.current_step) :
    next_directions_of_record q n = some (List.replicate n 8, q) := by
  induction n with
  | zero => rfl
  | succ n ih =>
    simp only [next_directions_of_record, next_direction_of_record_exhausted q h, ih,
      List.replicate_succ]

/-- Calls that stay inside the current entry only raise `same_direction_count`. -/
theorem next_directions_of_record_partial (j : Nat) :
    ∀ (p : figure_path_data) (buf : List Nat) (b : Nat),
      p.directions = some buf → buf.get? p.current_step = some b →
      p.current_step < p.total_directions →
      p.same_direction_count + j < entry_tiles b →
      next_directions_of_record p j =
        some (List.replicate j (entry_direction b),
          { p with same_direction_count := p.same_direction_count + j }) := by
  induction j with
  | zero =>
    intro p buf b _ _ _ _
    rfl
  | succ j ih =>
    intro p buf b hbuf hb hlt hc
    have h1 := next_direction_of_record_inside p buf b hbuf hb hlt (by omega)
    have h2 := ih { p with same_direction_count := p.same_direction_count + 1 } buf b hbuf hb
      hlt (by simp only; omega)
    simp only [next_directions_of_record, h1, h2, List.replicate_succ]
    congr 3
    omega

/-- The loop of `update_current_tile` finds the cursor that `j` calls of the
decoder reach from the start of entry `pre.length`. -/
theorem update_current_tile_loop_follows (suf : List Nat) :
    ∀ (pre : List Nat) (p : figure_path_data) (j : Nat),
      p.directions = some (pre ++ suf) → p.total_directions = (pre ++ suf).length →
      p.current_step = pre.length → p.same_direction_count = 0 → j + 1 < 4294967296 →
      ∃ ds c, update_current_tile_loop (pre ++ suf) p.total_directions suf.length pre.length
          (j + 1) = some c ∧
        next_directions_of_record p j =
          some (ds, { p with current_step := c.1, same_direction_count := c.2 }) ∧
        (stored_steps suf ≤ j → c = (p.total_directions, 0)) := by
  induction suf with
  | nil =>
    intro pre p j _ ht hc hs _
    refine ⟨List.replicate j 8, (p.total_directions, 0), rfl, ?_, fun _ => rfl⟩
    have hex : p.total_directions ≤ p.current_step := by
      rw [ht, hc]
      simp
    rw [next_directions_of_record_stay j p hex]
    congr 2
    cases p
    simp only [List.append_nil] at ht hc hs
    simp only [figure_path_data.mk.injEq, true_and]
    exact ⟨by omega, hs⟩
  | cons b rest ih =>
    intro pre p j hd ht hc hs hj
    have hb : (pre ++ b :: rest).get? pre.length = some b := by
      rw [List.get?_eq_getElem?, List.getElem?_append_right (le_refl _)]
      simp
    have hb2 : (pre ++ b :: rest).get? p.current_step = some b := by
      rw [hc]
      exact hb
    have hlt : p.current_step < p.total_directions := by
      rw [hc, ht]
      simp
    have h32 := entry_tiles_le b
    have hpos := entry_tiles_pos b
    have htiles : (b &&& ROUTING_PATH_DIRECTION_COUNT_BIT_MASK) + 1 = entry_tiles b := rfl
    simp only [List.length_cons, update_current_tile_loop, hb, htiles]
    by_cases hin : entry_tiles b ≥ j + 1
    · rw [if_pos hin]
      have hwrap : (j + 1 + 4294967295) % 4294967296 % 256 = j := by omega
      refine ⟨List.replicate j (entry_direction b), (pre.length, j), by rw [hwrap], ?_, ?_⟩
      · have := next_directions_of_record_partial j p _ b hd hb2 hlt (by omega)
        rw [this, hs, ← hc, Nat.zero_add]
      · intro hst
        simp only [stored_steps, List.map_cons, List.sum_cons] at hst
        omega
    · rw [if_neg hin]
      have hrun := next_directions_of_record_run (entry_tiles b - 1) p _ b hd hb2 hlt
        (by omega)
      have he : entry_tiles b - 1 + 1 = entry_tiles b := by omega
      rw [he] at hrun
      have hassoc : pre ++ b :: rest = (pre ++ [b]) ++ rest := by simp
      have hidx : j + 1 - entry_tiles b = (j - entry_tiles b) + 1 := by omega
      obtain ⟨ds, c, hloop, hnext, hend⟩ := ih (pre ++ [b])
        { p with current_step := p.current_step + 1, same_direction_count := 0 }
        (j - entry_tiles b) (by rw [← hassoc]; exact hd) (by rw [← hassoc]; exact ht)
        (by simp only [List.length_append, List.length_singleton]; omega) rfl (by omega)
      simp only [List.length_append, List.length_singleton] at hloop
      rw [← hassoc] at hloop
      refine ⟨List.replicate (entry_tiles b) (entry_direction b) ++ ds, c, ?_, ?_, ?_⟩
      · rw [hidx]
        exact hloop
      · have := next_directions_of_record_append _ _ _ _ _ _ _ hrun hnext
        have hsum : entry_tiles b + (j - entry_tiles b) = j := by omega
        rw [hsum] at this
        exact this
      · intro hst
        simp only [stored_steps, List.map_cons, List.sum_cons] at hst
        exact hend (by unfold stored_steps; omega)
/-- What `update_current_tile` does for an owner with a path and a current tile
`k`: the cursor that `k` calls of the decoder reach from the fresh cursor. -/
theorem update_current_tile_follows (figures : List figure) (p : figure_path_data)
    (f : figure) (buf : List Nat) (k : Nat)
    (hd : p.directions = some buf) (ht : p.total_directions = buf.length)
    (hfig : figures.get? p.figure_id = some f) (hid : f.id ≠ 0)
    (hlen : f.routing_path_length ≠ 0) (hk : f.routing_path_current_tile = k)
    (hint : k < 2147483648) :
    ∃ q ds, update_current_tile figures p = some q ∧
      next_directions_of_record (fresh_cursor p) k = some (ds, q) ∧
      (stored_steps buf ≤ k → q.current_step = p.total_directions ∧
        q.same_direction_count = 0) := by
  obtain ⟨ds, c, hloop, hnext, hend⟩ := update_current_tile_loop_follows buf [] (fresh_cursor p) k
    (by simpa [fresh_cursor] using hd) (by simpa [fresh_cursor] using ht) rfl rfl (by omega)
  simp only [List.nil_append, List.length_nil] at hloop
  have hindex : ((f.routing_path_current_tile + 1) % 4294967296).toNat = k + 1 := by
    rw [hk]
    omega
  have hguard : ¬ (f.id = 0 ∨ f.routing_path_length = 0) := by
    rintro (h | h)
    · exact hid h
    · exact hlen h
  have htot : (fresh_cursor p).total_directions = p.total_directions := rfl
  rw [htot] at hloop
  refine ⟨{ p with current_step := c.1, same_direction_count := c.2 }, ds, ?_, hnext, ?_⟩
  · unfold update_current_tile
    rw [hfig]
    simp only
    rw [if_neg hguard, hindex, hd]
    simp only [Option.getD_some]
    rw [ht] at hloop ⊢
    rw [hloop]
  · intro hst
    have := hend hst
    rw [this]
    exact ⟨rfl, rfl⟩

/-- C21 (as stated, refuted). The record in slot 1 holds the entry 65 (two steps
of direction 2); its owner, figure 1, has `routing_path_current_tile` 1 and
`routing_path_length` 0. `update_current_tile` returns at its guard and leaves
the cursor `(0, 0)`, while one call of `figure_route_get_next_direction` from the
fresh cursor reaches `(0, 1)`. -/
theorem cursor_reconstruction_counterexample :
    update_current_tile (loaded_figures 0 1) ⟨1, 1, 1, some [65], 0, 0⟩ =
      some ⟨1, 1, 1, some [65], 0, 0⟩ ∧
    next_directions [zero_path, fresh_cursor ⟨1, 1, 1, some [65], 0, 0⟩] 1 1 =
      some ([2], [zero_path, ⟨1, 1, 1, some [65], 0, 1⟩]) := by
  decide

/-- C21 (amended). Cursor reconstruction on load: for every packed record whose
owner is a figure with `id != 0` and `routing_path_length != 0`, and `k >= 0`
the owner's `routing_path_current_tile`, `update_current_tile` sets the cursor
reached by `k` successive calls of `figure_route_get_next_direction` from the
fresh cursor, which for `k` at or beyond the stored tile count is the exhausted
cursor `(total_directions, 0)`; for an owner that is missing, has `id == 0` or
`routing_path_length == 0` it leaves the record as it is. -/
theorem cursor_reconstruction (figures : List figure) (p : figure_path_data)
    (buf : List Nat) (hd : p.directions = some buf) (ht : p.total_directions = buf.length) :
    (∀ (f : figure) (k : Nat) (paths : List figure_path_data) (path_id : Nat),
      figures.get? p.figure_id = some f → f.id ≠ 0 → f.routing_path_length ≠ 0 →
      f.routing_path_current_tile = k → k < 2147483648 →
      paths.get? path_id = some (fresh_cursor p) →
      ∃ q ds, update_current_tile figures p = some q ∧
        next_directions paths path_id k = some (ds, paths.set path_id q) ∧
        (stored_steps buf ≤ k → q.current_step = p.total_directions ∧
          q.same_direction_count = 0)) ∧
    (figures.get? p.figure_id = none → update_current_tile figures p = some p) ∧
    (∀ f, figures.get? p.figure_id = some f → f.id = 0 ∨ f.routing_path_length = 0 →
      update_current_tile figures p = some p) := by
  refine ⟨?_, ?_, ?_⟩
  · intro f k paths path_id hfig hid hlen hk hint hslot
    obtain ⟨q, ds, h1, h2, h3⟩ :=
      update_current_tile_follows figures p f buf k hd ht hfig hid hlen hk hint
    exact ⟨q, ds, h1, next_directions_of_pool _ _ _ _ _ _ hslot h2, h3⟩
  · intro h
    unfold update_current_tile
    rw [h]
  · intro f hfig hg
    unfold update_current_tile
    rw [hfig]
    simp only
    rw [if_pos hg]

/-- The record with the entries 65, 96 (steps 2, 2, 3) and an owner on tile 2:
the cursor is `(1, 0)`, as after two calls. -/
theorem cursor_reconstruction_witness :
    ∃ q ds, update_current_tile (loaded_figures 3 2) ⟨1, 1, 2, some [65, 96], 0, 0⟩ = some q ∧
      next_directions [zero_path, fresh_cursor ⟨1, 1, 2, some [65, 96], 0, 0⟩] 1 2 =
        some (ds, [zero_path, fresh_cursor ⟨1, 1, 2, some [65, 96], 0, 0⟩].set 1 q) ∧
      (stored_steps [65, 96] ≤ 2 → q.current_step = 2 ∧ q.same_direction_count = 0) :=
  (cursor_reconstruction (loaded_figures 3 2) ⟨1, 1, 2, some [65, 96], 0, 0⟩ [65, 96] rfl
    rfl).1 { walker with id := 1, routing_path_id := 1, routing_path_length := 3,
                         routing_path_current_tile := 2 } 2
    [zero_path, fresh_cursor ⟨1, 1, 2, some [65, 96], 0, 0⟩] 1 rfl (by decide) (by decide) rfl
    (by decide) rfl
/-! ## The cursor invariant -/

theorem cursor_inv_fresh (p : figure_path_data) (buf : List Nat)
    (hd : p.directions = some buf) (ht : p.total_directions = buf.length) :
    CursorInv (fresh_cursor p) := by
  refine ⟨Nat.zero_le _, ?_, fun _ => rfl⟩
  intro hlt
  have hlt : 0 < buf.length := by
    rw [← ht]
    exact hlt
  refine ⟨buf.get ⟨0, hlt⟩, ?_, ?_⟩
  · simp only [fresh_cursor, hd, Option.getD_some]
    rw [List.get?_eq_get]
  · simp only [fresh_cursor]
    omega

/-- One call of the decoder on a record that satisfies the invariant returns,
and the record afterwards satisfies it. -/
theorem next_direction_of_record_inv (p : figure_path_data) (buf : List Nat)
    (hd : p.directions = some buf) (ht : p.total_directions = buf.length)
    (hinv : CursorInv p) :
    ∃ d q, next_direction_of_record p = some (d, q) ∧ q.directions = some buf ∧
      q.total_directions = buf.length ∧ CursorInv q := by
  obtain ⟨h1, h2, h3⟩ := hinv
  by_cases hex : p.total_directions ≤ p.current_step
  · exact ⟨8, p, next_direction_of_record_exhausted p hex, hd, ht, h1, h2, h3⟩
  · have hlt : p.current_step < p.total_directions := by omega
    obtain ⟨b, hb, hc⟩ := h2 hlt
    simp only [hd, Option.getD_some] at hb
    have hc : p.same_direction_count < entry_tiles b := hc
    by_cases hin : p.same_direction_count + 1 < entry_tiles b
    · refine ⟨_, _, next_direction_of_record_inside p buf b hd hb hlt hin, hd, ht, ?_⟩
      refine ⟨h1, ?_, ?_⟩
      · intro _
        refine ⟨b, ?_, hin⟩
        simp only [hd, Option.getD_some]
        exact hb
      · intro he
        simp only at he
        omega
    · refine ⟨_, _, next_direction_of_record_last p buf b hd hb hlt (by omega), hd, ht, ?_⟩
      refine ⟨by simp only; omega, ?_, fun _ => rfl⟩
      intro hlt2
      simp only at hlt2
      have hl : p.current_step + 1 < buf.length := by
        rw [← ht]
        exact hlt2
      refine ⟨buf.get ⟨p.current_step + 1, hl⟩, ?_, ?_⟩
      · simp only [hd, Option.getD_some]
        rw [List.get?_eq_get]
      · simp only
        omega

theorem next_directions_of_record_inv (n : Nat) :
    ∀ (p q : figure_path_data) (buf : List Nat) (ds : List Int),
      p.directions = some buf → p.total_directions = buf.length → CursorInv p →
      next_directions_of_record p n = some (ds, q) → CursorInv q := by
  induction n with
  | zero =>
    intro p q buf ds _ _ hinv h
    simp only [next_directions_of_record, Option.some.injEq, Prod.mk.injEq] at h
    rw [← h.2]
    exact hinv
  | succ n ih =>
    intro p q buf ds hd ht hinv h
    obtain ⟨d, p1, h1, hd1, ht1, hinv1⟩ := next_direction_of_record_inv p buf hd ht hinv
    simp only [next_directions_of_record, h1] at h
    cases h2 : next_directions_of_record p1 n with
    | none => rw [h2] at h; cases h
    | some r =>
      obtain ⟨es, q1⟩ := r
      rw [h2] at h
      simp only [Option.some.injEq, Prod.mk.injEq] at h
      rw [← h.2]
      exact ih p1 q1 buf es hd1 ht1 hinv1 h2

/-- C25. Cursor invariant: for a record whose buffer holds `total_directions`
entries, the invariant `CursorInv` (`current_step <= total_directions`,
`same_direction_count` below count field + 1 of the entry at `current_step`
while `current_step < total_directions`, and 0 at `total_directions`) holds
for the fresh cursor; it holds after `update_current_tile` for every current
tile `k >= 0` of the owner, from any cursor when the owner passes the guard of
the function and from a cursor that satisfies it (the fresh one in
`figure_route_load_state`) otherwise; and a call of
`figure_route_get_next_direction` on a slot that satisfies it returns and leaves
a record that satisfies it. -/
theorem cursor_invariant (figures : List figure) (p : figure_path_data) (buf : List Nat)
    (hd : p.directions = some buf) (ht : p.total_directions = buf.length) :
    CursorInv (fresh_cursor p) ∧
    (∀ (f : figure) (k : Nat), figures.get? p.figure_id = some f →
      f.routing_path_current_tile = k → k < 2147483648 →
      CursorInv p ∨ (f.id ≠ 0 ∧ f.routing_path_length ≠ 0) →
      ∃ q, update_current_tile figures p = some q ∧ CursorInv q) ∧
    (figures.get? p.figure_id = none → CursorInv p →
      ∃ q, update_current_tile figures p = some q ∧ CursorInv q) ∧
    (CursorInv p → ∀ (paths : List figure_path_data) (path_id : Nat),
      paths.get? path_id = some p →
      ∃ d q, figure_route_get_next_direction paths path_id = some (d, paths.set path_id q) ∧
        CursorInv q) := by
  refine ⟨cursor_inv_fresh p buf hd ht, ?_, ?_, ?_⟩
  · intro f k hfig hk hint hor
    by_cases hg : f.id = 0 ∨ f.routing_path_length = 0
    · rcases hor with hinv | ⟨h1, h2⟩
      · refine ⟨p, ?_, hinv⟩
        unfold update_current_tile
        rw [hfig]
        simp only
        rw [if_pos hg]
      · rcases hg with h | h
        · exact absurd h h1
        · exact absurd h h2
    · have hid : f.id ≠ 0 := fun h => hg (Or.inl h)
      have hlen : f.routing_path_length ≠ 0 := fun h => hg (Or.inr h)
      obtain ⟨q, ds, h1, h2, _⟩ :=
        update_current_tile_follows figures p f buf k hd ht hfig hid hlen hk hint
      exact ⟨q, h1, next_directions_of_record_inv k (fresh_cursor p) q buf ds
        (by simpa [fresh_cursor] using hd) (by simpa [fresh_cursor] using ht)
        (cursor_inv_fresh p buf hd ht) h2⟩
  · intro hnone hinv
    refine ⟨p, ?_, hinv⟩
    unfold update_current_tile
    rw [hnone]
  · intro hinv paths path_id hslot
    obtain ⟨d, q, h1, _, _, h4⟩ := next_direction_of_record_inv p buf hd ht hinv
    refine ⟨d, q, ?_, h4⟩
    unfold figure_route_get_next_direction
    rw [hslot]
    simp only [h1]

/-- The record with the entries 65, 96 on its first entry's second step: the
call moves the cursor to `(1, 0)`. -/
theorem cursor_invariant_witness :
    ∃ d q, figure_route_get_next_direction [zero_path, ⟨1, 1, 2, some [65, 96], 0, 1⟩] 1 =
        some (d, [zero_path, ⟨1, 1, 2, some [65, 96], 0, 1⟩].set 1 q) ∧ CursorInv q :=
  (cursor_invariant (loaded_figures 3 2) ⟨1, 1, 2, some [65, 96], 0, 1⟩ [65, 96] rfl rfl).2.2.2
    ⟨by decide, fun _ => ⟨65, rfl, by decide⟩, fun h => absurd h (by decide)⟩
    [zero_path, ⟨1, 1, 2, some [65, 96], 0, 1⟩] 1 rfl

/-! ## Candidate selection without highways -/

theorem tmod_two_cases (d : Int) (h : 0 ≤ d) : Int.tmod d 2 = 0 ∨ Int.tmod d 2 = 1 := by
  rw [Int.tmod_eq_emod h (by omega)]
  omega

/-- One iteration of the `for` loop keeps `MinimumCandidate` when neither the
best candidate nor the neighbour looked at is a highway. -/
theorem land_consider_minimum (m : Map) (base g last : Int) (pre : List Int) (b : Best)
    (d : Int) (hpre : ∀ x ∈ pre, 0 ≤ x ∧ x < d) (hd : 0 ≤ d)
    (hb : b.is_highway = false)
    (hhw : m.map_terrain_is_highway (g + map_grid_direction_delta d) = false)
    (h : MinimumCandidate m base g last pre b) :
    MinimumCandidate m base g last (pre ++ [d]) (land_consider m base g last b d) ∧
    (land_consider m base g last b d).is_highway = false := by
  rcases land_consider_cases m base g last b d with ⟨hk, hrej⟩ | ⟨hk, he1, he2, hbet⟩
  · rw [hk]
    refine ⟨?_, hb⟩
    rw [next_is_better_iff, hb, hhw] at hrej
    simp only [Bool.false_eq_true, false_and, and_false, not_false_eq_true, true_and,
      false_or] at hrej
    rcases h with ⟨h1, h2, h3⟩ | ⟨h1, h2, h3, h4, h5, h6⟩
    · refine Or.inl ⟨h1, h2, ?_⟩
      intro e he hel he0
      rcases List.mem_append.mp he with he | he
      · exact h3 e he hel he0
      · simp only [List.mem_singleton] at he
        subst he
        by_contra hcon
        apply hrej
        refine ⟨hel, he0, ?_⟩
        rw [h2]
        rcases lt_or_eq_of_le (not_lt.mp hcon) with hlt | heq
        · exact Or.inl hlt
        · exact Or.inr ⟨heq, Or.inl h1⟩
    · refine Or.inr ⟨List.mem_append_left _ h1, h2, h3, h4, h5, ?_⟩
      intro e he hel he0
      rcases List.mem_append.mp he with he | he
      · exact h6 e he hel he0
      · simp only [List.mem_singleton] at he
        subst he
        have hc0 := (hpre _ h1).1
        have hclt := (hpre _ h1).2
        have hnb : ¬ (m.map_routing_distance (g + map_grid_direction_delta e) < b.distance ∨
            (m.map_routing_distance (g + map_grid_direction_delta e) = b.distance ∧
              (b.direction = -1 ∨ (Int.tmod b.direction 2 = 1 ∧ Int.tmod e 2 = 0)))) :=
          fun hx => hrej ⟨hel, he0, hx⟩
        refine ⟨?_, ?_⟩
        · by_contra hcon
          exact hnb (Or.inl (not_le.mp hcon))
        · intro heq
          refine ⟨?_, fun _ => le_of_lt hclt⟩
          intro hev
          rcases tmod_two_cases _ hc0 with h0 | h1'
          · exact h0
          · exact absurd (Or.inr ⟨heq, Or.inr ⟨h1', hev⟩⟩) hnb
  · rw [hk]
    refine ⟨?_, hhw⟩
    rw [next_is_better_iff, hb, hhw] at hbet
    simp only [Bool.false_eq_true, false_and, and_false, not_false_eq_true, true_and,
      false_or] at hbet
    rcases h with ⟨h1, h2, h3⟩ | ⟨h1, h2, h3, h4, h5, h6⟩
    · have hle : m.map_routing_distance (g + map_grid_direction_delta d) ≤ base := by
        rw [h2] at hbet
        rcases hbet with hlt | ⟨heq, _⟩
        · exact le_of_lt hlt
        · exact le_of_eq heq
      refine Or.inr ⟨by simp, he1, rfl, he2, hle, ?_⟩
      intro e he hel he0
      rcases List.mem_append.mp he with he | he
      · have := h3 e he hel he0
        refine ⟨by simp only; omega, ?_⟩
        intro heq
        simp only at heq
        omega
      · simp only [List.mem_singleton] at he
        subst he
        exact ⟨le_refl _, fun _ => ⟨fun hx => hx, fun _ => le_refl _⟩⟩
    · have hc0 := (hpre _ h1).1
      have hne : b.direction ≠ -1 := by omega
      refine Or.inr ⟨by simp, he1, rfl, he2, ?_, ?_⟩
      · simp only
        rcases hbet with hlt | ⟨heq, _⟩
        · omega
        · omega
      · intro e he hel he0
        rcases List.mem_append.mp he with he | he
        · obtain ⟨k1, k2⟩ := h6 e he hel he0
          rcases hbet with hlt | ⟨heq, hc | ⟨hodd, hev⟩⟩
          · refine ⟨by simp only; omega, ?_⟩
            intro hx
            simp only at hx
            omega
          · exact absurd hc hne
          · refine ⟨by simp only; omega, ?_⟩
            intro hx
            simp only at hx ⊢
            have hbe := k2 (by omega)
            refine ⟨fun _ => hev, ?_⟩
            intro hpar
            rw [hev] at hpar
            have := hbe.1 hpar
            omega
        · simp only [List.mem_singleton] at he
          subst he
          exact ⟨le_refl _, fun _ => ⟨fun hx => hx, fun _ => le_refl _⟩⟩

theorem land_fold_minimum (m : Map) (base g last : Int) (suf : List Int) :
    ∀ (pre : List Int) (b : Best), MinimumCandidate m base g last pre b →
      b.is_highway = false → (∀ x ∈ pre, 0 ≤ x ∧ ∀ y ∈ suf, x < y) →
      List.Pairwise (fun x y => x < y) suf → (∀ y ∈ suf, 0 ≤ y) →
      (∀ y ∈ suf, m.map_terrain_is_highway (g + map_grid_direction_delta y) = false) →
      MinimumCandidate m base g last (pre ++ suf)
        (suf.foldl (land_consider m base g last) b) := by
  induction suf with
  | nil =>
    intro pre b h _ _ _ _ _
    simpa using h
  | cons d suf ih =>
    intro pre b h hb hpre hsorted hpos hhw
    obtain ⟨k1, k2⟩ := land_consider_minimum m base g last pre b d
      (fun x hx => ⟨(hpre x hx).1, (hpre x hx).2 d (List.mem_cons_self _ _)⟩)
      (hpos d (List.mem_cons_self _ _)) hb (hhw d (List.mem_cons_self _ _)) h
    have hs := List.pairwise_cons.mp hsorted
    have := ih (pre ++ [d]) _ k1 k2 (by
      intro x hx
      rcases List.mem_append.mp hx with hx | hx
      · exact ⟨(hpre x hx).1, fun y hy => (hpre x hx).2 y (List.mem_cons_of_mem _ hy)⟩
      · simp only [List.mem_singleton] at hx
        subst hx
        exact ⟨hpos x (List.mem_cons_self _ _), fun y hy => hs.1 y hy⟩)
      hs.2 (fun y hy => hpos y (List.mem_cons_of_mem _ hy))
      (fun y hy => hhw y (List.mem_cons_of_mem _ hy))
    simpa using this

theorem loop_directions_sorted (num_directions : Int) :
    List.Pairwise (fun x y : Int => x < y) (loop_directions (direction_step num_directions)) := by
  rcases direction_step_cases num_directions with h | h
  · rw [h, loop_directions_one]
    decide
  · rw [h, loop_directions_two]
    decide

/-- C28. Candidate selection without highways: when no neighbour the loop looks
at is a highway tile, the `for` loop of `map_routing_get_path` ends on the
candidate of `MinimumCandidate`: an eligible neighbour with non-zero distance of
minimum distance, provided that minimum is at most the current tile's distance,
and among those of minimum distance the first orthogonal one in the order
`0..7` if one is orthogonal, else the first diagonal one; when every eligible
neighbour is farther than the current tile the loop ends on direction -1 and the
call returns 0. -/
theorem candidate_selection_without_highways (alloc : Nat → Bool) (m : Map)
    (num_directions : Int) (path : Option figure_path_data) (fuel : Nat) (w : Pos)
    (s : Directions)
    (hhw : ∀ d ∈ loop_directions (direction_step num_directions),
      m.map_terrain_is_highway (w.grid_offset + map_grid_direction_delta d) = false) :
    MinimumCandidate m (m.map_routing_distance w.grid_offset) w.grid_offset w.last_direction
      (loop_directions (direction_step num_directions))
      (land_select m (direction_step num_directions) w.grid_offset w.last_direction) ∧
    ((∀ d ∈ loop_directions (direction_step num_directions), d ≠ w.last_direction →
        m.map_routing_distance (w.grid_offset + map_grid_direction_delta d) ≠ 0 →
        m.map_routing_distance w.grid_offset <
          m.map_routing_distance (w.grid_offset + map_grid_direction_delta d)) →
      w.distance > 1 →
      reconstruct alloc (land_select m (direction_step num_directions)) path (fuel + 1) w s =
        some { result := 0, path := path, scratch := s, exit := Exit.exhausted }) := by
  have hmin := land_fold_minimum m (m.map_routing_distance w.grid_offset) w.grid_offset
    w.last_direction (loop_directions (direction_step num_directions)) []
    { distance := m.map_routing_distance w.grid_offset, direction := -1, is_highway := false }
    (Or.inl ⟨rfl, rfl, fun d hd => absurd hd (List.not_mem_nil _)⟩) rfl
    (fun x hx => absurd hx (List.not_mem_nil _)) (loop_directions_sorted num_directions)
    (fun y hy => (loop_directions_range _ (direction_step_cases num_directions) y hy).1) hhw
  simp only [List.nil_append] at hmin
  refine ⟨hmin, ?_⟩
  intro hfar hw
  have hnone : advance (land_select m (direction_step num_directions)) w = none := by
    rw [advance_none_iff]
    rcases hmin with ⟨h1, _⟩ | ⟨h1, h2, h3, h4, h5, _⟩
    · exact h1
    · have := hfar _ h1 h2 (by rw [← h3]; exact h4)
      rw [← h3] at this
      exact absurd h5 (not_le.mpr this)
  rw [reconstruct, if_pos hw, hnone]

/-- The first iteration of the 8-direction walk for `(3, 4)` on the gradient map
of 5 by 5 tiles around `(1, 1)`, which has no highway. -/
theorem candidate_selection_without_highways_witness :
    MinimumCandidate (gradient_map 5 5 1 1)
      ((gradient_map 5 5 1 1).map_routing_distance
        (land_start (gradient_map 5 5 1 1) 3 4).grid_offset)
      (land_start (gradient_map 5 5 1 1) 3 4).grid_offset
      (land_start (gradient_map 5 5 1 1) 3 4).last_direction
      (loop_directions (direction_step 8))
      (land_select (gradient_map 5 5 1 1) (direction_step 8)
        (land_start (gradient_map 5 5 1 1) 3 4).grid_offset
        (land_start (gradient_map 5 5 1 1) 3 4).last_direction) :=
  (candidate_selection_without_highways alloc_ok (gradient_map 5 5 1 1) 8 none 3
    (land_start (gradient_map 5 5 1 1) 3 4) small_scratch (fun _ _ => rfl)).1

/-! ## Round trip through the saved buffers -/

theorem buffer_read_u32_bytes (value : Nat) (rest : List Nat) (h : value < 4294967296) :
    buffer_read_u32 (u32_bytes value ++ rest) = (value, rest) := by
  unfold buffer_read_u32 u32_bytes
  simp only [List.cons_append, List.nil_append, List.getD_cons_zero, List.getD_cons_succ,
    List.drop_succ_cons, List.drop_zero, Prod.mk.injEq, and_true]
  omega

theorem buffer_write_u32_bytes (buf : List Nat) (value : Nat) :
    buffer_write_u32 buf value = buf ++ u32_bytes value := rfl

theorem buffer_write_raw_bytes (buf data : List Nat) (size : Nat) (h : size ≤ data.length) :
    buffer_write_raw buf data size = buf ++ data.take size := by
  unfold buffer_write_raw
  have : size - data.length = 0 := by omega
  rw [this]
  simp

theorem buffer_read_raw_bytes (data rest : List Nat) :
    buffer_read_raw (data ++ rest) data.length = (data, rest) := by
  unfold buffer_read_raw
  have h1 : ((data ++ rest) ++ List.replicate (data.length - (data ++ rest).length) 0).take
      data.length = data := by
    rw [List.append_assoc, List.take_left']
    rfl
  rw [h1, List.drop_left']
  rfl

theorem buffer_skip_bytes (data rest : List Nat) :
    buffer_skip (data ++ rest) data.length = rest := by
  unfold buffer_skip
  rw [List.drop_left']
  rfl

/-- What `save_slots` writes. -/
theorem save_slots_bytes (l : List figure_path_data) :
    ∀ (figures buf_paths : List Nat),
      (∀ p ∈ l, p.total_directions ≤ (p.directions.getD []).length) →
      save_slots l figures buf_paths =
        some (figures ++ owner_bytes l, buf_paths ++ path_bytes l) := by
  induction l with
  | nil =>
    intro f b _
    simp [save_slots, owner_bytes, path_bytes]
  | cons p l ih =>
    intro f b h
    have hp := h p (List.mem_cons_self _ _)
    rw [save_slots, if_pos hp, ih _ _ (fun q hq => h q (List.mem_cons_of_mem _ hq))]
    rw [buffer_write_raw_bytes _ _ _ hp, buffer_write_u32_bytes, buffer_write_u32_bytes]
    simp only [owner_bytes, path_bytes, List.flatMap_cons, List.append_assoc]

theorem update_current_tile_loop_total (buf : List Nat) (total : Nat) :
    ∀ (fuel i index : Nat), i + fuel ≤ buf.length →
      ∃ c, update_current_tile_loop buf total fuel i index = some c := by
  intro fuel
  induction fuel with
  | zero =>
    intro i index _
    exact ⟨_, rfl⟩
  | succ fuel ih =>
    intro i index h
    have hi : i < buf.length := by omega
    have hb : buf.get? i = some (buf.get ⟨i, hi⟩) := List.get?_eq_get hi
    simp only [update_current_tile_loop, hb]
    split
    · exact ⟨_, rfl⟩
    · exact ih _ _ (by omega)

/-- On a record whose buffer holds its entries `update_current_tile` returns, and
changes the cursor only. -/
theorem update_current_tile_total (figures : List figure) (p : figure_path_data)
    (buf : List Nat) (hd : p.directions = some buf) (ht : p.total_directions ≤ buf.length) :
    ∃ q, update_current_tile figures p = some q ∧ q.id = p.id ∧ q.figure_id = p.figure_id ∧
      q.total_directions = p.total_directions ∧ q.directions = p.directions := by
  unfold update_current_tile
  cases hf : figures.get? p.figure_id with
  | none => exact ⟨p, rfl, rfl, rfl, rfl, rfl⟩
  | some f =>
    simp only
    split
    · exact ⟨p, rfl, rfl, rfl, rfl, rfl⟩
    · obtain ⟨c, hc⟩ := update_current_tile_loop_total buf p.total_directions
        p.total_directions 0 ((f.routing_path_current_tile + 1) % 4294967296).toNat (by omega)
      rw [hd]
      simp only [Option.getD_some, hc]
      exact ⟨_, rfl, rfl, rfl, rfl, rfl⟩
theorem array_next_fresh (a : Pool) (h : a.size = a.items.length) :
    array_next a = (a.items.length,
      ⟨a.items ++ [create_new_path zero_path a.items.length], a.items.length + 1, a.blocks⟩) := by
  unfold array_next
  rw [h]
  simp

/-- One iteration of the loop on the bytes that `figure_route_save_state` wrote
for the slot `p`, in the current format. -/
theorem load_element_saved (figure_table : List figure) (a : Pool) (p : figure_path_data)
    (r1 r2 : List Nat) (ha : a.size = a.items.length)
    (hid : p.figure_id < 4294967296) (htot : p.total_directions < 4294967296)
    (hlen : p.total_directions ≤ (p.directions.getD []).length) :
    ∃ q, load_element alloc_ok figure_table false
        ⟨a, u32_bytes p.figure_id ++ r1,
          (u32_bytes p.total_directions ++
            (p.directions.getD []).take p.total_directions) ++ r2⟩ =
        some (true, ⟨⟨a.items ++ [q], a.items.length + 1, a.blocks⟩, r1, r2⟩) ∧
      q.figure_id = p.figure_id ∧ q.total_directions = p.total_directions ∧
      (p.figure_id ≠ 0 →
        q.directions = some ((p.directions.getD []).take p.total_directions)) ∧
      (p.figure_id = 0 → q.directions = none) := by
  have htake : ((p.directions.getD []).take p.total_directions).length = p.total_directions := by
    rw [List.length_take]
    omega
  have hget : (a.items ++ [create_new_path zero_path a.items.length]).get? a.items.length =
      some (create_new_path zero_path a.items.length) := by
    rw [List.get?_eq_getElem?, List.getElem?_append_right (le_refl _)]
    simp
  have hset : ∀ q, (a.items ++ [create_new_path zero_path a.items.length]).set a.items.length q =
      a.items ++ [q] := by
    intro q
    rw [List.set_append_right _ _ (le_refl _)]
    simp
  unfold load_element
  rw [array_next_fresh a ha]
  simp only [hget]
  unfold load_record
  simp only [Bool.false_eq_true, if_false, buffer_read_u32_bytes _ _ hid, List.append_assoc,
    buffer_read_u32_bytes _ _ htot]
  by_cases hz : p.figure_id = 0
  · simp only [hz, ne_eq, not_true_eq_false, if_false]
    have hskip := buffer_skip_bytes ((p.directions.getD []).take p.total_directions) r2
    rw [htake] at hskip
    simp only [hskip, hset]
    exact ⟨_, rfl, rfl, rfl, fun h => False.elim h, fun _ => rfl⟩
  · have hraw := buffer_read_raw_bytes ((p.directions.getD []).take p.total_directions) r2
    rw [htake] at hraw
    simp only [ne_eq, hz, not_false_eq_true, if_true, alloc_ok, Bool.not_true,
      Bool.false_eq_true, if_false, hraw]
    obtain ⟨q, hq, _, h2, h3, h4⟩ := update_current_tile_total figure_table
      { create_new_path zero_path a.items.length with
        figure_id := p.figure_id, total_directions := p.total_directions,
        directions := some ((p.directions.getD []).take p.total_directions) }
      ((p.directions.getD []).take p.total_directions) rfl (by simp only; omega)
    refine ⟨q, ?_, h2, h3, fun _ => h4, fun h => False.elim h⟩
    have hq2 : update_current_tile figure_table
        { id := (create_new_path zero_path a.items.length).id, figure_id := p.figure_id,
          total_directions := p.total_directions,
          directions := some ((p.directions.getD []).take p.total_directions),
          current_step := (create_new_path zero_path a.items.length).current_step,
          same_direction_count :=
            (create_new_path zero_path a.items.length).same_direction_count } = some q := hq
    simp only [hq2, hset]
/-- The loop of `figure_route_load_state` on the bytes saved for the slots `l`,
in the current format: it adds one slot for each of them. -/
theorem load_elements_saved (figure_table : List figure) (l : List figure_path_data) :
    ∀ (a : Pool) (r1 r2 : List Nat), a.size = a.items.length →
      (∀ p ∈ l, p.figure_id < 4294967296 ∧ p.total_directions < 4294967296 ∧
        p.total_directions ≤ (p.directions.getD []).length) →
      ∃ imgs, load_elements alloc_ok figure_table false l.length
          ⟨a, owner_bytes l ++ r1, path_bytes l ++ r2⟩ =
          some (true, ⟨⟨a.items ++ imgs, a.items.length + l.length, a.blocks⟩, r1, r2⟩) ∧
        List.Forall₂ SameSaved l imgs := by
  induction l with
  | nil =>
    intro a r1 r2 ha _
    refine ⟨[], ?_, List.Forall₂.nil⟩
    simp only [load_elements, owner_bytes, path_bytes, List.flatMap_nil, List.nil_append,
      List.append_nil, List.length_nil, Nat.add_zero, ← ha]
  | cons p l ih =>
    intro a r1 r2 ha h
    obtain ⟨h1, h2, h3⟩ := h p (List.mem_cons_self _ _)
    obtain ⟨q, hq, s1, s2, s3, s4⟩ := load_element_saved figure_table a p
      (owner_bytes l ++ r1) (path_bytes l ++ r2) ha h1 h2 h3
    obtain ⟨imgs, hi, hall⟩ := ih ⟨a.items ++ [q], a.items.length + 1, a.blocks⟩ r1 r2
      (by simp) (fun e he => h e (List.mem_cons_of_mem _ he))
    refine ⟨q :: imgs, ?_, List.Forall₂.cons ⟨s1, s2, s3, s4⟩ hall⟩
    have e1 : owner_bytes (p :: l) ++ r1 = u32_bytes p.figure_id ++ (owner_bytes l ++ r1) := by
      simp only [owner_bytes, List.flatMap_cons, List.append_assoc]
    have e2 : path_bytes (p :: l) ++ r2 =
        (u32_bytes p.total_directions ++ (p.directions.getD []).take p.total_directions) ++
          (path_bytes l ++ r2) := by
      simp only [path_bytes, List.flatMap_cons, List.append_assoc]
    rw [e1, e2]
    simp only [List.length_cons, load_elements, hq]
    rw [hi]
    simp only [List.append_assoc, List.singleton_append, List.length_append,
      List.length_singleton]
    have e3 : a.items.length + 1 + l.length = a.items.length + (l.length + 1) := by omega
    rw [e3]

theorem trim_size_keeps (items : List figure_path_data) :
    ∀ (n i : Nat) (p : figure_path_data), i < n → items.get? i = some p →
      path_is_used p = true → i < trim_size items n := by
  intro n i p hi hp hu
  by_contra hcon
  have := trim_size_unused items n i (by omega) hi p hp
  rw [hu] at this
  cases this

/-- C23. Persistence round trip in the current format: for a pool whose records
hold their entries (`total_directions` bytes at least) and whose fields fit in a
`u32`, `figure_route_save_state` writes the buffer `figures` as one `u32`
`figure_id` per slot and the buffer `buf_paths` as the `u32` number of slots
followed, per slot, by the `u32` `total_directions` and that many packed bytes;
`figure_route_load_state` of these buffers under a current version gives a pool
in which every slot index that had a non-zero owner holds the same `figure_id`,
the same `total_directions` and the same packed bytes. -/
theorem persistence_round_trip (figure_table : List figure)
    (SAVE_GAME_LAST_STATIC_PATHS_AND_ROUTES version : Int) (old paths : Pool)
    (hver : SAVE_GAME_LAST_STATIC_PATHS_AND_ROUTES < version)
    (hwf : paths.size ≤ paths.items.length) (hsize : paths.size < 4294967296)
    (hslots : ∀ p ∈ paths.items.take paths.size,
      p.figure_id < 4294967296 ∧ p.total_directions < 4294967296 ∧
      p.total_directions ≤ (p.directions.getD []).length) :
    ∃ loaded,
      figure_route_save_state paths =
        some (owner_bytes (paths.items.take paths.size),
          u32_bytes paths.size ++ path_bytes (paths.items.take paths.size)) ∧
      figure_route_load_state alloc_ok figure_table SAVE_GAME_LAST_STATIC_PATHS_AND_ROUTES old
        (owner_bytes (paths.items.take paths.size))
        (u32_bytes paths.size ++ path_bytes (paths.items.take paths.size)) version =
        some loaded ∧
      ∀ i p, i < paths.size → paths.items.get? i = some p → p.figure_id ≠ 0 →
        i < loaded.size ∧
        ∃ q, loaded.items.get? i = some q ∧ q.figure_id = p.figure_id ∧
          q.total_directions = p.total_directions ∧
          q.directions = some ((p.directions.getD []).take p.total_directions) := by
  have hlen : (paths.items.take paths.size).length = paths.size := by
    rw [List.length_take]
    omega
  obtain ⟨imgs, hload, hall⟩ := load_elements_saved figure_table
    (paths.items.take paths.size) ⟨[], 0, 1⟩ [] [] rfl hslots
  simp only [List.append_nil, List.nil_append, List.length_nil, Nat.zero_add, hlen] at hload
  refine ⟨array_trim ⟨imgs, paths.size, 1⟩, ?_, ?_, ?_⟩
  · unfold figure_route_save_state
    rw [save_slots_bytes _ _ _ (fun p hp => (hslots p hp).2.2)]
    rfl
  · unfold figure_route_load_state
    have hleg : decide (version ≤ SAVE_GAME_LAST_STATIC_PATHS_AND_ROUTES) = false := by
      simp only [decide_eq_false_iff_not]
      omega
    simp only [hleg, Bool.false_eq_true, if_false, buffer_read_u32_bytes _ _ hsize]
    simp only [array_init, array_expand, alloc_ok, if_true, Option.some_bind, hload]
  · intro i p hi hp hne
    have hpt : (paths.items.take paths.size).get? i = some p := by
      rw [List.get?_eq_getElem?, List.getElem?_take_of_lt hi, ← List.get?_eq_getElem?]
      exact hp
    have hleq := hall.length_eq
    have hi1 : i < (paths.items.take paths.size).length := by omega
    have hi2 : i < imgs.length := by omega
    have hrel := hall.get hi1 hi2
    have hpe : (paths.items.take paths.size).get ⟨i, hi1⟩ = p := by
      have := List.get?_eq_get hi1
      rw [hpt] at this
      exact (Option.some.inj this).symm
    rw [hpe] at hrel
    obtain ⟨s1, s2, s3, _⟩ := hrel
    have hq : imgs.get? i = some (imgs.get ⟨i, hi2⟩) := List.get?_eq_get hi2
    refine ⟨?_, imgs.get ⟨i, hi2⟩, hq, s1, s2, s3 hne⟩
    refine trim_size_keeps imgs paths.size i _ hi hq ?_
    unfold path_is_used
    rw [s1]
    simpa using hne

/-- The pool `busy_pool` with the owners 5 and 9: its slots 1 and 2 come back
from the saved buffers. -/
theorem persistence_round_trip_witness :
    ∃ loaded,
      figure_route_save_state busy_pool =
        some (owner_bytes (busy_pool.items.take busy_pool.size),
          u32_bytes busy_pool.size ++ path_bytes (busy_pool.items.take busy_pool.size)) ∧
      figure_route_load_state alloc_ok [] 0 ⟨[], 0, 0⟩
        (owner_bytes (busy_pool.items.take busy_pool.size))
        (u32_bytes busy_pool.size ++ path_bytes (busy_pool.items.take busy_pool.size)) 1 =
        some loaded ∧
      ∀ i p, i < busy_pool.size → busy_pool.items.get? i = some p → p.figure_id ≠ 0 →
        i < loaded.size ∧
        ∃ q, loaded.items.get? i = some q ∧ q.figure_id = p.figure_id ∧
          q.total_directions = p.total_directions ∧
          q.directions = some ((p.directions.getD []).take p.total_directions) :=
  persistence_round_trip [] 0 1 ⟨[], 0, 0⟩ busy_pool (by decide) (by decide) (by decide)
    (by decide)

/-! ## The ownership invariant over the operations of the pool -/

theorem foreach_slot_length (body : Nat → figure_path_data → figure_path_data) (size : Nat) :
    ∀ (l : List figure_path_data) (k : Nat), (foreach_slot body size k l).length = l.length := by
  intro l
  induction l with
  | nil => intro k; rfl
  | cons p rest ih =>
    intro k
    simp only [foreach_slot, List.length_cons, ih]

theorem pool_slots_set (P : figure_path_data → Prop) (a : Pool) (i : Nat)
    (q : figure_path_data) (h : PoolSlots P a) (hq : P q) :
    PoolSlots P { a with items := a.items.set i q } := by
  refine ⟨by simpa using h.1, ?_⟩
  intro j p hj hp
  simp only [List.get?_eq_getElem?] at hp
  by_cases hji : i = j
  · subst hji
    have hj2 : i < a.size := hj
    rw [List.getElem?_set_self (by have := h.1; omega)] at hp
    cases hp
    exact hq
  · rw [List.getElem?_set_ne hji] at hp
    exact h.2 j p hj (by rw [List.get?_eq_getElem?]; exact hp)

theorem pool_slots_trim (P : figure_path_data → Prop) (a : Pool) (h : PoolSlots P a) :
    PoolSlots P (array_trim a) := by
  have hle := array_trim_size_le a
  refine ⟨le_trans hle h.1, ?_⟩
  intro j p hj hp
  exact h.2 j p (by omega) hp

theorem pool_slots_foreach (P : figure_path_data → Prop) (a : Pool)
    (body : Nat → figure_path_data → figure_path_data) (h : PoolSlots P a)
    (hbody : ∀ i p, P p → P (body i p)) :
    PoolSlots P { a with items := foreach_slot body a.size 0 a.items } := by
  refine ⟨by simpa [foreach_slot_length] using h.1, ?_⟩
  intro j p hj hp
  simp only [foreach_slot_get, Nat.zero_add] at hp
  cases hq : a.items.get? j with
  | none => rw [hq] at hp; cases hp
  | some q =>
    rw [hq] at hp
    simp only [Option.map_some', Option.some.injEq] at hp
    rw [← hp]
    have := h.2 j q hj hq
    have hj2 : j < a.size := hj
    rw [if_pos hj2]
    exact hbody j q this

theorem pool_slots_advance (P : figure_path_data → Prop) (hP : SlotProperty P)
    (alloc : Nat → Bool) (a a2 : Pool) (i : Nat) (h : PoolSlots P a)
    (hadv : array_advance alloc a = some (i, a2)) :
    PoolSlots P a2 ∧ i < a2.size := by
  obtain ⟨g1, g2, _, g4, g5, g6⟩ := array_advance_some alloc a i a2 h.1 hadv
  refine ⟨⟨g4, ?_⟩, by omega⟩
  intro j p hj hp
  by_cases hjs : j < a.size
  · rw [g6 j hjs] at hp
    exact h.2 j p hjs hp
  · have : j = a.size := by omega
    subst this
    rw [g5] at hp
    cases hp
    exact hP.free _ rfl

theorem pool_slots_pad (P : figure_path_data → Prop) (hP : SlotProperty P)
    (alloc : Nat → Bool) (index : Nat) :
    ∀ (fuel : Nat) (a a1 : Pool), PoolSlots P a → array_pad alloc index fuel a = some a1 →
      PoolSlots P a1 := by
  intro fuel
  induction fuel with
  | zero =>
    intro a a1 h hp
    simp only [array_pad, Option.some.injEq] at hp
    rw [← hp]
    exact h
  | succ fuel ih =>
    intro a a1 h hp
    rw [array_pad] at hp
    split at hp
    · cases hadv : array_advance alloc a with
      | none => rw [hadv] at hp; cases hp
      | some r =>
        obtain ⟨i, a2⟩ := r
        rw [hadv] at hp
        exact ih a2 a1 (pool_slots_advance P hP alloc a a2 i h hadv).1 hp
    · simp only [Option.some.injEq] at hp
      rw [← hp]
      exact h

/-- Asking for a slot keeps the property of the slots, and a slot handed out is
a slot of the pool that holds a new record. -/
theorem pool_slots_new_item (P : figure_path_data → Prop) (hP : SlotProperty P)
    (alloc : Nat → Bool) (a a1 : Pool) (index : Nat) (oi : Option Nat) (h : PoolSlots P a)
    (hnew : array_new_item_after_index alloc a index = (oi, a1)) :
    PoolSlots P a1 := by
  unfold array_new_item_after_index at hnew
  cases hpad : array_pad alloc index index a with
  | none =>
    rw [hpad] at hnew
    simp only [Prod.mk.injEq] at hnew
    rw [← hnew.2]
    exact h
  | some a0 =>
    rw [hpad] at hnew
    have h0 := pool_slots_pad P hP alloc index index a a0 h hpad
    simp only at hnew
    cases hfind : find_free_from index a0.size (a0.items.drop index) with
    | some k =>
      rw [hfind] at hnew
      simp only [Prod.mk.injEq] at hnew
      rw [← hnew.2]
      exact pool_slots_set P a0 k _ h0 (hP.free _ rfl)
    | none =>
      rw [hfind] at hnew
      simp only at hnew
      cases hadv : array_advance alloc a0 with
      | none =>
        rw [hadv] at hnew
        simp only [Prod.mk.injEq] at hnew
        rw [← hnew.2]
        exact h0
      | some r =>
        obtain ⟨k, a2⟩ := r
        rw [hadv] at hnew
        simp only [Prod.mk.injEq] at hnew
        rw [← hnew.2]
        exact (pool_slots_advance P hP alloc a0 a2 k h0 hadv).1

theorem owned_slot_property : SlotProperty Owned where
  free := fun p h hne => absurd h hne
  same := by
    intro p q h1 h2 h3 hp hne
    obtain ⟨buf, hb, hl⟩ := hp (by rw [← h1]; exact hne)
    exact ⟨buf, by rw [h2]; exact hb, by rw [h3]; exact hl⟩
  full := fun p buf h1 h2 _ => ⟨buf, h1, h2⟩

theorem owned_or_empty_slot_property : SlotProperty OwnedOrEmpty where
  free := fun p h hne => absurd h hne
  same := by
    intro p q h1 h2 h3 hp hne
    rcases hp (by rw [← h1]; exact hne) with ⟨buf, hb, hl⟩ | ⟨hn, hz⟩
    · exact Or.inl ⟨buf, by rw [h2]; exact hb, by rw [h3]; exact hl⟩
    · exact Or.inr ⟨by rw [h2]; exact hn, by rw [h3]; exact hz⟩
  full := fun p buf h1 h2 _ => Or.inl ⟨buf, h1, h2⟩
theorem fill_path_buffer (alloc : Nat → Bool) (s : Directions) (p p1 : figure_path_data)
    (h : fill_path_with_directions alloc s p = (true, p1)) : OwnsBuffer p1 := by
  unfold fill_path_with_directions at h
  split at h
  · simp only [Prod.mk.injEq, Bool.false_eq_true, false_and] at h
  · simp only [Prod.mk.injEq, true_and] at h
    rw [← h]
    exact ⟨_, rfl, by simp⟩

theorem finish_buffer (alloc : Nat → Bool) (p : figure_path_data) (w : Pos) (s : Directions)
    (h : (finish alloc (some p) w s).result ≠ 0) :
    ∃ q, (finish alloc (some p) w s).path = some q ∧ OwnsBuffer q := by
  unfold finish at h ⊢
  simp only at h ⊢
  cases hf : fill_path_with_directions alloc s p with
  | mk ok p1 =>
    rw [hf] at h
    cases ok with
    | false => simp only [ne_eq, not_true_eq_false] at h
    | true => exact ⟨p1, rfl, fill_path_buffer alloc s p p1 hf⟩

/-- A reconstruction that returns a tile count other than 0 has stored a buffer
of `total_directions` entries in the record. -/
theorem reconstruct_buffer (alloc : Nat → Bool) (select : Int → Int → Best)
    (p : figure_path_data) :
    ∀ (fuel : Nat) (w : Pos) (s : Directions) (o : Outcome),
      reconstruct alloc select (some p) fuel w s = some o → o.result ≠ 0 →
      ∃ q, o.path = some q ∧ OwnsBuffer q := by
  intro fuel
  induction fuel with
  | zero =>
    intro w s o h hr
    rw [reconstruct] at h
    split at h
    · cases h
    · simp only [Option.some.injEq] at h
      subst h
      exact finish_buffer alloc p w s hr
  | succ fuel ih =>
    intro w s o h hr
    rw [reconstruct] at h
    split at h
    · split at h
      · simp only [Option.some.injEq] at h
        subst h
        exact absurd rfl hr
      · simp only [Option.isSome_some, if_true] at h
        split at h
        · simp only [Option.some.injEq] at h
          subst h
          exact absurd rfl hr
        · exact ih _ _ _ h hr
    · simp only [Option.some.injEq] at h
      subst h
      exact finish_buffer alloc p w s hr

theorem map_routing_get_path_buffer (alloc : Nat → Bool) (m : Map) (s : Directions)
    (p : figure_path_data) (dst_x dst_y num_directions : Int) (fuel : Nat) (o : Outcome)
    (h : map_routing_get_path alloc m s (some p) dst_x dst_y num_directions fuel = some o)
    (hr : o.result ≠ 0) : OwnsBuffer (o.path.getD p) := by
  unfold map_routing_get_path at h
  simp only at h
  split at h
  · simp only [Option.some.injEq] at h
    subst h
    exact absurd rfl hr
  · obtain ⟨q, hq, hb⟩ := reconstruct_buffer alloc _ p _ _ _ _ h hr
    rw [hq]
    exact hb

theorem map_routing_get_path_on_water_buffer (alloc : Nat → Bool) (m : Map)
    (random_byte : Nat) (s : Directions) (p : figure_path_data) (dst_x dst_y : Int)
    (is_flotsam : Bool) (fuel : Nat) (o : Outcome)
    (h : map_routing_get_path_on_water alloc m random_byte s (some p) dst_x dst_y is_flotsam
      fuel = some o)
    (hr : o.result ≠ 0) : OwnsBuffer (o.path.getD p) := by
  unfold map_routing_get_path_on_water at h
  simp only at h
  split at h
  · simp only [Option.some.injEq] at h
    subst h
    exact absurd rfl hr
  · obtain ⟨q, hq, hb⟩ := reconstruct_buffer alloc _ p _ _ _ _ h hr
    rw [hq]
    exact hb

theorem route_path_length_buffer (alloc : Nat → Bool) (r : Routing) (random_byte fuel : Nat)
    (m : Map) (s : Directions) (p : figure_path_data) (f : figure) (direction_limit : Int)
    (c : Computed)
    (h : route_path_length alloc r random_byte fuel m s p f direction_limit = some c)
    (hr : c.path_length ≠ 0) : OwnsBuffer c.path := by
  unfold route_path_length at h
  split at h
  · split at h
    · simp only [Option.map_eq_some'] at h
      obtain ⟨o, ho, hc⟩ := h
      subst hc
      exact map_routing_get_path_on_water_buffer _ _ _ _ _ _ _ _ _ _ ho hr
    · simp only [Option.map_eq_some'] at h
      obtain ⟨o, ho, hc⟩ := h
      subst hc
      exact map_routing_get_path_on_water_buffer _ _ _ _ _ _ _ _ _ _ ho hr
  · simp only at h
    split at h
    · split at h
      · split at h
        · cases h
        · rename_i o1 ho1
          split at h
          · simp only [Option.map_eq_some'] at h
            obtain ⟨o, ho, hc⟩ := h
            subst hc
            exact map_routing_get_path_buffer _ _ _ _ _ _ _ _ _ ho hr
          · simp only [Option.some.injEq] at h
            subst h
            exact map_routing_get_path_buffer _ _ _ _ _ _ _ _ _ ho1 hr
      · simp only [Option.map_eq_some'] at h
        obtain ⟨o, ho, hc⟩ := h
        subst hc
        exact map_routing_get_path_buffer _ _ _ _ _ _ _ _ _ ho hr
    · simp only [Option.some.injEq] at h
      subst h
      exact absurd rfl hr

theorem pool_slots_init (P : figure_path_data → Prop) (alloc : Nat → Bool) (a a0 : Pool)
    (h : PoolSlots P a)
    (hinit : (if a.blocks = 0 then array_init alloc else some a) = some a0) :
    PoolSlots P a0 := by
  split at hinit
  · unfold array_init at hinit
    split at hinit
    · simp only [Option.some.injEq] at hinit
      rw [← hinit]
      exact ⟨by simp, fun i p hi _ => absurd hi (by simp)⟩
    · cases hinit
  · simp only [Option.some.injEq] at hinit
    rw [← hinit]
    exact h

/-- `figure_route_add` keeps a property of the slots. -/
theorem pool_slots_add (P : figure_path_data → Prop) (hP : SlotProperty P)
    (alloc : Nat → Bool) (r : Routing) (random_byte fuel : Nat) (st : RouteState) (f : figure)
    (out : Added) (h : PoolSlots P st.paths)
    (hadd : figure_route_add alloc r random_byte fuel st f = some out) :
    PoolSlots P out.state.paths := by
  unfold figure_route_add at hadd
  simp only at hadd
  split at hadd
  · simp only [Option.some.injEq] at hadd
    rw [← hadd]
    exact h
  · rename_i a0 hinit
    have h0 := pool_slots_init P alloc _ _ h hinit
    split at hadd
    · rename_i a1 hnew
      simp only [Option.some.injEq] at hadd
      rw [← hadd]
      exact pool_slots_new_item P hP alloc _ _ _ _ h0 hnew
    · rename_i i a1 hnew
      have h1 := pool_slots_new_item P hP alloc _ _ _ _ h0 hnew
      obtain ⟨_, _, _, _, hget, _⟩ := array_new_item_some alloc _ _ _ h0.1 hnew
      split at hadd
      · cases hadd
      · rename_i p hp
        rw [hget] at hp
        simp only [Option.some.injEq] at hp
        subst hp
        split at hadd
        · cases hadd
        · rename_i c hc
          have hk := route_path_length_keeps _ _ _ _ _ _ _ _ _ _ hc
          split at hadd
          · rename_i hnz
            simp only [Option.some.injEq] at hadd
            rw [← hadd]
            obtain ⟨buf, hb, hl⟩ := route_path_length_buffer _ _ _ _ _ _ _ _ _ _ hc hnz
            exact pool_slots_set P a1 i _ h1 (hP.full _ buf hb hl)
          · simp only [Option.some.injEq] at hadd
            rw [← hadd]
            exact pool_slots_set P a1 i _ h1 (hP.free _ (by rw [hk.2]; rfl))
theorem pool_slots_remove (P : figure_path_data → Prop) (hP : SlotProperty P) (a : Pool)
    (f : figure) (out : Pool × figure) (h : PoolSlots P a)
    (hrem : figure_route_remove a f = some out) : PoolSlots P out.1 := by
  unfold figure_route_remove at hrem
  split at hrem
  · split at hrem
    · cases hrem
    · rename_i path _
      simp only [Option.some.injEq] at hrem
      rw [← hrem]
      apply pool_slots_trim
      by_cases hown : path.figure_id = f.id
      · simp only [if_pos hown]
        exact pool_slots_set P a _ _ h (hP.free _ rfl)
      · simp only [if_neg hown]
        exact h
  · simp only [Option.some.injEq] at hrem
    rw [← hrem]
    exact pool_slots_trim P a h

theorem pool_slots_clean (P : figure_path_data → Prop) (hP : SlotProperty P) (a : Pool)
    (figures : List figure) (h : PoolSlots P a) : PoolSlots P (figure_route_clean figures a) := by
  unfold figure_route_clean
  apply pool_slots_trim
  apply pool_slots_foreach P a _ h
  intro i p hp
  unfold clean_slot
  simp only
  split
  · split
    · split
      · exact hP.free _ rfl
      · exact hp
    · exact hp
  · exact hp

theorem pool_slots_clear_all (P : figure_path_data → Prop) (a : Pool) :
    PoolSlots P (figure_route_clear_all a) :=
  ⟨Nat.zero_le _, fun i p hi _ => absurd hi (by simp [figure_route_clear_all])⟩

theorem next_direction_of_record_fields (p q : figure_path_data) (d : Int)
    (h : next_direction_of_record p = some (d, q)) :
    q.figure_id = p.figure_id ∧ q.directions = p.directions ∧
      q.total_directions = p.total_directions := by
  unfold next_direction_of_record at h
  split at h
  · simp only [Option.some.injEq, Prod.mk.injEq] at h
    rw [← h.2]
    exact ⟨rfl, rfl, rfl⟩
  · split at h
    · cases h
    · split at h
      · cases h
      · simp only at h
        split at h
        · simp only [Option.some.injEq, Prod.mk.injEq] at h
          rw [← h.2]
          exact ⟨rfl, rfl, rfl⟩
        · simp only [Option.some.injEq, Prod.mk.injEq] at h
          rw [← h.2]
          exact ⟨rfl, rfl, rfl⟩

theorem pool_slots_next (P : figure_path_data → Prop) (hP : SlotProperty P) (a : Pool)
    (path_id : Nat) (d : Int) (items : List figure_path_data) (h : PoolSlots P a)
    (hnext : figure_route_get_next_direction a.items path_id = some (d, items)) :
    PoolSlots P { a with items := items } := by
  unfold figure_route_get_next_direction at hnext
  cases hp : a.items.get? path_id with
  | none => rw [hp] at hnext; cases hnext
  | some p =>
    rw [hp] at hnext
    simp only at hnext
    cases hq : next_direction_of_record p with
    | none => rw [hq] at hnext; cases hnext
    | some r =>
      obtain ⟨e, q⟩ := r
      rw [hq] at hnext
      simp only [Option.some.injEq, Prod.mk.injEq] at hnext
      rw [← hnext.2]
      obtain ⟨f1, f2, f3⟩ := next_direction_of_record_fields p q e hq
      by_cases hin : path_id < a.size
      · exact pool_slots_set P a _ _ h (hP.same p q f1 f2 f3 (h.2 path_id p hin hp))
      · refine ⟨by simpa using h.1, ?_⟩
        intro j s hj hs
        have hj2 : j < a.size := hj
        simp only [List.get?_eq_getElem?] at hs
        rw [List.getElem?_set_ne (by omega)] at hs
        exact h.2 j s hj2 (by rw [List.get?_eq_getElem?]; exact hs)

theorem update_current_tile_fields (figures : List figure) (p q : figure_path_data)
    (h : update_current_tile figures p = some q) :
    q.figure_id = p.figure_id ∧ q.directions = p.directions ∧
      q.total_directions = p.total_directions := by
  unfold update_current_tile at h
  split at h
  · simp only [Option.some.injEq] at h
    rw [← h]
    exact ⟨rfl, rfl, rfl⟩
  · simp only at h
    split at h
    · simp only [Option.some.injEq] at h
      rw [← h]
      exact ⟨rfl, rfl, rfl⟩
    · split at h
      · cases h
      · simp only [Option.some.injEq] at h
        rw [← h]
        exact ⟨rfl, rfl, rfl⟩

theorem convert_fold_total (l : List Nat) :
    ∀ c : Conversion,
      (l.foldl convert_step c).total_direction_changes ≤ c.total_direction_changes + l.length ∧
      (l.foldl convert_step c).new_directions.length = c.new_directions.length := by
  induction l with
  | nil =>
    intro c
    exact ⟨by simp, rfl⟩
  | cons d l ih =>
    intro c
    obtain ⟨i1, i2⟩ := ih (convert_step c d)
    have hs : (convert_step c d).total_direction_changes ≤ c.total_direction_changes + 1 ∧
        (convert_step c d).new_directions.length = c.new_directions.length := by
      unfold convert_step
      split
      · exact ⟨le_refl _, by simp⟩
      · exact ⟨by simp, by simp⟩
    rw [List.foldl_cons]
    refine ⟨?_, i2.trans hs.2⟩
    simp only [List.length_cons]
    omega

/-- The record after a conversion without allocation failure: it owns a buffer of
`total_directions` entries, or it is the record that was passed in. -/
theorem convert_old_directions_buffer (figures : List figure) (path q : figure_path_data)
    (directions : List Nat) (ok : Int)
    (h : convert_old_directions_to_new_format alloc_ok figures path directions = some (ok, q)) :
    ok = 1 ∧ (q = path ∨ (q.figure_id = path.figure_id ∧ OwnsBuffer q)) := by
  unfold convert_old_directions_to_new_format at h
  split at h
  · simp only [Option.some.injEq, Prod.mk.injEq] at h
    exact ⟨h.1.symm, Or.inl h.2.symm⟩
  · rename_i f _
    simp only at h
    split at h
    · simp only [Option.some.injEq, Prod.mk.injEq] at h
      exact ⟨h.1.symm, Or.inl h.2.symm⟩
    · split at h
      · rename_i hb
        simp only [alloc_ok, Bool.not_true, Bool.false_eq_true, if_false, Option.some.injEq,
          Prod.mk.injEq] at h
        refine ⟨h.1.symm, Or.inr ?_⟩
        rw [← h.2]
        refine ⟨rfl, _, rfl, ?_⟩
        obtain ⟨t1, t2⟩ := convert_fold_total (directions.take f.routing_path_length.toNat)
          ⟨List.replicate MAX_ORIGINAL_PATH_LENGTH 0, -1, 0, 0⟩
        simp only [List.length_take, List.length_replicate] at t1 t2 ⊢
        omega
      · cases h
theorem buffer_read_raw_length (buf : List Nat) (size : Nat) :
    (buffer_read_raw buf size).1.length = size := by
  unfold buffer_read_raw
  simp only [List.length_take, List.length_append, List.length_replicate]
  omega

/-- The record one iteration of the load loop reads, without allocation failure:
the iteration goes on and the record has the property `P`; in the legacy format
`P` has to hold for records without a buffer and with `total_directions` 0. -/
theorem load_record_slot (P : figure_path_data → Prop) (hP : SlotProperty P)
    (figure_table : List figure) (legacy : Bool) (path path1 : figure_path_data)
    (figures buf_paths f1 b1 : List Nat) (flag : Bool)
    (hnew : path.directions = none ∧ path.total_directions = 0)
    (hempty : legacy = true → ∀ p, p.directions = none → p.total_directions = 0 → P p)
    (h : load_record alloc_ok figure_table legacy path figures buf_paths =
      some (flag, path1, f1, b1)) :
    flag = true ∧ P path1 := by
  unfold load_record at h
  split at h
  · rename_i hleg
    simp only at h
    split at h
    · split at h
      · cases h
      · rename_i ok path2 hconv
        simp only [Option.some.injEq, Prod.mk.injEq] at h
        obtain ⟨c1, c2⟩ := convert_old_directions_buffer _ _ _ _ _ hconv
        refine ⟨by rw [← h.1, c1]; decide, ?_⟩
        rw [← h.2.1]
        rcases c2 with heq | ⟨_, buf, hb, hl⟩
        · rw [heq]
          exact hempty hleg _ hnew.1 hnew.2
        · exact hP.full _ buf hb hl
    · rename_i hz
      simp only [Option.some.injEq, Prod.mk.injEq] at h
      refine ⟨h.1.symm, ?_⟩
      rw [← h.2.1]
      exact hP.free _ (by simpa using hz)
  · simp only at h
    split at h
    · simp only [alloc_ok, Bool.not_true, Bool.false_eq_true, if_false, Option.some.injEq,
        Prod.mk.injEq] at h
      refine ⟨h.1.symm, ?_⟩
      rw [← h.2.1]
      exact hP.full _ _ rfl (buffer_read_raw_length _ _)
    · rename_i hz
      simp only [Option.some.injEq, Prod.mk.injEq] at h
      refine ⟨h.1.symm, ?_⟩
      rw [← h.2.1]
      exact hP.free _ (by simpa using hz)

theorem pool_slots_load_element (P : figure_path_data → Prop) (hP : SlotProperty P)
    (figure_table : List figure) (legacy : Bool) (st st1 : Loading) (flag : Bool)
    (hempty : legacy = true → ∀ p, p.directions = none → p.total_directions = 0 → P p)
    (h : PoolSlots P st.paths)
    (hload : load_element alloc_ok figure_table legacy st = some (flag, st1)) :
    PoolSlots P st1.paths := by
  have hadv : array_advance alloc_ok st.paths = some (array_next st.paths) := rfl
  obtain ⟨hn, _⟩ := pool_slots_advance P hP alloc_ok st.paths _ _ h hadv
  obtain ⟨_, _, _, _, hget, _⟩ := array_advance_some alloc_ok st.paths _ _ h.1 hadv
  have hget2 : (array_next st.paths).2.items.get? (array_next st.paths).1 =
      some (create_new_path zero_path st.paths.size) := hget
  unfold load_element at hload
  simp only [hget2] at hload
  cases hrec : load_record alloc_ok figure_table legacy (create_new_path zero_path st.paths.size)
      st.figures st.buf_paths with
  | none => rw [hrec] at hload; cases hload
  | some r =>
    obtain ⟨fl, path1, f1, b1⟩ := r
    obtain ⟨hfl, hp1⟩ := load_record_slot P hP figure_table legacy _ _ _ _ _ _ _
      ⟨rfl, rfl⟩ hempty hrec
    subst hfl
    rw [hrec] at hload
    simp only at hload
    split at hload
    · cases hup : update_current_tile figure_table path1 with
      | none => rw [hup] at hload; cases hload
      | some path2 =>
        rw [hup] at hload
        simp only [Option.some.injEq, Prod.mk.injEq] at hload
        rw [← hload.2]
        obtain ⟨u1, u2, u3⟩ := update_current_tile_fields _ _ _ hup
        exact pool_slots_set P _ _ _ hn (hP.same _ _ u1 u2 u3 hp1)
    · simp only [Option.some.injEq, Prod.mk.injEq] at hload
      rw [← hload.2]
      exact pool_slots_set P _ _ _ hn hp1

theorem pool_slots_load_elements (P : figure_path_data → Prop) (hP : SlotProperty P)
    (figure_table : List figure) (legacy : Bool)
    (hempty : legacy = true → ∀ p, p.directions = none → p.total_directions = 0 → P p) :
    ∀ (fuel : Nat) (st st1 : Loading) (flag : Bool), PoolSlots P st.paths →
      load_elements alloc_ok figure_table legacy fuel st = some (flag, st1) →
      PoolSlots P st1.paths := by
  intro fuel
  induction fuel with
  | zero =>
    intro st st1 flag h hl
    simp only [load_elements, Option.some.injEq, Prod.mk.injEq] at hl
    rw [← hl.2]
    exact h
  | succ fuel ih =>
    intro st st1 flag h hl
    rw [load_elements] at hl
    cases he : load_element alloc_ok figure_table legacy st with
    | none => rw [he] at hl; cases hl
    | some r =>
      obtain ⟨fl, st2⟩ := r
      have h2 := pool_slots_load_element P hP figure_table legacy st st2 fl hempty h he
      rw [he] at hl
      cases fl with
      | false =>
        simp only [Option.some.injEq, Prod.mk.injEq] at hl
        rw [← hl.2]
        exact h2
      | true => exact ih st2 st1 flag h2 hl

theorem pool_slots_load (P : figure_path_data → Prop) (hP : SlotProperty P)
    (figure_table : List figure) (SAVE_GAME_LAST_STATIC_PATHS_AND_ROUTES version : Int)
    (paths loaded : Pool) (figures buf_paths : List Nat)
    (hempty : version ≤ SAVE_GAME_LAST_STATIC_PATHS_AND_ROUTES →
      ∀ p, p.directions = none → p.total_directions = 0 → P p)
    (h : figure_route_load_state alloc_ok figure_table SAVE_GAME_LAST_STATIC_PATHS_AND_ROUTES
      paths figures buf_paths version = some loaded) :
    PoolSlots P loaded := by
  unfold figure_route_load_state at h
  simp only [array_init, array_expand, alloc_ok, if_true, Option.some_bind] at h
  have hstart : PoolSlots P ⟨[], 0, 1⟩ := ⟨by simp, fun i p hi _ => absurd hi (by simp)⟩
  split at h
  · cases h
  · rename_i st hl
    simp only [Option.some.injEq] at h
    rw [← h]
    exact pool_slots_load_elements P hP figure_table _ (by simpa using hempty) _ _ _ _ hstart hl
  · rename_i st hl
    simp only [Option.some.injEq] at h
    rw [← h]
    exact pool_slots_trim P _
      (pool_slots_load_elements P hP figure_table _ (by simpa using hempty) _ _ _ _ hstart hl)
/-- A property of slots that the operations keep holds in every reachable
pool. -/
theorem reachable_slots (P : figure_path_data → Prop) (hP : SlotProperty P)
    (legacy_loads : Bool)
    (hempty : legacy_loads = true → ∀ p, p.directions = none → p.total_directions = 0 → P p)
    (a : Pool) (h : Reachable legacy_loads a) : PoolSlots P a := by
  induction h with
  | empty => exact ⟨by simp, fun i p hi _ => absurd hi (by simp)⟩
  | add alloc r random_byte fuel m s paths f out _ hadd ih =>
    exact pool_slots_add P hP alloc r random_byte fuel ⟨m, s, paths⟩ f out ih hadd
  | remove paths f out _ hrem ih => exact pool_slots_remove P hP paths f out ih hrem
  | clean figures paths _ ih => exact pool_slots_clean P hP paths figures ih
  | clear_all paths _ _ => exact pool_slots_clear_all P paths
  | next paths path_id d items _ hnext ih => exact pool_slots_next P hP paths path_id d items ih hnext
  | load figure_table last version paths loaded figures buf_paths _ hver hload _ =>
    refine pool_slots_load P hP figure_table last version paths loaded figures buf_paths ?_ hload
    intro hle
    rcases hver with hl | hl
    · exact hempty hl
    · omega

set_option maxRecDepth 100000 in
/-- C24 (as stated, refuted). A load in the legacy format of two blocks whose
owners are 0 and 1, with a figure 1 whose `routing_path_length` is 0, leaves a
pool whose slot 1 has `figure_id` 1, no direction buffer and `total_directions`
0: `convert_old_directions_to_new_format` returns at its guard and the slot
keeps its owner. -/
theorem ownership_invariant_counterexample :
    figure_route_load_state alloc_ok (loaded_figures 0 0) 0 ⟨[], 0, 0⟩ [0, 0, 1, 0]
        (List.replicate 1000 0) 0 =
      some ⟨[zero_path, ⟨1, 1, 0, none, 0, 0⟩], 2, 1⟩ ∧
    Reachable true ⟨[zero_path, ⟨1, 1, 0, none, 0, 0⟩], 2, 1⟩ ∧
    ¬ PoolSlots Owned ⟨[zero_path, ⟨1, 1, 0, none, 0, 0⟩], 2, 1⟩ := by
  have hload : figure_route_load_state alloc_ok (loaded_figures 0 0) 0 ⟨[], 0, 0⟩ [0, 0, 1, 0]
      (List.replicate 1000 0) 0 = some ⟨[zero_path, ⟨1, 1, 0, none, 0, 0⟩], 2, 1⟩ := by
    decide
  refine ⟨hload, Reachable.load _ _ _ _ _ _ _ Reachable.empty (Or.inl rfl) hload, ?_⟩
  intro h
  obtain ⟨buf, hb, _⟩ := h.2 1 ⟨1, 1, 0, none, 0, 0⟩ (by decide) rfl (by decide)
  cases hb

/-- C24 (amended). Ownership invariant: in every pool reachable from the empty
pool through `figure_route_add`, `figure_route_remove`, `figure_route_clean`,
`figure_route_clear_all`, `figure_route_get_next_direction` and
`figure_route_load_state` (loads without allocation failure), every slot of the
pool with `figure_id != 0` has a direction buffer of exactly `total_directions`
entries, or no buffer at all and `total_directions` 0; the second case needs a
load in the legacy format among the steps: without one every slot with
`figure_id != 0` has a buffer of exactly `total_directions` entries. -/
theorem ownership_invariant (legacy_loads : Bool) (a : Pool)
    (h : Reachable legacy_loads a) :
    PoolSlots OwnedOrEmpty a ∧ (legacy_loads = false → PoolSlots Owned a) := by
  constructor
  · refine reachable_slots OwnedOrEmpty owned_or_empty_slot_property legacy_loads ?_ a h
    intro _ p h1 h2 _
    exact Or.inr ⟨h1, h2⟩
  · intro hl
    refine reachable_slots Owned owned_slot_property legacy_loads ?_ a h
    intro ht
    rw [hl] at ht
    cases ht

/-- The pool after the first request of `walker` on `first_state`: slot 1 belongs
to figure 7 and holds the two entries 128, 160. -/
theorem ownership_invariant_witness :
    PoolSlots OwnedOrEmpty ⟨[zero_path, ⟨1, 7, 2, some [128, 160], 0, 0⟩], 2, 1⟩ ∧
    (false = false → PoolSlots Owned ⟨[zero_path, ⟨1, 7, 2, some [128, 160], 0, 0⟩], 2, 1⟩) :=
  ownership_invariant false ⟨[zero_path, ⟨1, 7, 2, some [128, 160], 0, 0⟩], 2, 1⟩
    (Reachable.add alloc_ok open_routing 0 3 highway_diagonal_map small_scratch ⟨[], 0, 0⟩
      walker
      { state := { map := highway_diagonal_map, scratch := diagonal_outcome.scratch,
                   paths := ⟨[zero_path, ⟨1, 7, 2, some [128, 160], 0, 0⟩], 2, 1⟩ },
        f := { walker with routing_path_id := 1, routing_path_length := 2 },
        path_length := 2 }
      Reachable.empty rfl)

/-! ## The ring slice at the right edge -/

set_option maxRecDepth 100000 in
/-- C27 (code defect). On the map of 160 by 160 tiles the ring of radii 0 and 3
around tile `(159, 5)` (offset 1132) holds the offset 1135: the loop takes
`x = 162` for a column of the grid, since it skips `x > GRID_SIZE` only, and the
offset wraps to column 0 of the next row. The offset is valid, but its chess
distance from the centre is 159, not at most 3. The same holds for
`map_grid_get_grid_slice_from_center`. -/
theorem ring_slice_wraps :
    map_grid_offset_to_x large_map 1132 = 159 ∧ map_grid_offset_to_y large_map 1132 = 5 ∧
    1135 ∈ map_grid_get_grid_slice_ring large_map 1132 0 3 ∧
    1135 ∈ map_grid_get_grid_slice_from_center large_map 1132 3 ∧
    map_grid_is_valid_offset 1135 = true ∧
    map_grid_chess_distance large_map 1132 1135 = 159 := by
  decide

/-! ## C26: the skip of a malformed formula record -/

theorem save_formula_append (L : Nat) (buf : List Nat) (id : Nat) (f : scenario_formula_t) :
    save_formula L buf id f = buf ++ save_formula L [] id f := by
  simp only [save_formula, buffer_write_i32, buffer_write_u32, buffer_write_u8, buffer_write_raw,
    List.append_assoc, List.nil_append]

/-- The bytes of the buffer `malformed_formulas`: after the header and the id
`MAX_FORMULAS`, a payload of `MAX_FORMULA_LENGTH + 14` zero bytes. -/
theorem malformed_formulas_bytes (M L : Nat) (good : scenario_formula_t) :
    malformed_formulas M L good =
      u32_bytes 2 ++ (u32_bytes (4 + L + 4 + 2 + 4 * 2) ++ (u32_bytes M ++
        (List.replicate (L + 4) 0 ++ (List.replicate 10 0 ++ save_formula L [] 1 good)))) := by
  unfold malformed_formulas
  rw [save_formula_append L _ 1 good]
  have h : List.replicate (L + 4) 0 = List.replicate L 0 ++ [0, 0, 0, 0] := by
    rw [List.replicate_add]
    rfl
  rw [h]
  simp [save_formula, buffer_write_i32, buffer_write_u32, buffer_write_u8, buffer_write_raw,
    buffer_init_dynamic_array, zero_formula, u32_bytes, List.append_assoc]

theorem load_formula_malformed (M L : Nat) (rest : List Nat) (table : List scenario_formula_t)
    (hM : M < 4294967296) :
    load_formula M L ⟨u32_bytes M ++ (List.replicate (L + 4) 0 ++ rest), table, 0, []⟩ =
      ⟨rest, table, 0, [M]⟩ := by
  unfold load_formula
  simp only [buffer_read_u32_bytes M _ hM]
  rw [if_pos (le_refl M)]
  have h := buffer_skip_bytes (List.replicate (L + 4) 0) rest
  rw [List.length_replicate] at h
  simp only [h, List.nil_append]

theorem load_formula_zero_id (M L : Nat) (rest : List Nat) (table : List scenario_formula_t)
    (stray : List Nat) (hM : 2 ≤ M) :
    (load_formula M L ⟨List.replicate 10 0 ++ rest, table, 0, stray⟩).max_id = 0 ∧
    (load_formula M L ⟨List.replicate 10 0 ++ rest, table, 0, stray⟩).stray_writes = stray ∧
    (load_formula M L ⟨List.replicate 10 0 ++ rest, table, 0, stray⟩).scenario_formulas.getD 1
      (zero_formula L) = table.getD 1 (zero_formula L) := by
  have hr : (buffer_read_u32 (List.replicate 10 0 ++ rest)).1 = 0 := by
    simp [buffer_read_u32, List.replicate]
  have hn : ¬ (0 ≥ M) := by omega
  unfold load_formula
  simp only [hr]
  rw [if_neg hn]
  refine ⟨by simp, rfl, ?_⟩
  simp [List.getD_eq_getElem?_getD, List.getElem?_set]

/-- C26 (code defect). The buffer `malformed_formulas` holds two records as
`formulas_save_state` writes them: one with the id `MAX_FORMULAS` and the
record of the formula `good` with id 1. `formulas_load_state` skips
`MAX_FORMULA_LENGTH + 4` bytes of the first payload, which has
`MAX_FORMULA_LENGTH + 14` bytes, and reads the next id from the 10 bytes that
are left: the formula 1 is never loaded, its entry stays zero,
`scenario_formulas_size` ends as 0, and the id `MAX_FORMULAS` was written
outside the table before the guard. -/
theorem malformed_record_skip (MAX_FORMULAS MAX_FORMULA_LENGTH : Nat) (good : scenario_formula_t)
    (hlow : 2 ≤ MAX_FORMULAS) (hhigh : MAX_FORMULAS < 4294967296) :
    (formulas_load_state MAX_FORMULAS MAX_FORMULA_LENGTH
        (malformed_formulas MAX_FORMULAS MAX_FORMULA_LENGTH good)).scenario_formulas.getD 1
      (zero_formula MAX_FORMULA_LENGTH) = zero_formula MAX_FORMULA_LENGTH ∧
    (formulas_load_state MAX_FORMULAS MAX_FORMULA_LENGTH
        (malformed_formulas MAX_FORMULAS MAX_FORMULA_LENGTH good)).max_id = 0 ∧
    (formulas_load_state MAX_FORMULAS MAX_FORMULA_LENGTH
        (malformed_formulas MAX_FORMULAS MAX_FORMULA_LENGTH good)).stray_writes =
      [MAX_FORMULAS] := by
  have hload : formulas_load_state MAX_FORMULAS MAX_FORMULA_LENGTH
      (malformed_formulas MAX_FORMULAS MAX_FORMULA_LENGTH good) =
      load_formula MAX_FORMULAS MAX_FORMULA_LENGTH
        ⟨List.replicate 10 0 ++ save_formula MAX_FORMULA_LENGTH [] 1 good,
          List.replicate MAX_FORMULAS (zero_formula MAX_FORMULA_LENGTH), 0, [MAX_FORMULAS]⟩ := by
    rw [malformed_formulas_bytes]
    unfold formulas_load_state buffer_load_dynamic_array
    simp only [buffer_read_u32_bytes 2 _ (by decide)]
    have h2 : ∀ rest : List Nat,
        (buffer_read_u32 (u32_bytes (4 + MAX_FORMULA_LENGTH + 4 + 2 + 4 * 2) ++ rest)).2 =
          rest := fun rest => rfl
    rw [h2]
    simp only [load_formulas]
    rw [load_formula_malformed MAX_FORMULAS MAX_FORMULA_LENGTH _ _ hhigh]
  rw [hload]
  obtain ⟨h1, h2, h3⟩ := load_formula_zero_id MAX_FORMULAS MAX_FORMULA_LENGTH
    (save_formula MAX_FORMULA_LENGTH [] 1 good)
    (List.replicate MAX_FORMULAS (zero_formula MAX_FORMULA_LENGTH)) [MAX_FORMULAS] hlow
  refine ⟨?_, h1, h2⟩
  rw [h3]
  rw [List.getD_eq_getElem?_getD, List.getElem?_replicate, if_pos (by omega)]
  rfl

/-- C26: the load at `MAX_FORMULAS = 3`, `MAX_FORMULA_LENGTH = 16` and a
formula with the text `"5"` and the evaluation 5. -/
theorem malformed_record_skip_witness :
    2 ≤ 3 ∧ 3 < 4294967296 ∧
    (formulas_load_state 3 16
        (malformed_formulas 3 16 ⟨1, 53 :: List.replicate 15 0, 5, 1, 0, 5, 5⟩)).scenario_formulas.getD
      1 (zero_formula 16) = zero_formula 16 ∧
    (formulas_load_state 3 16
        (malformed_formulas 3 16 ⟨1, 53 :: List.replicate 15 0, 5, 1, 0, 5, 5⟩)).max_id = 0 ∧
    (formulas_load_state 3 16
        (malformed_formulas 3 16 ⟨1, 53 :: List.replicate 15 0, 5, 1, 0, 5, 5⟩)).stray_writes =
      [3] :=
  ⟨by decide, by decide,
    malformed_record_skip 3 16 ⟨1, 53 :: List.replicate 15 0, 5, 1, 0, 5, 5⟩ (by decide)
      (by decide)⟩

/-- What `map_grid_get_grid_slice_ring` asks of a cell before it adds its
offset to the slice. -/
theorem ring_body_mem (m : Map) (center_x center_y inner_radius outer_radius : Int)
    (Q : Int → Prop)
    (hQ : ∀ dx dy : Int,
      inner_radius < (if dx.natAbs > dy.natAbs then (dx.natAbs : Int) else dy.natAbs) →
      (if dx.natAbs > dy.natAbs then (dx.natAbs : Int) else dy.natAbs) ≤ outer_radius →
      0 ≤ center_x + dx → 0 ≤ center_y + dy →
      center_x + dx ≤ GRID_SIZE → center_y + dy ≤ GRID_SIZE →
      map_grid_is_valid_offset (map_grid_offset m (center_x + dx) (center_y + dy)) = true →
      Q (map_grid_offset m (center_x + dx) (center_y + dy)))
    (st : List Int × Bool) (c : Int × Int) (h : ∀ o ∈ st.1, Q o) :
    ∀ o ∈ (ring_body m center_x center_y inner_radius outer_radius st c).1, Q o := by
  unfold ring_body
  by_cases h1 : st.2 = true
  · rw [if_pos h1]
    exact h
  rw [if_neg h1]
  by_cases h2 : st.1.length ≥ MAX_SLICE_SIZE
  · rw [if_pos h2]
    exact h
  rw [if_neg h2]
  simp only []
  by_cases hd : (if c.2.natAbs > c.1.natAbs then (c.2.natAbs : Int) else c.1.natAbs) >
      inner_radius ∧
      (if c.2.natAbs > c.1.natAbs then (c.2.natAbs : Int) else c.1.natAbs) ≤ outer_radius
  · rw [if_pos hd]
    by_cases hlow : center_x + c.2 < 0 ∨ center_y + c.1 < 0
    · rw [if_pos hlow]
      exact h
    rw [if_neg hlow]
    by_cases hhigh : center_x + c.2 > GRID_SIZE ∨ center_y + c.1 > GRID_SIZE
    · rw [if_pos hhigh]
      exact h
    rw [if_neg hhigh]
    by_cases hv : map_grid_is_valid_offset (map_grid_offset m (center_x + c.2)
        (center_y + c.1)) = true
    · rw [if_pos hv]
      intro o ho
      rw [List.mem_append, List.mem_singleton] at ho
      rcases ho with ho | ho
      · exact h o ho
      · rw [ho]
        exact hQ c.2 c.1 hd.1 hd.2 (by omega) (by omega) (by omega) (by omega) hv
    · rw [if_neg hv]
      exact h
  · rw [if_neg hd]
    exact h

theorem ring_fold_mem (m : Map) (center_x center_y inner_radius outer_radius : Int)
    (Q : Int → Prop)
    (hQ : ∀ dx dy : Int,
      inner_radius < (if dx.natAbs > dy.natAbs then (dx.natAbs : Int) else dy.natAbs) →
      (if dx.natAbs > dy.natAbs then (dx.natAbs : Int) else dy.natAbs) ≤ outer_radius →
      0 ≤ center_x + dx → 0 ≤ center_y + dy →
      center_x + dx ≤ GRID_SIZE → center_y + dy ≤ GRID_SIZE →
      map_grid_is_valid_offset (map_grid_offset m (center_x + dx) (center_y + dy)) = true →
      Q (map_grid_offset m (center_x + dx) (center_y + dy)))
    (cells : List (Int × Int)) :
    ∀ st : List Int × Bool, (∀ o ∈ st.1, Q o) →
      ∀ o ∈ (cells.foldl (ring_body m center_x center_y inner_radius outer_radius) st).1,
        Q o := by
  induction cells with
  | nil => intro st h; exact h
  | cons c cells ih =>
    intro st h
    rw [List.foldl_cons]
    exact ih _ (ring_body_mem m center_x center_y inner_radius outer_radius Q hQ st c h)

/-- The coordinates of the offset of a tile in a column below `GRID_SIZE`. -/
theorem map_grid_offset_coordinates (m : Map) (x y : Int) (hx : 0 ≤ x) (hx2 : x < GRID_SIZE)
    (hy : 0 ≤ y) :
    map_grid_offset_to_x m (map_grid_offset m x y) = x ∧
    map_grid_offset_to_y m (map_grid_offset m x y) = y := by
  unfold map_grid_offset_to_x map_grid_offset_to_y map_grid_offset GRID_SIZE
  unfold GRID_SIZE at hx2
  have e : m.start_offset + x + y * 162 - m.start_offset = x + y * 162 := by omega
  rw [e]
  have hn : 0 ≤ x + y * 162 := by omega
  rw [Int.tmod_eq_emod hn (by omega), Int.tdiv_eq_ediv hn (by omega)]
  constructor <;> omega

/-- Away from the column `GRID_SIZE` the ring slice is as documented: every
offset of the slice is valid, and when the column of the centre plus the outer
radius stays below `GRID_SIZE`, its chess distance from the centre is above the
inner radius and at most the outer radius. -/
theorem ring_slice_inside (m : Map) (center_grid_offset inner_radius outer_radius : Int) :
    ∀ o ∈ map_grid_get_grid_slice_ring m center_grid_offset inner_radius outer_radius,
      map_grid_is_valid_offset o = true ∧
      (map_grid_offset_to_x m center_grid_offset + outer_radius < GRID_SIZE →
        inner_radius < map_grid_chess_distance m center_grid_offset o ∧
        map_grid_chess_distance m center_grid_offset o ≤ outer_radius) := by
  intro o ho
  unfold map_grid_get_grid_slice_ring allocate_grid_slice_memory_from_offsets at ho
  have ho2 := List.mem_of_mem_take ho
  refine ring_fold_mem m (map_grid_offset_to_x m center_grid_offset)
    (map_grid_offset_to_y m center_grid_offset) inner_radius outer_radius
    (fun o => map_grid_is_valid_offset o = true ∧
      (map_grid_offset_to_x m center_grid_offset + outer_radius < GRID_SIZE →
        inner_radius < map_grid_chess_distance m center_grid_offset o ∧
        map_grid_chess_distance m center_grid_offset o ≤ outer_radius))
    ?_ (ring_cells outer_radius) ([], false) (by simp) o ho2
  intro dx dy hin hout hx hy _ _ hv
  refine ⟨hv, fun hedge => ?_⟩
  have hdx : (dx.natAbs : Int) ≤ outer_radius := by
    split at hout <;> omega
  have hx2 : map_grid_offset_to_x m center_grid_offset + dx < GRID_SIZE := by omega
  obtain ⟨e1, e2⟩ := map_grid_offset_coordinates m _ _ hx hx2 hy
  have hd : map_grid_chess_distance m center_grid_offset
      (map_grid_offset m (map_grid_offset_to_x m center_grid_offset + dx)
        (map_grid_offset_to_y m center_grid_offset + dy)) =
      (if dx.natAbs > dy.natAbs then (dx.natAbs : Int) else dy.natAbs) := by
    unfold map_grid_chess_distance
    simp only [e1, e2, add_sub_cancel_left]
    norm_cast
  rw [hd]
  exact ⟨hin, hout⟩

/-! ## Direction deltas and grid addressing -/

/-- A step of a walk keeps `grid_offset == map_grid_offset(x, y)`. -/
theorem advance_keeps_offset (m : Map) (select : Int → Int → Best)
    (hsel : ∀ g l, (select g l).direction = -1 ∨
      (0 ≤ (select g l).direction ∧ (select g l).direction ≤ 7 ∧ (select g l).direction ≠ l))
    (w w1 : Pos) (h : advance select w = some w1)
    (hw : w.grid_offset = map_grid_offset m w.x w.y) :
    w1.grid_offset = map_grid_offset m w1.x w1.y := by
  obtain ⟨hne, -, -, hg, -⟩ := advance_some select w w1 h
  obtain ⟨hx, hy⟩ := advance_xy select w w1 h
  rcases hsel w.grid_offset w.last_direction with h1 | ⟨h0, h7, -⟩
  · exact absurd h1 hne
  obtain ⟨ux, uy, -, -, -, -, -, -, hadj, hdelta⟩ :=
    adjust_tile_vector (select w.grid_offset w.last_direction).direction w.x w.y w.grid_offset
      h0 h7
  rw [hadj] at hx hy
  simp only at hx hy
  rw [hg, hx, hy, hdelta, hw, map_grid_offset_add]

/-- C36. Direction deltas are consistent and opposite directions cancel: for a
direction `d` in `0..7` the deltas of `d` and of `(d + 4) % 8` add up to 0, and
`adjust_tile_in_direction` moves `(x, y)` by a unit vector `(dx, dy)` with
`map_grid_direction_delta(d) == map_grid_delta(dx, dy)`, so that
`grid_offset == map_grid_offset(x, y)` still holds after it, and after every
step of the land walk and of the water walk; for `d` outside `0..7` the delta
is 0. -/
theorem direction_deltas_cancel (m : Map) (d x y : Int) :
    (0 ≤ d → d ≤ 7 →
      map_grid_direction_delta d + map_grid_direction_delta (Int.tmod (d + 4) 8) = 0 ∧
      ∃ dx dy : Int, -1 ≤ dx ∧ dx ≤ 1 ∧ -1 ≤ dy ∧ dy ≤ 1 ∧ (dx ≠ 0 ∨ dy ≠ 0) ∧
        map_grid_direction_delta d = map_grid_delta dx dy ∧
        ∀ grid_offset, adjust_tile_in_direction d x y grid_offset =
            (x + dx, y + dy, grid_offset + map_grid_delta dx dy) ∧
          (grid_offset = map_grid_offset m x y →
            (adjust_tile_in_direction d x y grid_offset).2.2 =
              map_grid_offset m (adjust_tile_in_direction d x y grid_offset).1
                (adjust_tile_in_direction d x y grid_offset).2.1)) ∧
    ((d < 0 ∨ 7 < d) → map_grid_direction_delta d = 0) ∧
    (∀ (num_directions : Int) (random_byte : Nat) (is_flotsam : Bool) (w w1 : Pos),
      w.grid_offset = map_grid_offset m w.x w.y →
      (advance (land_select m (direction_step num_directions)) w = some w1 ∨
        advance (water_select m (random_byte &&& 3) is_flotsam) w = some w1) →
      w1.grid_offset = map_grid_offset m w1.x w1.y) := by
  refine ⟨fun h0 h7 => ⟨direction_delta_opposite d h0 h7, ?_⟩, ?_, ?_⟩
  · obtain ⟨ux, uy, h1, h2, h3, h4, h5, -, hadj, hdelta⟩ := adjust_tile_vector d x y 0 h0 h7
    have hdelta2 : map_grid_direction_delta d = map_grid_delta ux uy := by
      rw [hdelta]
      unfold map_grid_delta
      ring
    have hg : ∀ g, adjust_tile_in_direction d x y g =
        ((adjust_tile_in_direction d x y 0).1, (adjust_tile_in_direction d x y 0).2.1,
          g + map_grid_direction_delta d) := fun g => rfl
    refine ⟨ux, uy, h1, h2, h3, h4, h5, hdelta2, fun g => ?_⟩
    have hadj2 : adjust_tile_in_direction d x y g = (x + ux, y + uy, g + map_grid_delta ux uy) := by
      rw [hg g, hadj, hdelta2]
    refine ⟨hadj2, fun hoff => ?_⟩
    rw [hadj2]
    simp only
    rw [hoff, ← hdelta2, hdelta, map_grid_offset_add]
  · intro h
    unfold map_grid_direction_delta
    rw [if_neg (by omega)]
  · intro num_directions random_byte is_flotsam w w1 hw h
    rcases h with h | h
    · exact advance_keeps_offset m _ (land_select_not_last m num_directions) w w1 h hw
    · exact advance_keeps_offset m _
        (water_select_not_last m (random_byte &&& 3) is_flotsam) w w1 h hw

/-- C36 at direction 1 on the tile `(3, 4)` of `large_map`. -/
theorem direction_deltas_cancel_witness :
    map_grid_direction_delta 1 + map_grid_direction_delta (Int.tmod (1 + 4) 8) = 0 ∧
    map_grid_direction_delta 9 = 0 :=
  ⟨((direction_deltas_cancel large_map 1 3 4).1 (by decide) (by decide)).1,
   (direction_deltas_cancel large_map 9 3 4).2.1 (Or.inr (by decide))⟩

/-- C39. Grid addressing round trip: for every start offset, every `x` with
`0 <= x < GRID_SIZE` and every `y >= 0`, `map_grid_offset_to_x` and
`map_grid_offset_to_y` of `map_grid_offset(x, y)` are `x` and `y`. -/
theorem grid_addressing_round_trip (m : Map) (x y : Int) (hx : 0 ≤ x) (hx2 : x < GRID_SIZE)
    (hy : 0 ≤ y) :
    map_grid_offset_to_x m (map_grid_offset m x y) = x ∧
    map_grid_offset_to_y m (map_grid_offset m x y) = y :=
  map_grid_offset_coordinates m x y hx hx2 hy

/-- C39 on the tile `(161, 7)` of `large_map`. -/
theorem grid_addressing_round_trip_witness :
    map_grid_offset_to_x large_map (map_grid_offset large_map 161 7) = 161 ∧
    map_grid_offset_to_y large_map (map_grid_offset large_map 161 7) = 7 :=
  grid_addressing_round_trip large_map 161 7 (by decide) (by decide) (by decide)
/-! ## The random byte of the water walk -/

/-- Without flotsam the test `rand == current_rand` compares `rand` with itself. -/
theorem water_consider_same_rand (m : Map) (rand rand2 : Nat) (g last : Int) (b : Best)
    (d : Int) :
    water_consider m rand rand g last b d = water_consider m rand2 rand2 g last b d := by
  unfold water_consider
  simp only [and_true]

theorem water_select_no_flotsam (m : Map) (rand rand2 : Nat) :
    water_select m rand false = water_select m rand2 false := by
  funext g last
  unfold water_select
  simp only [Bool.false_eq_true, if_false]
  have h : water_consider m rand rand g last = water_consider m rand2 rand2 g last := by
    funext b d
    exact water_consider_same_rand m rand rand2 g last b d
  rw [h]

/-- C34. For an agent that is not flotsam (`is_flotsam == 0`) the result of
`map_routing_get_path_on_water` does not depend on the value that
`random_byte()` returns: two calls that differ only in that value return
alike, with the same tile count, the same record (its packed directions
included), the same accumulator and through the same `return`. -/
theorem water_path_ignores_random_byte (alloc : Nat → Bool) (m : Map)
    (random_byte random_byte2 : Nat) (s : Directions) (path : Option figure_path_data)
    (dst_x dst_y : Int) (fuel : Nat) :
    map_routing_get_path_on_water alloc m random_byte s path dst_x dst_y false fuel =
      map_routing_get_path_on_water alloc m random_byte2 s path dst_x dst_y false fuel := by
  unfold map_routing_get_path_on_water
  simp only [water_select_no_flotsam m (random_byte &&& 3) (random_byte2 &&& 3)]
/-! ## Freed slots and live bindings -/

/-- The slot `i` after `figure_route_clean`. -/
theorem figure_route_clean_get (figures : List figure) (paths : Pool) (i : Nat) :
    (figure_route_clean figures paths).items.get? i =
      (paths.items.get? i).map
        (fun p => if i < paths.size then clean_slot figures i p else p) := by
  unfold figure_route_clean
  rw [array_trim_items]
  simp only
  rw [foreach_slot_get, Nat.zero_add]

/-- A call of `figure_route_get_next_direction` on a slot that `free_path` has
released. -/
theorem next_direction_of_freed (paths : List figure_path_data) (path_id : Nat)
    (p : figure_path_data) (h : paths.get? path_id = some (free_path p)) :
    figure_route_get_next_direction paths path_id = some (8, paths) :=
  figure_route_get_next_direction_exhausted paths path_id (free_path p) h (le_refl 0)

/-- C32. Stepping a record that no agent owns is a no-op: after
`figure_route_remove` has freed the slot of the figure `f` (the slot
`f->routing_path_id > 0`, whose `figure_id` is `f->id`), and after
`figure_route_clean` has freed the slot `i` (its `figure_id` is above 0 and
below the figure count, and its owner is not alive or has another
`routing_path_id`), a call of `figure_route_get_next_direction` with the id of
that slot returns 8 and leaves every slot of the pool as it is. -/
theorem freed_slot_step_is_noop (figures : List figure) (paths : Pool)
    (slot : figure_path_data) :
    (∀ f : figure, 0 < f.routing_path_id → paths.items.get? f.routing_path_id = some slot →
      slot.figure_id = f.id →
      ∃ out, figure_route_remove paths f = some out ∧
        out.1.items.get? f.routing_path_id = some (free_path slot) ∧
        figure_route_get_next_direction out.1.items f.routing_path_id =
          some (8, out.1.items)) ∧
    (∀ (i : Nat) (owner : figure), i < paths.size → paths.items.get? i = some slot →
      0 < slot.figure_id → slot.figure_id < figures.length →
      figures.get? slot.figure_id = some owner →
      owner.state ≠ FIGURE_STATE_ALIVE ∨ owner.routing_path_id ≠ i →
      (figure_route_clean figures paths).items.get? i = some (free_path slot) ∧
      figure_route_get_next_direction (figure_route_clean figures paths).items i =
        some (8, (figure_route_clean figures paths).items)) := by
  constructor
  · intro f hpos hslot hown
    have hlt : f.routing_path_id < paths.items.length := by
      rw [List.get?_eq_getElem?] at hslot
      exact (List.getElem?_eq_some_iff.mp hslot).1
    have hget : (array_trim { paths with
        items := paths.items.set f.routing_path_id (free_path slot) }).items.get?
          f.routing_path_id = some (free_path slot) := by
      rw [array_trim_items]
      simp only
      rw [List.get?_eq_getElem?, List.getElem?_set_self hlt]
    refine ⟨(array_trim { paths with
        items := paths.items.set f.routing_path_id (free_path slot) },
        { f with routing_path_id := 0 }), ?_, hget, next_direction_of_freed _ _ slot hget⟩
    unfold figure_route_remove
    rw [if_pos hpos, hslot]
    simp only [hown, if_true]
  · intro i owner hi hslot hpos hlt howner hfree
    have hget : (figure_route_clean figures paths).items.get? i = some (free_path slot) := by
      rw [figure_route_clean_get, hslot, Option.map_some', if_pos hi]
      unfold clean_slot
      simp only
      rw [if_pos ⟨hpos, hlt⟩, howner]
      simp only
      rw [if_pos hfree]
    exact ⟨hget, next_direction_of_freed _ _ slot hget⟩

/-- C32 on `busy_pool`: the figure `raider` releases slot 1, and
`figure_route_clean` frees slot 1, whose owner 5 is `walker`. -/
theorem freed_slot_step_is_noop_witness :
    (∃ out, figure_route_remove busy_pool raider = some out ∧
      out.1.items.get? raider.routing_path_id = some (free_path ⟨1, 5, 1, some [65], 0, 0⟩) ∧
      figure_route_get_next_direction out.1.items raider.routing_path_id =
        some (8, out.1.items)) ∧
    figure_route_get_next_direction
      (figure_route_clean [walker, walker, walker, walker, walker, walker] busy_pool).items 1 =
      some (8,
        (figure_route_clean [walker, walker, walker, walker, walker, walker] busy_pool).items) :=
  ⟨(freed_slot_step_is_noop [walker, walker, walker, walker, walker, walker] busy_pool
      ⟨1, 5, 1, some [65], 0, 0⟩).1 raider (by decide) rfl (by decide),
   ((freed_slot_step_is_noop [walker, walker, walker, walker, walker, walker] busy_pool
      ⟨1, 5, 1, some [65], 0, 0⟩).2 1 walker (by decide) rfl (by decide) (by decide) rfl
      (Or.inr (by decide))).2⟩

/-- C33. `figure_route_clean` does not touch live bindings: a slot whose
`figure_id` is above 0 and below the figure count, whose owner is alive and has
the index of the slot as its `routing_path_id`, holds the same record after
`figure_route_clean` as before: the same `id`, `figure_id`, packed directions,
`total_directions`, `current_step` and `same_direction_count`. -/
theorem clean_keeps_live_binding (figures : List figure) (paths : Pool) (i : Nat)
    (slot : figure_path_data) (owner : figure) (hslot : paths.items.get? i = some slot)
    (hpos : 0 < slot.figure_id) (hlt : slot.figure_id < figures.length)
    (howner : figures.get? slot.figure_id = some owner)
    (halive : owner.state = FIGURE_STATE_ALIVE) (hid : owner.routing_path_id = i) :
    (figure_route_clean figures paths).items.get? i = some slot := by
  rw [figure_route_clean_get, hslot, Option.map_some']
  have hkeep : clean_slot figures i slot = slot := by
    unfold clean_slot
    simp only
    rw [if_pos ⟨hpos, hlt⟩, howner]
    simp only
    rw [if_neg (by
      intro h
      rcases h with h | h
      · exact h halive
      · exact h hid)]
  rw [hkeep]
  simp

/-- C33 on `busy_pool`: slot 1 belongs to figure 5, which is `raider` here. -/
theorem clean_keeps_live_binding_witness :
    (figure_route_clean [walker, walker, walker, walker, walker, raider] busy_pool).items.get? 1 =
      some ⟨1, 5, 1, some [65], 0, 0⟩ :=
  clean_keeps_live_binding [walker, walker, walker, walker, walker, raider] busy_pool 1
    ⟨1, 5, 1, some [65], 0, 0⟩ raider rfl (by decide) (by decide) rfl (by decide) (by decide)
/-! ## The count field and the direction bits -/

/-- The byte of a run as the C expression `(direction << 5) | count`. -/
theorem pack_bits (r : Nat × Nat) (h : r.2 ≤ 31) :
    pack r = r.1 <<< ROUTING_PATH_DIRECTION_BIT_OFFSET ||| r.2 := by
  unfold pack ROUTING_PATH_DIRECTION_BIT_OFFSET
  rw [Nat.shiftLeft_eq, Nat.mul_comm, Nat.mul_add_lt_is_or (by omega)]

/-- The last packed entry is the byte of the newest run. -/
theorem packed_entries_last (s : Directions) (r : Nat × Nat) (t : List (Nat × Nat))
    (h : Holds s (r :: t)) : (packed_entries s).getLast? = some (pack r) := by
  unfold packed_entries
  rw [holds_take s _ h]
  simp

/-- C31. The count field never overflows into the direction bits: after a reset
and any sequence `ds` of directions in `0..7` appended with
`add_direction_to_path`, every entry byte is `(direction << 5) | (repeats - 1)`
for a direction in `0..7` and a number of repeats in `[1, 32]`, its top three
bits being that direction and its low five bits `repeats - 1`; the entries,
each read as `repeats` times its direction, are the sequence `ds`, so that the
direction of an entry is the one it was created with; and the low five bits of
the last entry are the accumulator's `same_direction_count`. -/
theorem count_field_keeps_direction_bits (s : Directions) (ds : List Int)
    (hwf : s.size = s.path.length) (hds : ∀ d ∈ ds, 0 ≤ d ∧ d ≤ 7) :
    (∀ b ∈ packed_entries (add_directions alloc_ok (reset_directions s) ds),
      ∃ direction repeats : Nat, direction < 8 ∧ 1 ≤ repeats ∧ repeats ≤ 32 ∧
        b = direction <<< ROUTING_PATH_DIRECTION_BIT_OFFSET ||| (repeats - 1) ∧
        entry_direction b = direction ∧ entry_count b = repeats - 1) ∧
    unit_steps (packed_entries (add_directions alloc_ok (reset_directions s) ds)) = ds ∧
    (∀ b, (packed_entries (add_directions alloc_ok (reset_directions s) ds)).getLast? = some b →
      entry_count b = (add_directions alloc_ok (reset_directions s) ds).same_direction_count ∧
      entry_direction b = (add_directions alloc_ok (reset_directions s) ds).current) := by
  obtain ⟨hcast, hlt⟩ := directions_as_nat ds hds
  have hh := holds_add_directions (ds.map Int.toNat) _ [] (holds_reset s hwf) hlt
  rw [hcast] at hh
  have hf := push_runs_fields _ hlt [] (by simp)
  have hentries : packed_entries (add_directions alloc_ok (reset_directions s) ds) =
      (push_runs [] (ds.map Int.toNat)).reverse.map pack := holds_take _ _ hh
  refine ⟨?_, ?_, ?_⟩
  · intro b hb
    rw [hentries, List.mem_map] at hb
    obtain ⟨r, hr, rfl⟩ := hb
    obtain ⟨h8, h31⟩ := hf r (List.mem_reverse.mp hr)
    exact ⟨r.1, r.2 + 1, h8, by omega, by omega, pack_bits r h31, pack_direction r h31,
      pack_count r h31⟩
  · rw [hentries, unit_steps_pack _ (fun r hr => hf r (List.mem_reverse.mp hr)),
      run_steps_reverse, run_steps_push_runs]
    simp only [run_steps, List.append_nil, List.reverse_reverse]
    exact hcast
  · intro b hb
    cases hR : push_runs [] (ds.map Int.toNat) with
    | nil =>
      rw [hentries, hR] at hb
      simp at hb
    | cons r t =>
      rw [hR] at hh
      rw [packed_entries_last _ r t hh] at hb
      have hr := hf r (by rw [hR]; exact List.mem_cons_self r t)
      have hb2 : pack r = b := Option.some.inj hb
      have hcnt := hh.cnt
      have hcur := hh.cur
      simp only at hcnt hcur
      rw [← hb2, pack_count r hr.2, pack_direction r hr.2, hcnt, hcur]
      exact ⟨rfl, rfl⟩

/-- C31 for 33 steps in direction 7 after one step in direction 2: the entries
are `2 << 5`, `(7 << 5) | 31` and `7 << 5`. -/
theorem count_field_keeps_direction_bits_witness :
    unit_steps (packed_entries (add_directions alloc_ok (reset_directions small_scratch)
      (2 :: List.replicate 33 7))) = 2 :: List.replicate 33 7 :=
  (count_field_keeps_direction_bits small_scratch (2 :: List.replicate 33 7) (by decide)
    (by decide)).2.1
/-! ## Index safety of the conversion of old paths -/

theorem conversion_inv_step (c : Conversion) (index direction : Nat)
    (h : ConversionInv c index) :
    ConversionInv (convert_step c direction) (index + 1) ∧
    (index = 0 → (convert_step c direction).total_direction_changes =
      c.total_direction_changes + 1) ∧
    (index < MAX_ORIGINAL_PATH_LENGTH →
      convert_step_index c direction < MAX_ORIGINAL_PATH_LENGTH) := by
  obtain ⟨h1, h2, h3, h4⟩ := h
  unfold MAX_ORIGINAL_PATH_LENGTH at *
  by_cases hc : (direction : Int) ≠ c.current_direction ∨
      c.current_count = ROUTING_PATH_DIRECTION_COUNT_BIT_MASK
  · refine ⟨?_, ?_, ?_⟩
    · unfold ConversionInv convert_step MAX_ORIGINAL_PATH_LENGTH
      rw [if_pos hc]
      simp only [List.length_set]
      exact ⟨by omega, h2, by omega, fun _ => ⟨by omega, by omega⟩⟩
    · intro _
      unfold convert_step
      rw [if_pos hc]
    · intro hi
      unfold convert_step_index
      rw [if_pos hc]
      omega
  · have heq : (direction : Int) = c.current_direction := by
      by_contra hne
      exact hc (Or.inl hne)
    have hpos : 0 < index := by
      rcases Nat.eq_zero_or_pos index with h0 | h0
      · have := h3 h0
        omega
      · exact h0
    obtain ⟨h5, h6⟩ := h4 hpos
    refine ⟨?_, ?_, ?_⟩
    · unfold ConversionInv convert_step MAX_ORIGINAL_PATH_LENGTH
      rw [if_neg hc]
      simp only [List.length_set]
      exact ⟨by omega, h2, by omega, fun _ => ⟨h5, h6⟩⟩
    · intro h0
      omega
    · intro hi
      unfold convert_step_index
      rw [if_neg hc]
      omega

theorem conversion_inv_fold (l : List Nat) :
    ∀ (c : Conversion) (index : Nat), ConversionInv c index →
      ConversionInv (l.foldl convert_step c) (index + l.length) := by
  induction l with
  | nil => intro c index h; exact h
  | cons d l ih =>
    intro c index h
    have := ih _ _ (conversion_inv_step c index d h).1
    rw [List.foldl_cons, List.length_cons]
    have e : index + (l.length + 1) = index + 1 + l.length := by omega
    rw [e]
    exact this

theorem conversion_inv_start : ConversionInv conversion_start 0 :=
  ⟨le_refl 0, by simp [conversion_start], fun _ => rfl, fun h => absurd h (lt_irrefl 0)⟩

/-- C37. Index safety of the legacy conversion: for a figure with
`1 <= routing_path_length <= 500` and any block of 500 bytes, the first
iteration of the loop of `convert_old_directions_to_new_format` opens an entry
(`total_direction_changes` becomes 1, at index 0); at every iteration
`index < routing_path_length` the byte `directions[index]` exists,
`total_direction_changes` is at most `index`, and the index of
`new_directions` that the iteration uses is below 500; after the loop
`total_direction_changes` is at most `routing_path_length`, and the call
returns. -/
theorem legacy_conversion_index_safety (alloc : Nat → Bool) (figures : List figure)
    (path : figure_path_data) (f : figure) (block : List Nat) (n : Nat)
    (hfig : figures.get? path.figure_id = some f) (hlen : f.routing_path_length = n)
    (hpos : 1 ≤ n) (hmax : n ≤ MAX_ORIGINAL_PATH_LENGTH)
    (hblock : block.length = MAX_ORIGINAL_PATH_LENGTH) :
    (∀ b, (convert_step conversion_start b).total_direction_changes = 1 ∧
      convert_step_index conversion_start b = 0) ∧
    (∀ index, index < n →
      ∃ b, block.get? index = some b ∧
        ((block.take index).foldl convert_step conversion_start).total_direction_changes ≤
          index ∧
        convert_step_index ((block.take index).foldl convert_step conversion_start) b <
          MAX_ORIGINAL_PATH_LENGTH) ∧
    ((block.take n).foldl convert_step conversion_start).total_direction_changes ≤ n ∧
    ((block.take n).foldl convert_step conversion_start).total_direction_changes ≤
      MAX_ORIGINAL_PATH_LENGTH ∧
    ∃ out, convert_old_directions_to_new_format alloc figures path block = some out := by
  have hinv : ∀ index, index ≤ MAX_ORIGINAL_PATH_LENGTH →
      ConversionInv ((block.take index).foldl convert_step conversion_start) index := by
    intro index hi
    have := conversion_inv_fold (block.take index) conversion_start 0 conversion_inv_start
    rw [List.length_take, hblock, Nat.zero_add, Nat.min_eq_left hi] at this
    exact this
  refine ⟨?_, ?_, ?_, ?_, ?_⟩
  · intro b
    have hs := conversion_inv_step conversion_start 0 b conversion_inv_start
    refine ⟨hs.2.1 rfl, ?_⟩
    unfold convert_step_index
    rw [if_pos (Or.inl (by simp [conversion_start]))]
    rfl
  · intro index hi
    have hlt : index < block.length := by omega
    refine ⟨block[index], ?_, (hinv index (by omega)).1, ?_⟩
    · rw [List.get?_eq_getElem?, List.getElem?_eq_getElem hlt]
    · exact (conversion_inv_step _ index _ (hinv index (by omega))).2.2 (by omega)
  · exact (hinv n hmax).1
  · exact le_trans (hinv n hmax).1 hmax
  · unfold convert_old_directions_to_new_format
    rw [hfig]
    simp only
    split
    · exact ⟨_, rfl⟩
    · rw [if_pos ⟨by omega, by omega, by omega⟩]
      split
      · exact ⟨_, rfl⟩
      · exact ⟨_, rfl⟩

set_option maxRecDepth 100000 in
/-- C37 for a block of 500 bytes 255 and a path of 500 tiles. -/
theorem legacy_conversion_index_safety_witness :
    ((List.replicate 500 255).foldl convert_step conversion_start).total_direction_changes ≤
      MAX_ORIGINAL_PATH_LENGTH :=
  (legacy_conversion_index_safety alloc_ok (legacy_figures 500) ⟨1, 1, 0, none, 0, 0⟩
    { walker with id := 1, routing_path_id := 1, routing_path_length := 500 }
    (List.replicate 500 255) 500 rfl rfl (by decide) (by decide) (by decide)).2.2.2.1
/-! ## C38: the bound of the table of formulas -/

/-- Every call of `scenario_formula_add` adds 1 to `scenario_formulas_size` and
keeps the number of entries of the array. -/
theorem scenario_formula_add_size (M L : Nat) (check : scenario_formula_t → Int × scenario_formula_t)
    (garbage : scenario_formula_t) (st : FormulaTable) (text : List Nat) (lo hi : Int) :
    (scenario_formula_add M L check garbage st text lo hi).2.scenario_formulas_size =
      (st.scenario_formulas_size + 1) % 4294967296 ∧
    (scenario_formula_add M L check garbage st text lo hi).2.scenario_formulas.length =
      st.scenario_formulas.length := by
  unfold scenario_formula_add
  simp only
  split
  · exact ⟨rfl, rfl⟩
  · exact ⟨rfl, List.length_set _ _ _⟩

theorem scenario_formula_adds_size (M L : Nat)
    (check : scenario_formula_t → Int × scenario_formula_t) (garbage : scenario_formula_t)
    (calls : List FormulaCall) :
    ∀ st : FormulaTable, st.scenario_formulas_size + calls.length < 4294967296 →
      (scenario_formula_adds M L check garbage st calls).scenario_formulas_size =
        st.scenario_formulas_size + calls.length ∧
      (scenario_formula_adds M L check garbage st calls).scenario_formulas.length =
        st.scenario_formulas.length := by
  induction calls with
  | nil => intro st _; exact ⟨rfl, rfl⟩
  | cons c calls ih =>
    intro st h
    rw [List.length_cons] at h
    obtain ⟨h1, h2⟩ := scenario_formula_add_size M L check garbage st c.formatted_calculation
      c.min_limit c.max_limit
    rw [Nat.mod_eq_of_lt (by omega)] at h1
    have := ih (scenario_formula_add M L check garbage st c.formatted_calculation c.min_limit
      c.max_limit).2 (by rw [h1]; omega)
    unfold scenario_formula_adds at this ⊢
    rw [List.foldl_cons, this.1, this.2, h1, h2, List.length_cons]
    exact ⟨by omega, rfl⟩

/-- C38 (code defect). `scenario_formula_add` adds 1 to `scenario_formulas_size`
before it compares it with `MAX_FORMULAS`. From the cleared table,
`MAX_FORMULAS - 1` calls fill the table (`scenario_formulas_size` is
`MAX_FORMULAS - 1`); one more call returns 0 and leaves the array as it is,
but `scenario_formulas_size` is `MAX_FORMULAS` afterwards, and
`scenario_formula_get` then accepts the id `MAX_FORMULAS`, which is not an
index of the array of `MAX_FORMULAS` entries. -/
theorem formula_table_overrun (MAX_FORMULAS MAX_FORMULA_LENGTH : Nat)
    (scenario_event_formula_check : scenario_formula_t → Int × scenario_formula_t)
    (calculation : scenario_formula_t) (calls : List FormulaCall) (last : FormulaCall)
    (hcalls : calls.length + 1 = MAX_FORMULAS) (hmax : MAX_FORMULAS < 4294967296) :
    (scenario_formula_adds MAX_FORMULAS MAX_FORMULA_LENGTH scenario_event_formula_check
      calculation (clear_formulas MAX_FORMULAS MAX_FORMULA_LENGTH)
      calls).scenario_formulas_size = MAX_FORMULAS - 1 ∧
    (scenario_formula_add MAX_FORMULAS MAX_FORMULA_LENGTH scenario_event_formula_check
      calculation (scenario_formula_adds MAX_FORMULAS MAX_FORMULA_LENGTH
        scenario_event_formula_check calculation
        (clear_formulas MAX_FORMULAS MAX_FORMULA_LENGTH) calls)
      last.formatted_calculation last.min_limit last.max_limit).1 = 0 ∧
    (scenario_formula_adds MAX_FORMULAS MAX_FORMULA_LENGTH scenario_event_formula_check
      calculation (clear_formulas MAX_FORMULAS MAX_FORMULA_LENGTH)
      (calls ++ [last])).scenario_formulas =
      (scenario_formula_adds MAX_FORMULAS MAX_FORMULA_LENGTH scenario_event_formula_check
        calculation (clear_formulas MAX_FORMULAS MAX_FORMULA_LENGTH) calls).scenario_formulas ∧
    (scenario_formula_adds MAX_FORMULAS MAX_FORMULA_LENGTH scenario_event_formula_check
      calculation (clear_formulas MAX_FORMULAS MAX_FORMULA_LENGTH)
      (calls ++ [last])).scenario_formulas.length = MAX_FORMULAS ∧
    (scenario_formula_adds MAX_FORMULAS MAX_FORMULA_LENGTH scenario_event_formula_check
      calculation (clear_formulas MAX_FORMULAS MAX_FORMULA_LENGTH)
      (calls ++ [last])).scenario_formulas_size = MAX_FORMULAS ∧
    scenario_formula_get
      (scenario_formula_adds MAX_FORMULAS MAX_FORMULA_LENGTH scenario_event_formula_check
        calculation (clear_formulas MAX_FORMULAS MAX_FORMULA_LENGTH) (calls ++ [last]))
      MAX_FORMULAS = some MAX_FORMULAS := by
  have hclear : (clear_formulas MAX_FORMULAS MAX_FORMULA_LENGTH).scenario_formulas_size = 0 :=
    rfl
  have hclear2 : (clear_formulas MAX_FORMULAS MAX_FORMULA_LENGTH).scenario_formulas.length =
      MAX_FORMULAS := by
    simp [clear_formulas]
  obtain ⟨h1, h2⟩ := scenario_formula_adds_size MAX_FORMULAS MAX_FORMULA_LENGTH
    scenario_event_formula_check calculation calls
    (clear_formulas MAX_FORMULAS MAX_FORMULA_LENGTH) (by rw [hclear]; omega)
  obtain ⟨h3, h4⟩ := scenario_formula_adds_size MAX_FORMULAS MAX_FORMULA_LENGTH
    scenario_event_formula_check calculation (calls ++ [last])
    (clear_formulas MAX_FORMULAS MAX_FORMULA_LENGTH)
    (by rw [hclear, List.length_append]; simp only [List.length_singleton]; omega)
  rw [hclear, Nat.zero_add] at h1 h3
  rw [List.length_append, List.length_singleton] at h3
  have hfull : ((scenario_formula_adds MAX_FORMULAS MAX_FORMULA_LENGTH
      scenario_event_formula_check calculation
      (clear_formulas MAX_FORMULAS MAX_FORMULA_LENGTH) calls).scenario_formulas_size + 1) %
      4294967296 ≥ MAX_FORMULAS := by
    rw [h1, Nat.mod_eq_of_lt (by omega)]
    omega
  have hlast : scenario_formula_adds MAX_FORMULAS MAX_FORMULA_LENGTH
      scenario_event_formula_check calculation
      (clear_formulas MAX_FORMULAS MAX_FORMULA_LENGTH) (calls ++ [last]) =
      (scenario_formula_add MAX_FORMULAS MAX_FORMULA_LENGTH scenario_event_formula_check
        calculation (scenario_formula_adds MAX_FORMULAS MAX_FORMULA_LENGTH
          scenario_event_formula_check calculation
          (clear_formulas MAX_FORMULAS MAX_FORMULA_LENGTH) calls)
        last.formatted_calculation last.min_limit last.max_limit).2 := by
    unfold scenario_formula_adds
    rw [List.foldl_append]
    rfl
  refine ⟨by omega, ?_, ?_, by rw [h4, hclear2], by omega, ?_⟩
  · unfold scenario_formula_add
    simp only
    rw [if_pos hfull]
  · rw [hlast]
    unfold scenario_formula_add
    simp only
    rw [if_pos hfull]
  · unfold scenario_formula_get
    rw [h3, hcalls, if_neg (by omega)]

/-- C38 for `MAX_FORMULAS = 3`: the third call returns 0 and
`scenario_formula_get` accepts the id 3 afterwards. -/
theorem formula_table_overrun_witness :
    scenario_formula_get
      (scenario_formula_adds 3 16 (fun f => (1, f)) (zero_formula 16) (clear_formulas 3 16)
        ([⟨[53], 0, 9⟩, ⟨[54], 0, 9⟩] ++ [⟨[55], 0, 9⟩])) 3 = some 3 :=
  (formula_table_overrun 3 16 (fun f => (1, f)) (zero_formula 16) [⟨[53], 0, 9⟩, ⟨[54], 0, 9⟩]
    ⟨[55], 0, 9⟩ rfl (by decide)).2.2.2.2.2
/-! ## Termination of the land walk on a well-formed field -/

/-- One iteration of the land walk on a well-formed field moves to a tile with
a non-zero, strictly smaller distance. -/
theorem descending_step (m : Map) (num_directions : Int) (hwell : WellFormedField m num_directions)
    (w : Pos) (hw : Descending m w) (hd : w.distance > 1) :
    ∃ w1, advance (land_select m (direction_step num_directions)) w = some w1 ∧
      Descending m w1 ∧ w1.distance < w.distance ∧ w1.distance ≠ 0 ∧
      w1.num_tiles = w.num_tiles + 1 := by
  obtain ⟨hhw, hnb⟩ := hwell
  obtain ⟨hdist, hlast⟩ := hw
  obtain ⟨e, he, he0, helt⟩ := hnb w.grid_offset (by rw [← hdist]; exact hd)
  have herange := loop_directions_range (direction_step num_directions)
    (by unfold direction_step; split <;> simp) e he
  have hel : e ≠ w.last_direction := by
    rcases hlast with h | ⟨_, _, h⟩
    · omega
    · intro heq
      rw [← heq, hdist] at h
      omega
  obtain ⟨hne, hmin⟩ := land_select_min m num_directions w.grid_offset w.last_direction e hhw he
    hel he0 (le_of_lt helt)
  have hinv := (land_select_inv m num_directions w.grid_offset w.last_direction).2 hne
  obtain ⟨_, hbd, _, hb0, _⟩ := hinv
  cases hadv : advance (land_select m (direction_step num_directions)) w with
  | none => exact absurd ((advance_none_iff _ w).mp hadv) hne
  | some w1 =>
    obtain ⟨_, h1, h2, h3, h4⟩ := advance_some _ w w1 hadv
    have hr : 0 ≤ (land_select m (direction_step num_directions) w.grid_offset
        w.last_direction).direction ∧
        (land_select m (direction_step num_directions) w.grid_offset
          w.last_direction).direction ≤ 7 := by
      rcases land_select_range m num_directions w.grid_offset w.last_direction with h | h
      · exact absurd h hne
      · exact h
    have hfw := forward_direction_range _ hr.1 hr.2
    have hopp := direction_delta_opposite _ hr.1 hr.2
    refine ⟨w1, rfl, ⟨?_, Or.inr ⟨by rw [h2]; exact hfw.1, by rw [h2]; exact hfw.2, ?_⟩⟩, ?_, ?_,
      h4⟩
    · rw [h1, h3, hbd]
    · have hback : w1.grid_offset + map_grid_direction_delta w1.last_direction =
          w.grid_offset := by
        rw [h3, h2]
        omega
      rw [hback, h1, ← hdist]
      omega
    · rw [h1]
      omega
    · rw [h1]
      exact hb0

/-- On a well-formed field the loop of the land walk is over after at most
`distance - 1` iterations. -/
theorem descending_walk (m : Map) (num_directions : Int)
    (hwell : WellFormedField m num_directions) (fuel : Nat) :
    ∀ w : Pos, Descending m w → (w.distance - 1).toNat ≤ fuel →
      (walk_end (land_select m (direction_step num_directions)) fuel w).distance ≤ 1 ∧
      ((walk_end (land_select m (direction_step num_directions)) fuel w).distance = 0 →
        w.distance = 0) ∧
      ((walk_directions (land_select m (direction_step num_directions)) fuel w).length : Int) ≤
        max (w.distance - 1) 0 ∧
      List.Chain' (fun a b : Int => b < a)
        ((walk_trace (land_select m (direction_step num_directions)) fuel w).map
          (fun v => v.distance)) ∧
      (∀ v ∈ walk_trace (land_select m (direction_step num_directions)) fuel w,
        v.distance = m.map_routing_distance v.grid_offset) ∧
      (walk_end (land_select m (direction_step num_directions)) fuel w).distance =
        m.map_routing_distance
          (walk_end (land_select m (direction_step num_directions)) fuel w).grid_offset := by
  induction fuel with
  | zero =>
    intro w hw hfuel
    have hd : ¬ w.distance > 1 := by omega
    rw [walk_end_stop _ 0 w hd, walk_directions_stop _ 0 w hd, walk_trace_stop _ 0 w hd]
    refine ⟨by omega, fun h => h, by simp, by simp, ?_, hw.1⟩
    intro v hv
    rw [List.mem_singleton] at hv
    rw [hv]
    exact hw.1
  | succ fuel ih =>
    intro w hw hfuel
    by_cases hd : w.distance > 1
    · obtain ⟨w1, h1, h2, h3, h4, _⟩ := descending_step m num_directions hwell w hw hd
      obtain ⟨i1, i2, i3, i4, i5, i6⟩ := ih w1 h2 (by omega)
      rw [walk_end_step _ fuel w w1 hd h1, walk_directions_step _ fuel w w1 hd h1,
        walk_trace_step _ fuel w w1 hd h1]
      refine ⟨i1, fun h => absurd (i2 h) h4, ?_, ?_, ?_, i6⟩
      · simp only [List.length_cons, Nat.cast_add, Nat.cast_one]
        omega
      · rw [walk_trace_cons _ fuel w1] at i4 ⊢
        simp only [List.map_cons] at i4 ⊢
        exact List.Chain'.cons h3 i4
      · intro v hv
        rw [List.mem_cons] at hv
        rcases hv with hv | hv
        · rw [hv]
          exact hw.1
        · exact i5 v hv
    · rw [walk_end_stop _ _ w hd, walk_directions_stop _ _ w hd, walk_trace_stop _ _ w hd]
      refine ⟨by omega, fun h => h, by simp, by simp, ?_, hw.1⟩
      intro v hv
      rw [List.mem_singleton] at hv
      rw [hv]
      exact hw.1

/-- A walk whose loop comes to an end returns: through the last `return` with
the number of its moves, or with 0 after a failed allocation. -/
theorem reconstruct_returns (alloc : Nat → Bool) (select : Int → Int → Best)
    (path : Option figure_path_data) (fuel : Nat) :
    ∀ (w : Pos) (s : Directions), (walk_end select fuel w).distance ≤ 1 →
      ∃ out, reconstruct alloc select path fuel w s = some out ∧
        ((out.exit = Exit.done ∧
            out.result = w.num_tiles + (walk_directions select fuel w).length) ∨
          (out.exit = Exit.allocation ∧ out.result = 0)) := by
  have hfin : ∀ (w : Pos) (s : Directions),
      ((finish alloc path w s).exit = Exit.done ∧ (finish alloc path w s).result = w.num_tiles) ∨
      ((finish alloc path w s).exit = Exit.allocation ∧ (finish alloc path w s).result = 0) := by
    intro w s
    unfold finish
    cases path with
    | none => exact Or.inl ⟨rfl, rfl⟩
    | some p =>
      simp only
      cases hf : fill_path_with_directions alloc s p with
      | mk ok p1 =>
        cases ok with
        | false => exact Or.inr ⟨rfl, rfl⟩
        | true => exact Or.inl ⟨rfl, rfl⟩
  induction fuel with
  | zero =>
    intro w s hend
    have hd : ¬ w.distance > 1 := not_lt.mpr hend
    rw [reconstruct, if_neg hd, walk_directions_stop select _ w hd]
    refine ⟨_, rfl, ?_⟩
    rcases hfin w s with h | h
    · exact Or.inl ⟨h.1, by rw [h.2]; simp⟩
    · exact Or.inr h
  | succ fuel ih =>
    intro w s hend
    by_cases hd : w.distance > 1
    · rw [reconstruct, if_pos hd]
      cases hadv : advance select w with
      | none =>
        rw [walk_end, if_pos hd, hadv] at hend
        simp only at hend
        omega
      | some w1 =>
        rw [walk_end_step select fuel w w1 hd hadv] at hend
        rw [walk_directions_step select fuel w w1 hd hadv]
        have hnum := (advance_some select w w1 hadv).2.2.2.2
        simp only
        by_cases hp : path.isSome = true
        · rw [if_pos hp]
          cases hres : add_direction_to_path alloc s w1.last_direction with
          | mk ok s1 =>
            cases ok with
            | false => exact ⟨_, rfl, Or.inr ⟨rfl, rfl⟩⟩
            | true =>
              simp only
              obtain ⟨out, o1, o2⟩ := ih w1 s1 hend
              refine ⟨out, o1, ?_⟩
              rcases o2 with o2 | o2
              · refine Or.inl ⟨o2.1, ?_⟩
                rw [o2.2, hnum]
                simp only [List.length_cons, Nat.cast_add, Nat.cast_one]
                omega
              · exact Or.inr o2
        · rw [if_neg hp]
          obtain ⟨out, o1, o2⟩ := ih w1 s hend
          refine ⟨out, o1, ?_⟩
          rcases o2 with o2 | o2
          · refine Or.inl ⟨o2.1, ?_⟩
            rw [o2.2, hnum]
            simp only [List.length_cons, Nat.cast_add, Nat.cast_one]
            omega
          · exact Or.inr o2
    · rw [reconstruct, if_neg hd, walk_directions_stop select _ w hd]
      refine ⟨_, rfl, ?_⟩
      rcases hfin w s with h | h
      · exact Or.inl ⟨h.1, by rw [h.2]; simp⟩
      · exact Or.inr h
/-- C35. Termination of the land walk on a well-formed field: when no tile is a
highway and every tile with a distance `d > 1` has, among the directions of the
mode, a neighbour with a non-zero distance below `d`, a call of
`map_routing_get_path` for a destination with distance `D >= 1` returns after
at most `D - 1` iterations of its loop (a fuel of `D - 1` is enough); it never
leaves through the `return 0` on `direction == -1`; the value returned is
between 0 and `D - 1`: the number of moves, or 0 after a failed allocation
(which a dry run cannot have); the distances at the heads of the iterations
are those of the tiles visited and strictly decrease; and the loop ends on a
distance of at most 1 that is not 0, which is 1 when the field has no negative
distance. -/
theorem land_walk_terminates (alloc : Nat → Bool) (m : Map) (s : Directions)
    (path : Option figure_path_data) (dst_x dst_y num_directions : Int) (fuel : Nat)
    (hwell : WellFormedField m num_directions)
    (hD : 1 ≤ m.map_routing_distance (map_grid_offset m dst_x dst_y))
    (hfuel : (m.map_routing_distance (map_grid_offset m dst_x dst_y) - 1).toNat ≤ fuel) :
    (∃ out, map_routing_get_path alloc m s path dst_x dst_y num_directions fuel = some out ∧
      0 ≤ out.result ∧
      out.result ≤ m.map_routing_distance (map_grid_offset m dst_x dst_y) - 1 ∧
      ((out.exit = Exit.done ∧
          out.result = (walk_directions (land_select m (direction_step num_directions)) fuel
            (land_start m dst_x dst_y)).length) ∨
        (out.exit = Exit.allocation ∧ out.result = 0)) ∧
      (path = none → out.exit = Exit.done)) ∧
    ((walk_directions (land_select m (direction_step num_directions)) fuel
        (land_start m dst_x dst_y)).length : Int) ≤
      m.map_routing_distance (map_grid_offset m dst_x dst_y) - 1 ∧
    List.Chain' (fun a b : Int => b < a)
      ((walk_trace (land_select m (direction_step num_directions)) fuel
        (land_start m dst_x dst_y)).map (fun v => v.distance)) ∧
    (∀ v ∈ walk_trace (land_select m (direction_step num_directions)) fuel
        (land_start m dst_x dst_y), v.distance = m.map_routing_distance v.grid_offset) ∧
    (walk_end (land_select m (direction_step num_directions)) fuel
      (land_start m dst_x dst_y)).distance ≤ 1 ∧
    (walk_end (land_select m (direction_step num_directions)) fuel
      (land_start m dst_x dst_y)).distance ≠ 0 ∧
    ((∀ o, 0 ≤ m.map_routing_distance o) →
      (walk_end (land_select m (direction_step num_directions)) fuel
        (land_start m dst_x dst_y)).distance = 1) := by
  have hstart : Descending m (land_start m dst_x dst_y) := ⟨rfl, Or.inl rfl⟩
  have hsd : (land_start m dst_x dst_y).distance =
      m.map_routing_distance (map_grid_offset m dst_x dst_y) := rfl
  obtain ⟨w1, w2, w3, w4, w5, w6⟩ := descending_walk m num_directions hwell fuel
    (land_start m dst_x dst_y) hstart (by rw [hsd]; exact hfuel)
  rw [hsd] at w2 w3
  have hlen : ((walk_directions (land_select m (direction_step num_directions)) fuel
      (land_start m dst_x dst_y)).length : Int) ≤
      m.map_routing_distance (map_grid_offset m dst_x dst_y) - 1 := by omega
  have hne0 : (walk_end (land_select m (direction_step num_directions)) fuel
      (land_start m dst_x dst_y)).distance ≠ 0 := by
    intro h
    have := w2 h
    omega
  refine ⟨?_, hlen, w4, w5, w1, hne0, ?_⟩
  · have hdist : ¬ m.map_routing_distance (map_grid_offset m dst_x dst_y) ≤ 0 := by omega
    have hcall : map_routing_get_path alloc m s path dst_x dst_y num_directions fuel =
        reconstruct alloc (land_select m (direction_step num_directions)) path fuel
          (land_start m dst_x dst_y) (reset_directions s) := by
      unfold map_routing_get_path
      simp only
      rw [if_neg hdist]
      rfl
    obtain ⟨out, o1, o2⟩ := reconstruct_returns alloc _ path fuel (land_start m dst_x dst_y)
      (reset_directions s) w1
    have hnum : (land_start m dst_x dst_y).num_tiles = 0 := rfl
    rw [hnum, zero_add] at o2
    refine ⟨out, by rw [hcall]; exact o1, ?_, ?_, o2, ?_⟩
    · rcases o2 with o2 | o2
      · rw [o2.2]
        omega
      · rw [o2.2]
    · rcases o2 with o2 | o2
      · rw [o2.2]
        exact hlen
      · rw [o2.2]
        omega
    · intro hp
      subst hp
      have hdry := reconstruct_dry_result alloc (land_select m (direction_step num_directions))
        zero_path fuel (land_start m dst_x dst_y) (reset_directions s)
        (reset_directions small_scratch)
      obtain ⟨out2, p1, p2, _⟩ := reconstruct_completes _ (land_select_range m num_directions)
        (some zero_path) fuel (land_start m dst_x dst_y) (reset_directions small_scratch) []
        (holds_reset small_scratch rfl) w1
      rw [o1, p1] at hdry
      simp only [Option.map_some', Option.some.injEq, Prod.mk.injEq] at hdry
      rw [hdry.2, p2]
  · intro hnn
    have := hnn (walk_end (land_select m (direction_step num_directions)) fuel
      (land_start m dst_x dst_y)).grid_offset
    omega

theorem row_map_well_formed (num_directions : Int) : WellFormedField row_map num_directions := by
  refine ⟨fun _ => rfl, fun g hg => ⟨6, ?_, ?_⟩⟩
  · unfold direction_step
    split
    · rw [loop_directions_one]
      decide
    · rw [loop_directions_two]
      decide
  · have hdelta : map_grid_direction_delta 6 = -1 := by decide
    rw [hdelta]
    have hg2 : 163 ≤ g ∧ g ≤ 172 := by
      by_contra hc
      have : row_map.map_routing_distance g = 0 := if_neg hc
      omega
    have h1 : row_map.map_routing_distance g = g - 162 := if_pos hg2
    by_cases hc : 163 ≤ g + -1 ∧ g + -1 ≤ 172
    · have h2 : row_map.map_routing_distance (g + -1) = g + -1 - 162 := if_pos hc
      rw [h1, h2]
      omega
    · have h2 : row_map.map_routing_distance (g + -1) = 0 := if_neg hc
      rw [h1] at hg
      omega

/-- C35 on `row_map` for the destination `(5, 0)`, whose distance is 6, with a
fuel of 5 and a dry run. -/
theorem land_walk_terminates_witness :
    ∃ out, map_routing_get_path alloc_ok row_map small_scratch none 5 0 8 5 = some out ∧
      0 ≤ out.result ∧
      out.result ≤ row_map.map_routing_distance (map_grid_offset row_map 5 0) - 1 ∧
      ((out.exit = Exit.done ∧
          out.result = (walk_directions (land_select row_map (direction_step 8)) 5
            (land_start row_map 5 0)).length) ∨
        (out.exit = Exit.allocation ∧ out.result = 0)) ∧
      ((none : Option figure_path_data) = none → out.exit = Exit.done) :=
  (land_walk_terminates alloc_ok row_map small_scratch none 5 0 8 5 (row_map_well_formed 8)
    (by decide) (by decide)).1

end Augustus
